import Mathlib

/-!
# Open Babel CML format: reader and writer

A shallow embedding of `src/formats/xml/cmlformat.cpp` (class `CMLFormat`).
Strings are Lean strings, vectors are lists, `int` values are integers that are
wrapped to 32 bits where the source converts to `int`, and the members of the
format object are the fields of one record that every handler takes and returns.
Dereferencing a null pointer or an iterator that is past the end is reported as
`Except.error`.
-/

set_option autoImplicit false

namespace OpenBabel

/-! ## Library routines used by the format -/

/-- Delimiters of `Trim` and `tokenize`: blank, tab, newline, carriage return. -/
def isDelim (c : Char) : Bool :=
  c == ' ' || c == '\t' || c == '\n' || c == '\r'

/-- Worker of `tokenize`: `cur` is the token being read. -/
def tokenizeAux : List Char → List Char → List (List Char)
  | [], cur => if cur.isEmpty then [] else [cur]
  | c :: cs, cur =>
    if isDelim c then
      (if cur.isEmpty then tokenizeAux cs [] else cur :: tokenizeAux cs [])
    else tokenizeAux cs (cur ++ [c])

/-- Modelled from the spec: `tokenize(items, value)` of the string utilities, which
splits a value into its space-separated tokens; runs of delimiters give no empty
token. -/
def tokenize (value : String) : List String :=
  (tokenizeAux value.data []).map String.mk

/-- Characters of a string with the delimiters at both ends removed. -/
def trimChars (cs : List Char) : List Char :=
  ((cs.reverse.dropWhile isDelim).reverse).dropWhile isDelim

/-- Modelled from the spec: `Trim(txt)` of the string utilities, which removes
leading and trailing white space. -/
def Trim (txt : String) : String := String.mk (trimChars txt.data)

/-- White space as the C library's `isspace` sees it. -/
def isCSpace (c : Char) : Bool :=
  c == ' ' || c == '\t' || c == '\n' || c == '\r' || c == Char.ofNat 11 || c == Char.ofNat 12

/-- Value of the longest prefix of decimal digits, continuing from `acc`. -/
def readDigits : List Char → Nat → Nat
  | [], acc => acc
  | c :: cs, acc =>
    if c.isDigit then readDigits cs (acc * 10 + (c.toNat - 48)) else acc

/-- Range of the C type `long` (64 bits): results of `strtol` are clamped to it. -/
def clampLong (z : Int) : Int :=
  if z > 9223372036854775807 then 9223372036854775807
  else if z < -9223372036854775808 then -9223372036854775808
  else z

/-- The C library's `strtol(s, &endptr, 10)`: optional white space, optional sign,
decimal digits; 0 when there is no digit. -/
def strtol (s : List Char) : Int :=
  match s.dropWhile isCSpace with
  | '-' :: r => clampLong (-(readDigits r 0 : Int))
  | '+' :: r => clampLong (readDigits r 0)
  | r => clampLong (readDigits r 0)

/-- Conversion of a `long` to the 32-bit type `int`. -/
def toInt32 (z : Int) : Int := (z + 2147483648) % 4294967296 - 2147483648

/-- The C library's `atoi`, which is `(int) strtol(s, NULL, 10)`. -/
def atoi (s : String) : Int := toInt32 (strtol s.data)

/-- Decimal digits of a natural number, most significant first (`fuel` bounds the
number of digits). -/
def decDigits : Nat → Nat → List Char → List Char
  | 0, _, acc => acc
  | fuel + 1, n, acc =>
    if n < 10 then Char.ofNat (48 + n) :: acc
    else decDigits fuel (n / 10) (Char.ofNat (48 + n % 10) :: acc)

/-- Text written for a natural number by the format `%d` and by `stream << n`. -/
def natToDec (n : Nat) : List Char := decDigits (n + 1) n []

/-- Text written for an `int` by the format `%d` and by `stream << n`. -/
def intToDec (z : Int) : String :=
  if z < 0 then String.mk ('-' :: natToDec z.natAbs) else String.mk (natToDec z.natAbs)

/-- `value.find(' ')`: position of the first blank, if any. -/
def findBlank : List Char → Option Nat
  | [] => none
  | c :: cs => if c == ' ' then some 0 else (findBlank cs).map (· + 1)

/-- `value[0]` of a C++ string: the first character, or the terminating NUL. -/
def firstChar (value : String) : Char :=
  match value.data with
  | [] => Char.ofNat 0
  | c :: _ => c

/-- `attrname.compare(0, 7, "atomRef") == 0`. -/
def startsWithAtomRef (attrname : String) : Bool :=
  attrname.data.take 7 == "atomRef".data

/-! ## The molecular graph -/

/-- A `double` as the format sees it: the constant zero, the number `strtod` or
`atof` reads from a token, a component of the product of the unit cell's
orthogonalisation (or fractionalisation) matrix with a vector, or a value divided by
the constant 30.0. -/
inductive Dbl
  | zero
  | strtod (tok : String)
  | ortho (axis : Nat) (cell : List String) (x y z : Dbl)
  | fract (axis : Nat) (cell : List String) (x y z : Dbl)
  | div30 (d : Dbl)
  deriving DecidableEq

/-- Coordinates of an atom. -/
structure vector3 where
  x : Dbl := Dbl.zero
  y : Dbl := Dbl.zero
  z : Dbl := Dbl.zero
  deriving DecidableEq

/-- Modelled from the spec: the per-atom fields of the graph object (atomic number,
isotope, formal charge, spin multiplicity, coordinates, chirality flags with the
four ordered references, and the mark that the atom bears no implicit hydrogen). -/
structure OBAtom where
  AtomicNum : Int := 0
  Isotope : Int := 0
  FormalCharge : Int := 0
  SpinMultiplicity : Int := 0
  AtomType : String := ""
  Vector : vector3 := {}
  Clockwise : Bool := false
  AntiClockwise : Bool := false
  NoH : Bool := false
  PositiveStereo : Bool := false
  NegativeStereo : Bool := false
  Atom4Refs : Option (List Int) := none
  deriving DecidableEq

/-- Modelled from the spec: the per-bond fields of the graph object (order, begin
and end atom index, wedge, hash, up and down flags). -/
structure OBBond where
  BeginAtomIdx : Int
  EndAtomIdx : Int
  BondOrder : Int
  Wedge : Bool := false
  Hash : Bool := false
  Up : Bool := false
  Down : Bool := false
  deriving DecidableEq

/-- A space group: its Hall name and its transforms. -/
structure SpaceGroup where
  HallName : String := ""
  transforms : List String := []
  deriving DecidableEq

/-- Unit cell: the six scalars (as read by `atof`) and the space group. -/
structure OBUnitCell where
  vals : List String
  group : Option SpaceGroup := none
  SpaceGroupName : String := ""
  deriving DecidableEq

/-- Generic data attached to a molecule. -/
inductive OBGenericData
  | UnitCell (cell : OBUnitCell)
  | PairData (attr value : String)
  | NasaThermoData (LoT HiT MidT : Dbl) (coeffs : List Dbl) (phase : Char)
  | AtomClassData (classes : List (Int × Int))
  | VibrationData (frequencies : List Dbl)
  | RotationData (rotConsts : List Dbl) (symmetryNumber : Int)
  deriving DecidableEq

/-- Modelled from the spec: the graph object, an ordered atom list (1-based), an
ordered bond list and the molecule-level fields; atoms and bonds are appended,
never deleted, during one conversion. -/
structure OBMol where
  atoms : List OBAtom := []
  bonds : List OBBond := []
  Title : String := ""
  TotalSpinMultiplicity : Option Int := none
  Dimension : Int := 0
  data : List OBGenericData := []
  deriving DecidableEq

namespace OBMol

/-- `NumAtoms()`. -/
def NumAtoms (mol : OBMol) : Int := mol.atoms.length

/-- `NumBonds()`. -/
def NumBonds (mol : OBMol) : Int := mol.bonds.length

/-- `NewAtom()`: appends a fresh atom; the new atom has index `NumAtoms()`. -/
def NewAtom (mol : OBMol) : OBMol := { mol with atoms := mol.atoms ++ [{}] }

/-- `AddBond(first, second, order, flags)` with no flags: appends a bond. -/
def AddBond (mol : OBMol) (first second order : Int) : OBMol :=
  { mol with bonds := mol.bonds ++ [{ BeginAtomIdx := first, EndAtomIdx := second, BondOrder := order }] }

/-- Applies `f` to the atom at 0-based position `i` (a write through an `OBAtom*`). -/
def modifyAtom (mol : OBMol) (i : Nat) (f : OBAtom → OBAtom) : OBMol :=
  { mol with atoms := mol.atoms.modify f i }

/-- Applies `f` to the bond at 0-based position `i` (a write through an `OBBond*`). -/
def modifyBond (mol : OBMol) (i : Nat) (f : OBBond → OBBond) : OBMol :=
  { mol with bonds := mol.bonds.modify f i }

/-- `GetAtom(idx)`: 0-based position of the atom of 1-based index `idx`, if it exists. -/
def GetAtom (mol : OBMol) (idx : Int) : Option Nat :=
  if idx < 1 ∨ idx > mol.NumAtoms then none else some (idx.toNat - 1)

/-- `GetBond(idx)`: position of the bond of 0-based index `idx`, if it exists. -/
def GetBond (mol : OBMol) (idx : Int) : Option Nat :=
  if idx < 0 ∨ idx ≥ mol.NumBonds then none else some idx.toNat

/-- `GetBond(bgn, end)`: position of the first bond that joins the two atoms. -/
def GetBond2 (mol : OBMol) (bgn en : Int) : Option Nat :=
  if (mol.GetAtom bgn).isNone ∨ (mol.GetAtom en).isNone then none
  else
    let i := mol.bonds.findIdx fun b =>
      (b.BeginAtomIdx == bgn && b.EndAtomIdx == en) || (b.BeginAtomIdx == en && b.EndAtomIdx == bgn)
    if i < mol.bonds.length then some i else none

/-- `SetData(d)`. -/
def SetData (mol : OBMol) (d : OBGenericData) : OBMol := { mol with data := mol.data ++ [d] }

end OBMol

/-! ## The atom identifier map -/

/-- The member `map<string,int> AtomMap`. -/
abbrev AtomMapT := List (String × Int)

/-- `AtomMap.count(key)`. -/
def mapCount (m : AtomMapT) (key : String) : Nat := if (m.lookup key).isSome then 1 else 0

/-- Value read by `AtomMap[key]`: 0 when the key is absent. -/
def mapGet (m : AtomMapT) (key : String) : Int := (m.lookup key).getD 0

/-- `AtomMap[key] = v`. -/
def mapSet : AtomMapT → String → Int → AtomMapT
  | [], key, v => [(key, v)]
  | (k, w) :: m, key, v => if k == key then (k, v) :: m else (k, w) :: mapSet m key v

/-- The map after a read `AtomMap[key]`: an absent key is inserted with value 0. -/
def mapTouch (m : AtomMapT) (key : String) : AtomMapT :=
  if (m.lookup key).isSome then m else m ++ [(key, 0)]

/-! ## The XML reader, the conversion object and the format object -/

/-- One attribute: name and value. -/
abbrev Attr := String × String

/-- The type `cmlArray`: one attribute record for each atom, or for each bond. -/
abbrev cmlArray := List (List Attr)

/-- Nodes that the streaming reader visits, in document order. An element is
marked empty when it was written as one self-closing tag. -/
inductive XmlNode
  | element (name : String) (attrs : List Attr) (isEmpty : Bool)
  | endElement (name : String)
  | text (value : String)
  | whitespace (value : String)
  deriving DecidableEq

/-- The cursor of the streaming reader (`xmlTextReader` of libxml2): the current
node, the attribute of it the cursor has been moved to, and the nodes to come. -/
structure xmlTextReader where
  node : Option XmlNode := none
  curAttr : Option Nat := none
  pending : List XmlNode := []
  deriving DecidableEq

/-- Attributes of the current node. -/
def xmlTextReader.attrs (r : xmlTextReader) : List Attr :=
  match r.node with
  | some (XmlNode.element _ a _) => a
  | _ => []

/-- `xmlTextReaderRead`: moves to the next node of the document. -/
def xmlTextReaderRead (r : xmlTextReader) : xmlTextReader :=
  match r.pending with
  | [] => { node := none, curAttr := none, pending := [] }
  | n :: ns => { node := some n, curAttr := none, pending := ns }

/-- `xmlTextReaderIsEmptyElement`: 1 for a self-closing element while the cursor is
on the element itself, 0 once the cursor is on one of its attributes or for any
other node, -1 without a current node. -/
def xmlTextReaderIsEmptyElement (r : xmlTextReader) : Int :=
  match r.node with
  | none => -1
  | some (XmlNode.element _ _ e) => if r.curAttr.isSome then 0 else if e then 1 else 0
  | some _ => 0

/-- `xmlTextReaderGetAttribute`: value of the named attribute of the current
element, or NULL. -/
def xmlTextReaderGetAttribute (r : xmlTextReader) (name : String) : Option String :=
  r.attrs.lookup name

/-- `xmlTextReaderConstValue`: text of the current attribute or text node, or NULL. -/
def xmlTextReaderConstValue (r : xmlTextReader) : Option String :=
  match r.curAttr with
  | some i => (r.attrs.get? i).map Prod.snd
  | none =>
    match r.node with
    | some (XmlNode.text v) => some v
    | some (XmlNode.whitespace v) => some v
    | _ => none

/-- `xmlTextReaderHasAttributes`. -/
def xmlTextReaderHasAttributes (r : xmlTextReader) : Bool := !r.attrs.isEmpty

/-- The reader after `xmlTextReaderMoveToFirstAttribute` followed by
`xmlTextReaderMoveToNextAttribute` until it returns 0: the cursor is on the last
attribute. -/
def xmlTextReader.afterAttributes (r : xmlTextReader) : xmlTextReader :=
  if r.attrs.isEmpty then r else { r with curAttr := some (r.attrs.length - 1) }

/-- Severity of a message of the diagnostic log. -/
inductive obMessageLevel
  | obError
  | obWarning
  deriving DecidableEq

/-- One message of `obErrorLog`: the reporting place, the text and the severity. -/
structure LogEntry where
  method : String
  msg : String
  level : obMessageLevel
  deriving DecidableEq

/-- The conversion object: the options of the caller and the stream position. -/
structure OBConversion where
  in2 : Bool := false
  out1 : Bool := false
  outa : Bool := false
  outA : Bool := false
  outh : Bool := false
  outm : Bool := false
  outx : Bool := false
  outp : Bool := false
  outN : Option String := none
  MolsNotStandalone : Bool := false
  OutputIndex : Int := 1
  IsLast : Bool := true
  InFilename : String := ""
  deriving DecidableEq

/-- Routines of the library that the format calls and whose code is outside this
file: the periodic table (`etab`), perception routines of the graph object
(`HydrogenCount` is the sum of `ImplicitHydrogenCount` and `ExplicitHydrogenCount` of
an atom, `IsAromatic` the aromaticity of a bond), the printing of doubles by a
`printf` format and by a stream, the space-group registry, the clock and the
version string. -/
structure Env where
  GetAtomicNum : String → Int × Int
  GetSymbol : Int → String
  AssignSpinMultiplicity : OBMol → OBMol := id
  GetSpaceGroup : String → Option SpaceGroup := fun _ => none
  FindSpaceGroup : SpaceGroup → Option SpaceGroup := fun _ => none
  SpaceGroupIsValid : SpaceGroup → Bool := fun _ => false
  pathSeparator : Char := '/'
  DeleteHydrogens : OBMol → OBMol := id
  AddHydrogens : OBMol → OBMol := id
  GetTotalSpinMultiplicity : OBMol → Int := fun mol => mol.TotalSpinMultiplicity.getD 1
  Has2D : OBMol → Bool := fun _ => false
  GetSpacedFormula : OBMol → String := fun _ => ""
  HydrogenCount : OBMol → Int → Int := fun _ _ => 0
  IsAromatic : OBMol → Nat → Bool := fun _ _ => false
  IsNonZero : Dbl → Bool := fun d => d != Dbl.zero
  formatDbl : String → Dbl → String := fun _ _ => "0"
  streamDbl : Dbl → String := fun _ => "0"
  timestr : String := ""
  BABEL_VERSION : String := ""

/-- The members of `CMLFormat` with those it inherits (`_pmol`, `_embedlevel`, the
conversion object with its reader) and the diagnostic log. -/
structure CMLFormat where
  AtomMap : AtomMapT := []
  AtomArray : cmlArray := []
  BondArray : cmlArray := []
  cmlBondOrAtom : List Attr := []
  molWideData : List Attr := []
  inBondArray : Bool := false
  inFormula : Bool := false
  RawFormula : String := ""
  CurrentAtomID : String := ""
  CrystalScalarsNeeded : Int := 0
  PropertyScalarsNeeded : Int := 0
  TransformsNeeded : Int := 0
  CrystalVals : List String := []
  pUnitCell : Option Nat := none
  _SpaceGroup : SpaceGroup := {}
  SpaceGroupName : String := ""
  titleonproperty : String := ""
  _pmol : OBMol := {}
  _embedlevel : Int := -1
  _pxmlConv : OBConversion := {}
  reader : xmlTextReader := {}
  obErrorLog : List LogEntry := []

/-- File name with the path removed: the part after the last separator. -/
def afterLast (sep : Char) (cs : List Char) : List Char :=
  (cs.reverse.takeWhile (· != sep)).reverse

/-- `CMLFormat::GetMolID`: the title, or the molecule number when there is no title,
with the file name. -/
def GetMolID (env : Env) (f : CMLFormat) : String :=
  (if f._pmol.Title.length = 0 then "Mol #" ++ intToDec (f._pxmlConv.OutputIndex + 1)
   else f._pmol.Title)
  ++ " (in " ++ String.mk (afterLast env.pathSeparator f._pxmlConv.InFilename.data) ++ ")"

/-! ## Accumulating attributes -/

/-- The loop `for(i=0;i<items.size();++i) arr[i].push_back((name, items[i]))`. -/
def pushEach (name : String) : cmlArray → List String → cmlArray
  | arr, [] => arr
  | [], _ :: _ => []
  | r :: arr, it :: items => (r ++ [(name, it)]) :: pushEach name arr items

/-- Distribution of the tokens of one array attribute: the array is first resized
to the number of tokens when it is shorter, then token `i` goes to record `i`. -/
def pushItems (arr : cmlArray) (name : String) (items : List String) : cmlArray :=
  pushEach name
    (if arr.length < items.length then arr ++ List.replicate (items.length - arr.length) [] else arr)
    items

/-- `CMLFormat::TransferArray`: every attribute of the current node is tokenized
and distributed over `arr`; returns the new array and leaves the cursor on the last
attribute. -/
def TransferArray (f : CMLFormat) (arr : cmlArray) : cmlArray × CMLFormat :=
  if xmlTextReaderHasAttributes f.reader then
    (f.reader.attrs.foldl (fun a (nv : Attr) => pushItems a nv.1 (tokenize nv.2)) arr,
     { f with reader := f.reader.afterAttributes })
  else (arr, f)

/-- `CMLFormat::TransferElement`: every attribute of the current node is appended,
with its value trimmed, to `cmlBondOrAtom`. -/
def TransferElement (f : CMLFormat) : CMLFormat :=
  if xmlTextReaderHasAttributes f.reader then
    { f with
      cmlBondOrAtom := f.cmlBondOrAtom ++ f.reader.attrs.map (fun nv => (nv.1, Trim nv.2)),
      reader := f.reader.afterAttributes }
  else f

/-! ## Bonds -/

/-- Variables of `DoBonds` while one bond record is read. -/
structure BondVars where
  indx1 : Int := 0
  indx2 : Int := 0
  ord : Int := 0
  PossibleBond : Bool := false
  HaveWarned : Bool := false
  AtomMap : AtomMapT := []
  log : List LogEntry := []

/-- The warning of `DoBonds` for a reference attribute that is not legal CML; it is
given once. -/
def DoBonds.warn (molID attrname : String) (pos : Option Nat) (s : BondVars) : BondVars :=
  if !s.HaveWarned && (attrname == "atomRefs1" || (attrname == "atomRefs2" && pos.isNone)) then
    { s with
      log := s.log ++ [⟨molID, attrname ++ " is not legal CML in this context, "
        ++ "but OpenBabel will attempt to understand what was meant.", obMessageLevel.obWarning⟩],
      HaveWarned := true }
  else s

/-- The assignment of the endpoints in `DoBonds` from one reference value; `pos` is
the position of the first blank of the value. -/
def DoBonds.setEndpoints (value : String) (pos : Option Nat) (s : BondVars) : BondVars :=
  if s.indx1 = 0 then
    match pos with
    | some p =>
      { s with indx1 := mapGet s.AtomMap (String.mk (value.data.take p)),
               indx2 := mapGet (mapTouch s.AtomMap (String.mk (value.data.take p)))
                          (Trim (String.mk (value.data.drop (p + 1)))),
               AtomMap := mapTouch (mapTouch s.AtomMap (String.mk (value.data.take p)))
                          (Trim (String.mk (value.data.drop (p + 1)))) }
    | none => { s with indx1 := mapGet s.AtomMap value, AtomMap := mapTouch s.AtomMap value }
  else if s.indx2 = 0 then
    { s with indx2 := mapGet s.AtomMap value, AtomMap := mapTouch s.AtomMap value }
  else { s with indx1 := -1 }

/-- The reading of the bond order in `DoBonds` from an order value. -/
def DoBonds.setOrder (value : String) (s : BondVars) : BondVars :=
  let bo := firstChar value
  if bo == 'S' then { s with ord := 1 }
  else if bo == 'D' then { s with ord := 2 }
  else if bo == 'A' then { s with ord := 5 }
  else { s with ord := toInt32 (strtol value.data) }

/-- Body of the attribute loop of `DoBonds` for one attribute. -/
def DoBonds.attr (molID : String) (s : BondVars) (a : Attr) : BondVars :=
  let attrname := a.1
  let value := Trim a.2
  if startsWithAtomRef attrname then
    let pos := findBlank value.data
    DoBonds.setEndpoints value pos (DoBonds.warn molID attrname pos { s with PossibleBond := true })
  else if attrname == "order" then DoBonds.setOrder value s
  else s

/-- The attribute loop of `DoBonds` over one bond record. -/
def DoBonds.scan (molID : String) (record : List Attr) (s : BondVars) : BondVars :=
  record.foldl (DoBonds.attr molID) s

/-- The loop of `DoBonds` over the bond records; `HaveWarned` is kept from one
record to the next. -/
def DoBonds.records (env : Env) : List (List Attr) → Bool → CMLFormat → Bool × CMLFormat
  | [], _, f => (true, f)
  | record :: rest, HaveWarned, f =>
    let s := DoBonds.scan (GetMolID env f) record
      { HaveWarned := HaveWarned, AtomMap := f.AtomMap, log := f.obErrorLog }
    let f := { f with AtomMap := s.AtomMap, obErrorLog := s.log }
    if s.PossibleBond then
      if s.indx1 ≤ 0 ∨ s.indx2 ≤ 0 then
        (false, { f with obErrorLog := f.obErrorLog ++
          [⟨GetMolID env f, "Incorrect bond attributes", obMessageLevel.obError⟩] })
      else
        DoBonds.records env rest s.HaveWarned
          { f with _pmol := f._pmol.AddBond s.indx1 s.indx2 (if s.ord = 0 then 1 else s.ord) }
    else DoBonds.records env rest s.HaveWarned f

/-- `CMLFormat::DoBonds`: interprets the records of `BondArray` and adds the bonds
to the molecule. -/
def DoBonds (env : Env) (f : CMLFormat) : Bool × CMLFormat :=
  DoBonds.records env f.BondArray false f

/-! ## Atoms -/

/-- `value[i]` of a C++ string: the character at `i`, or the terminating NUL. -/
def charAt (value : String) (i : Nat) : Char := value.data.getD i (Char.ofNat 0)

/-- `OBAtomClassData::Add(indx, cls)`: an assignment into a `map<int,int>`. -/
def classAdd : List (Int × Int) → Int → Int → List (Int × Int)
  | [], indx, cls => [(indx, cls)]
  | (k, w) :: m, indx, cls => if k == indx then (k, cls) :: m else (k, w) :: classAdd m indx cls

/-- Variables of `DoAtoms` while the atom records are read. -/
structure AtomVars where
  mol : OBMol
  AtomMap : AtomMapT
  log : List LogEntry
  aclass : List (Int × Int) := []
  nAtoms : Int
  x : Dbl := Dbl.zero
  y : Dbl := Dbl.zero
  z : Dbl := Dbl.zero
  using3 : Bool := false
  using2 : Bool := false
  usingFract : Bool := false

/-- The loop of `DoAtoms` that expands `hydrogenCount`: `n` hydrogens are created
and bonded to atom `nhvy`. -/
def DoAtoms.addH (nhvy : Int) : Nat → AtomVars → AtomVars
  | 0, s => s
  | n + 1, s =>
    let mol := s.mol.NewAtom
    let mol := mol.modifyAtom (mol.atoms.length - 1) fun a => { a with AtomicNum := 1, AtomType := "H" }
    let mol := mol.AddBond nhvy mol.NumAtoms 1
    DoAtoms.addH nhvy n { s with mol := mol, nAtoms := s.nAtoms + 1 }

/-- The choice of the coordinate set in the attribute loop of `DoAtoms`. -/
def DoAtoms.chooseCoords (use2d hasCell : Bool) (attrname : String) (s : AtomVars) : AtomVars :=
  if (attrname == "x3" || attrname == "y3" || attrname == "z3" || attrname == "xyz3") && !use2d then
    { s with using3 := true, usingFract := false }
  else if (attrname == "x2" || attrname == "y2" || attrname == "z2" || attrname == "xy2") && !s.using3 then
    { s with using2 := true, usingFract := false }
  else if hasCell && !s.using3 && !s.using2
      && (attrname == "xFract" || attrname == "yFract" || attrname == "zFract") then
    { s with usingFract := true }
  else s

/-- The reading of one coordinate attribute in the attribute loop of `DoAtoms`. -/
def DoAtoms.readCoords (attrname value : String) (s : AtomVars) : AtomVars :=
  if (s.using3 && attrname == "x3") || (s.using2 && attrname == "x2")
      || (s.usingFract && attrname == "xFract") then
    { s with x := Dbl.strtod value }
  else if (s.using3 && attrname == "y3") || (s.using2 && attrname == "y2")
      || (s.usingFract && attrname == "yFract") then
    { s with y := Dbl.strtod value }
  else if (s.using3 && attrname == "z3") || (s.using2 && attrname == "z2")
      || (s.usingFract && attrname == "zFract") then
    { s with z := Dbl.strtod value }
  else if s.using2 && attrname == "xy2" then
    match tokenize value with
    | [v0, v1] => { s with x := Dbl.strtod v0, y := Dbl.strtod v1 }
    | _ => s
  else if s.using3 && attrname == "xyz3" then
    match tokenize value with
    | [v0, v1, v2] => { s with x := Dbl.strtod v0, y := Dbl.strtod v1, z := Dbl.strtod v2 }
    | _ => s
  else s

/-- Spin multiplicity of the Marvin attribute `radical`. -/
def radicalSpin (value : String) : Int :=
  if value == "monovalent" then 2
  else if value == "divalent" then 3
  else if value == "divalent3" then 3
  else if value == "divalent1" then 1
  else 0

/-- The identifier branch of the attribute loop of `DoAtoms`; `value` is the trimmed
identifier. An identifier that begins with `aa`, `ab`, ... carries an atom class. -/
def DoAtoms.setId (molID : String) (nhvy : Int) (value : String) (s : AtomVars) : AtomVars :=
  let s :=
    if mapCount s.AtomMap value > 0 then
      { s with log := s.log ++
          [⟨molID, "The atom id " ++ value ++ " is not unique", obMessageLevel.obWarning⟩] }
    else s
  let s := { s with AtomMap := mapSet s.AtomMap value nhvy }
  if charAt value 0 == 'a' && charAt value 1 ≥ 'a' && charAt value 1 ≤ 'z' then
    { s with aclass := classAdd s.aclass s.nAtoms (atoi (String.mk (value.data.drop 2))) }
  else s

/-- The `elementType` branch of the attribute loop of `DoAtoms`. -/
def DoAtoms.setElement (env : Env) (pAtom : Nat) (value : String) (s : AtomVars) : AtomVars :=
  let atno := (env.GetAtomicNum value).1
  let iso := (env.GetAtomicNum value).2
  let mol := s.mol.modifyAtom pAtom fun a => { a with AtomicNum := atno }
  { s with mol := if iso ≠ 0 then mol.modifyAtom pAtom fun a => { a with Isotope := iso } else mol }

/-- The `atomRefs4` branch of the attribute loop of `DoAtoms`, applied to the
attribute that follows `atomRefs4`: it is used when it is a parity. -/
def DoAtoms.setParity (pAtom : Nat) (name2 value2 : String) (s : AtomVars) : AtomVars :=
  if name2 == "parity" then
    let parity := atoi value2
    let mol := if parity > 0 then s.mol.modifyAtom pAtom fun a => { a with Clockwise := true } else s.mol
    { s with mol := if parity < 0 then mol.modifyAtom pAtom fun a => { a with AntiClockwise := true } else mol }
  else s

/-- The branches of the attribute loop of `DoAtoms` for `hydrogenCount`,
`formalCharge`, `spinMultiplicity`, `radical` and the isotope. -/
def DoAtoms.other (pAtom : Nat) (attrname value : String) (s : AtomVars) : AtomVars :=
  if attrname == "hydrogenCount" then DoAtoms.addH s.nAtoms (atoi value).toNat s
  else if attrname == "formalCharge" then
    { s with mol := s.mol.modifyAtom pAtom fun a => { a with FormalCharge := atoi value } }
  else if attrname == "spinMultiplicity" then
    { s with mol := s.mol.modifyAtom pAtom fun a => { a with SpinMultiplicity := atoi value } }
  else if attrname == "radical" then
    { s with mol := s.mol.modifyAtom pAtom fun a => { a with SpinMultiplicity := radicalSpin value } }
  else if attrname == "isotopeNumber" || attrname == "isotope" then
    { s with mol := s.mol.modifyAtom pAtom fun a => { a with Isotope := atoi value } }
  else s

/-- The result of the attribute loop for a record, given the result for its tail:
the attribute `a` is what the loop leaves at the head of the record. -/
def DoAtoms.cont (a : List Attr) (r : Except String (AtomVars × List Attr)) :
    Except String (AtomVars × List Attr) :=
  match r with
  | Except.error e => Except.error e
  | Except.ok (s, l) => Except.ok (s, a ++ l)

/-- The attribute loop of `DoAtoms` for the atom at position `pAtom`, of index
`nhvy`. Returns the variables and the record as the loop leaves it in `AtomArray`
(it trims identifiers in place and overwrites an `atomRefs4` entry with the entry
that follows it). After `atomRefs4` the iterator is advanced to the next attribute,
which the loop then passes over; an `atomRefs4` entry that is the last of its
record makes the loop dereference the end iterator. -/
def DoAtoms.attrs (env : Env) (molID : String) (use2d hasCell : Bool) (pAtom : Nat) (nhvy : Int) :
    List Attr → AtomVars → Except String (AtomVars × List Attr)
  | [], s => Except.ok (s, [])
  | (attrname, value) :: rest, s =>
    if attrname == "id" || attrname == "atomId" || attrname == "atomID" then
      DoAtoms.cont [(attrname, Trim value)]
        (DoAtoms.attrs env molID use2d hasCell pAtom nhvy rest (DoAtoms.setId molID nhvy (Trim value) s))
    else if attrname == "elementType" then
      DoAtoms.cont [(attrname, value)]
        (DoAtoms.attrs env molID use2d hasCell pAtom nhvy rest (DoAtoms.setElement env pAtom value s))
    else if attrname == "atomRefs4" then
      match rest with
      | [] => Except.error "DoAtoms: the attribute after atomRefs4 is read past the end of the record"
      | (name2, value2) :: rest2 =>
        DoAtoms.cont [(name2, if name2 == "parity" then value2 else value), (name2, value2)]
          (DoAtoms.attrs env molID use2d hasCell pAtom nhvy rest2
            (DoAtoms.setParity pAtom name2 value2
              (DoAtoms.readCoords attrname value (DoAtoms.chooseCoords use2d hasCell attrname s))))
    else
      DoAtoms.cont [(attrname, value)]
        (DoAtoms.attrs env molID use2d hasCell pAtom nhvy rest
          (DoAtoms.other pAtom attrname value
            (DoAtoms.readCoords attrname value (DoAtoms.chooseCoords use2d hasCell attrname s))))

/-- Dimension that one atom record implies once its attributes are read. -/
def DoAtoms.dimOf (s : AtomVars) : Int :=
  if s.using3 || s.usingFract then 3 else if s.using2 then 2 else 0

/-- The coordinates `DoAtoms` saves for one atom: fractional coordinates go through
the orthogonalisation matrix of the unit cell, and `z` is 0 for 2-D coordinates. -/
def DoAtoms.coords (cell : List String) (s : AtomVars) : vector3 :=
  let z := if s.using3 || s.usingFract then s.z else if s.using2 then Dbl.zero else s.z
  if s.usingFract then
    { x := Dbl.ortho 0 cell s.x s.y z, y := Dbl.ortho 1 cell s.x s.y z, z := Dbl.ortho 2 cell s.x s.y z }
  else { x := s.x, y := s.y, z := z }

/-- One pass of the atom loop of `DoAtoms`: a new atom is created for the record and
the record's attributes are applied to it. Returns the variables, the record as
left in `AtomArray` and the value of `dim`. -/
def DoAtoms.record (env : Env) (molID : String) (use2d : Bool) (cell : Option (List String))
    (record : List Attr) (s : AtomVars) : Except String (AtomVars × List Attr × Int) :=
  let mol := s.mol.NewAtom
  let pAtom := mol.atoms.length - 1
  let nAtoms := s.nAtoms + 1
  let s := { s with mol := mol, nAtoms := nAtoms, x := Dbl.zero, y := Dbl.zero, z := Dbl.zero,
                    using3 := false, using2 := false, usingFract := false }
  match DoAtoms.attrs env molID use2d cell.isSome pAtom nAtoms record s with
  | Except.error e => Except.error e
  | Except.ok (s, r) =>
    Except.ok ({ s with mol := s.mol.modifyAtom pAtom fun a =>
                  { a with Vector := DoAtoms.coords (cell.getD []) s } }, r, DoAtoms.dimOf s)

/-- The atom loop of `DoAtoms`; `dim` is the value left by the last record. -/
def DoAtoms.records (env : Env) (molID : String) (use2d : Bool) (cell : Option (List String)) :
    List (List Attr) → AtomVars → Int → Except String (AtomVars × cmlArray × Int)
  | [], s, dim => Except.ok (s, [], dim)
  | record :: rest, s, _ =>
    match DoAtoms.record env molID use2d cell record s with
    | Except.error e => Except.error e
    | Except.ok (s, r, dim) =>
      match DoAtoms.records env molID use2d cell rest s dim with
      | Except.error e => Except.error e
      | Except.ok (s, rs, dim) => Except.ok (s, r :: rs, dim)

/-- The unit cell that `pUnitCell` points to. -/
def CMLFormat.unitCell (f : CMLFormat) : Option OBUnitCell :=
  match f.pUnitCell with
  | none => none
  | some i =>
    match f._pmol.data.get? i with
    | some (OBGenericData.UnitCell c) => some c
    | _ => none

/-- `CMLFormat::DoAtoms`: interprets the records of `AtomArray` and writes the atoms
to the molecule. -/
def DoAtoms (env : Env) (f : CMLFormat) : Except String (Bool × CMLFormat) :=
  match DoAtoms.records env (GetMolID env f) f._pxmlConv.in2 (f.unitCell.map (·.vals)) f.AtomArray
      { mol := f._pmol, AtomMap := f.AtomMap, log := f.obErrorLog, nAtoms := f._pmol.NumAtoms } 0 with
  | Except.error e => Except.error e
  | Except.ok (s, arr, dim) =>
    let mol := if s.aclass.length > 0 then s.mol.SetData (OBGenericData.AtomClassData s.aclass) else s.mol
    Except.ok (true, { f with _pmol := { mol with Dimension := dim }, AtomMap := s.AtomMap,
                              obErrorLog := s.log, AtomArray := arr })

/-! ## Molecule-wide data: atom parity and bond stereo -/

namespace OBMol

/-- Bonds of the atom of index `idx` in the order of its bond list, each with the
index of the atom at the other end (`FOR_BONDS_OF_ATOM`, `FOR_NBORS_OF_ATOM`). -/
def bondsOf (mol : OBMol) (idx : Int) : List (Nat × Int) :=
  mol.bonds.enum.filterMap fun ib =>
    if ib.2.BeginAtomIdx == idx then some (ib.1, ib.2.EndAtomIdx)
    else if ib.2.EndAtomIdx == idx then some (ib.1, ib.2.BeginAtomIdx)
    else none

/-- Atomic number of the atom of index `idx` (0 when there is no such atom). -/
def atomicNumOf (mol : OBMol) (idx : Int) : Int :=
  match mol.GetAtom idx with
  | some i => ((mol.atoms.get? i).map (·.AtomicNum)).getD 0
  | none => 0

/-- Flags of the bond at position `i`. -/
def bondAt (mol : OBMol) (i : Nat) : OBBond :=
  (mol.bonds.get? i).getD { BeginAtomIdx := 0, EndAtomIdx := 0, BondOrder := 0 }

end OBMol

/-- The four reads `AtomMap[ids[i]]`, `i = 0..3`, of `DoMolWideData`; fewer than four
tokens make it index `ids` out of range. -/
def lookupRefs4 (ids : List String) (m : AtomMapT) : Except String (List Int × AtomMapT) :=
  match ids with
  | i0 :: i1 :: i2 :: i3 :: _ =>
    let m1 := mapTouch m i0
    let m2 := mapTouch m1 i1
    let m3 := mapTouch m2 i2
    Except.ok ([mapGet m i0, mapGet m1 i1, mapGet m2 i2, mapGet m3 i3], mapTouch m3 i3)
  | _ => Except.error "DoMolWideData: ids[i] is read out of range"

/-- `AtomRefIdx[i]`. -/
def refIdx (AtomRefIdx : List Int) (i : Nat) : Except String Int :=
  match AtomRefIdx.get? i with
  | some v => Except.ok v
  | none => Except.error "DoMolWideData: AtomRefIdx[i] is read out of range"

/-- The scan of the neighbours of one end `at1` of a double bond, the other end being
`at2`: it stops at the first neighbour that is neither a hydrogen nor `at2`, and
before that sets the bond pointer to the bond to each neighbour it passes. -/
def scanNbors (mol : OBMol) (at1 at2 : Int) : List (Nat × Int) → Option Nat → Option Nat
  | [], pbond => pbond
  | (_, a) :: rest, pbond =>
    if !(mol.atomicNumOf a == 1) && a != at2 then pbond
    else scanNbors mol at1 at2 rest (mol.GetBond2 at1 a)

/-- The marking of the two bonds of a cis/trans descriptor. -/
def markCisTrans (mol : OBMol) (value : String) (pbond1 pbond2 : Nat) : OBMol :=
  if (mol.bondAt pbond1).Up || (mol.bondAt pbond1).Down then
    if ((mol.bondAt pbond1).Up && value == "T") || ((mol.bondAt pbond1).Down && value == "C") then
      mol.modifyBond pbond2 fun b => { b with Up := true }
    else mol.modifyBond pbond2 fun b => { b with Down := true }
  else
    let mol := mol.modifyBond pbond1 fun b => { b with Down := true }
    if value == "C" then mol.modifyBond pbond2 fun b => { b with Down := true }
    else if value == "T" then mol.modifyBond pbond2 fun b => { b with Up := true }
    else mol

/-- The marking of the other bonds of the atom `atom2` at the end of the double
bond: every bond that is neither `pbond2` nor double and leads to a carbon gets the
direction opposite to that of `pbond2`. -/
def markOthers (atom2 : Int) (pbond2 : Nat) : List (Nat × Int) → OBMol → OBMol
  | [], mol => mol
  | (b, nbr) :: rest, mol =>
    if b == pbond2 || (mol.bondAt b).BondOrder == 2 then markOthers atom2 pbond2 rest mol
    else if mol.atomicNumOf nbr == 6 then
      if (mol.bondAt pbond2).Up then
        markOthers atom2 pbond2 rest (mol.modifyBond b fun x => { x with Down := true })
      else markOthers atom2 pbond2 rest (mol.modifyBond b fun x => { x with Up := true })
    else markOthers atom2 pbond2 rest mol

/-- The loop of `DoMolWideData` over `molWideData`. The result `some b` is a
`return b` from inside the loop, `none` means that the loop ran to its end. -/
def DoMolWideData.loop : List Attr → CMLFormat → Except String (Option Bool × CMLFormat)
  | [], f => Except.ok (none, f)
  | (name, value) :: rest, f =>
    if name == "atomParity" || name == "bondStereo" then
      match rest with
      | [] => Except.error "DoMolWideData: the iterator is read past the end of molWideData"
      | (nextname, atrefsvalue) :: rest2 =>
        match (if nextname == "atomRefs4" && !atrefsvalue.data.isEmpty
               then lookupRefs4 (tokenize atrefsvalue) f.AtomMap
               else Except.ok ([], f.AtomMap)) with
        | Except.error e => Except.error e
        | Except.ok (AtomRefIdx, m) =>
          let f := { f with AtomMap := m }
          match rest2 with
          | [] => Except.error "DoMolWideData: the iterator is read past the end of molWideData"
          | (nextname2, idxvalue) :: rest3 =>
            if !(nextname2 == "centralAtomOrBond") then Except.ok (some false, f)
            else
              let Idx := atoi idxvalue
              if name == "atomParity" then
                let parity := atoi value
                match f._pmol.GetAtom Idx with
                | none => Except.ok (some false, f)
                | some patom =>
                  let mol :=
                    if parity > 0 then f._pmol.modifyAtom patom fun a => { a with Clockwise := true }
                    else if parity < 0 then f._pmol.modifyAtom patom fun a => { a with AntiClockwise := true }
                    else f._pmol
                  let mol := mol.modifyAtom patom fun a => { a with Atom4Refs := some AtomRefIdx }
                  DoMolWideData.loop rest3 { f with _pmol := mol }
              else
                let bondsFound : Except String (Option (Option Nat × Option Nat) × CMLFormat) :=
                  if atrefsvalue.data.isEmpty then
                    match f._pmol.GetBond Idx with
                    | none =>
                      if value == "W" || value == "H" then
                        Except.error "DoMolWideData: pDBond is NULL when dereferenced"
                      else if value != "C" && value != "T" then Except.ok (none, f)
                      else Except.error "DoMolWideData: pDBond is NULL when dereferenced"
                    | some pDBond =>
                      if value == "W" then
                        Except.ok (none, { f with _pmol := f._pmol.modifyBond pDBond fun b => { b with Wedge := true } })
                      else if value == "H" then
                        Except.ok (none, { f with _pmol := f._pmol.modifyBond pDBond fun b => { b with Hash := true } })
                      else if value != "C" && value != "T" then Except.ok (none, f)
                      else
                        let at1 := (f._pmol.bondAt pDBond).BeginAtomIdx
                        let at2 := (f._pmol.bondAt pDBond).EndAtomIdx
                        Except.ok (some (scanNbors f._pmol at1 at2 (f._pmol.bondsOf at1) none,
                                         scanNbors f._pmol at2 at1 (f._pmol.bondsOf at2) none), f)
                  else
                    match refIdx AtomRefIdx 0, refIdx AtomRefIdx 1, refIdx AtomRefIdx 2, refIdx AtomRefIdx 3 with
                    | Except.ok r0, Except.ok r1, Except.ok r2, Except.ok r3 =>
                      Except.ok (some (f._pmol.GetBond2 r0 r1, f._pmol.GetBond2 r2 r3), f)
                    | _, _, _, _ => Except.error "DoMolWideData: AtomRefIdx[i] is read out of range"
                match bondsFound with
                | Except.error e => Except.error e
                | Except.ok (none, f) =>
                  Except.ok (some (value == "W" || value == "H") , f)
                | Except.ok (some (some pbond1, some pbond2), f) =>
                  let mol := markCisTrans f._pmol value pbond1 pbond2
                  match refIdx AtomRefIdx 2 with
                  | Except.error e => Except.error e
                  | Except.ok r2 =>
                    match mol.GetAtom r2 with
                    | none => Except.error "DoMolWideData: pAtom2 is NULL when dereferenced"
                    | some _ =>
                      DoMolWideData.loop rest3
                        { f with _pmol := markOthers r2 pbond2 (mol.bondsOf r2) mol }
                | Except.ok (some _, f) => Except.ok (some false, f)
    else DoMolWideData.loop rest f

/-- `CMLFormat::DoMolWideData`: applies the atom parity and bond stereo descriptors;
the three buffers are cleared when the loop runs to its end. -/
def DoMolWideData (f : CMLFormat) : Except String (Bool × CMLFormat) :=
  match DoMolWideData.loop f.molWideData f with
  | Except.error e => Except.error e
  | Except.ok (some b, f) => Except.ok (b, f)
  | Except.ok (none, f) => Except.ok (true, { f with AtomArray := [], BondArray := [], molWideData := [] })

/-! ## Formula -/

/-- The atoms `ParseFormula` creates for one symbol: `n` atoms of atomic number
`atno` (and isotope `iso` when it is not 0) that bear no implicit hydrogen. -/
def ParseFormula.addAtoms (atno iso : Int) : Nat → OBMol → OBMol
  | 0, mol => mol
  | n + 1, mol =>
    let mol := mol.NewAtom
    let mol := mol.modifyAtom (mol.atoms.length - 1) fun a => { a with NoH := true, AtomicNum := atno }
    let mol := if iso ≠ 0 then mol.modifyAtom (mol.atoms.length - 1) fun a => { a with Isotope := iso } else mol
    ParseFormula.addAtoms atno iso n mol

/-- The loop of `ParseFormula` over the tokens, taken as (symbol, count) pairs. -/
def ParseFormula.items (env : Env) : List String → OBMol → Bool × OBMol
  | [], mol => (true, mol)
  | [_], mol => (false, mol)
  | symbol :: number :: rest, mol =>
    let n := atoi number
    let atno := (env.GetAtomicNum symbol).1
    let iso := (env.GetAtomicNum symbol).2
    if atno ≤ 0 ∨ n ≤ 0 then (false, mol)
    else ParseFormula.items env rest (ParseFormula.addAtoms atno iso n.toNat mol)

/-- `CMLFormat::ParseFormula`. -/
def ParseFormula (env : Env) (formula : String) (pmol : OBMol) : Bool × OBMol :=
  ParseFormula.items env (tokenize formula) pmol

/-! ## The element handlers -/

/-- Applies `g` to the data entry at position `i` of the molecule (a write through a
pointer to a data object that the molecule owns). -/
def OBMol.modifyData (mol : OBMol) (i : Nat) (g : OBGenericData → OBGenericData) : OBMol :=
  { mol with data := mol.data.modify g i }

/-- The assignments `ReadNasaThermo` makes for one scalar or array of the block. -/
def ReadNasaThermo.assign (pattr pvalue : String) (d : OBGenericData) : Except String OBGenericData :=
  match d with
  | OBGenericData.NasaThermoData lo hi mid cs ph =>
    if pattr == "NasaLowT" then Except.ok (OBGenericData.NasaThermoData (Dbl.strtod pvalue) hi mid cs ph)
    else if pattr == "NasaHighT" then Except.ok (OBGenericData.NasaThermoData lo (Dbl.strtod pvalue) mid cs ph)
    else if pattr == "NasaMidT" then Except.ok (OBGenericData.NasaThermoData lo hi (Dbl.strtod pvalue) cs ph)
    else if pattr == "NasaCoeffs" then
      if (tokenize pvalue).length < 14 then Except.error "ReadNasaThermo: vals[i] is read out of range"
      else Except.ok (OBGenericData.NasaThermoData lo hi mid (((tokenize pvalue).take 14).map Dbl.strtod) ph)
    else Except.ok d
  | _ => Except.ok d

/-- The loop of `ReadNasaThermo`; it ends at the end tag of `property` and never
ends when the document has no such tag. The thermo data is entry `pTD` of the
molecule's data. -/
def ReadNasaThermo.loop (pTD : Nat) : Nat → CMLFormat → Except String CMLFormat
  | 0, _ => Except.error "ReadNasaThermo: the loop does not end"
  | fuel + 1, f =>
    if f.reader.pending.isEmpty then Except.error "ReadNasaThermo: the loop does not end"
    else
      let r := xmlTextReaderRead f.reader
      match r.node with
      | some (XmlNode.whitespace _) => ReadNasaThermo.loop pTD fuel { f with reader := r }
      | some (XmlNode.endElement pname) =>
        if pname == "property" then Except.ok { f with reader := r }
        else ReadNasaThermo.loop pTD fuel { f with reader := r }
      | _ =>
        let pattr := xmlTextReaderGetAttribute r "dictRef"
        let r := xmlTextReaderRead r
        let pvalue := xmlTextReaderConstValue r
        match pattr, pvalue with
        | some a, some v =>
          match ReadNasaThermo.assign a v ((f._pmol.data.get? pTD).getD (OBGenericData.PairData "" "")) with
          | Except.error e => Except.error e
          | Except.ok d =>
            ReadNasaThermo.loop pTD fuel { f with reader := r, _pmol := f._pmol.modifyData pTD fun _ => d }
        | _, _ => ReadNasaThermo.loop pTD fuel { f with reader := r }

/-- `CMLFormat::ReadNasaThermo`. -/
def ReadNasaThermo (f : CMLFormat) : Except String CMLFormat :=
  ReadNasaThermo.loop f._pmol.data.length (f.reader.pending.length + 1)
    { f with
      _pmol := f._pmol.SetData (OBGenericData.NasaThermoData Dbl.zero Dbl.zero Dbl.zero [] (Char.ofNat 0)) }

/-- The part of `EndElement` for the end of a molecule after the three resolution
passes: formula fallback, atoms of a molecule without bonds marked as bearing no
hydrogen, spin assignment, and the decrement of the embed counter. -/
def EndElement.finishMolecule (env : Env) (f : CMLFormat) : Bool × CMLFormat :=
  let f :=
    if f._pmol.NumAtoms = 0 ∧ !f.RawFormula.data.isEmpty then
      let r := ParseFormula env f.RawFormula f._pmol
      if !r.1 then
        { f with _pmol := r.2,
                 obErrorLog := f.obErrorLog ++ [⟨f._pmol.Title, "Error in formula", obMessageLevel.obError⟩] }
      else { f with _pmol := r.2 }
    else f
  let f :=
    if f._pmol.NumBonds = 0 then
      { f with _pmol := { f._pmol with atoms := f._pmol.atoms.map fun a => { a with NoH := true } } }
    else f
  let f := { f with _pmol := env.AssignSpinMultiplicity f._pmol, _embedlevel := f._embedlevel - 1 }
  (decide (f._embedlevel ≥ 0), f)

/-- `CMLFormat::EndElement`. The results of `DoAtoms`, `DoBonds` and `DoMolWideData`
are not looked at. -/
def EndElement (env : Env) (f : CMLFormat) (name : String) : Except String (Bool × CMLFormat) :=
  if name == "atom" then
    Except.ok (true, { f with AtomArray := f.AtomArray ++ [f.cmlBondOrAtom] })
  else if name == "bond" then
    Except.ok (true, { f with BondArray := f.BondArray ++ [f.cmlBondOrAtom] })
  else if name == "formula" then
    Except.ok (true, { f with inFormula := false })
  else if name == "molecule" then
    match DoAtoms env f with
    | Except.error e => Except.error e
    | Except.ok (_, f) =>
      match DoMolWideData (DoBonds env f).2 with
      | Except.error e => Except.error e
      | Except.ok (_, f) => Except.ok (EndElement.finishMolecule env f)
  else if name == "symmetry" then
    match f.pUnitCell with
    | none => Except.error "EndElement: pUnitCell is NULL when dereferenced"
    | some i =>
      let group := env.GetSpaceGroup f.SpaceGroupName
      let group :=
        if (group.isNone || !(group == some f._SpaceGroup)) && env.SpaceGroupIsValid f._SpaceGroup then
          env.FindSpaceGroup f._SpaceGroup
        else group
      let set : OBGenericData → OBGenericData := fun d =>
        match d with
        | OBGenericData.UnitCell c =>
          match group with
          | some g => OBGenericData.UnitCell { c with group := some g }
          | none => OBGenericData.UnitCell
              { c with group := env.GetSpaceGroup f.SpaceGroupName, SpaceGroupName := f.SpaceGroupName }
        | d => d
      Except.ok (true, { f with _pmol := f._pmol.modifyData i set })
  else Except.ok (true, f)

/-- `CMLFormat::DoElement`, called with the reader on the start tag of the element
`name`. -/
def DoElement (env : Env) (f : CMLFormat) (name : String) : Except String (Bool × CMLFormat) :=
  let finish (f : CMLFormat) : Except String (Bool × CMLFormat) :=
    if xmlTextReaderIsEmptyElement f.reader = 1 then EndElement env f name else Except.ok (true, f)
  if name == "atom" then
    let f := { f with cmlBondOrAtom := [] }
    let IsEmpty := xmlTextReaderIsEmptyElement f.reader
    let f := TransferElement f
    finish (if IsEmpty = 1 then { f with AtomArray := f.AtomArray ++ [f.cmlBondOrAtom] } else f)
  else if name == "bond" then
    let f := { f with cmlBondOrAtom := [] }
    let IsEmpty := xmlTextReaderIsEmptyElement f.reader
    let f := TransferElement f
    finish (if IsEmpty = 1 then { f with BondArray := f.BondArray ++ [f.cmlBondOrAtom] } else f)
  else if name == "molecule" then
    if (xmlTextReaderGetAttribute f.reader "ref").isSome then Except.ok (true, f)
    else
      let f := { f with _pmol := {}, AtomArray := [], BondArray := [], inBondArray := false,
                        inFormula := false, RawFormula := "", molWideData := [],
                        CrystalScalarsNeeded := 0, CrystalVals := [], pUnitCell := none,
                        PropertyScalarsNeeded := 0 }
      let f := { f with _embedlevel := f._embedlevel + 1 }
      if f._embedlevel ≠ 0 then Except.ok (true, f)
      else
        let f := { f with AtomMap := [] }
        let ptitle := xmlTextReaderGetAttribute f.reader "title"
        let ptitle := if ptitle.isNone then xmlTextReaderGetAttribute f.reader "id" else ptitle
        let ptitle := if ptitle.isNone then xmlTextReaderGetAttribute f.reader "molID" else ptitle
        let f := match ptitle with
          | some t => { f with _pmol := { f._pmol with Title := t } }
          | none => f
        let f := match xmlTextReaderGetAttribute f.reader "spinMultiplicity" with
          | some t => { f with _pmol := { f._pmol with TotalSpinMultiplicity := some (atoi t) } }
          | none => f
        finish f
  else if name == "atomArray" then
    if !f.inFormula then
      let f := { f with inBondArray := false }
      let r := TransferArray f f.AtomArray
      finish { r.2 with AtomArray := r.1 }
    else finish f
  else if name == "bondArray" then
    let f := { f with inBondArray := true }
    let r := TransferArray f f.BondArray
    finish { r.2 with BondArray := r.1 }
  else if name == "atomParity" || name == "bondStereo" then
    let value := (xmlTextReaderGetAttribute f.reader "atomRefs4").getD ""
    let f := { f with reader := xmlTextReaderRead f.reader }
    match xmlTextReaderConstValue f.reader with
    | some pvalue =>
      finish { f with molWideData := f.molWideData ++
        [(name, Trim pvalue), ("atomRefs4", value),
         ("centralAtomOrBond",
          if name == "atomParity" then intToDec (f.AtomArray.length + 1) else intToDec f.BondArray.length)] }
    | none => finish f
  else if name == "name" then
    let f := { f with reader := xmlTextReaderRead f.reader }
    match xmlTextReaderConstValue f.reader with
    | none => Except.error "GetContent: a string is made from a NULL pointer"
    | some pvalue => finish { f with _pmol := { f._pmol with Title := Trim pvalue } }
  else if name == "formula" then
    let f := if xmlTextReaderIsEmptyElement f.reader = 0 then { f with inFormula := true } else f
    match xmlTextReaderGetAttribute f.reader "concise" with
    | some pformula => finish { f with RawFormula := pformula }
    | none => finish f
  else if name == "crystal" then
    finish { f with CrystalScalarsNeeded := 6 }
  else if name == "scalar" then
    if f.CrystalScalarsNeeded ≠ 0 then
      let f := { f with reader := xmlTextReaderRead f.reader }
      match xmlTextReaderConstValue f.reader with
      | some pvalue =>
        let f := { f with CrystalVals := f.CrystalVals ++ [pvalue],
                          CrystalScalarsNeeded := f.CrystalScalarsNeeded - 1 }
        if f.CrystalScalarsNeeded = 0 then
          finish { f with pUnitCell := some f._pmol.data.length,
                          _pmol := f._pmol.SetData (OBGenericData.UnitCell { vals := f.CrystalVals.take 6 }) }
        else finish f
      | none => finish f
    else if f.PropertyScalarsNeeded ≠ 0 then
      let pattr := xmlTextReaderGetAttribute f.reader "title"
      let pattr := if pattr.isNone then xmlTextReaderGetAttribute f.reader "id" else pattr
      let attr := pattr.getD f.titleonproperty
      let f := { f with reader := xmlTextReaderRead f.reader }
      let f := match xmlTextReaderConstValue f.reader with
        | some pvalue =>
          if !attr.data.isEmpty then
            { f with _pmol := f._pmol.SetData (OBGenericData.PairData attr (Trim pvalue)) }
          else f
        | none => f
      finish { f with PropertyScalarsNeeded := 0 }
    else finish f
  else if name == "symmetry" then
    match xmlTextReaderGetAttribute f.reader "spaceGroup" with
    | some pname => finish { f with SpaceGroupName := pname }
    | none => finish f
  else if name == "transform3" then
    let f := { f with reader := xmlTextReaderRead f.reader }
    match xmlTextReaderConstValue f.reader with
    | some t => finish { f with _SpaceGroup := { f._SpaceGroup with transforms := f._SpaceGroup.transforms ++ [t] } }
    | none => finish f
  else if name == "property" then
    if xmlTextReaderGetAttribute f.reader "dictRef" == some "Thermo_OldNasa" then
      match ReadNasaThermo f with
      | Except.error e => Except.error e
      | Except.ok f => finish f
    else
      finish { f with titleonproperty := (xmlTextReaderGetAttribute f.reader "title").getD "",
                      PropertyScalarsNeeded := 1 }
  else if name == "string" || name == "float" || name == "integer"
      || name == "coordinate3" || name == "coordinate2" then
    let builtin := (xmlTextReaderGetAttribute f.reader "builtin").getD ""
    let f := { f with reader := xmlTextReaderRead f.reader }
    match xmlTextReaderConstValue f.reader with
    | none => Except.ok (false, f)
    | some pvalue => finish { f with cmlBondOrAtom := f.cmlBondOrAtom ++ [(builtin, Trim pvalue)] }
  else if name == "stringArray" || name == "floatArray" || name == "integerArray" then
    let builtin := (xmlTextReaderGetAttribute f.reader "builtin").getD ""
    let f := { f with reader := xmlTextReaderRead f.reader }
    match xmlTextReaderConstValue f.reader with
    | none => Except.ok (false, f)
    | some pvalue =>
      if f.inBondArray then finish { f with BondArray := pushItems f.BondArray builtin (tokenize pvalue) }
      else finish { f with AtomArray := pushItems f.AtomArray builtin (tokenize pvalue) }
  else finish f

/-- Modelled from the spec: the event dispatcher `XMLConversion::ReadXML`, which
reads the nodes in document order, calls `DoElement` at each start tag and
`EndElement` at each end tag, and stops when a handler returns false. The fuel
bounds the number of nodes read. -/
def ReadXML (env : Env) : Nat → CMLFormat → Except String CMLFormat
  | 0, f => Except.ok f
  | fuel + 1, f =>
    if f.reader.pending.isEmpty then Except.ok f
    else
      let f := { f with reader := xmlTextReaderRead f.reader }
      match f.reader.node with
      | some (XmlNode.element name _ _) =>
        match DoElement env f name with
        | Except.error e => Except.error e
        | Except.ok (ret, f) => if ret then ReadXML env fuel f else Except.ok f
      | some (XmlNode.endElement name) =>
        match EndElement env f name with
        | Except.error e => Except.error e
        | Except.ok (ret, f) => if ret then ReadXML env fuel f else Except.ok f
      | _ => ReadXML env fuel f

end OpenBabel

namespace OpenBabel

/-! ## The serializer -/

/-- Calls on the XML writer (`xmlTextWriter` of libxml2), in the order they are made. -/
inductive WriterEvent
  | StartDocument
  | StartElementNS (pfx : Option String) (name : String) (uri : Option String)
  | WriteAttribute (name value : String)
  | WriteString (content : String)
  | EndElement
  | EndDocument
  deriving DecidableEq

/-- `xmlTextWriterWriteElement(name, content)`: an element with text content. -/
def WriteElement (name content : String) : List WriterEvent :=
  [WriterEvent.StartElementNS none name none, WriterEvent.WriteString content, WriterEvent.EndElement]

/-- The C library's `isalpha` in the C locale. -/
def isalpha (c : Char) : Bool := ('a' ≤ c && c ≤ 'z') || ('A' ≤ c && c ≤ 'Z')

/-- `CMLFormat::MakeAtomIds`: the loop over the atom indices, with the map `acmap`
from atom class to the last letter used. Returns the identifiers and the log. -/
def MakeAtomIds.loop (title : String) (pac : Option (List (Int × Int))) :
    List Int → List (Int × Char) → List String × List LogEntry
  | [], _ => ([], [])
  | idx :: rest, acmap =>
    match pac.bind (fun cls => cls.lookup idx) with
    | some ac =>
      let ch2 := match acmap.lookup ac with
        | some ch => Char.ofNat (ch.toNat + 1)
        | none => 'a'
      let log :=
        if ch2 > 'z' then
          [(⟨title, "CML: too many atoms with same atom class.", obMessageLevel.obError⟩ : LogEntry)]
        else []
      let r := MakeAtomIds.loop title pac rest ((ac, ch2) :: acmap.filter (fun e => e.1 != ac))
      (String.mk ('a' :: ch2 :: (intToDec ac).data) :: r.1, log ++ r.2)
    | none =>
      let r := MakeAtomIds.loop title pac rest acmap
      (String.mk ('a' :: (intToDec idx).data) :: r.1, r.2)

/-- The atom class data of a molecule (`GetData("Atom Class")`). -/
def OBMol.atomClasses (mol : OBMol) : Option (List (Int × Int)) :=
  mol.data.findSome? fun d =>
    match d with
    | OBGenericData.AtomClassData cls => some cls
    | _ => none

/-- `CMLFormat::MakeAtomIds`: entry 0 is not used, entry `idx` is the identifier of
the atom of index `idx`. -/
def MakeAtomIds (title : String) (mol : OBMol) : List String × List LogEntry :=
  let r := MakeAtomIds.loop title mol.atomClasses ((List.range mol.atoms.length).map fun i => ((i + 1 : Nat) : Int)) []
  ("Error" :: r.1, r.2)

/-- `atomIDs[idx]`; the serializer only reads it at the index of an atom of the
molecule. -/
def idAt (atomIDs : List String) (idx : Int) : String := atomIDs.getD idx.toNat ""

/-- `CMLFormat::WriteFormula`; the molecule it receives is a copy. -/
def WriteFormula (env : Env) (pfx : Option String) (mol : OBMol) : List WriterEvent :=
  let mol := if mol.NumAtoms = 1 then env.AddHydrogens mol else mol
  [WriterEvent.StartElementNS pfx "formula" none,
   WriterEvent.WriteAttribute "concise" (env.GetSpacedFormula mol),
   WriterEvent.EndElement]

/-- `HasDoubleBond()` of the atom of index `idx`. -/
def OBMol.HasDoubleBond (mol : OBMol) (idx : Int) : Bool :=
  (mol.bondsOf idx).any fun bn => (mol.bondAt bn.1).BondOrder == 2

/-- The first bond of an atom that carries an up or down flag, with the index of the
atom at its other end, in `WriteBondStereo`. -/
def firstUpDown (mol : OBMol) (idx : Int) : Option (Nat × Int) :=
  (mol.bondsOf idx).find? fun bn => (mol.bondAt bn.1).Up || (mol.bondAt bn.1).Down

/-- `CMLFormat::WriteBondStereo` for the bond at position `pbond`. -/
def WriteBondStereo (pfx : Option String) (mol : OBMol) (pbond : Nat) (atomIDs : List String) :
    List WriterEvent :=
  let b := mol.bondAt pbond
  if b.Wedge then
    [WriterEvent.StartElementNS pfx "bondStereo" none, WriterEvent.WriteString "W", WriterEvent.EndElement]
  else if b.Hash then
    [WriterEvent.StartElementNS pfx "bondStereo" none, WriterEvent.WriteString "H", WriterEvent.EndElement]
  else
    match firstUpDown mol b.BeginAtomIdx, firstUpDown mol b.EndAtomIdx with
    | some (b1, idx1), some (b2, idx2) =>
      let ud1 : Int := if (mol.bondAt b1).Down then -1 else 1
      let ud1 := if mol.HasDoubleBond idx1 then -ud1 else ud1
      let ud2 : Int := if (mol.bondAt b2).Down then -1 else 1
      [WriterEvent.StartElementNS pfx "bondStereo" none,
       WriterEvent.WriteAttribute "atomRefs4"
         (idAt atomIDs idx1 ++ " " ++ idAt atomIDs b.BeginAtomIdx ++ " "
           ++ idAt atomIDs b.EndAtomIdx ++ " " ++ idAt atomIDs idx2),
       WriterEvent.WriteString (if ud1 = ud2 then "C" else "T"),
       WriterEvent.EndElement]
    | _, _ => []

/-- One `<scalar>` of `WriteCrystal`. -/
def WriteCrystal.scalar (env : Env) (pfx : Option String) (title units : String) (v : Dbl) :
    List WriterEvent :=
  [WriterEvent.StartElementNS pfx "scalar" none,
   WriterEvent.WriteAttribute "title" title,
   WriterEvent.WriteAttribute "units" units,
   WriterEvent.WriteString (env.formatDbl "%f" v),
   WriterEvent.EndElement]

/-- `CMLFormat::WriteCrystal` for the unit cell `cell` of the molecule. -/
def WriteCrystal (env : Env) (pfx : Option String) (cell : OBUnitCell) : List WriterEvent :=
  let v := fun (i : Nat) => Dbl.strtod (cell.vals.getD i "")
  [WriterEvent.StartElementNS pfx "crystal" none]
  ++ WriteCrystal.scalar env pfx "a" "units:angstrom" (v 0)
  ++ WriteCrystal.scalar env pfx "b" "units:angstrom" (v 1)
  ++ WriteCrystal.scalar env pfx "c" "units:angstrom" (v 2)
  ++ WriteCrystal.scalar env pfx "alpha" "units:degree" (v 3)
  ++ WriteCrystal.scalar env pfx "beta" "units:degree" (v 4)
  ++ WriteCrystal.scalar env pfx "gamma" "units:degree" (v 5)
  ++ (match cell.group with
      | some group =>
        [WriterEvent.StartElementNS pfx "symmetry" none,
         WriterEvent.WriteAttribute "spaceGroup" group.HallName]
        ++ (group.transforms.map fun t => WriteElement "transform3" (t ++ " 0 0 0 1")).flatten
        ++ [WriterEvent.EndElement]
      | none =>
        if cell.SpaceGroupName.length ≠ 0 then
          [WriterEvent.StartElementNS pfx "symmetry" none,
           WriterEvent.WriteAttribute "spaceGroup" cell.SpaceGroupName,
           WriterEvent.EndElement]
        else [])
  ++ [WriterEvent.EndElement]

/-- One `<metadata>` of `WriteMetadataList`. -/
def WriteMetadataList.item (name content : String) : List WriterEvent :=
  [WriterEvent.StartElementNS none "metadata" none,
   WriterEvent.WriteAttribute "name" name,
   WriterEvent.WriteAttribute "content" content,
   WriterEvent.EndElement]

/-- `CMLFormat::WriteMetadataList`. -/
def WriteMetadataList (env : Env) : List WriterEvent :=
  [WriterEvent.StartElementNS none "metadataList" none,
   WriterEvent.WriteAttribute "title" "generated by OpenBabel"]
  ++ WriteMetadataList.item "dc:creator" ("OpenBabel version " ++ env.BABEL_VERSION)
  ++ WriteMetadataList.item "dc:description" "Conversion of legacy filetype to CML"
  ++ WriteMetadataList.item "dc:type" "chemistry"
  ++ WriteMetadataList.item "dc:contributor" "unknown"
  ++ WriteMetadataList.item "dc:date" env.timestr
  ++ WriteMetadataList.item "cmlm:structure" "yes"
  ++ [WriterEvent.EndElement]

/-- `CMLFormat::WriteInChI`: the identifier element, when the molecule has pair data
with the attribute `InChI`. -/
def WriteInChI (pfx : Option String) (mol : OBMol) : List WriterEvent :=
  match mol.data.findSome? (fun d =>
      match d with
      | OBGenericData.PairData a v => if a == "InChI" then some v else none
      | _ => none) with
  | some v =>
    [WriterEvent.StartElementNS pfx "identifier" none,
     WriterEvent.WriteAttribute "convention" "iupac:inchi",
     WriterEvent.WriteAttribute "value" v,
     WriterEvent.EndElement]
  | none => []

/-- The start of the property list, written before the first property. -/
def openPropertyList (pfx : Option String) (propertyListWritten : Bool) : List WriterEvent :=
  if propertyListWritten then [] else [WriterEvent.StartElementNS pfx "propertyList" none]

/-- `CMLFormat::WriteThermo` for the thermo data of the molecule. -/
def WriteThermo (env : Env) (pfx : Option String) (d : OBGenericData) (propertyListWritten : Bool) :
    List WriterEvent :=
  match d with
  | OBGenericData.NasaThermoData lo hi mid coeffs phase =>
    let scalar := fun (ref text : String) =>
      [WriterEvent.StartElementNS pfx "scalar" none, WriterEvent.WriteAttribute "dictRef" ref,
       WriterEvent.WriteString text, WriterEvent.EndElement]
    openPropertyList pfx propertyListWritten
    ++ [WriterEvent.StartElementNS pfx "property" none,
        WriterEvent.WriteAttribute "dictRef" "Thermo_OldNasa"]
    ++ scalar "NasaLowT" (env.formatDbl "%.1f" lo)
    ++ scalar "NasaHighT" (env.formatDbl "%.1f" hi)
    ++ scalar "NasaMidT" (env.formatDbl "%.1f" mid)
    ++ scalar "Phase" (String.mk [phase])
    ++ [WriterEvent.StartElementNS pfx "array" none,
        WriterEvent.WriteAttribute "dictRef" "NasaCoeffs",
        WriterEvent.WriteAttribute "size" "14"]
    ++ ((List.range 14).map fun i => WriterEvent.WriteString (env.formatDbl " %e" (coeffs.getD i Dbl.zero)))
    ++ [WriterEvent.EndElement, WriterEvent.EndElement]
  | _ => []

/-- `CMLFormat::WriteVibrationData`. -/
def WriteVibrationData (env : Env) (pfx : Option String) (frequencies : List Dbl) : List WriterEvent :=
  [WriterEvent.StartElementNS pfx "property" none,
   WriterEvent.WriteAttribute "title" "Vibrational Frequencies",
   WriterEvent.WriteAttribute "dictRef" "me:vibFreqs",
   WriterEvent.StartElementNS pfx "array" none,
   WriterEvent.WriteAttribute "units" "cm-1"]
  ++ (frequencies.map fun v => WriterEvent.WriteString (env.formatDbl "%.lf " v))
  ++ [WriterEvent.EndElement, WriterEvent.EndElement]

/-- `CMLFormat::WriteRotationData`. -/
def WriteRotationData (env : Env) (pfx : Option String) (rotConsts : List Dbl) (symmetryNumber : Int) :
    List WriterEvent :=
  [WriterEvent.StartElementNS pfx "property" none,
   WriterEvent.WriteAttribute "title" "Rotational Constants",
   WriterEvent.WriteAttribute "dictRef" "me:rotConsts",
   WriterEvent.StartElementNS pfx "array" none,
   WriterEvent.WriteAttribute "units" "cm-1"]
  ++ (((List.range 3).map fun i => rotConsts.getD i Dbl.zero).filter env.IsNonZero).map
      (fun v => WriterEvent.WriteString (env.formatDbl "%.1f " (Dbl.div30 v)))
  ++ [WriterEvent.EndElement, WriterEvent.EndElement,
      WriterEvent.StartElementNS pfx "property" none,
      WriterEvent.WriteAttribute "title" "Symmetry Number",
      WriterEvent.WriteAttribute "dictRef" "me:symmetryNumber",
      WriterEvent.StartElementNS pfx "scalar" none,
      WriterEvent.WriteString (intToDec symmetryNumber ++ " "),
      WriterEvent.EndElement, WriterEvent.EndElement]

/-- The loop of `WriteProperties` over the data of the molecule; returns the events
and the new value of `propertyListWritten`. -/
def WriteProperties.loop (pfx : Option String) : List OBGenericData → Bool → List WriterEvent × Bool
  | [], w => ([], w)
  | OBGenericData.PairData a v :: rest, w =>
    if a != "InChI" && a != "PartialCharges" then
      let r := WriteProperties.loop pfx rest true
      (openPropertyList pfx w
        ++ [WriterEvent.StartElementNS pfx "property" none,
            WriterEvent.WriteAttribute "title" a,
            WriterEvent.StartElementNS pfx "scalar" none,
            WriterEvent.WriteString v,
            WriterEvent.EndElement, WriterEvent.EndElement]
        ++ r.1, r.2)
    else WriteProperties.loop pfx rest w
  | _ :: rest, w => WriteProperties.loop pfx rest w

/-- `CMLFormat::WriteProperties`. -/
def WriteProperties (env : Env) (pfx : Option String) (mol : OBMol) (propertyListWritten : Bool) :
    List WriterEvent × Bool :=
  let r := WriteProperties.loop pfx mol.data propertyListWritten
  (r.1
    ++ (match mol.data.findSome? (fun d =>
          match d with
          | OBGenericData.VibrationData fr => some fr
          | _ => none) with
        | some fr => WriteVibrationData env pfx fr
        | none => [])
    ++ (match mol.data.findSome? (fun d =>
          match d with
          | OBGenericData.RotationData rc sn => some (rc, sn)
          | _ => none) with
        | some rd => WriteRotationData env pfx rd.1 rd.2
        | none => []),
   r.2)

/-- The text a stream holds after ` << " " << token` for each token in turn. -/
def spaced (tokens : List String) : String :=
  String.mk (tokens.flatMap fun t => ' ' :: t.data)

/-- An element with one attribute `builtin` and a text content, as the CML1 forms
write it. -/
def builtinElement (pfx : Option String) (element builtin content : String) : List WriterEvent :=
  [WriterEvent.StartElementNS pfx element none,
   WriterEvent.WriteAttribute "builtin" builtin,
   WriterEvent.WriteString content,
   WriterEvent.EndElement]

/-- What `WriteMolecule` reads from one atom before it writes it. -/
structure AtomOut where
  idx : Int
  id : String
  el : String
  charge : Int
  spin : Int
  isotope : Int
  hcount : Int
  X : Dbl
  Y : Dbl
  Z : Dbl
  cfg : Int
  refs : Option (List Int)

/-- The element symbol `WriteMolecule` writes for an atomic number. -/
def elementSymbol (env : Env) (AtomicNum : Int) : String :=
  if env.GetSymbol AtomicNum == "Xx" then "R" else env.GetSymbol AtomicNum

/-- The values `WriteMolecule` collects for the atom `a` of index `idx`; with a unit
cell the coordinates are converted to fractional ones. -/
def atomOut (env : Env) (mol : OBMol) (cell : Option OBUnitCell) (atomIDs : List String)
    (idx : Int) (a : OBAtom) : AtomOut :=
  { idx := idx, id := idAt atomIDs idx, el := elementSymbol env a.AtomicNum,
    charge := a.FormalCharge, spin := a.SpinMultiplicity, isotope := a.Isotope,
    hcount := env.HydrogenCount mol idx,
    X := match cell with
      | some c => Dbl.fract 0 c.vals a.Vector.x a.Vector.y a.Vector.z
      | none => a.Vector.x,
    Y := match cell with
      | some c => Dbl.fract 1 c.vals a.Vector.x a.Vector.y a.Vector.z
      | none => a.Vector.y,
    Z := match cell with
      | some c => Dbl.fract 2 c.vals a.Vector.x a.Vector.y a.Vector.z
      | none => a.Vector.z,
    cfg := if a.PositiveStereo || a.Clockwise then 1
           else if a.NegativeStereo || a.AntiClockwise then -1 else 0,
    refs := a.Atom4Refs }

/-- The `atomParity` child of an atom element in the CML2 individual layout. -/
def WriteMolecule.atomParity (pfx : Option String) (atomIDs : List String) (o : AtomOut) :
    List WriterEvent :=
  if o.cfg ≠ 0 then
    match o.refs with
    | some ref =>
      let ref := ref ++ List.replicate (4 - ref.length) o.idx
      [WriterEvent.StartElementNS pfx "atomParity" none,
       WriterEvent.WriteAttribute "atomRefs4"
         (idAt atomIDs (ref.getD 0 0) ++ " " ++ idAt atomIDs (ref.getD 1 0) ++ " "
           ++ idAt atomIDs (ref.getD 2 0) ++ " " ++ idAt atomIDs (ref.getD 3 0)),
       WriterEvent.WriteString (intToDec o.cfg),
       WriterEvent.EndElement]
    | none => []
  else []

/-- The names of the 3-D coordinate attributes: fractional with a unit cell. -/
def coordNames3 (fractional : Bool) : String × String × String :=
  if fractional then ("xFract", "yFract", "zFract") else ("x3", "y3", "z3")

/-- One atom element in the individual layout of `WriteMolecule`. -/
def WriteMolecule.atom (env : Env) (pfx : Option String) (cml1 UseHydrogenCount fractional : Bool)
    (dim : Int) (atomIDs : List String) (o : AtomOut) : List WriterEvent :=
  [WriterEvent.StartElementNS pfx "atom" none, WriterEvent.WriteAttribute "id" o.id]
  ++ (if !cml1 then
        [WriterEvent.WriteAttribute "elementType" o.el]
        ++ (if o.isotope ≠ 0 then [WriterEvent.WriteAttribute "isotope" (intToDec o.isotope)] else [])
        ++ (if o.charge ≠ 0 then [WriterEvent.WriteAttribute "formalCharge" (intToDec o.charge)] else [])
        ++ (if o.spin ≠ 0 then [WriterEvent.WriteAttribute "spinMultiplicity" (intToDec o.spin)] else [])
        ++ (if UseHydrogenCount ∧ o.hcount ≠ 0 then
              [WriterEvent.WriteAttribute "hydrogenCount" (intToDec o.hcount)] else [])
        ++ (if dim = 2 then
              [WriterEvent.WriteAttribute "x2" (env.formatDbl "%f" o.X),
               WriterEvent.WriteAttribute "y2" (env.formatDbl "%f" o.Y)] else [])
        ++ (if dim = 3 then
              [WriterEvent.WriteAttribute (coordNames3 fractional).1 (env.formatDbl "%f" o.X),
               WriterEvent.WriteAttribute (coordNames3 fractional).2.1 (env.formatDbl "%f" o.Y),
               WriterEvent.WriteAttribute (coordNames3 fractional).2.2 (env.formatDbl "%f" o.Z)] else [])
        ++ WriteMolecule.atomParity pfx atomIDs o
      else
        builtinElement pfx "string" "elementType" o.el
        ++ (if o.charge ≠ 0 then builtinElement pfx "integer" "formalCharge" (intToDec o.charge) else [])
        ++ (if UseHydrogenCount ∧ o.hcount ≠ 0 then
              builtinElement pfx "integer" "hydrogenCount" (intToDec o.hcount) else [])
        ++ (if dim = 2 ∨ dim = 3 then
              builtinElement pfx "floatg" ("x" ++ intToDec dim) (env.formatDbl "%f" o.X)
              ++ builtinElement pfx "floatg" ("y" ++ intToDec dim) (env.formatDbl "%f" o.Y) else [])
        ++ (if dim = 3 then
              builtinElement pfx "floatg" ("z" ++ intToDec dim) (env.formatDbl "%f" o.Z) else []))
  ++ [WriterEvent.EndElement]

/-- What `WriteMolecule` writes into the `atomArray` element in the array layout,
after the loop over the atoms has filled the streams. -/
def WriteMolecule.atomArrays (env : Env) (pfx : Option String) (cml1 UseHydrogenCount fractional : Bool)
    (dim : Int) (os : List AtomOut) : List WriterEvent :=
  let id := spaced (os.map (·.id))
  let eltyp := spaced (os.map (·.el))
  let iso := spaced (os.map fun o => intToDec o.isotope)
  let chg := spaced (os.map fun o => intToDec o.charge)
  let spn := spaced (os.map fun o => intToDec o.spin)
  let hct := spaced (os.map fun o => intToDec o.hcount)
  let x := spaced (os.map fun o => env.streamDbl o.X)
  let y := spaced (os.map fun o => env.streamDbl o.Y)
  let z := spaced (os.map fun o => env.streamDbl o.Z)
  let anyChg := os.any fun o => o.charge != 0
  let anySpin := os.any fun o => o.spin != 0
  let anyIsotope := os.any fun o => o.isotope != 0
  if !cml1 then
    [WriterEvent.WriteAttribute "atomID" id, WriterEvent.WriteAttribute "elementType" eltyp]
    ++ (if anyIsotope then [WriterEvent.WriteAttribute "isotope" iso] else [])
    ++ (if anyChg then [WriterEvent.WriteAttribute "formalCharge" chg] else [])
    ++ (if anySpin then [WriterEvent.WriteAttribute "spinMultiplicity" spn] else [])
    ++ (if UseHydrogenCount then [WriterEvent.WriteAttribute "hydrogenCount" hct] else [])
    ++ (if dim = 2 then [WriterEvent.WriteAttribute "x2" x, WriterEvent.WriteAttribute "y2" y] else [])
    ++ (if dim = 3 then
          [WriterEvent.WriteAttribute (coordNames3 fractional).1 x,
           WriterEvent.WriteAttribute (coordNames3 fractional).2.1 y,
           WriterEvent.WriteAttribute (coordNames3 fractional).2.2 z] else [])
  else
    builtinElement pfx "stringArray" "atomID" id
    ++ builtinElement pfx "stringArray" "elementType" eltyp
    ++ (if anyChg then builtinElement pfx "integerArray" "formalCharge" chg else [])
    ++ (if UseHydrogenCount then builtinElement pfx "integerArray" "hydrogenCount" hct else [])
    ++ (if dim = 2 ∨ dim = 3 then
          builtinElement pfx "floatArray" ("x" ++ intToDec dim) x
          ++ builtinElement pfx "floatArray" ("y" ++ intToDec dim) y else [])
    ++ (if dim = 3 then builtinElement pfx "floatArray" ("z" ++ intToDec dim) z else [])

/-- The order token of a bond in the individual CML2 layout and in the array
layouts: `A` for order 5, and for an aromatic bond when aromatic bonds are written
as such. -/
def orderText (env : Env) (WriteAromaticBonds : Bool) (mol : OBMol) (k : Nat) (b : OBBond) : String :=
  if b.BondOrder = 5 ∨ (WriteAromaticBonds ∧ env.IsAromatic mol k) then "A" else intToDec b.BondOrder

/-- One bond element in the individual layout of `WriteMolecule`, for the bond at
position `k`. -/
def WriteMolecule.bond (env : Env) (pfx : Option String) (cml1 WriteAromaticBonds : Bool) (mol : OBMol)
    (atomIDs : List String) (k : Nat) (b : OBBond) : List WriterEvent :=
  [WriterEvent.StartElementNS pfx "bond" none]
  ++ (if !cml1 then
        [WriterEvent.WriteAttribute "atomRefs2"
           (idAt atomIDs b.BeginAtomIdx ++ " " ++ idAt atomIDs b.EndAtomIdx),
         WriterEvent.WriteAttribute "order" (orderText env WriteAromaticBonds mol k b)]
        ++ (if b.BondOrder = 2 ∨ b.Wedge ∨ b.Hash then WriteBondStereo pfx mol k atomIDs else [])
      else
        builtinElement pfx "string" "atomRef" (idAt atomIDs b.BeginAtomIdx)
        ++ builtinElement pfx "string" "atomRef" (idAt atomIDs b.EndAtomIdx)
        ++ builtinElement pfx "string" "order" (intToDec b.BondOrder))
  ++ [WriterEvent.EndElement]

/-- What `WriteMolecule` writes into the `bondArray` element in the array layout. -/
def WriteMolecule.bondArrays (env : Env) (pfx : Option String) (cml1 WriteAromaticBonds : Bool)
    (mol : OBMol) (atomIDs : List String) : List WriterEvent :=
  let ref1 := spaced (mol.bonds.map fun b => idAt atomIDs b.BeginAtomIdx)
  let ref2 := spaced (mol.bonds.map fun b => idAt atomIDs b.EndAtomIdx)
  let ord := spaced (mol.bonds.enum.map fun kb => orderText env WriteAromaticBonds mol kb.1 kb.2)
  if !cml1 then
    [WriterEvent.WriteAttribute "atomRef1" ref1, WriterEvent.WriteAttribute "atomRef2" ref2,
     WriterEvent.WriteAttribute "order" ord]
  else
    builtinElement pfx "stringArray" "atomRef" ref1
    ++ builtinElement pfx "stringArray" "atomRef" ref2
    ++ builtinElement pfx "stringArray" "order" ord

/-- The identifier `WriteMolecule` writes for a title: a path and, with it, the
extension are removed, and `id` is put before a name that does not begin with a
letter. -/
def moleculeId (title : String) : String :=
  let name := title.data
  let name :=
    if name.any (fun c => c == '/' || c == '\\' || c == ':') then
      let name := (name.reverse.takeWhile fun c => !(c == '/' || c == '\\' || c == ':')).reverse
      if name.contains '.' then ((name.reverse.dropWhile (· != '.')).drop 1).reverse else name
    else name
  if !isalpha (name.headD (Char.ofNat 0)) then String.mk ("id".data ++ name) else String.mk name

/-- The atom block of `WriteMolecule`. -/
def WriteMolecule.atoms (env : Env) (conv : OBConversion) (mol : OBMol) (cell : Option OBUnitCell)
    (numbonds : Int) (UseFormulaWithNoBonds : Bool) (dim : Int) (atomIDs : List String) :
    List WriterEvent :=
  if mol.NumAtoms > 0 then
    if numbonds = 0 ∧ UseFormulaWithNoBonds ∧ !env.Has2D mol then WriteFormula env conv.outN mol
    else
      let dim := if cell.isSome then 3 else dim
      let os := mol.atoms.enum.map fun ia => atomOut env mol cell atomIDs ((ia.1 + 1 : Nat) : Int) ia.2
      [WriterEvent.StartElementNS conv.outN "atomArray" none]
      ++ (if conv.outa then
            WriteMolecule.atomArrays env conv.outN conv.out1 conv.outh cell.isSome dim os
          else
            os.flatMap (WriteMolecule.atom env conv.outN conv.out1 conv.outh cell.isSome dim atomIDs))
      ++ [WriterEvent.EndElement]
  else []

/-- The bond block of `WriteMolecule`. -/
def WriteMolecule.bonds (env : Env) (conv : OBConversion) (mol : OBMol) (atomIDs : List String) :
    List WriterEvent :=
  if mol.NumBonds > 0 then
    [WriterEvent.StartElementNS conv.outN "bondArray" none]
    ++ (if conv.outa then WriteMolecule.bondArrays env conv.outN conv.out1 conv.outA mol atomIDs
        else mol.bonds.enum.flatMap fun kb =>
          WriteMolecule.bond env conv.outN conv.out1 conv.outA mol atomIDs kb.1 kb.2)
    ++ [WriterEvent.EndElement]
    ++ (if conv.outa then
          mol.bonds.enum.flatMap fun kb =>
            if kb.2.BondOrder = 2 ∨ kb.2.Wedge ∨ kb.2.Hash then WriteBondStereo conv.outN mol kb.1 atomIDs
            else []
        else [])
  else []

/-- `CMLFormat::WriteMolecule` for a molecule object: the calls it makes on the
writer and the messages it logs; it returns true. `title` is the title of the
molecule that `_pmol` points to. -/
def WriteMolecule (env : Env) (conv : OBConversion) (title : String) (pmol : OBMol) :
    List WriterEvent × List LogEntry :=
  let cml1 := conv.out1
  let header := !conv.MolsNotStandalone && conv.OutputIndex == 1
  let uri0 : Option String :=
    if header && !conv.outx then
      some (if cml1 then "http://www.xml-cml.org/dtd/cml_1_0_1.dtd" else "http://www.xml-cml.org/schema")
    else none
  let numbonds := pmol.NumBonds
  let mol := if conv.outh then env.DeleteHydrogens pmol else pmol
  let dim := mol.Dimension
  let smult := env.GetTotalSpinMultiplicity mol
  let cell : Option OBUnitCell :=
    if !cml1 then
      mol.data.findSome? fun d =>
        match d with
        | OBGenericData.UnitCell c => some c
        | _ => none
    else none
  let ids := MakeAtomIds title mol
  let useIds := mol.NumAtoms > 0 ∧ ¬ (numbonds = 0 ∧ cell.isNone ∧ !env.Has2D mol)
  let atomIDs := if useIds then ids.1 else []
  let thermo := mol.data.find? fun d =>
    match d with
    | OBGenericData.NasaThermoData _ _ _ _ _ => true
    | _ => false
  let thermoEvents := match thermo with
    | some d => WriteThermo env conv.outN d false
    | none => []
  let props := if conv.outp then WriteProperties env conv.outN mol thermo.isSome else ([], thermo.isSome)
  ((if header && !conv.outx then [WriterEvent.StartDocument] else [])
   ++ (if header && !conv.IsLast then [WriterEvent.StartElementNS conv.outN "cml" uri0] else [])
   ++ [WriterEvent.StartElementNS conv.outN "molecule" (if header && !conv.IsLast then none else uri0)]
   ++ (if mol.Title.data ≠ [] then
         [WriterEvent.WriteAttribute "id" (moleculeId mol.Title)]
         ++ (if !isalpha (firstChar mol.Title) then
               [WriterEvent.StartElementNS conv.outN "name" none,
                WriterEvent.WriteString mol.Title, WriterEvent.EndElement]
             else [])
       else [])
   ++ (if smult ≠ 1 ∧ numbonds ≠ 0 then
         [WriterEvent.WriteAttribute "spinMultiplicity" (intToDec smult)] else [])
   ++ (if conv.outm ∧ conv.OutputIndex = 1 then WriteMetadataList env else [])
   ++ (match cell with
       | some c => WriteCrystal env conv.outN c
       | none => [])
   ++ WriteInChI conv.outN mol
   ++ WriteMolecule.atoms env conv mol cell numbonds cell.isNone dim atomIDs
   ++ WriteMolecule.bonds env conv mol atomIDs
   ++ thermoEvents
   ++ props.1
   ++ (if props.2 then [WriterEvent.EndElement] else [])
   ++ [WriterEvent.EndElement]
   ++ (if !conv.MolsNotStandalone && conv.IsLast then [WriterEvent.EndDocument] else []),
   if useIds then ids.2 else [])

/-! ## From the writer's calls to the nodes a reader visits -/

/-- State of the XML writer between two calls: nothing pending, a start tag that is
still open with the attributes written so far, or a text that is being written. -/
inductive WriterState
  | idle
  | startTag (name : String) (attrs : List Attr)
  | text (content : String)
  deriving DecidableEq

/-- The attribute that declares the namespace of an element written with a URI. -/
def nsAttrs (uri : Option String) : List Attr :=
  match uri with
  | some u => [("xmlns", u)]
  | none => []

/-- The nodes that are complete when the writer leaves the state `st` for a new
element, an end tag or the end of the document; `selfClose` tells whether an open
start tag is closed as a self-closing tag. -/
def flushState (st : WriterState) (selfClose : Bool) : List XmlNode :=
  match st with
  | WriterState.idle => []
  | WriterState.startTag m as => [XmlNode.element m as selfClose]
  | WriterState.text t => [XmlNode.text t]

/-- Worker of `toNodes`: `st` is the state of the writer and `stack` holds the names
of the elements that have content and are not yet closed. -/
def toNodesAux : List WriterEvent → WriterState → List String → List XmlNode
  | [], st, _ => flushState st false
  | WriterEvent.StartDocument :: rest, st, stack => toNodesAux rest st stack
  | WriterEvent.WriteAttribute k v :: rest, WriterState.startTag n as, stack =>
    toNodesAux rest (WriterState.startTag n (as ++ [(k, v)])) stack
  | WriterEvent.WriteAttribute _ _ :: rest, st, stack => toNodesAux rest st stack
  | WriterEvent.WriteString s :: rest, WriterState.startTag m as, stack =>
    XmlNode.element m as false ::
      toNodesAux rest (if s.data.isEmpty then WriterState.idle else WriterState.text s) (m :: stack)
  | WriterEvent.WriteString s :: rest, WriterState.text t, stack =>
    toNodesAux rest (WriterState.text (t ++ s)) stack
  | WriterEvent.WriteString s :: rest, WriterState.idle, stack =>
    toNodesAux rest (if s.data.isEmpty then WriterState.idle else WriterState.text s) stack
  | WriterEvent.StartElementNS _ n uri :: rest, WriterState.startTag m as, stack =>
    XmlNode.element m as false :: toNodesAux rest (WriterState.startTag n (nsAttrs uri)) (m :: stack)
  | WriterEvent.StartElementNS _ n uri :: rest, st, stack =>
    flushState st false ++ toNodesAux rest (WriterState.startTag n (nsAttrs uri)) stack
  | WriterEvent.EndElement :: rest, WriterState.startTag m as, stack =>
    XmlNode.element m as true :: toNodesAux rest WriterState.idle stack
  | WriterEvent.EndElement :: rest, st, n :: stack =>
    flushState st false ++ XmlNode.endElement n :: toNodesAux rest WriterState.idle stack
  | WriterEvent.EndElement :: rest, st, [] => flushState st false ++ toNodesAux rest WriterState.idle []
  | WriterEvent.EndDocument :: rest, st, stack =>
    flushState st true ++ stack.map XmlNode.endElement ++ toNodesAux rest WriterState.idle []

/-- The nodes that a streaming reader visits in the document the writer produces
from a sequence of calls, without formatting white space: an element closed right
after its attributes is a self-closing tag, texts written one after the other are
one text node, an attribute written outside a start tag is refused by the writer,
and the end of the document closes the open elements. Element names are local
names. -/
def toNodes (events : List WriterEvent) : List XmlNode :=
  toNodesAux events WriterState.idle []

end OpenBabel

namespace OpenBabel

/-! ## NWChem output format (`nwchemformat.cpp`) -/

/-- The input stream of the conversion: the characters that are not yet read and the
fail bit of the stream. -/
structure istream where
  chars : List Char
  fail : Bool := false
  deriving DecidableEq

/-- `istream::getline(buffer, n)` of the C++ library: the characters up to the next
newline are stored in the buffer and the newline is taken from the stream. The call
fails, and sets the fail bit, when the stream has already failed, when no character
is left, and when `n - 1` characters are stored without the newline being reached.
Returns the characters stored in the buffer and the stream after the call. -/
def istream.getline (s : istream) (n : Nat) : List Char × istream :=
  if s.fail || s.chars.isEmpty then ([], { s with fail := true })
  else
    let line := s.chars.takeWhile (· != '\n')
    if line.length + 1 ≤ n then
      (line, { chars := (s.chars.dropWhile (· != '\n')).drop 1, fail := false })
    else (s.chars.take (n - 1), { chars := s.chars.drop (n - 1), fail := true })

/-- The buffer read as a C string: the characters before the first NUL. -/
def cString (buffer : List Char) : List Char := buffer.takeWhile (· != Char.ofNat 0)

/-- The C library's `strstr(s, needle) != NULL`: `needle` occurs in `s`. -/
def strstr (s needle : List Char) : Bool := s.tails.any fun t => needle.isPrefixOf t

/-- Modelled from the spec: `OBMol::Clear()`, which leaves a molecule without atoms,
bonds, data and title. -/
def OBMol.Clear (_ : OBMol) : OBMol := {}

/-- The body of the inner loop of `NWChemOutputFormat::ReadMolecule`: a new atom with
the coordinates of the fourth to sixth token, read by `atof`, and the atomic number
of the second token. -/
def NWChemOutputFormat.newAtom (env : Env) (vs : List String) (mol : OBMol) : OBMol :=
  let mol := mol.NewAtom
  let atom := mol.atoms.length - 1
  let mol := mol.modifyAtom atom fun a =>
    { a with Vector := { x := Dbl.strtod (vs.getD 3 ""), y := Dbl.strtod (vs.getD 4 ""),
                         z := Dbl.strtod (vs.getD 5 "") } }
  mol.modifyAtom atom fun a => { a with AtomicNum := (env.GetAtomicNum (vs.getD 1 "")).1 }

/-- The inner loop of `NWChemOutputFormat::ReadMolecule`, `while (vs.size() == 6)`:
`vs` holds the tokens of the buffer. It is left when the buffer has not six tokens
and when `getline` fails. The result is `none` when the fuel runs out. -/
def NWChemOutputFormat.readAtoms (env : Env) (BUFF_SIZE : Nat) :
    Nat → List String → istream → OBMol → Option (OBMol × istream)
  | 0, _, _, _ => none
  | fuel + 1, vs, ifs, mol =>
    if vs.length = 6 then
      let mol := NWChemOutputFormat.newAtom env vs mol
      let r := ifs.getline BUFF_SIZE
      if r.2.fail then some (mol, r.2)
      else NWChemOutputFormat.readAtoms env BUFF_SIZE fuel (tokenize (String.mk (cString r.1))) r.2 mol
    else some (mol, ifs)

/-- The outer loop of `NWChemOutputFormat::ReadMolecule`,
`while (ifs.getline(buffer,BUFF_SIZE))`. After a line that contains `Output
coordinates` the molecule is cleared, three lines are read and dropped, and the
inner loop starts with the tokens of the fourth line. The result is `none` when the
fuel runs out. -/
def NWChemOutputFormat.readBlocks (env : Env) (BUFF_SIZE : Nat) : Nat → istream → OBMol → Option OBMol
  | 0, _, _ => none
  | fuel + 1, ifs, mol =>
    let r := ifs.getline BUFF_SIZE
    if r.2.fail then some mol
    else if strstr (cString r.1) "Output coordinates".data then
      let mol := mol.Clear
      let ifs := (r.2.getline BUFF_SIZE).2
      let ifs := (ifs.getline BUFF_SIZE).2
      let ifs := (ifs.getline BUFF_SIZE).2
      let r := ifs.getline BUFF_SIZE
      match NWChemOutputFormat.readAtoms env BUFF_SIZE (fuel + 1) (tokenize (String.mk (cString r.1)))
          r.2 mol with
      | none => none
      | some (mol, ifs) => NWChemOutputFormat.readBlocks env BUFF_SIZE fuel ifs mol
    else NWChemOutputFormat.readBlocks env BUFF_SIZE fuel r.2 mol

/-- `NWChemOutputFormat::ReadMolecule` for the molecule `pmol`, the stream of the
text `text` and the title of the conversion. `BUFF_SIZE` is the size of the line
buffer, a constant of the library; `ConnectTheDots` and `PerceiveBondOrders` are
routines of the graph object. Each pass of a loop takes at least one character from
the stream, so the fuel given to the loops is enough. -/
def NWChemOutputFormat.ReadMolecule (env : Env) (BUFF_SIZE : Nat)
    (ConnectTheDots PerceiveBondOrders : OBMol → OBMol) (title : String) (text : List Char)
    (pmol : OBMol) : Option (Bool × OBMol) :=
  match NWChemOutputFormat.readBlocks env BUFF_SIZE (text.length + 1) { chars := text } pmol with
  | none => none
  | some mol =>
    let mol := PerceiveBondOrders (ConnectTheDots mol)
    some (true, { mol with Title := title })

end OpenBabel

namespace OpenBabel

/-! ## Specification-side notions for bond records -/

/-- The order token of a bond record: the trimmed value of its last attribute named
`order`, if it has one. -/
def orderToken : List Attr → Option String
  | [] => none
  | a :: rest =>
    match orderToken rest with
    | some v => some v
    | none => if a.1 = "order" then some (Trim a.2) else none

/-- The reference attributes of a bond record: those whose name begins with
`atomRef`, in document order. -/
def refAttrs (record : List Attr) : List Attr :=
  record.filter fun a => startsWithAtomRef a.1

/-- A single identifier token: not empty and without white space. -/
def IsToken (s : String) : Prop := s.data ≠ [] ∧ ∀ c ∈ s.data, isDelim c = false

/-- The state of the variables of `DoBonds` once the record has been scanned. -/
def bondScan (env : Env) (f : CMLFormat) (HaveWarned : Bool) (record : List Attr) : BondVars :=
  DoBonds.scan (GetMolID env f) record
    { HaveWarned := HaveWarned, AtomMap := f.AtomMap, log := f.obErrorLog }

/-- The order that the attribute loop of `DoBonds` reads from an order value. -/
def ordOfToken (value : String) : Int :=
  if firstChar value == 'S' then 1
  else if firstChar value == 'D' then 2
  else if firstChar value == 'A' then 5
  else toInt32 (strtol value.data)

/-- The variables of the bond scan that the reference attributes determine. -/
def BondVars.refPart (s : BondVars) : Int × Int × Bool × Bool × AtomMapT × List LogEntry :=
  (s.indx1, s.indx2, s.PossibleBond, s.HaveWarned, s.AtomMap, s.log)

/-- The format object after `DoBonds` has added the bond of `record` with the given
order: the map and the log are those the scan of the record leaves. -/
def bondAdded (env : Env) (f : CMLFormat) (HaveWarned : Bool) (record : List Attr) (order : Int) :
    CMLFormat :=
  { f with AtomMap := (bondScan env f HaveWarned record).AtomMap,
           obErrorLog := (bondScan env f HaveWarned record).log,
           _pmol := f._pmol.AddBond (bondScan env f HaveWarned record).indx1
                      (bondScan env f HaveWarned record).indx2 order }

/-- A small periodic table for the worked examples. -/
def sampleEnv : Env :=
  { GetAtomicNum := fun s =>
      if s = "H" then (1, 0) else if s = "D" then (1, 2) else if s = "C" then (6, 0)
      else if s = "N" then (7, 0) else if s = "O" then (8, 0) else (0, 0),
    GetSymbol := fun n =>
      if n = 1 then "H" else if n = 6 then "C" else if n = 7 then "N" else if n = 8 then "O" else "Xx" }

/-- A format object whose map knows the atoms `a1`, `a2` and `a3` of a three-atom
molecule. -/
def sampleFormat : CMLFormat :=
  { AtomMap := [("a1", 1), ("a2", 2), ("a3", 3)],
    _pmol := { atoms := [{ AtomicNum := 6 }, { AtomicNum := 1 }, { AtomicNum := 1 }] } }

/-- The format object that a handler returns, if it returns. -/
def stateOf (r : Except String (Bool × CMLFormat)) : Option CMLFormat :=
  match r with
  | Except.ok (_, f) => some f
  | Except.error _ => none

/-- The value that a handler returns, if it returns. -/
def returnOf (r : Except String (Bool × CMLFormat)) : Option Bool :=
  match r with
  | Except.ok (b, _) => some b
  | Except.error _ => none

/-- The molecule that reading a document from its start produces, if the reading
returns: the nodes are read by `ReadXML` with enough fuel for all of them. -/
def readDocument (env : Env) (conv : OBConversion) (nodes : List XmlNode) : Option OBMol :=
  match ReadXML env (nodes.length + 1) { _pxmlConv := conv, reader := { pending := nodes } } with
  | Except.ok f => some f._pmol
  | Except.error _ => none

/-- The molecule read back from what `WriteMolecule` emits for `mol`, if the reading
returns. -/
def roundTrip (env : Env) (conv : OBConversion) (mol : OBMol) : Option OBMol :=
  readDocument env conv (toNodes (WriteMolecule env conv mol.Title mol).1)

/-- A spaced formula for molecules over H, C, N and O, in the order C, H, N, O, each
symbol followed by its count. -/
def sampleFormula (mol : OBMol) : String :=
  String.join (([(6, "C"), (1, "H"), (7, "N"), (8, "O")] : List (Int × String)).map fun e =>
    if (mol.atoms.filter fun a => a.AtomicNum == e.1).length = 0 then ""
    else e.2 ++ " " ++ intToDec (mol.atoms.filter fun a => a.AtomicNum == e.1).length ++ " ")

end OpenBabel

namespace OpenBabel

/-- Names of the attributes of an atom record that change neither the atom list's
atomic numbers, nor the bonds, nor the identifier map, nor the atom count. -/
def InertName (n : String) : Prop :=
  n ≠ "id" ∧ n ≠ "atomId" ∧ n ≠ "atomID" ∧ n ≠ "elementType" ∧ n ≠ "atomRefs4" ∧ n ≠ "hydrogenCount"

instance InertName.decidable (n : String) : Decidable (InertName n) := by
  unfold InertName
  exact inferInstance

/-- The part of the variables of `DoAtoms` that the round trip looks at is the same
in `s` and `t`. -/
def AtomVars.Same (s t : AtomVars) : Prop :=
  t.mol.atoms.map (·.AtomicNum) = s.mol.atoms.map (·.AtomicNum) ∧ t.mol.bonds = s.mol.bonds
  ∧ t.AtomMap = s.AtomMap ∧ t.nAtoms = s.nAtoms

/-- The identifier that `MakeAtomIds` gives to the atom of index `i` when the
molecule has no atom class data. -/
def atomId (i : Nat) : String := String.mk ('a' :: natToDec i)

/-- The map after the identifiers `ids` have been assigned, in order, the indices
`k`, `k + 1`, ... -/
def mapSetAll : AtomMapT → List String → Int → AtomMapT
  | m, [], _ => m
  | m, id :: ids, k => mapSetAll (mapSet m id k) ids (k + 1)

/-- An atom record that begins with an identifier and an element type: the name of
the identifier attribute, the identifier, the element symbol and the attributes
that follow. -/
abbrev PlainAtom := String × String × String × List Attr

/-- The attribute record of a plain atom. -/
def PlainAtom.record (r : PlainAtom) : List Attr :=
  (r.1, r.2.1) :: ("elementType", r.2.2.1) :: r.2.2.2

/-- A plain atom is well formed: its identifier attribute is `id` or `atomID`, the
identifier is one token and the attributes after the element type are inert. -/
def PlainAtom.Ok (r : PlainAtom) : Prop :=
  (r.1 = "id" ∨ r.1 = "atomID") ∧ IsToken r.2.1 ∧ ∀ a ∈ r.2.2.2, InertName a.1

end OpenBabel

namespace OpenBabel

/-! ## Reading a written molecule: states and runs -/

/-- The format object `f` with the reader before the nodes `nodes`. -/
def CMLFormat.onNodes (f : CMLFormat) (nodes : List XmlNode) : CMLFormat :=
  { f with reader := { pending := nodes } }

/-- The format object inside the outermost molecule element of a document without
crystal, property or stereo elements: the molecule read so far, the two arrays, the
array flag and the record of the current atom or bond element. -/
def rdState (conv : OBConversion) (m : OBMol) (A B : cmlArray) (inB : Bool) (cba : List Attr) :
    CMLFormat :=
  { _pxmlConv := conv, _pmol := m, AtomArray := A, BondArray := B, inBondArray := inB,
    cmlBondOrAtom := cba, _embedlevel := 0 }

/-- The molecule of the format object that `ReadXML` returns, if it returns. -/
def molOf (r : Except String CMLFormat) : Option OBMol :=
  match r with
  | Except.ok f => some f._pmol
  | Except.error _ => none

/-- `ReadXML`, started from `f` before the nodes `ns` with fuel for all of them, goes
on as from `g` before the nodes `ms`, again with fuel for all of them. -/
def Steps (env : Env) (f : CMLFormat) (ns : List XmlNode) (g : CMLFormat) (ms : List XmlNode) : Prop :=
  ∀ fuel, ns.length < fuel →
    ∃ fuel', ms.length < fuel' ∧
      molOf (ReadXML env fuel (f.onNodes ns)) = molOf (ReadXML env fuel' (g.onNodes ms))

/-- `ReadXML`, started from `f` before the nodes `ns` with fuel for all of them,
returns with the molecule `m`. -/
def Halts (env : Env) (f : CMLFormat) (ns : List XmlNode) (m : OBMol) : Prop :=
  ∀ fuel, ns.length < fuel → molOf (ReadXML env fuel (f.onNodes ns)) = some m

/-- The array `A` holds one plain atom record for each of the identifiers `ids`, in
order, with the element symbols `els`. -/
def PlainRecs (ids els : List String) (A : cmlArray) : Prop :=
  ∃ recs : List PlainAtom, A = recs.map PlainAtom.record ∧ (∀ r ∈ recs, r.Ok)
    ∧ recs.map (·.2.1) = ids ∧ recs.map (·.2.2.1) = els

/-- The bond `AddBond` makes from the endpoints and the order of `b`, without flags. -/
def OBBond.plain (b : OBBond) : OBBond :=
  { BeginAtomIdx := b.BeginAtomIdx, EndAtomIdx := b.EndAtomIdx, BondOrder := b.BondOrder }

/-- The record `rec` is one of the written forms of the bond `b`: a two-token
reference or two single references whose tokens the map `m` resolves to the
endpoints of `b`, followed by an order attribute whose token reads as the order of
`b`, which is not 0. -/
def PlainBond (m : AtomMapT) (rec : List Attr) (b : OBBond) : Prop :=
  ∃ p q tok, IsToken p ∧ IsToken q ∧ m.lookup p = some b.BeginAtomIdx
    ∧ m.lookup q = some b.EndAtomIdx ∧ 0 < b.BeginAtomIdx ∧ 0 < b.EndAtomIdx
    ∧ ordOfToken (Trim tok) = b.BondOrder ∧ b.BondOrder ≠ 0
    ∧ (rec = [("atomRefs2", p ++ " " ++ q), ("order", tok)]
        ∨ rec = [("atomRef1", p), ("atomRef2", q), ("order", tok)]
        ∨ rec = [("atomRef", p), ("atomRef", q), ("order", tok)])

/-- The record `TransferElement` makes of the attributes of an element. -/
def trimmed (as : List Attr) : List Attr := as.map fun nv => (nv.1, Trim nv.2)

/-- The array `TransferArray` makes of `arr` and the attributes of an element. -/
def distributed (arr : cmlArray) (as : List Attr) : cmlArray :=
  as.foldl (fun a (nv : Attr) => pushItems a nv.1 (tokenize nv.2)) arr

/-- The attributes that a sequence of writer calls writes. -/
def attrsOf : List WriterEvent → List Attr
  | [] => []
  | WriterEvent.WriteAttribute k v :: rest => (k, v) :: attrsOf rest
  | _ :: rest => attrsOf rest

/-- Every call of `evs` writes an attribute, and `P` holds of its name and value. -/
def EvsSat (P : String → String → Prop) (evs : List WriterEvent) : Prop :=
  ∀ e ∈ evs, ∃ k v, e = WriterEvent.WriteAttribute k v ∧ P k v

/-- Reading the nodes of the writer calls `evs`, made between two elements, takes the
format object `f` to `g`, whatever is written afterwards. -/
def Runs (env : Env) (evs : List WriterEvent) (f g : CMLFormat) : Prop :=
  ∀ rest stack, Steps env f (toNodesAux (evs ++ rest) WriterState.idle stack) g
    (toNodesAux rest WriterState.idle stack)

/-- Reading the nodes of the writer calls `evs` inside `atomArray` keeps the atom
array an array of plain records for the identifiers `ids` and the symbols `els`. -/
def Keeps (env : Env) (conv : OBConversion) (m : OBMol) (B : cmlArray) (cba : List Attr)
    (ids els : List String) (evs : List WriterEvent) : Prop :=
  ∀ A, PlainRecs ids els A →
    ∃ A', PlainRecs ids els A' ∧ Runs env evs (rdState conv m A B false cba) (rdState conv m A' B false cba)

/-- The bond `b` can be written and read back: the identifiers of its endpoints are
tokens that the map `M` resolves to the endpoints, which are positive, and its order
is a value of the type `int` other than 0. -/
def GoodBond (M : AtomMapT) (atomIDs : List String) (b : OBBond) : Prop :=
  IsToken (idAt atomIDs b.BeginAtomIdx) ∧ IsToken (idAt atomIDs b.EndAtomIdx)
  ∧ M.lookup (idAt atomIDs b.BeginAtomIdx) = some b.BeginAtomIdx
  ∧ M.lookup (idAt atomIDs b.EndAtomIdx) = some b.EndAtomIdx
  ∧ 0 < b.BeginAtomIdx ∧ 0 < b.EndAtomIdx ∧ b.BondOrder ≠ 0
  ∧ -2147483648 ≤ b.BondOrder ∧ b.BondOrder < 2147483648

/-- A graph with a double bond between a carbon atom and an oxygen atom and a single
bond between the carbon atom and a hydrogen atom. -/
def sampleGraph : OBMol :=
  { atoms := [{ AtomicNum := 6 }, { AtomicNum := 8 }, { AtomicNum := 1 }],
    bonds := [{ BeginAtomIdx := 1, EndAtomIdx := 2, BondOrder := 2 },
              { BeginAtomIdx := 1, EndAtomIdx := 3, BondOrder := 1 }] }

end OpenBabel

namespace OpenBabel

/-! ## Specification-side notions for coordinates, formulas and stereo descriptors -/

/-- The coordinates and the dimension that `DoAtoms` leaves, if it returns: the
vector of each atom in order and the dimension of the molecule. -/
def coordsOf (r : Except String (Bool × CMLFormat)) : Option (List vector3 × Int) :=
  (stateOf r).map fun f => (f._pmol.atoms.map (·.Vector), f._pmol.Dimension)

/-- A radical with the title `title`: a carbon and an oxygen atom joined by a single
bond, with total spin multiplicity 3. -/
def sampleRadical (title : String) : OBMol :=
  { Title := title, TotalSpinMultiplicity := some 3,
    atoms := [{ AtomicNum := 6 }, { AtomicNum := 8 }],
    bonds := [{ BeginAtomIdx := 1, EndAtomIdx := 2, BondOrder := 1 }] }

/-- Names of the 3-D Cartesian coordinate attributes. -/
def is3D (n : String) : Bool := n == "x3" || n == "y3" || n == "z3" || n == "xyz3"

/-- Names of the 2-D coordinate attributes. -/
def is2D (n : String) : Bool := n == "x2" || n == "y2" || n == "z2" || n == "xy2"

/-- Names of the fractional coordinate attributes. -/
def isFract (n : String) : Bool := n == "xFract" || n == "yFract" || n == "zFract"

/-- The dimension an atom record implies, in the spec's words: 3-D coordinates take
precedence over 2-D ones, unless the option `2` asks for the 2-D ones and both are
present; 2-D coordinates take precedence over fractional ones, and fractional
coordinates count only with a unit cell; 3 for 3-D or fractional coordinates, 2 for
2-D ones, 0 without coordinates. -/
def impliedDim (use2d hasCell : Bool) (record : List Attr) : Int :=
  if record.any (fun a => is3D a.1) && !(use2d && record.any (fun a => is2D a.1)) then 3
  else if record.any (fun a => is2D a.1) then 2
  else if hasCell && record.any (fun a => isFract a.1) then 3
  else 0

/-- The three flags `using3`, `using2` and `usingFract` of `DoAtoms`. -/
def AtomVars.flags (s : AtomVars) : Bool × Bool × Bool := (s.using3, s.using2, s.usingFract)

/-- What one attribute other than `atomRefs4` does to the variables of `DoAtoms` in
the attribute loop. -/
def DoAtoms.step (env : Env) (molID : String) (use2d hasCell : Bool) (pAtom : Nat) (nhvy : Int)
    (s : AtomVars) (a : Attr) : AtomVars :=
  if a.1 == "id" || a.1 == "atomId" || a.1 == "atomID" then DoAtoms.setId molID nhvy (Trim a.2) s
  else if a.1 == "elementType" then DoAtoms.setElement env pAtom a.2 s
  else DoAtoms.other pAtom a.1 a.2 (DoAtoms.readCoords a.1 a.2 (DoAtoms.chooseCoords use2d hasCell a.1 s))

/-- What one attribute name does to the three flags. -/
def nextFlags (use2d hasCell : Bool) (u : Bool × Bool × Bool) (p3 p2 pF : Bool) : Bool × Bool × Bool :=
  if p3 && !use2d then (true, u.2.1, false)
  else if p2 && !u.1 then (u.1, true, false)
  else if hasCell && !u.1 && !u.2.1 && pF then (u.1, u.2.1, true)
  else u

/-- The dimension `DoAtoms` takes from the three flags. -/
def flagsDim (u : Bool × Bool × Bool) : Int := if u.1 || u.2.2 then 3 else if u.2.1 then 2 else 0

/-- The dimension for flags `u` and a rest of the record in which a 3-D, a 2-D or a
fractional attribute name occurs (`a3`, `a2`, `aF`). -/
def restDim (use2d hasCell : Bool) (u : Bool × Bool × Bool) (a3 a2 aF : Bool) : Int :=
  if u.1 || (!use2d && a3) then 3
  else if u.2.1 || a2 then 2
  else if u.2.2 || (hasCell && aF) then 3
  else 0

/-- The claimed dimension of an AtomArray: the maximum over its records of the
dimension each record implies. -/
def maxDim (use2d hasCell : Bool) (recs : List (List Attr)) : Int :=
  (recs.map (impliedDim use2d hasCell)).foldl max 0

/-- Number of atoms that one pass of the atom loop of `DoAtoms` creates for a record:
the atom of the record and the hydrogens of its `hydrogenCount` attributes. -/
def atomsCreated (record : List Attr) : Nat :=
  1 + (record.map fun a => if a.1 == "hydrogenCount" then (atoi a.2).toNat else 0).sum

/-- The atom at position `k` of the molecule exists and has the coordinates `v`. -/
def VecAt (mol : OBMol) (k : Nat) (v : vector3) : Prop :=
  (mol.atoms[k]?).map (·.Vector) = some v

/-- No coordinate set is chosen and no coordinate is read yet. -/
def AtomVars.Unset (s : AtomVars) : Prop :=
  s.using3 = false ∧ s.using2 = false ∧ s.usingFract = false
    ∧ s.x = Dbl.zero ∧ s.y = Dbl.zero ∧ s.z = Dbl.zero

/-- A document with one molecule whose only atom declares fractional coordinates
and stands before a `crystal` element with `n` scalars of value 10. -/
def fractionalBeforeCrystal (n : Nat) : List XmlNode :=
  [XmlNode.element "molecule" [] false,
   XmlNode.element "atomArray" [] false,
   XmlNode.element "atom"
     [("id", "a1"), ("elementType", "C"), ("xFract", "0.5"), ("yFract", "0.5"), ("zFract", "0.5")] true,
   XmlNode.endElement "atomArray",
   XmlNode.element "crystal" [] false]
  ++ (List.replicate n
      [XmlNode.element "scalar" [] false, XmlNode.text "10", XmlNode.endElement "scalar"]).flatten
  ++ [XmlNode.endElement "crystal", XmlNode.endElement "molecule"]

/-- Tokens of a concise formula made of the (symbol, count) pairs. -/
def formulaTokens (pairs : List (String × String)) : List String :=
  pairs.flatMap fun p => [p.1, p.2]

/-- Atomic numbers that the pairs of a concise formula stand for: for each pair in
turn, as many times the atomic number of its symbol as its count says. -/
def formulaAtoms (env : Env) (pairs : List (String × String)) : List Int :=
  pairs.flatMap fun p => List.replicate (atoi p.2).toNat (env.GetAtomicNum p.1).1

/-- Atomic number and no-implicit-hydrogen mark of an atom. -/
def OBAtom.sig (a : OBAtom) : Int × Bool := (a.AtomicNum, a.NoH)

/-- The tokens at which `ParseFormula` fails: a symbol without a count, or a pair
whose symbol is not recognised or whose count is not a positive integer. -/
def BadTail (env : Env) (bad : List String) : Prop :=
  (∃ x, bad = [x])
    ∨ ∃ s n rest, bad = s :: n :: rest ∧ ((env.GetAtomicNum s).1 ≤ 0 ∨ atoi n ≤ 0)

/-- Direction flags of a bond: up and down. -/
def OBBond.dir (b : OBBond) : Bool × Bool := (b.Up, b.Down)

/-- The graph of but-2-ene, C-C=C-C, without direction flags. -/
def sampleButene : OBMol :=
  { atoms := [{ AtomicNum := 6 }, { AtomicNum := 6 }, { AtomicNum := 6 }, { AtomicNum := 6 }],
    bonds := [{ BeginAtomIdx := 1, EndAtomIdx := 2, BondOrder := 1 },
              { BeginAtomIdx := 2, EndAtomIdx := 3, BondOrder := 2 },
              { BeginAtomIdx := 3, EndAtomIdx := 4, BondOrder := 1 }] }

/-- A format object at the close of the but-2-ene molecule, with one bond stereo
descriptor of the given value and the reference list `a1 a2 a3 a4`. -/
def sampleStereo (value : String) : CMLFormat :=
  { AtomMap := [("a1", 1), ("a2", 2), ("a3", 3), ("a4", 4)],
    _pmol := sampleButene,
    molWideData := [("bondStereo", value), ("atomRefs4", "a1 a2 a3 a4"), ("centralAtomOrBond", "1")] }

/-- The bond carries an up or a down flag (`IsUp() || IsDown()`). -/
def OBBond.marked (b : OBBond) : Bool := b.Up || b.Down

/-- The members of the format object that hold the crystal data of the open
molecule: the pointer to the unit cell, the crystal scalars read so far and the
number of crystal scalars still expected. -/
def crystalPart (f : CMLFormat) : Option Nat × List String × Int :=
  (f.pUnitCell, f.CrystalVals, f.CrystalScalarsNeeded)

/-- The crystal scalars account for the unit cell: a unit cell exists only when at
least six crystal scalars have been read since the molecule was opened, and while
crystal scalars are expected, those read and those expected make at least six. -/
def CrystalInv (f : CMLFormat) : Prop :=
  (f.pUnitCell ≠ none → 6 ≤ f.CrystalVals.length)
    ∧ (f.CrystalScalarsNeeded = 0 ∨ 6 ≤ f.CrystalScalarsNeeded + f.CrystalVals.length)

/-- What one handler call can do to the crystal data: nothing; the reset at the start
of a molecule; the start of a crystal element, which sets the number expected to
six; or one crystal scalar read, which is appended while the number expected goes
down by one, the unit cell being made only when that number reaches zero. -/
def CrystalStep (f g : CMLFormat) : Prop :=
  crystalPart g = crystalPart f
    ∨ crystalPart g = (none, [], 0)
    ∨ crystalPart g = (f.pUnitCell, f.CrystalVals, 6)
    ∨ (f.CrystalScalarsNeeded ≠ 0 ∧ g.CrystalScalarsNeeded = f.CrystalScalarsNeeded - 1
        ∧ (∃ v, g.CrystalVals = f.CrystalVals ++ [v])
        ∧ (g.pUnitCell = f.pUnitCell ∨ g.CrystalScalarsNeeded = 0))

end OpenBabel

namespace OpenBabel

/-! ## Sample inputs for the dispatcher and the molecule-wide descriptors -/

/-- A format object inside an open molecule (embed counter 0) that has read one atom
record, one bond record, a wedge descriptor and a formula, with the reader on the
start tag of a nested molecule element. -/
def sampleNested : CMLFormat :=
  { _embedlevel := 0, AtomArray := [[("id", "a1"), ("elementType", "C")]],
    BondArray := [[("atomRefs2", "a1 a2")]],
    molWideData := [("bondStereo", "W"), ("atomRefs4", ""), ("centralAtomOrBond", "0")],
    RawFormula := "C 1", CrystalVals := ["10"], CrystalScalarsNeeded := 5,
    _pmol := { Title := "outer", atoms := [{ AtomicNum := 6 }] },
    AtomMap := [("a1", 1)],
    reader := { node := some (XmlNode.element "molecule" [("id", "inner")] false) } }

/-- Nodes of a crystal element with six scalars of value 10 and a symmetry element
with the given attributes and children. -/
def crystalNodes (symmetryAttrs : List Attr) (transforms : List XmlNode) : List XmlNode :=
  [XmlNode.element "crystal" [] false]
  ++ (List.replicate 6
      [XmlNode.element "scalar" [] false, XmlNode.text "10", XmlNode.endElement "scalar"]).flatten
  ++ [XmlNode.element "symmetry" symmetryAttrs false] ++ transforms
  ++ [XmlNode.endElement "symmetry", XmlNode.endElement "crystal"]

/-- Nodes of a molecule element with a crystal element and one atom of the given
element. -/
def crystalMolecule (id symbol : String) (symmetryAttrs : List Attr) (transforms : List XmlNode) :
    List XmlNode :=
  [XmlNode.element "molecule" [("id", id)] false] ++ crystalNodes symmetryAttrs transforms
  ++ [XmlNode.element "atom" [("id", "a1"), ("elementType", symbol)] true,
      XmlNode.endElement "molecule"]

/-- The molecule produced for the second of two molecules of one stream, if the
reading returns: the dispatcher is run on the stream until the first molecule is
closed, and run again from there on the same format object. -/
def readSecond (env : Env) (first second : List XmlNode) : Option OBMol :=
  match ReadXML env (first.length + 1) { reader := { pending := first ++ second } } with
  | Except.error _ => none
  | Except.ok f =>
    match ReadXML env (second.length + 1) f with
    | Except.error _ => none
    | Except.ok g => some g._pmol

/-- The graph of but-2-ene with one hydrogen on each atom of the double bond; the
bond to the hydrogen is the first bond of atom 2, and at atom 3 it follows the
double bond. -/
def sampleButeneH : OBMol :=
  { atoms := [{ AtomicNum := 6 }, { AtomicNum := 6 }, { AtomicNum := 6 }, { AtomicNum := 6 },
              { AtomicNum := 1 }, { AtomicNum := 1 }],
    bonds := [{ BeginAtomIdx := 2, EndAtomIdx := 5, BondOrder := 1 },
              { BeginAtomIdx := 1, EndAtomIdx := 2, BondOrder := 1 },
              { BeginAtomIdx := 2, EndAtomIdx := 3, BondOrder := 2 },
              { BeginAtomIdx := 3, EndAtomIdx := 6, BondOrder := 1 },
              { BeginAtomIdx := 3, EndAtomIdx := 4, BondOrder := 1 }] }

/-- The bond from the atom `at1` to its first neighbour, in neighbour order, that
is neither a hydrogen nor the atom `at2`. -/
def firstSubstituentBond (mol : OBMol) (at1 at2 : Int) : Option Nat :=
  ((mol.bondsOf at1).find? fun bn => !(mol.atomicNumOf bn.2 == 1) && bn.2 != at2).map (·.1)

/-- A format object at the close of the but-2-ene molecule with a wedge descriptor
on bond 0 followed by an atom parity descriptor on atom 2. -/
def sampleWedgeThenParity : CMLFormat :=
  { AtomMap := [("a1", 1), ("a2", 2), ("a3", 3), ("a4", 4)],
    _pmol := sampleButene,
    molWideData := [("bondStereo", "W"), ("atomRefs4", ""), ("centralAtomOrBond", "0"),
                    ("atomParity", "1"), ("atomRefs4", "a1 a2 a3 a4"), ("centralAtomOrBond", "2")] }

/-- The same descriptors with the atom parity descriptor first. -/
def sampleParityThenWedge : CMLFormat :=
  { sampleWedgeThenParity with
    molWideData := [("atomParity", "1"), ("atomRefs4", "a1 a2 a3 a4"), ("centralAtomOrBond", "2"),
                    ("bondStereo", "W"), ("atomRefs4", ""), ("centralAtomOrBond", "0")] }

/-- A document whose second atom element has an atom parity child and whose first
atom element carries `hydrogenCount`. -/
def sampleParityDocument (hydrogenCount : List Attr) : List XmlNode :=
  [XmlNode.element "molecule" [("id", "m")] false,
   XmlNode.element "atom" ([("id", "a1"), ("elementType", "C")] ++ hydrogenCount) true,
   XmlNode.element "atom" [("id", "a2"), ("elementType", "C")] false,
   XmlNode.element "atomParity" [("atomRefs4", "a1 a3 a4 a5")] false, XmlNode.text "1",
   XmlNode.endElement "atomParity",
   XmlNode.endElement "atom",
   XmlNode.element "atom" [("id", "a3"), ("elementType", "N")] true,
   XmlNode.element "atom" [("id", "a4"), ("elementType", "O")] true,
   XmlNode.element "atom" [("id", "a5"), ("elementType", "C")] true,
   XmlNode.endElement "molecule"]

/-- The format object `sampleStereo value` in which the first single bond of
but-2-ene already carries the direction `d1` and the second the direction `d2`. -/
def sampleStereoMarked (value : String) (d1 d2 : Bool × Bool) : CMLFormat :=
  { sampleStereo value with
    _pmol :=
      { sampleButene with
        bonds := [{ BeginAtomIdx := 1, EndAtomIdx := 2, BondOrder := 1, Up := d1.1, Down := d1.2 },
                  { BeginAtomIdx := 2, EndAtomIdx := 3, BondOrder := 2 },
                  { BeginAtomIdx := 3, EndAtomIdx := 4, BondOrder := 1, Up := d2.1, Down := d2.2 }] } }

/-- The element names of the CML1 scalar and array elements, whose handler reads the
text that follows the start tag. -/
def isBuiltinElement (name : String) : Bool :=
  name == "string" || name == "float" || name == "integer" || name == "coordinate3"
    || name == "coordinate2" || name == "stringArray" || name == "floatArray"
    || name == "integerArray"

/-- A format object inside an open molecule and an open atom element, with the
reader on the start tag of a CML1 `string` element that has no text: the node
after the start tag is its end tag. -/
def sampleEmptyString : CMLFormat :=
  { _embedlevel := 0,
    reader := { node := some (XmlNode.element "string" [("builtin", "elementType")] false),
                pending := [XmlNode.endElement "string", XmlNode.endElement "atom",
                            XmlNode.endElement "molecule"] } }

/-- The events of molecule elements in a stream: the start tag of a molecule element
that is not self-closing, with its attributes; a self-closing molecule element, with
its attributes; and the end tag of a molecule element. -/
inductive MolEvent
  | enter (attrs : List Attr)
  | empty (attrs : List Attr)
  | exit
  deriving DecidableEq

/-- The molecule element of the event is not a reference to another molecule. -/
def MolEvent.noRef : MolEvent → Prop
  | MolEvent.enter attrs => attrs.lookup "ref" = none
  | MolEvent.empty attrs => attrs.lookup "ref" = none
  | MolEvent.exit => True

/-- The event is a start tag or an end tag of an element that has both. -/
def MolEvent.hasEndTag : MolEvent → Prop
  | MolEvent.empty _ => False
  | _ => True

/-- The handlers called for a sequence of molecule events: `DoElement` with the
reader on the start tag for an enter event and on the self-closing element for an
empty event (`DoElement` then calls `EndElement` itself where the source does),
`EndElement` for an exit event. Returns the values that the handlers return, in
order, and the format object. -/
def runMolEvents (env : Env) : List MolEvent → CMLFormat → Except String (List Bool × CMLFormat)
  | [], f => Except.ok ([], f)
  | MolEvent.enter attrs :: rest, f =>
    match DoElement env
        { f with reader := { node := some (XmlNode.element "molecule" attrs false) } } "molecule" with
    | Except.error e => Except.error e
    | Except.ok (b, g) =>
      match runMolEvents env rest g with
      | Except.error e => Except.error e
      | Except.ok (bs, h) => Except.ok (b :: bs, h)
  | MolEvent.empty attrs :: rest, f =>
    match DoElement env
        { f with reader := { node := some (XmlNode.element "molecule" attrs true) } } "molecule" with
    | Except.error e => Except.error e
    | Except.ok (b, g) =>
      match runMolEvents env rest g with
      | Except.error e => Except.error e
      | Except.ok (bs, h) => Except.ok (b :: bs, h)
  | MolEvent.exit :: rest, f =>
    match EndElement env f "molecule" with
    | Except.error e => Except.error e
    | Except.ok (b, g) =>
      match runMolEvents env rest g with
      | Except.error e => Except.error e
      | Except.ok (bs, h) => Except.ok (b :: bs, h)

/-- The sequence of molecule events is properly nested when `d` molecules are open
before it: no exit without an open molecule, and no molecule open at the end. A
self-closing element opens and closes its molecule at once. -/
def Nested : Nat → List MolEvent → Prop
  | d, [] => d = 0
  | d, MolEvent.enter _ :: rest => Nested (d + 1) rest
  | d, MolEvent.empty _ :: rest => Nested d rest
  | d, MolEvent.exit :: rest => 0 < d ∧ Nested (d - 1) rest

/-- The values the claim gives for the handlers of a sequence of molecule events,
`d` molecules being open before it: continue (true) for every event except one that
closes the outermost open molecule, which is an exit with one molecule open or a
self-closing element with none open. -/
def exitStops : Nat → List MolEvent → List Bool
  | _, [] => []
  | d, MolEvent.enter _ :: rest => true :: exitStops (d + 1) rest
  | d, MolEvent.empty _ :: rest => decide (d ≠ 0) :: exitStops d rest
  | d, MolEvent.exit :: rest => decide (d ≠ 1) :: exitStops (d - 1) rest

/-- A stream of two molecule elements, a carbon atom in the first and an oxygen atom
in the second; with `nested` the first one holds a self-closing molecule element
before its atom. -/
def nestedEmptyStream (nested : Bool) : List XmlNode :=
  [XmlNode.element "molecule" [("id", "m1")] false]
  ++ (if nested then [XmlNode.element "molecule" [("id", "m2")] true] else [])
  ++ [XmlNode.element "atom" [("id", "a1"), ("elementType", "C")] true,
      XmlNode.endElement "molecule",
      XmlNode.element "molecule" [("id", "m3")] false,
      XmlNode.element "atom" [("id", "a1"), ("elementType", "O")] true,
      XmlNode.endElement "molecule"]

/-- A molecule element with a carbon atom, a molecule element that refers to another
molecule and has an end tag of its own, and an oxygen atom. -/
def refInsideMolecule : List XmlNode :=
  [XmlNode.element "molecule" [("id", "m1")] false,
   XmlNode.element "atom" [("id", "a1"), ("elementType", "C")] true,
   XmlNode.element "molecule" [("ref", "m0")] false,
   XmlNode.endElement "molecule",
   XmlNode.element "atom" [("id", "a2"), ("elementType", "O")] true,
   XmlNode.endElement "molecule"]

end OpenBabel

namespace OpenBabel

/-- The atom class of the atom of index `idx`: the entry of the atom class data of
the molecule for this index, if the molecule has such data and the entry exists
(`pac && pac->HasClass(idx)`, then `pac->GetClass(idx)`). -/
def OBMol.classOf (mol : OBMol) (idx : Nat) : Option Int :=
  mol.atomClasses.bind fun cls => cls.lookup ((idx : Nat) : Int)

/-- Number of atoms of index 1 to `n` that have the atom class `ac`. -/
def OBMol.classCount (mol : OBMol) (ac : Int) (n : Nat) : Nat :=
  (List.range n).countP fun i => mol.classOf (i + 1) == some ac

/-- The `k`-th lowercase letter, counted from 1: the letter a is the first. -/
def lowercaseLetter (k : Nat) : Char := Char.ofNat (96 + k)

/-- The identifier that the claim gives to the atom of index `idx`: the letter a and
the index for an atom without a class; the letter a, the `k`-th lowercase letter and
the class number for the `k`-th atom of a class. -/
def classAtomId (mol : OBMol) (idx : Nat) : String :=
  match mol.classOf idx with
  | none => String.mk ('a' :: (intToDec ((idx : Nat) : Int)).data)
  | some ac => String.mk ('a' :: lowercaseLetter (mol.classCount ac idx) :: (intToDec ac).data)

/-- A molecule of five atoms with atom class data: the atoms 1, 3 and 4 have the
class 5, the atom 5 has the class 12, the atom 2 has none. -/
def sampleClasses : OBMol :=
  { atoms := [{ AtomicNum := 6 }, { AtomicNum := 8 }, { AtomicNum := 6 }, { AtomicNum := 6 },
      { AtomicNum := 7 }],
    data := [OBGenericData.AtomClassData [(1, 5), (3, 5), (4, 5), (5, 12)]] }

end OpenBabel

namespace OpenBabel

/-- A molecule of three atoms with a triple bond and a bond of order 5. -/
def sampleOrders : OBMol :=
  { atoms := [{ AtomicNum := 6 }, { AtomicNum := 6 }, { AtomicNum := 6 }],
    bonds := [{ BeginAtomIdx := 1, EndAtomIdx := 2, BondOrder := 3 },
              { BeginAtomIdx := 2, EndAtomIdx := 3, BondOrder := 5 }] }

/-- The event starts the atom block (an atom array or a formula), the bond block or
the property list. -/
def WriterEvent.opensBlock : WriterEvent → Bool
  | WriterEvent.StartElementNS _ name _ =>
    name == "atomArray" || name == "formula" || name == "bondArray" || name == "propertyList"
  | _ => false

/-- The names of the elements that a sequence of writer calls starts, in order. -/
def startNames (events : List WriterEvent) : List String :=
  events.filterMap fun e =>
    match e with
    | WriterEvent.StartElementNS _ name _ => some name
    | _ => none

/-- Carbon monoxide with a triple bond, an InChI entry and one other property. -/
def sampleInChI : OBMol :=
  { atoms := [{ AtomicNum := 6 }, { AtomicNum := 8 }],
    bonds := [{ BeginAtomIdx := 1, EndAtomIdx := 2, BondOrder := 3 }],
    Title := "co",
    data := [OBGenericData.PairData "note" "gas",
             OBGenericData.PairData "InChI" "InChI=1/CO/c1-2"] }

/-- The sample environment with doubles printed as the token they were read from. -/
def sampleEnvDbl : Env :=
  { sampleEnv with
    formatDbl := fun _ d =>
      match d with
      | Dbl.strtod t => t
      | _ => "0.000000" }

/-- A 2-D molecule: carbon monoxide with coordinates in the plane. -/
def sampleFlat : OBMol :=
  { atoms := [{ AtomicNum := 6, Vector := { x := Dbl.strtod "1.500000", y := Dbl.strtod "0.250000" } },
              { AtomicNum := 8, Vector := { x := Dbl.strtod "2.500000", y := Dbl.strtod "0.750000" } }],
    bonds := [{ BeginAtomIdx := 1, EndAtomIdx := 2, BondOrder := 3 }],
    Title := "co",
    Dimension := 2 }

/-- A character that ends the path part of a title: a slash, a backslash or a
colon. -/
def isPathSep (c : Char) : Bool := c == '/' || c == '\\' || c == ':'

/-- The name `base` is the title `t` with any path prefix, up to the last path
separator, removed and, when a path was present, with the extension (the part from
the last dot on) removed. -/
def IsBaseName (t base : List Char) : Prop :=
  ((∀ c ∈ t, isPathSep c = false) ∧ base = t)
  ∨ ∃ (pre : List Char) (s : Char) (rest : List Char),
      t = pre ++ s :: rest ∧ isPathSep s = true ∧ (∀ c ∈ rest, isPathSep c = false)
      ∧ (((∀ c ∈ rest, c ≠ '.') ∧ base = rest)
          ∨ ∃ ext : List Char, rest = base ++ '.' :: ext ∧ ∀ c ∈ ext, c ≠ '.')

/-- The name begins with a letter. -/
def beginsWithLetter : List Char → Bool
  | [] => false
  | c :: _ => isalpha c

/-- Every attribute of the sequence is written while the start tag of its element
is open, that is, before the first child element, the first text and the end of the
element; `tagOpen` tells whether a start tag is open before the sequence. -/
def attributesInStartTag : List WriterEvent → Bool → Bool
  | [], _ => true
  | WriterEvent.StartElementNS _ _ _ :: rest, _ => attributesInStartTag rest true
  | WriterEvent.WriteAttribute _ _ :: rest, tagOpen => tagOpen && attributesInStartTag rest tagOpen
  | WriterEvent.WriteString _ :: rest, _ => attributesInStartTag rest false
  | WriterEvent.EndElement :: rest, _ => attributesInStartTag rest false
  | WriterEvent.StartDocument :: rest, _ => attributesInStartTag rest false
  | WriterEvent.EndDocument :: rest, _ => attributesInStartTag rest false

/-- The undefined operation that a handler runs into, if it does. -/
def errorOf {α : Type} (r : Except String α) : Option String :=
  match r with
  | Except.error e => some e
  | Except.ok _ => none

/-- The part of a bond that the marking of directions leaves alone: its two atoms,
its order and its wedge and hash flags. -/
def OBBond.shape (b : OBBond) : Int × Int × Int × Bool × Bool :=
  (b.BeginAtomIdx, b.EndAtomIdx, b.BondOrder, b.Wedge, b.Hash)

/-- The atom records that carry the identifiers `ids` for the atoms 1 to `n`, in
order: each record has the identifier of its atom and an element type, and no
`hydrogenCount`. -/
def idRecords (ids : List String) (els : Nat → String) (n : Nat) : cmlArray :=
  (List.range n).map fun i => [("id", idAt ids ((i + 1 : Nat) : Int)), ("elementType", els i)]

/-- The document with every element named `old` renamed to `new`. -/
def renameElement (old new : String) (nodes : List XmlNode) : List XmlNode :=
  nodes.map fun n =>
    match n with
    | XmlNode.element name attrs isEmpty =>
      if name = old then XmlNode.element new attrs isEmpty else n
    | XmlNode.endElement name => if name = old then XmlNode.endElement new else n
    | n => n

/-- The coordinates and the dimension of a molecule. -/
def OBMol.geometry (mol : OBMol) : List vector3 × Int :=
  (mol.atoms.map (·.Vector), mol.Dimension)

end OpenBabel

namespace OpenBabel

/-! ## Specification-side notions for the NWChem output reader -/

/-- The lines of a text: the pieces between the newlines; a newline at the end of
the text does not begin a further line. -/
def textLines : List Char → List (List Char)
  | [] => []
  | c :: cs =>
    if c = '\n' then [] :: textLines cs
    else
      match textLines cs with
      | [] => [[c]]
      | l :: ls => (c :: l) :: ls

/-- The line is the header of a block: it contains `Output coordinates`. -/
def IsHeader (l : List Char) : Prop := "Output coordinates".data <:+: l

instance IsHeader.decidable (l : List Char) : Decidable (IsHeader l) := by
  unfold IsHeader
  exact inferInstance

/-- The line has six tokens. -/
def SixTokens (l : List Char) : Prop := (tokenize (String.mk l)).length = 6

instance SixTokens.decidable (l : List Char) : Decidable (SixTokens l) := by
  unfold SixTokens
  exact inferInstance

/-- The atom that a line of six tokens stands for: the atomic number of its second
token and the coordinates of its fourth to sixth tokens. -/
def lineAtom (env : Env) (l : List Char) : OBAtom :=
  { AtomicNum := (env.GetAtomicNum ((tokenize (String.mk l)).getD 1 "")).1,
    Vector := { x := Dbl.strtod ((tokenize (String.mk l)).getD 3 ""),
                y := Dbl.strtod ((tokenize (String.mk l)).getD 4 ""),
                z := Dbl.strtod ((tokenize (String.mk l)).getD 5 "") } }

/-- The lines that follow the last header, if there is a header. -/
def afterLastHeader : List (List Char) → Option (List (List Char))
  | [] => none
  | l :: ls =>
    match afterLastHeader ls with
    | some after => some after
    | none => if IsHeader l then some ls else none

/-- The run of a block, given the lines that follow its header: the maximal run of
lines of six tokens that starts on the fourth line after the header. -/
def blockRun (after : List (List Char)) : List (List Char) :=
  (after.drop 3).takeWhile fun l => decide (SixTokens l)

/-- The atoms of the last block of the lines: one atom per line of its run, and no
atom when there is no header. -/
def lastBlockAtoms (env : Env) (lines : List (List Char)) : List OBAtom :=
  match afterLastHeader lines with
  | none => []
  | some after => (blockRun after).map (lineAtom env)

/-- The lines of a block, given the lines that follow its header: the three lines
after the header, the run, and the line that ends the run. -/
def blockLines (after : List (List Char)) : List (List Char) :=
  after.take (3 + (blockRun after).length + 1)

/-- No header lies inside the block of another header. -/
def HeadersApart : List (List Char) → Prop
  | [] => True
  | l :: ls => (IsHeader l → ∀ x ∈ blockLines ls, ¬ IsHeader x) ∧ HeadersApart ls

/-- Decision procedure of `HeadersApart`. -/
def HeadersApart.decide : (ls : List (List Char)) → Decidable (HeadersApart ls)
  | [] => isTrue trivial
  | l :: ls =>
    @instDecidableAnd (IsHeader l → ∀ x ∈ blockLines ls, ¬ IsHeader x) (HeadersApart ls)
      inferInstance (HeadersApart.decide ls)

instance HeadersApart.decidable (ls : List (List Char)) : Decidable (HeadersApart ls) :=
  HeadersApart.decide ls

/-- The stream `s` has the lines `ls` left to read: a stream that has failed has
none. -/
def istream.HasLines (s : istream) (ls : List (List Char)) : Prop :=
  (s.fail = true ∧ ls = []) ∨ (s.fail = false ∧ textLines s.chars = ls)

/-- An NWChem output with one block of two atoms. -/
def sampleOutput : List Char :=
  ("start\n Output coordinates in angstroms\n\n No. Tag Charge X Y Z\n ---- ----\n"
    ++ " 1 O 8.0000 0.0 0.0 0.1\n 2 H 1.0000 0.7 0.0 -0.4\n\n next\n").data

/-- A text in which a second header is the line that ends the run of the first
block. -/
def sampleHiddenHeader : List Char :=
  (" Output coordinates\n\n h\n --\n 1 O 8.0 0.0 0.0 0.1\n Output coordinates\n\n h\n --\n"
    ++ " 1 C 6.0 0.0 0.0 0.1\n 2 H 1.0 0.0 0.0 0.1\n").data

/-- The lines of a block of one atom. -/
def sampleBlock : List Char :=
  " Output coordinates\n\n h\n --\n 1 O 8.0 0.0 0.0 0.1\n".data

/-- A text whose first line has 32768 characters, followed by a block of one atom. -/
def sampleLongLine : List Char := List.replicate 32768 ' ' ++ '\n' :: sampleBlock

/-- A text whose header line begins with a NUL character. -/
def sampleNulHeader : List Char := Char.ofNat 0 :: sampleBlock

end OpenBabel

/-! # Properties -/

namespace OpenBabel

/-! ## Bonds: lemmas -/

theorem startsWithAtomRef_order : startsWithAtomRef "order" = false := by decide

theorem DoBonds.warn_fields (molID attrname : String) (pos : Option Nat) (s : BondVars) :
    (DoBonds.warn molID attrname pos s).indx1 = s.indx1
    ∧ (DoBonds.warn molID attrname pos s).indx2 = s.indx2
    ∧ (DoBonds.warn molID attrname pos s).ord = s.ord
    ∧ (DoBonds.warn molID attrname pos s).PossibleBond = s.PossibleBond
    ∧ (DoBonds.warn molID attrname pos s).AtomMap = s.AtomMap := by
  unfold DoBonds.warn
  split_ifs <;> exact ⟨rfl, rfl, rfl, rfl, rfl⟩

theorem DoBonds.setEndpoints_fields (value : String) (pos : Option Nat) (s : BondVars) :
    (DoBonds.setEndpoints value pos s).ord = s.ord
    ∧ (DoBonds.setEndpoints value pos s).PossibleBond = s.PossibleBond
    ∧ (DoBonds.setEndpoints value pos s).HaveWarned = s.HaveWarned
    ∧ (DoBonds.setEndpoints value pos s).log = s.log := by
  unfold DoBonds.setEndpoints
  split_ifs
  · cases pos <;> exact ⟨rfl, rfl, rfl, rfl⟩
  · exact ⟨rfl, rfl, rfl, rfl⟩
  · exact ⟨rfl, rfl, rfl, rfl⟩

theorem DoBonds.setOrder_refPart (value : String) (s : BondVars) :
    (DoBonds.setOrder value s).refPart = s.refPart := by
  unfold DoBonds.setOrder BondVars.refPart
  simp only
  split_ifs <;> rfl

theorem DoBonds.setOrder_ord (value : String) (s : BondVars) :
    (DoBonds.setOrder value s).ord = ordOfToken value := by
  unfold DoBonds.setOrder ordOfToken
  simp only
  split_ifs <;> rfl

theorem DoBonds.attr_of_ref (molID : String) (s : BondVars) (a : Attr)
    (h : startsWithAtomRef a.1 = true) :
    DoBonds.attr molID s a =
      DoBonds.setEndpoints (Trim a.2) (findBlank (Trim a.2).data)
        (DoBonds.warn molID a.1 (findBlank (Trim a.2).data) { s with PossibleBond := true }) := by
  unfold DoBonds.attr
  simp only [h, if_true]

theorem DoBonds.attr_of_not_ref (molID : String) (s : BondVars) (a : Attr)
    (h : startsWithAtomRef a.1 = false) :
    DoBonds.attr molID s a = if a.1 = "order" then DoBonds.setOrder (Trim a.2) s else s := by
  unfold DoBonds.attr
  simp only [h, Bool.false_eq_true, if_false, beq_iff_eq]

theorem DoBonds.attr_ref (molID : String) (s : BondVars) (a : Attr)
    (h : startsWithAtomRef a.1 = true) : (DoBonds.attr molID s a).ord = s.ord := by
  rw [DoBonds.attr_of_ref molID s a h, (DoBonds.setEndpoints_fields _ _ _).1,
    (DoBonds.warn_fields _ _ _ _).2.2.1]

theorem DoBonds.attr_ord (molID : String) (s : BondVars) (a : Attr) :
    (DoBonds.attr molID s a).ord = if a.1 = "order" then ordOfToken (Trim a.2) else s.ord := by
  by_cases h : startsWithAtomRef a.1 = true
  · have hne : a.1 ≠ "order" := by
      intro he
      rw [he, startsWithAtomRef_order] at h
      exact Bool.false_ne_true h
    rw [DoBonds.attr_ref molID s a h, if_neg hne]
  · simp only [Bool.not_eq_true] at h
    rw [DoBonds.attr_of_not_ref molID s a h]
    split_ifs
    · exact DoBonds.setOrder_ord _ _
    · rfl

theorem DoBonds.scan_cons (molID : String) (a : Attr) (r : List Attr) (s : BondVars) :
    DoBonds.scan molID (a :: r) s = DoBonds.scan molID r (DoBonds.attr molID s a) := rfl

theorem DoBonds.scan_append (molID : String) (r1 r2 : List Attr) (s : BondVars) :
    DoBonds.scan molID (r1 ++ r2) s = DoBonds.scan molID r2 (DoBonds.scan molID r1 s) := by
  unfold DoBonds.scan
  rw [List.foldl_append]

theorem orderToken_cons (a : Attr) (rest : List Attr) :
    orderToken (a :: rest) =
      match orderToken rest with
      | some v => some v
      | none => if a.1 = "order" then some (Trim a.2) else none := rfl

theorem DoBonds.scan_ord (molID : String) (record : List Attr) (s : BondVars) :
    (DoBonds.scan molID record s).ord =
      match orderToken record with
      | some v => ordOfToken v
      | none => s.ord := by
  induction record generalizing s with
  | nil => rfl
  | cons a rest ih =>
    rw [DoBonds.scan_cons, ih, orderToken_cons]
    cases orderToken rest with
    | some v => rfl
    | none =>
      simp only [DoBonds.attr_ord]
      split_ifs <;> rfl

theorem DoBonds.attr_refPart_of_not_ref (molID : String) (s : BondVars) (a : Attr)
    (h : startsWithAtomRef a.1 = false) : (DoBonds.attr molID s a).refPart = s.refPart := by
  rw [DoBonds.attr_of_not_ref molID s a h]
  split_ifs
  · exact DoBonds.setOrder_refPart _ _
  · rfl

theorem DoBonds.attr_refPart_congr (molID : String) (s t : BondVars) (a : Attr)
    (h : s.refPart = t.refPart) : (DoBonds.attr molID s a).refPart = (DoBonds.attr molID t a).refPart := by
  by_cases hr : startsWithAtomRef a.1 = true
  · obtain ⟨i1, i2, o, pb, hw, m, l⟩ := s
    obtain ⟨j1, j2, o', pb', hw', m', l'⟩ := t
    simp only [BondVars.refPart, Prod.mk.injEq] at h
    obtain ⟨rfl, rfl, rfl, rfl, rfl, rfl⟩ := h
    rw [DoBonds.attr_of_ref _ _ _ hr, DoBonds.attr_of_ref _ _ _ hr]
    unfold DoBonds.setEndpoints DoBonds.warn BondVars.refPart
    simp only
    split_ifs <;> first | rfl | (split <;> rfl)
  · simp only [Bool.not_eq_true] at hr
    rw [DoBonds.attr_refPart_of_not_ref molID s a hr, DoBonds.attr_refPart_of_not_ref molID t a hr, h]

theorem DoBonds.scan_refPart_congr (molID : String) (record : List Attr) (s t : BondVars)
    (h : s.refPart = t.refPart) :
    (DoBonds.scan molID record s).refPart = (DoBonds.scan molID record t).refPart := by
  induction record generalizing s t with
  | nil => exact h
  | cons a rest ih =>
    rw [DoBonds.scan_cons, DoBonds.scan_cons]
    exact ih _ _ (DoBonds.attr_refPart_congr molID s t a h)

theorem DoBonds.scan_refPart (molID : String) (record : List Attr) (s : BondVars) :
    (DoBonds.scan molID record s).refPart = (DoBonds.scan molID (refAttrs record) s).refPart := by
  induction record generalizing s with
  | nil => rfl
  | cons a rest ih =>
    by_cases hr : startsWithAtomRef a.1 = true
    · have : refAttrs (a :: rest) = a :: refAttrs rest := by
        simp [refAttrs, List.filter_cons, hr]
      rw [this, DoBonds.scan_cons, DoBonds.scan_cons, ih]
    · simp only [Bool.not_eq_true] at hr
      have : refAttrs (a :: rest) = refAttrs rest := by
        simp [refAttrs, List.filter_cons, hr]
      rw [this, DoBonds.scan_cons, ih]
      exact DoBonds.scan_refPart_congr molID _ _ _ (DoBonds.attr_refPart_of_not_ref molID s a hr)

/-- A record whose scan finds two positive endpoints adds one bond, and `DoBonds`
goes on with the following records. -/
theorem DoBonds.records_cons_bond (env : Env) (f : CMLFormat) (hw : Bool) (record : List Attr)
    (rest : List (List Attr))
    (hp : (bondScan env f hw record).PossibleBond = true)
    (h1 : 0 < (bondScan env f hw record).indx1) (h2 : 0 < (bondScan env f hw record).indx2) :
    DoBonds.records env (record :: rest) hw f =
      DoBonds.records env rest (bondScan env f hw record).HaveWarned
        (bondAdded env f hw record
          (if (bondScan env f hw record).ord = 0 then 1 else (bondScan env f hw record).ord)) := by
  unfold bondAdded bondScan at *
  rw [DoBonds.records]
  simp only [hp, if_true]
  rw [if_neg (by omega)]

end OpenBabel

namespace OpenBabel

/-! ## Decimal text: lemmas -/

theorem digit_isDigit : ∀ d < 10, (Char.ofNat (48 + d)).isDigit = true := by decide

theorem digit_toNat : ∀ d < 10, (Char.ofNat (48 + d)).toNat - 48 = d := by decide

theorem decDigits_fuel (fuel1 fuel2 n : Nat) (acc : List Char) (h1 : n < fuel1) (h2 : n < fuel2) :
    decDigits fuel1 n acc = decDigits fuel2 n acc := by
  induction fuel1 generalizing fuel2 n acc with
  | zero => omega
  | succ k ih =>
    cases fuel2 with
    | zero => omega
    | succ m =>
      unfold decDigits
      by_cases hn : n < 10
      · simp [hn]
      · simp only [hn, if_false]
        apply ih <;> omega

theorem decDigits_acc (fuel n : Nat) (acc : List Char) :
    decDigits fuel n acc = decDigits fuel n [] ++ acc := by
  induction fuel generalizing n acc with
  | zero => simp [decDigits]
  | succ k ih =>
    unfold decDigits
    by_cases hn : n < 10
    · simp [hn]
    · simp only [hn, if_false]
      rw [ih (n / 10) (Char.ofNat (48 + n % 10) :: acc), ih (n / 10) [Char.ofNat (48 + n % 10)]]
      simp

theorem natToDec_lt (n : Nat) (h : n < 10) : natToDec n = [Char.ofNat (48 + n)] := by
  simp [natToDec, decDigits, h]

theorem natToDec_ge (n : Nat) (h : 10 ≤ n) :
    natToDec n = natToDec (n / 10) ++ [Char.ofNat (48 + n % 10)] := by
  have hn : ¬ n < 10 := by omega
  unfold natToDec
  conv_lhs => unfold decDigits
  simp only [hn, if_false]
  rw [decDigits_acc, decDigits_fuel n (n / 10 + 1) (n / 10) [] (by omega) (by omega)]

theorem natToDec_digits (n : Nat) : ∀ c ∈ natToDec n, c.isDigit = true := by
  induction n using Nat.strong_induction_on with
  | _ n ih =>
    by_cases hn : n < 10
    · rw [natToDec_lt n hn]
      intro c hc
      simp only [List.mem_singleton] at hc
      rw [hc]
      exact digit_isDigit n hn
    · rw [natToDec_ge n (by omega)]
      intro c hc
      rcases List.mem_append.mp hc with h | h
      · exact ih (n / 10) (by omega) c h
      · simp only [List.mem_singleton] at h
        rw [h]
        exact digit_isDigit (n % 10) (by omega)

theorem natToDec_ne_nil (n : Nat) : natToDec n ≠ [] := by
  by_cases hn : n < 10
  · rw [natToDec_lt n hn]; simp
  · rw [natToDec_ge n (by omega)]; simp

theorem readDigits_append (ds rest : List Char) (k : Nat) (h : ∀ c ∈ ds, c.isDigit = true) :
    readDigits (ds ++ rest) k = readDigits rest (readDigits ds k) := by
  induction ds generalizing k with
  | nil => rfl
  | cons c cs ih =>
    have hc : c.isDigit = true := h c (List.mem_cons_self _ _)
    simp only [List.cons_append, readDigits, hc, if_true]
    exact ih _ (fun x hx => h x (List.mem_cons_of_mem _ hx))

theorem readDigits_natToDec (n : Nat) : readDigits (natToDec n) 0 = n := by
  induction n using Nat.strong_induction_on with
  | _ n ih =>
    by_cases hn : n < 10
    · rw [natToDec_lt n hn]
      simp only [readDigits, digit_isDigit n hn, if_true, digit_toNat n hn]
      omega
    · rw [natToDec_ge n (by omega), readDigits_append _ _ _ (natToDec_digits _), ih (n / 10) (by omega)]
      simp only [readDigits, digit_isDigit (n % 10) (by omega), if_true, digit_toNat (n % 10) (by omega)]
      omega

theorem natToDec_injective (m n : Nat) (h : natToDec m = natToDec n) : m = n := by
  rw [← readDigits_natToDec m, ← readDigits_natToDec n, h]

theorem isDigit_not_cspace (c : Char) (h : c.isDigit = true) : isCSpace c = false := by
  simp only [Char.isDigit, Bool.and_eq_true, decide_eq_true_eq] at h
  have h1 : 48 ≤ c.val := h.1
  unfold isCSpace
  have hne : ∀ (k : Nat), k < 48 → (c == Char.ofNat k) = false := by
    intro k hk
    rw [beq_eq_false_iff_ne]
    intro he
    rw [he] at h1
    have : (Char.ofNat k).val.toNat = k := by
      interval_cases k <;> rfl
    have h2 : (48 : UInt32).toNat ≤ (Char.ofNat k).val.toNat := h1
    rw [this] at h2
    have : (48 : UInt32).toNat = 48 := rfl
    omega
  have e1 : (' ' : Char) = Char.ofNat 32 := rfl
  have e2 : ('\t' : Char) = Char.ofNat 9 := rfl
  have e3 : ('\n' : Char) = Char.ofNat 10 := rfl
  have e4 : ('\r' : Char) = Char.ofNat 13 := rfl
  rw [e1, e2, e3, e4]
  simp [hne]

end OpenBabel

namespace OpenBabel

theorem strtol_digits (l : List Char) (c : Char) (cs : List Char) (hl : l = c :: cs)
    (hc : c.isDigit = true) : strtol l = clampLong (readDigits l 0) := by
  subst hl
  have hsp : isCSpace c = false := isDigit_not_cspace c hc
  unfold strtol
  have hd : List.dropWhile isCSpace (c :: cs) = c :: cs := by
    simp [List.dropWhile, hsp]
  rw [hd]
  split
  · rename_i r heq
    injection heq with h1 h2
    rw [h1] at hc
    exact absurd hc (by decide)
  · rename_i r heq
    injection heq with h1 h2
    rw [h1] at hc
    exact absurd hc (by decide)
  · rfl

theorem strtol_natToDec (n : Nat) : strtol (natToDec n) = clampLong n := by
  have hne := natToDec_ne_nil n
  have hd := natToDec_digits n
  cases h : natToDec n with
  | nil => exact absurd h hne
  | cons c cs =>
    have hc : c.isDigit = true := hd c (by rw [h]; exact List.mem_cons_self _ _)
    rw [strtol_digits (c :: cs) c cs rfl hc, ← h, readDigits_natToDec]

theorem firstChar_natToDec (n : Nat) : (firstChar (String.mk (natToDec n))).isDigit = true := by
  have hne := natToDec_ne_nil n
  have hd := natToDec_digits n
  unfold firstChar
  cases h : natToDec n with
  | nil => exact absurd h hne
  | cons c cs => exact hd c (by rw [h]; exact List.mem_cons_self _ _)

theorem ordOfToken_natToDec (n : Nat) (h : n < 2147483648) :
    ordOfToken (String.mk (natToDec n)) = n := by
  have hf := firstChar_natToDec n
  unfold ordOfToken
  have hS : (firstChar (String.mk (natToDec n)) == 'S') = false := by
    rw [beq_eq_false_iff_ne]; intro he; rw [he] at hf; exact absurd hf (by decide)
  have hD : (firstChar (String.mk (natToDec n)) == 'D') = false := by
    rw [beq_eq_false_iff_ne]; intro he; rw [he] at hf; exact absurd hf (by decide)
  have hA : (firstChar (String.mk (natToDec n)) == 'A') = false := by
    rw [beq_eq_false_iff_ne]; intro he; rw [he] at hf; exact absurd hf (by decide)
  simp only [hS, hD, hA, Bool.false_eq_true, if_false]
  rw [strtol_natToDec]
  unfold clampLong toInt32
  have h1 : ¬ ((n : Int) > 9223372036854775807) := by omega
  have h2 : ¬ ((n : Int) < -9223372036854775808) := by omega
  simp only [h1, h2, if_false]
  omega

end OpenBabel

namespace OpenBabel

/-! ## Bonds: order tokens -/

theorem bondScan_ord (env : Env) (f : CMLFormat) (hw : Bool) (record : List Attr) :
    (bondScan env f hw record).ord =
      match orderToken record with
      | some v => ordOfToken v
      | none => 0 := by
  unfold bondScan
  rw [DoBonds.scan_ord]

/-- C3: for a bond record that names two resolvable endpoints, `DoBonds` adds the bond
with order 1 when its order token is `S`, 2 when it is `D`, 5 when it is `A`, and 1
when the record has no order attribute or an empty one. -/
theorem DoBonds_order_of_letter_token (env : Env) (f : CMLFormat) (hw : Bool)
    (record : List Attr) (rest : List (List Attr)) (k : Int)
    (hp : (bondScan env f hw record).PossibleBond = true)
    (h1 : 0 < (bondScan env f hw record).indx1)
    (h2 : 0 < (bondScan env f hw record).indx2)
    (hk : (orderToken record = some "S" ∧ k = 1) ∨ (orderToken record = some "D" ∧ k = 2)
        ∨ (orderToken record = some "A" ∧ k = 5) ∨ (orderToken record = none ∧ k = 1)
        ∨ (orderToken record = some "" ∧ k = 1)) :
    DoBonds.records env (record :: rest) hw f =
      DoBonds.records env rest (bondScan env f hw record).HaveWarned
        (bondAdded env f hw record k) := by
  rw [DoBonds.records_cons_bond env f hw record rest hp h1 h2, bondScan_ord]
  rcases hk with ⟨ht, rfl⟩ | ⟨ht, rfl⟩ | ⟨ht, rfl⟩ | ⟨ht, rfl⟩ | ⟨ht, rfl⟩ <;> rw [ht] <;> rfl

theorem DoBonds_order_of_letter_token_witness :
    DoBonds.records sampleEnv ([("atomRefs2", "a1 a2"), ("order", "A")] :: []) false sampleFormat =
      DoBonds.records sampleEnv []
        (bondScan sampleEnv sampleFormat false [("atomRefs2", "a1 a2"), ("order", "A")]).HaveWarned
        (bondAdded sampleEnv sampleFormat false [("atomRefs2", "a1 a2"), ("order", "A")] 5) :=
  DoBonds_order_of_letter_token sampleEnv sampleFormat false
    [("atomRefs2", "a1 a2"), ("order", "A")] [] 5 (by decide) (by decide) (by decide)
    (Or.inr (Or.inr (Or.inl ⟨by decide, rfl⟩)))

/-- C4 fails at n = 0: the order token `0` on a bond between two known atoms gives a
bond of order 1, not 0. -/
theorem DoBonds_order_zero_counterexample :
    orderToken [("atomRefs2", "a1 a2"), ("order", "0")] = some (intToDec 0)
    ∧ (DoBonds sampleEnv { sampleFormat with BondArray := [[("atomRefs2", "a1 a2"), ("order", "0")]] }).1 = true
    ∧ (DoBonds sampleEnv { sampleFormat with BondArray := [[("atomRefs2", "a1 a2"), ("order", "0")]] }).2._pmol.bonds
        = [{ BeginAtomIdx := 1, EndAtomIdx := 2, BondOrder := 1 }] := by
  decide

/-- C4 as amended: for a bond record that names two resolvable endpoints and whose
order token is the decimal literal of n with 1 ≤ n < 2^31, `DoBonds` adds the bond
with order exactly n. -/
theorem DoBonds_order_of_numeric_token (env : Env) (f : CMLFormat) (hw : Bool)
    (record : List Attr) (rest : List (List Attr)) (n : Nat)
    (hp : (bondScan env f hw record).PossibleBond = true)
    (h1 : 0 < (bondScan env f hw record).indx1)
    (h2 : 0 < (bondScan env f hw record).indx2)
    (ht : orderToken record = some (intToDec n))
    (hn1 : 1 ≤ n) (hn2 : n < 2147483648) :
    DoBonds.records env (record :: rest) hw f =
      DoBonds.records env rest (bondScan env f hw record).HaveWarned
        (bondAdded env f hw record n) := by
  rw [DoBonds.records_cons_bond env f hw record rest hp h1 h2, bondScan_ord, ht]
  have hi : intToDec (n : Int) = String.mk (natToDec n) := by
    unfold intToDec
    rw [if_neg (by omega)]
    rfl
  simp only [hi, ordOfToken_natToDec n hn2]
  rw [if_neg (by omega)]

theorem DoBonds_order_of_numeric_token_witness :
    DoBonds.records sampleEnv ([("atomRef1", "a1"), ("order", "3"), ("atomRef2", "a3")] :: []) false
        sampleFormat =
      DoBonds.records sampleEnv []
        (bondScan sampleEnv sampleFormat false [("atomRef1", "a1"), ("order", "3"), ("atomRef2", "a3")]).HaveWarned
        (bondAdded sampleEnv sampleFormat false [("atomRef1", "a1"), ("order", "3"), ("atomRef2", "a3")]
          ((3 : Nat) : Int)) :=
  DoBonds_order_of_numeric_token sampleEnv sampleFormat false
    [("atomRef1", "a1"), ("order", "3"), ("atomRef2", "a3")] [] 3 (by decide) (by decide) (by decide)
    (by decide) (by decide) (by decide)

end OpenBabel

namespace OpenBabel

/-! ## Bonds: unresolved and surplus references -/

/-- C5 at the failing input: the record names the unknown identifier `zz` first and
two known atoms after it; `DoBonds` reads 0 for `zz`, takes the endpoint as not yet
filled, and adds a bond between `a1` and `a2` without any error message. -/
theorem DoBonds_unresolved_reference_accepted :
    mapCount sampleFormat.AtomMap "zz" = 0
    ∧ (DoBonds sampleEnv { sampleFormat with
          BondArray := [[("atomRef", "zz"), ("atomRef", "a1"), ("atomRef", "a2")]] }).1 = true
    ∧ (DoBonds sampleEnv { sampleFormat with
          BondArray := [[("atomRef", "zz"), ("atomRef", "a1"), ("atomRef", "a2")]] }).2._pmol.bonds
        = [{ BeginAtomIdx := 1, EndAtomIdx := 2, BondOrder := 1 }]
    ∧ (DoBonds sampleEnv { sampleFormat with
          BondArray := [[("atomRef", "zz"), ("atomRef", "a1"), ("atomRef", "a2")]] }).2.obErrorLog = [] := by
  decide

theorem DoBonds.attr_ref_filled (molID : String) (s : BondVars) (a : Attr)
    (ha : startsWithAtomRef a.1 = true) (h1 : s.indx1 ≠ 0) (h2 : s.indx2 ≠ 0) :
    (DoBonds.attr molID s a).indx1 = -1 ∧ (DoBonds.attr molID s a).PossibleBond = true := by
  rw [DoBonds.attr_of_ref molID s a ha]
  obtain ⟨w1, w2, _, w4, _⟩ := DoBonds.warn_fields molID a.1 (findBlank (Trim a.2).data)
    { s with PossibleBond := true }
  refine ⟨?_, ?_⟩
  · unfold DoBonds.setEndpoints
    rw [if_neg (by rw [w1]; exact h1), if_neg (by rw [w2]; exact h2)]
  · rw [(DoBonds.setEndpoints_fields _ _ _).2.1, w4]

theorem DoBonds.attr_error_kept (molID : String) (s : BondVars) (a : Attr)
    (h : s.indx1 = -1 ∧ s.PossibleBond = true) :
    (DoBonds.attr molID s a).indx1 = -1 ∧ (DoBonds.attr molID s a).PossibleBond = true := by
  obtain ⟨h1, h2⟩ := h
  by_cases ha : startsWithAtomRef a.1 = true
  · rw [DoBonds.attr_of_ref molID s a ha]
    obtain ⟨w1, _, _, w4, _⟩ := DoBonds.warn_fields molID a.1 (findBlank (Trim a.2).data)
      { s with PossibleBond := true }
    refine ⟨?_, ?_⟩
    · unfold DoBonds.setEndpoints
      rw [if_neg (by rw [w1]; show s.indx1 ≠ 0; rw [h1]; decide)]
      split_ifs
      · show (DoBonds.warn molID a.1 (findBlank (Trim a.2).data) { s with PossibleBond := true }).indx1 = -1
        rw [w1]; exact h1
      · rfl
    · rw [(DoBonds.setEndpoints_fields _ _ _).2.1, w4]
  · simp only [Bool.not_eq_true] at ha
    have := DoBonds.attr_refPart_of_not_ref molID s a ha
    simp only [BondVars.refPart, Prod.mk.injEq] at this
    exact ⟨this.1.trans h1, this.2.2.1.trans h2⟩

theorem DoBonds.scan_error_kept (molID : String) (record : List Attr) (s : BondVars)
    (h : s.indx1 = -1 ∧ s.PossibleBond = true) :
    (DoBonds.scan molID record s).indx1 = -1 ∧ (DoBonds.scan molID record s).PossibleBond = true := by
  induction record generalizing s with
  | nil => exact h
  | cons a rest ih =>
    rw [DoBonds.scan_cons]
    exact ih _ (DoBonds.attr_error_kept molID s a h)

/-- A reference attribute that is read when both endpoint variables hold a non-zero
index makes `DoBonds` report the error, return false and add no bond, whatever
attributes follow in the record. An endpoint filled from an identifier that is not
in the atom map holds 0 and is not covered. -/
theorem DoBonds_surplus_reference_rejected (env : Env) (f : CMLFormat) (hw : Bool)
    (pre post : List Attr) (a : Attr) (rest : List (List Attr))
    (ha : startsWithAtomRef a.1 = true)
    (h1 : (bondScan env f hw pre).indx1 ≠ 0) (h2 : (bondScan env f hw pre).indx2 ≠ 0) :
    (DoBonds.records env ((pre ++ a :: post) :: rest) hw f).1 = false
    ∧ (DoBonds.records env ((pre ++ a :: post) :: rest) hw f).2._pmol = f._pmol
    ∧ (DoBonds.records env ((pre ++ a :: post) :: rest) hw f).2.obErrorLog.getLast?
        = some ⟨GetMolID env f, "Incorrect bond attributes", obMessageLevel.obError⟩ := by
  have hs := DoBonds.scan_error_kept (GetMolID env f) post _
    (DoBonds.attr_ref_filled (GetMolID env f) (bondScan env f hw pre) a ha h1 h2)
  unfold bondScan at hs
  rw [← DoBonds.scan_cons, ← DoBonds.scan_append] at hs
  obtain ⟨hi, hpb⟩ := hs
  rw [DoBonds.records]
  simp only [hpb, if_true]
  rw [if_pos (Or.inl (by rw [hi]; decide))]
  refine ⟨rfl, rfl, ?_⟩
  simp [GetMolID]

/-- The record `atomRefs2="a1 a2"`, `atomRef="a3"`, `order="2"` names three known
atoms and is rejected. -/
theorem DoBonds_surplus_reference_rejected_witness :
    (DoBonds.records sampleEnv
        (([("atomRefs2", "a1 a2")] ++ ("atomRef", "a3") :: [("order", "2")]) :: []) false sampleFormat).1 = false
    ∧ (DoBonds.records sampleEnv
        (([("atomRefs2", "a1 a2")] ++ ("atomRef", "a3") :: [("order", "2")]) :: []) false sampleFormat).2._pmol
        = sampleFormat._pmol
    ∧ (DoBonds.records sampleEnv
        (([("atomRefs2", "a1 a2")] ++ ("atomRef", "a3") :: [("order", "2")]) :: []) false
          sampleFormat).2.obErrorLog.getLast?
        = some ⟨GetMolID sampleEnv sampleFormat, "Incorrect bond attributes", obMessageLevel.obError⟩ :=
  DoBonds_surplus_reference_rejected sampleEnv sampleFormat false [("atomRefs2", "a1 a2")]
    [("order", "2")] ("atomRef", "a3") [] (by decide) (by decide) (by decide)

/-- C7 at the failing inputs: records in which a reference attribute occurs after
both endpoints have been filled, one of them from an identifier that is not in the
atom map. In `atomRef="zz"`, `atomRef="a1"`, `atomRef="a2"` the third single
reference is not rejected: `DoBonds` returns true, logs nothing and adds the bond
a1-a2. In `atomRefs2="a1 zz"`, `atomRef="a2"`, `order="2"` the reference after the
two-token one is not rejected either: the bond a1-a2 of order 2 is added. The index
0 read for `zz` is taken as an endpoint that is not filled. With known identifiers
only, `atomRefs2="a1 a3"`, `atomRef="a2"`, `order="2"`, the record is rejected: the
result is false, no bond is added and the error is logged. -/
theorem DoBonds_reference_after_unresolved_accepted :
    mapCount sampleFormat.AtomMap "zz" = 0
    ∧ ((DoBonds sampleEnv { sampleFormat with
          BondArray := [[("atomRef", "zz"), ("atomRef", "a1"), ("atomRef", "a2")]] }).1,
       (DoBonds sampleEnv { sampleFormat with
          BondArray := [[("atomRef", "zz"), ("atomRef", "a1"), ("atomRef", "a2")]] }).2._pmol.bonds,
       (DoBonds sampleEnv { sampleFormat with
          BondArray := [[("atomRef", "zz"), ("atomRef", "a1"), ("atomRef", "a2")]] }).2.obErrorLog)
      = (true, [{ BeginAtomIdx := 1, EndAtomIdx := 2, BondOrder := 1 }], [])
    ∧ ((DoBonds sampleEnv { sampleFormat with
          BondArray := [[("atomRefs2", "a1 zz"), ("atomRef", "a2"), ("order", "2")]] }).1,
       (DoBonds sampleEnv { sampleFormat with
          BondArray := [[("atomRefs2", "a1 zz"), ("atomRef", "a2"), ("order", "2")]] }).2._pmol.bonds,
       (DoBonds sampleEnv { sampleFormat with
          BondArray := [[("atomRefs2", "a1 zz"), ("atomRef", "a2"), ("order", "2")]] }).2.obErrorLog)
      = (true, [{ BeginAtomIdx := 1, EndAtomIdx := 2, BondOrder := 2 }], [])
    ∧ ((DoBonds sampleEnv { sampleFormat with
          BondArray := [[("atomRefs2", "a1 a3"), ("atomRef", "a2"), ("order", "2")]] }).1,
       (DoBonds sampleEnv { sampleFormat with
          BondArray := [[("atomRefs2", "a1 a3"), ("atomRef", "a2"), ("order", "2")]] }).2._pmol.bonds,
       (DoBonds sampleEnv { sampleFormat with
          BondArray := [[("atomRefs2", "a1 a3"), ("atomRef", "a2"), ("order", "2")]] }).2.obErrorLog.map
            fun e => (e.msg, e.level))
      = (false, [], [("Incorrect bond attributes", obMessageLevel.obError)]) := by
  refine ⟨?_, ?_, ?_, ?_⟩ <;> decide!

end OpenBabel

namespace OpenBabel

/-! ## Strings: trimming and blanks -/

theorem dropWhile_isDelim_cons (c : Char) (cs : List Char) (h : isDelim c = false) :
    (c :: cs).dropWhile isDelim = c :: cs := by
  simp [List.dropWhile, h]

theorem trimChars_eq (l : List Char) (h1 : ∀ c ∈ l.head?, isDelim c = false)
    (h2 : ∀ c ∈ l.getLast?, isDelim c = false) : trimChars l = l := by
  unfold trimChars
  cases hr : l.reverse with
  | nil =>
    have : l = [] := by simpa using hr
    subst this
    rfl
  | cons z r =>
    have hl : l = r.reverse ++ [z] := by
      have := congrArg List.reverse hr
      simpa using this
    have hz : isDelim z = false := h2 z (by rw [hl]; simp)
    rw [dropWhile_isDelim_cons z r hz, ← hr, List.reverse_reverse]
    cases l with
    | nil => rfl
    | cons c cs => exact dropWhile_isDelim_cons c cs (h1 c (by simp))

theorem IsToken.trim {s : String} (h : IsToken s) : Trim s = s := by
  unfold Trim
  rw [trimChars_eq s.data]
  · intro c hc
    exact h.2 c (List.mem_of_mem_head? hc)
  · intro c hc
    exact h.2 c (List.mem_of_mem_getLast? hc)

theorem isDelim_blank : isDelim ' ' = true := by decide

theorem findBlank_none (l : List Char) (h : ∀ c ∈ l, isDelim c = false) : findBlank l = none := by
  induction l with
  | nil => rfl
  | cons c cs ih =>
    have hc : c ≠ ' ' := by
      intro he
      have := h c (List.mem_cons_self _ _)
      rw [he, isDelim_blank] at this
      exact Bool.noConfusion this
    simp only [findBlank, beq_iff_eq, hc, if_false, ih (fun x hx => h x (List.mem_cons_of_mem _ hx)),
      Option.map_none']

theorem findBlank_append (l r : List Char) (h : ∀ c ∈ l, isDelim c = false) :
    findBlank (l ++ ' ' :: r) = some l.length := by
  induction l with
  | nil => simp [findBlank]
  | cons c cs ih =>
    have hc : c ≠ ' ' := by
      intro he
      have := h c (List.mem_cons_self _ _)
      rw [he, isDelim_blank] at this
      exact Bool.noConfusion this
    have ih' := ih (fun x hx => h x (List.mem_cons_of_mem _ hx))
    show findBlank (c :: (cs ++ ' ' :: r)) = some (cs.length + 1)
    simp only [findBlank, beq_iff_eq, hc, if_false, ih', Option.map_some']

theorem pair_data (p q : String) : (p ++ " " ++ q).data = p.data ++ ' ' :: q.data := by
  simp [String.data_append]

theorem IsToken.trim_pair {p q : String} (hp : IsToken p) (hq : IsToken q) :
    Trim (p ++ " " ++ q) = p ++ " " ++ q := by
  unfold Trim
  rw [trimChars_eq]
  · intro c hc
    rw [pair_data] at hc
    obtain ⟨hne, hall⟩ := hp
    cases hd : p.data with
    | nil => exact absurd hd hne
    | cons x xs =>
      rw [hd] at hc
      simp only [List.cons_append, List.head?_cons, Option.mem_def, Option.some.injEq] at hc
      exact hall c (by rw [hd, ← hc]; exact List.mem_cons_self _ _)
  · intro c hc
    rw [pair_data] at hc
    obtain ⟨hne, hall⟩ := hq
    have : (p.data ++ ' ' :: q.data).getLast? = q.data.getLast? := by
      rw [show p.data ++ ' ' :: q.data = (p.data ++ [' ']) ++ q.data by simp]
      rw [List.getLast?_append_of_ne_nil _ hne]
    rw [this] at hc
    exact hall c (List.mem_of_mem_getLast? hc)

theorem mapTouch_of_lookup (m : AtomMapT) (k : String) (v : Int) (h : m.lookup k = some v) :
    mapTouch m k = m := by
  simp [mapTouch, h]

theorem mapGet_of_lookup (m : AtomMapT) (k : String) (v : Int) (h : m.lookup k = some v) :
    mapGet m k = v := by
  simp [mapGet, h]

end OpenBabel

namespace OpenBabel

/-! ## Bonds: one two-token reference against two single references -/

theorem DoBonds.attr_pair (molID : String) (s : BondVars) (n0 p q : String) (i j : Int)
    (hn : startsWithAtomRef n0 = true) (hp : IsToken p) (hq : IsToken q)
    (hi : s.AtomMap.lookup p = some i) (hj : s.AtomMap.lookup q = some j) (h0 : s.indx1 = 0) :
    (DoBonds.attr molID s (n0, p ++ " " ++ q)).indx1 = i
    ∧ (DoBonds.attr molID s (n0, p ++ " " ++ q)).indx2 = j
    ∧ (DoBonds.attr molID s (n0, p ++ " " ++ q)).PossibleBond = true
    ∧ (DoBonds.attr molID s (n0, p ++ " " ++ q)).AtomMap = s.AtomMap := by
  rw [DoBonds.attr_of_ref molID s _ hn]
  simp only [hp.trim_pair hq, pair_data, findBlank_append _ _ hp.2]
  obtain ⟨w1, w2, _, w4, w5⟩ := DoBonds.warn_fields molID n0 (some p.data.length) { s with PossibleBond := true }
  have ht : String.mk (List.take p.data.length (p.data ++ ' ' :: q.data)) = p := by
    rw [List.take_left']
    rfl
  have hd : Trim (String.mk (List.drop (p.data.length + 1) (p.data ++ ' ' :: q.data))) = q := by
    have : List.drop (p.data.length + 1) (p.data ++ ' ' :: q.data) = q.data := by
      rw [show p.data ++ ' ' :: q.data = (p.data ++ [' ']) ++ q.data by simp]
      rw [List.drop_left']
      simp
    rw [this]
    exact hq.trim
  unfold DoBonds.setEndpoints
  rw [if_pos (by rw [w1]; exact h0)]
  simp only [pair_data, ht, hd, w5]
  have hi' : List.lookup p s.AtomMap = some i := hi
  have hj' : List.lookup q s.AtomMap = some j := hj
  rw [mapTouch_of_lookup _ _ _ hi', mapTouch_of_lookup _ _ _ hj', mapGet_of_lookup _ _ _ hi',
    mapGet_of_lookup _ _ _ hj']
  exact ⟨rfl, rfl, w4, rfl⟩

theorem DoBonds.attr_single_first (molID : String) (s : BondVars) (n1 p : String) (i : Int)
    (hn : startsWithAtomRef n1 = true) (hp : IsToken p)
    (hi : s.AtomMap.lookup p = some i) (h0 : s.indx1 = 0) :
    (DoBonds.attr molID s (n1, p)).indx1 = i
    ∧ (DoBonds.attr molID s (n1, p)).indx2 = s.indx2
    ∧ (DoBonds.attr molID s (n1, p)).PossibleBond = true
    ∧ (DoBonds.attr molID s (n1, p)).AtomMap = s.AtomMap := by
  rw [DoBonds.attr_of_ref molID s _ hn]
  simp only [hp.trim, findBlank_none _ hp.2]
  obtain ⟨w1, w2, _, w4, w5⟩ := DoBonds.warn_fields molID n1 none { s with PossibleBond := true }
  unfold DoBonds.setEndpoints
  rw [if_pos (by rw [w1]; exact h0)]
  simp only [w5]
  have hi' : List.lookup p s.AtomMap = some i := hi
  rw [mapTouch_of_lookup _ _ _ hi', mapGet_of_lookup _ _ _ hi']
  exact ⟨rfl, w2, w4, rfl⟩

theorem DoBonds.attr_single_second (molID : String) (s : BondVars) (n2 q : String) (j : Int)
    (hn : startsWithAtomRef n2 = true) (hq : IsToken q)
    (hj : s.AtomMap.lookup q = some j) (h1 : s.indx1 ≠ 0) (h2 : s.indx2 = 0) :
    (DoBonds.attr molID s (n2, q)).indx1 = s.indx1
    ∧ (DoBonds.attr molID s (n2, q)).indx2 = j
    ∧ (DoBonds.attr molID s (n2, q)).PossibleBond = true
    ∧ (DoBonds.attr molID s (n2, q)).AtomMap = s.AtomMap := by
  rw [DoBonds.attr_of_ref molID s _ hn]
  simp only [hq.trim, findBlank_none _ hq.2]
  obtain ⟨w1, w2, _, w4, w5⟩ := DoBonds.warn_fields molID n2 none { s with PossibleBond := true }
  unfold DoBonds.setEndpoints
  rw [if_neg (by rw [w1]; exact h1), if_pos (by rw [w2]; exact h2)]
  simp only [w5]
  have hj' : List.lookup q s.AtomMap = some j := hj
  rw [mapTouch_of_lookup _ _ _ hj', mapGet_of_lookup _ _ _ hj']
  exact ⟨w1, rfl, w4, rfl⟩

theorem refAttrs_mem_ref (record : List Attr) (a : Attr) (h : a ∈ refAttrs record) :
    startsWithAtomRef a.1 = true := by
  unfold refAttrs at h
  exact (List.mem_filter.mp h).2

theorem bondScan_refPart (env : Env) (f : CMLFormat) (hw : Bool) (record : List Attr) :
    (bondScan env f hw record).refPart = (bondScan env f hw (refAttrs record)).refPart := by
  unfold bondScan
  exact DoBonds.scan_refPart _ _ _

/-- C6: for identifiers p and q that the map sends to atom indices, a bond record
whose only reference attribute holds the two-token value "p q" and a bond record
with the two single references p then q both add the bond from atom AtomMap[p] to
atom AtomMap[q], with the same order. -/
theorem DoBonds_two_token_reference_equiv (env : Env) (f : CMLFormat) (hw : Bool)
    (rec1 rec2 : List Attr) (rest : List (List Attr)) (n0 n1 n2 p q : String) (i j : Int)
    (hp : IsToken p) (hq : IsToken q)
    (hi : f.AtomMap.lookup p = some i) (hj : f.AtomMap.lookup q = some j)
    (hi0 : 0 < i) (hj0 : 0 < j)
    (h1 : refAttrs rec1 = [(n0, p ++ " " ++ q)])
    (h2 : refAttrs rec2 = [(n1, p), (n2, q)])
    (ho : orderToken rec1 = orderToken rec2) :
    ∃ (k : Int) (hw1 hw2 : Bool) (log1 log2 : List LogEntry),
      DoBonds.records env (rec1 :: rest) hw f =
        DoBonds.records env rest hw1 { f with obErrorLog := log1, _pmol := f._pmol.AddBond i j k }
      ∧ DoBonds.records env (rec2 :: rest) hw f =
        DoBonds.records env rest hw2 { f with obErrorLog := log2, _pmol := f._pmol.AddBond i j k } := by
  have hn0 : startsWithAtomRef n0 = true := refAttrs_mem_ref rec1 (n0, p ++ " " ++ q) (by rw [h1]; simp)
  have hn1 : startsWithAtomRef n1 = true := refAttrs_mem_ref rec2 (n1, p) (by rw [h2]; simp)
  have hn2 : startsWithAtomRef n2 = true := refAttrs_mem_ref rec2 (n2, q) (by rw [h2]; simp)
  -- the scan of the first record
  have e1 := bondScan_refPart env f hw rec1
  rw [h1] at e1
  obtain ⟨a1, a2, a3, a4⟩ := DoBonds.attr_pair (GetMolID env f)
    { HaveWarned := hw, AtomMap := f.AtomMap, log := f.obErrorLog } n0 p q i j hn0 hp hq hi hj rfl
  have hs1 : bondScan env f hw [(n0, p ++ " " ++ q)] = DoBonds.attr (GetMolID env f)
      { HaveWarned := hw, AtomMap := f.AtomMap, log := f.obErrorLog } (n0, p ++ " " ++ q) := rfl
  rw [hs1] at e1
  simp only [BondVars.refPart, Prod.mk.injEq] at e1
  obtain ⟨b1, b2, b3, _, b5, _⟩ := e1
  rw [a1] at b1; rw [a2] at b2; rw [a3] at b3; rw [a4] at b5
  -- the scan of the second record
  have e2 := bondScan_refPart env f hw rec2
  rw [h2] at e2
  obtain ⟨c1, c2, c3, c4⟩ := DoBonds.attr_single_first (GetMolID env f)
    { HaveWarned := hw, AtomMap := f.AtomMap, log := f.obErrorLog } n1 p i hn1 hp hi rfl
  obtain ⟨d1, d2, d3, d4⟩ := DoBonds.attr_single_second (GetMolID env f)
    (DoBonds.attr (GetMolID env f) { HaveWarned := hw, AtomMap := f.AtomMap, log := f.obErrorLog } (n1, p))
    n2 q j hn2 hq (by rw [c4]; exact hj) (by rw [c1]; omega) (by rw [c2])
  have hs2 : bondScan env f hw [(n1, p), (n2, q)] = DoBonds.attr (GetMolID env f)
      (DoBonds.attr (GetMolID env f) { HaveWarned := hw, AtomMap := f.AtomMap, log := f.obErrorLog } (n1, p))
      (n2, q) := rfl
  rw [hs2] at e2
  simp only [BondVars.refPart, Prod.mk.injEq] at e2
  obtain ⟨g1, g2, g3, _, g5, _⟩ := e2
  rw [d1, c1] at g1; rw [d2] at g2; rw [d3] at g3; rw [d4, c4] at g5
  have r1 := DoBonds.records_cons_bond env f hw rec1 rest b3
    (by rw [b1]; exact hi0) (by rw [b2]; exact hj0)
  have r2 := DoBonds.records_cons_bond env f hw rec2 rest g3
    (by rw [g1]; exact hi0) (by rw [g2]; exact hj0)
  have hord : (bondScan env f hw rec2).ord = (bondScan env f hw rec1).ord := by
    rw [bondScan_ord, bondScan_ord, ho]
  rw [hord] at r2
  refine ⟨(if (bondScan env f hw rec1).ord = 0 then 1 else (bondScan env f hw rec1).ord),
    (bondScan env f hw rec1).HaveWarned, (bondScan env f hw rec2).HaveWarned,
    (bondScan env f hw rec1).log, (bondScan env f hw rec2).log, ?_, ?_⟩
  · rw [r1]
    unfold bondAdded
    rw [b1, b2, b5]
  · rw [r2]
    unfold bondAdded
    rw [g1, g2, g5]

theorem DoBonds_two_token_reference_equiv_witness :
    ∃ (k : Int) (hw1 hw2 : Bool) (log1 log2 : List LogEntry),
      DoBonds.records sampleEnv ([("atomRefs2", "a1" ++ " " ++ "a3"), ("order", "D")] :: []) false sampleFormat =
        DoBonds.records sampleEnv [] hw1
          { sampleFormat with obErrorLog := log1, _pmol := sampleFormat._pmol.AddBond 1 3 k }
      ∧ DoBonds.records sampleEnv ([("atomRef1", "a1"), ("order", "D"), ("atomRef2", "a3")] :: []) false
          sampleFormat =
        DoBonds.records sampleEnv [] hw2
          { sampleFormat with obErrorLog := log2, _pmol := sampleFormat._pmol.AddBond 1 3 k } :=
  DoBonds_two_token_reference_equiv sampleEnv sampleFormat false
    [("atomRefs2", "a1" ++ " " ++ "a3"), ("order", "D")]
    [("atomRef1", "a1"), ("order", "D"), ("atomRef2", "a3")] [] "atomRefs2" "atomRef1" "atomRef2"
    "a1" "a3" 1 3 (by unfold IsToken; decide) (by unfold IsToken; decide) (by decide) (by decide)
    (by decide) (by decide) (by decide) (by decide) (by decide)

end OpenBabel

namespace OpenBabel

/-! ## Array attributes -/

theorem pushEach_length (name : String) (arr : cmlArray) (items : List String)
    (h : items.length ≤ arr.length) : (pushEach name arr items).length = arr.length := by
  induction arr generalizing items with
  | nil =>
    cases items with
    | nil => rfl
    | cons it its => simp at h
  | cons r rs ih =>
    cases items with
    | nil => rfl
    | cons it its =>
      simp only [pushEach, List.length_cons]
      rw [ih its (by simpa using h)]

theorem pushEach_get_lt (name : String) (arr : cmlArray) (items : List String)
    (h : items.length ≤ arr.length) (i : Nat) (hi : i < items.length) :
    (pushEach name arr items)[i]? = some (arr.getD i [] ++ [(name, items.getD i "")]) := by
  induction arr generalizing items i with
  | nil =>
    cases items with
    | nil => simp at hi
    | cons it its => simp at h
  | cons r rs ih =>
    cases items with
    | nil => simp at hi
    | cons it its =>
      cases i with
      | zero => simp [pushEach]
      | succ j =>
        simp only [pushEach, List.getElem?_cons_succ, List.getD_cons_succ]
        exact ih its (by simpa using h) j (by simpa using hi)

theorem pushEach_get_ge (name : String) (arr : cmlArray) (items : List String)
    (i : Nat) (hi : items.length ≤ i) (h : items.length ≤ arr.length) :
    (pushEach name arr items)[i]? = arr[i]? := by
  induction arr generalizing items i with
  | nil =>
    cases items with
    | nil => rfl
    | cons it its => simp at h
  | cons r rs ih =>
    cases items with
    | nil => rfl
    | cons it its =>
      cases i with
      | zero => simp at hi
      | succ j =>
        simp only [pushEach, List.getElem?_cons_succ]
        exact ih its j (by simpa using hi) (by simpa using h)

theorem pushItems_length (arr : cmlArray) (name : String) (items : List String) :
    (pushItems arr name items).length = max arr.length items.length := by
  unfold pushItems
  split_ifs with h
  · rw [pushEach_length _ _ _ (by simp; omega)]
    simp
    omega
  · rw [pushEach_length _ _ _ (by omega)]
    omega

theorem pushItems_get_lt (arr : cmlArray) (name : String) (items : List String) (i : Nat)
    (hi : i < items.length) :
    (pushItems arr name items)[i]? = some (arr.getD i [] ++ [(name, items.getD i "")]) := by
  unfold pushItems
  split_ifs with h
  · rw [pushEach_get_lt _ _ _ (by simp; omega) i hi]
    congr 2
    by_cases hia : i < arr.length
    · simp [List.getD_eq_getElem?_getD, List.getElem?_append_left hia]
    · have hia' : arr.length ≤ i := by omega
      simp only [List.getD_eq_getElem?_getD]
      rw [List.getElem?_append_right hia', List.getElem?_eq_none hia']
      simp only [List.getElem?_replicate]
      split_ifs <;> rfl
  · rw [pushEach_get_lt _ _ _ (by omega) i hi]

theorem pushItems_get_ge (arr : cmlArray) (name : String) (items : List String) (i : Nat)
    (hi : items.length ≤ i) : (pushItems arr name items)[i]? = arr[i]? := by
  unfold pushItems
  split_ifs with h
  · rw [pushEach_get_ge _ _ _ i hi (by simp; omega)]
    have h1 : arr.length ≤ i := by omega
    rw [List.getElem?_eq_none h1, List.getElem?_eq_none (by simp; omega)]
  · rw [pushEach_get_ge _ _ _ i hi (by omega)]

/-- C9: with the reader on an element whose last attribute is `(name, value)`,
`TransferArray` acts for that attribute on the array `before` that the earlier
attributes produce from `arr`: the result has length `max before.length N` for the
`N` tokens of the value, record `i < N` is the earlier record `i` (empty when the
array was shorter) followed by `(name, token i)`, and the records at positions
`≥ N` are unchanged. -/
theorem TransferArray_distributes_tokens (f : CMLFormat) (arr : cmlArray) (elem : String)
    (earlier : List Attr) (name value : String) (e : Bool)
    (hnode : f.reader.node = some (XmlNode.element elem (earlier ++ [(name, value)]) e)) :
    (TransferArray f arr).1.length
        = max (TransferArray { f with reader := { f.reader with
                node := some (XmlNode.element elem earlier e) } } arr).1.length (tokenize value).length
    ∧ (∀ i, i < (tokenize value).length →
        (TransferArray f arr).1[i]?
          = some ((TransferArray { f with reader := { f.reader with
                node := some (XmlNode.element elem earlier e) } } arr).1.getD i []
                ++ [(name, (tokenize value).getD i "")]))
    ∧ (∀ i, (tokenize value).length ≤ i →
        (TransferArray f arr).1[i]?
          = (TransferArray { f with reader := { f.reader with
                node := some (XmlNode.element elem earlier e) } } arr).1[i]?) := by
  have hstep : (TransferArray f arr).1
      = pushItems (TransferArray { f with reader := { f.reader with
          node := some (XmlNode.element elem earlier e) } } arr).1 name (tokenize value) := by
    unfold TransferArray xmlTextReaderHasAttributes xmlTextReader.attrs
    rw [hnode]
    cases earlier with
    | nil => simp
    | cons a as => simp [List.foldl_append]
  rw [hstep]
  exact ⟨pushItems_length _ _ _, fun i hi => pushItems_get_lt _ _ _ i hi,
    fun i hi => pushItems_get_ge _ _ _ i hi⟩

theorem TransferArray_distributes_tokens_witness :
    (TransferArray { reader := { node := some (XmlNode.element "atomArray"
        ([("elementType", "C H H")] ++ [("x3", "0.1 0.2")]) true) } } [[("id", "a1")]]).1.length
        = max (TransferArray { ({ reader := { node := some (XmlNode.element "atomArray"
            ([("elementType", "C H H")] ++ [("x3", "0.1 0.2")]) true) } } : CMLFormat) with
              reader := { ({ node := some (XmlNode.element "atomArray"
                ([("elementType", "C H H")] ++ [("x3", "0.1 0.2")]) true) } : xmlTextReader) with
                node := some (XmlNode.element "atomArray" [("elementType", "C H H")] true) } }
            [[("id", "a1")]]).1.length (tokenize "0.1 0.2").length :=
  (TransferArray_distributes_tokens
    { reader := { node := some (XmlNode.element "atomArray"
        ([("elementType", "C H H")] ++ [("x3", "0.1 0.2")]) true) } }
    [[("id", "a1")]] "atomArray" [("elementType", "C H H")] "x3" "0.1 0.2" true rfl).1

end OpenBabel

namespace OpenBabel

/-! ## Individual atom and bond elements -/

/-- C10 at the failing input: for the self-closing element `<atom/>` without
attributes `DoElement` appends the empty record once itself and once more through
the exit call it makes at its end, so that `AtomArray` gains two records; the same
happens to `BondArray` for `<bond/>`. With an attribute the cursor is left on the
attribute, the exit call is not made, and one record is appended. -/
theorem DoElement_empty_atom_appended_twice :
    (stateOf (DoElement sampleEnv { reader := { node := some (XmlNode.element "atom" [] true) } } "atom")).map
        (·.AtomArray) = some [[], []]
    ∧ (stateOf (DoElement sampleEnv { reader := { node := some (XmlNode.element "bond" [] true) } } "bond")).map
        (·.BondArray) = some [[], []]
    ∧ (stateOf (DoElement sampleEnv
          { reader := { node := some (XmlNode.element "atom" [("id", "a1")] true) } } "atom")).map
        (·.AtomArray) = some [[("id", "a1")]]
    ∧ (readDocument sampleEnv {}
          [XmlNode.element "molecule" [] false, XmlNode.element "atomArray" [] false,
           XmlNode.element "atom" [] true, XmlNode.endElement "atomArray",
           XmlNode.endElement "molecule"]).map (·.atoms.length) = some 2 := by
  decide!

/-! ## Atoms: the attribute after `atomRefs4` -/

/-- C2 at the failing input: in the array `elementType="C" atomRefs4="x"
hydrogenCount="2"` the attribute loop of `DoAtoms` takes the attribute after
`atomRefs4` for a parity and passes over it, so no hydrogen is created: the molecule
has 1 atom where N + H = 3. Without the `atomRefs4` attribute it has 3, and the
scenario of the claim gives 3 atoms and one bond of order 1. -/
theorem DoAtoms_hydrogenCount_after_atomRefs4_lost :
    (readDocument sampleEnv {}
        [XmlNode.element "molecule" [] false,
         XmlNode.element "atomArray" [("elementType", "C"), ("atomRefs4", "x"), ("hydrogenCount", "2")] true,
         XmlNode.endElement "molecule"]).map (·.atoms.length) = some 1
    ∧ (readDocument sampleEnv {}
        [XmlNode.element "molecule" [] false,
         XmlNode.element "atomArray" [("elementType", "C"), ("hydrogenCount", "2")] true,
         XmlNode.endElement "molecule"]).map (·.atoms.length) = some 3
    ∧ (readDocument sampleEnv {}
        [XmlNode.element "molecule" [] false,
         XmlNode.element "atomArray" [("atomID", "a1 a2 a3"), ("elementType", "C H H")] true,
         XmlNode.element "bondArray" [] false,
         XmlNode.element "bond" [("atomRefs2", "a1 a2"), ("order", "S")] true,
         XmlNode.endElement "bondArray",
         XmlNode.endElement "molecule"]).map (fun m => (m.atoms.map (·.AtomicNum), m.bonds))
        = some ([6, 1, 1], [{ BeginAtomIdx := 1, EndAtomIdx := 2, BondOrder := 1 }]) := by
  decide!

/-- C8 at the failing input: in the record `atomRefs4="x" id="a1" elementType="C"`
the attribute loop of `DoAtoms` passes over the `id` attribute that follows
`atomRefs4`, so `AtomMap` gets no entry for `a1` although atom 1 is created for the
record, and a bond that refers to `a1` and `a2` is rejected. -/
theorem DoAtoms_id_after_atomRefs4_lost :
    (stateOf (DoAtoms sampleEnv
        { AtomArray := [[("atomRefs4", "x"), ("id", "a1"), ("elementType", "C")],
                        [("id", "a2"), ("elementType", "O")]] })).map
        (fun f => (f._pmol.atoms.map (·.AtomicNum), f.AtomMap, mapGet f.AtomMap "a1"))
      = some ([6, 8], [("a2", 2)], 0)
    ∧ (readDocument sampleEnv {}
        [XmlNode.element "molecule" [] false,
         XmlNode.element "atom" [("atomRefs4", "x"), ("id", "a1"), ("elementType", "C")] true,
         XmlNode.element "atom" [("id", "a2"), ("elementType", "O")] true,
         XmlNode.element "bond" [("atomRefs2", "a1 a2"), ("order", "1")] true,
         XmlNode.endElement "molecule"]).map (fun m => (m.atoms.length, m.bonds.length))
      = some (2, 0) := by
  decide!

end OpenBabel

namespace OpenBabel

/-! ## Round trip -/

/-- C1 fails for a graph without bonds and without coordinates: `WriteMolecule` writes
only its formula, which lists the elements in the order C, H, ..., and the graph
with the atoms H, C and no bond is read back with the atoms C, H: the same atom
count, but not the same element for each atom in order. -/
theorem roundTrip_without_bonds_counterexample :
    (roundTrip { sampleEnv with GetSpacedFormula := sampleFormula } {}
        { atoms := [{ AtomicNum := 1 }, { AtomicNum := 6 }] }).map (fun m => m.atoms.map (·.AtomicNum))
      = some [6, 1]
    ∧ toNodes (WriteMolecule { sampleEnv with GetSpacedFormula := sampleFormula } {} ""
        { atoms := [{ AtomicNum := 1 }, { AtomicNum := 6 }] }).1
      = [XmlNode.element "molecule" [("xmlns", "http://www.xml-cml.org/schema")] false,
         XmlNode.element "formula" [("concise", "C 1 H 1 ")] true,
         XmlNode.endElement "molecule"] := by
  decide!

end OpenBabel

namespace OpenBabel

/-! ## Atoms: records without `atomRefs4` and `hydrogenCount` -/

theorem AtomVars.Same.refl (s : AtomVars) : AtomVars.Same s s := ⟨rfl, rfl, rfl, rfl⟩

theorem AtomVars.Same.trans {s t u : AtomVars} (h1 : AtomVars.Same s t) (h2 : AtomVars.Same t u) :
    AtomVars.Same s u :=
  ⟨h2.1.trans h1.1, h2.2.1.trans h1.2.1, h2.2.2.1.trans h1.2.2.1, h2.2.2.2.trans h1.2.2.2⟩

theorem modifyAtom_nums (mol : OBMol) (i : Nat) (g : OBAtom → OBAtom)
    (hg : ∀ a, (g a).AtomicNum = a.AtomicNum) :
    (mol.modifyAtom i g).atoms.map (·.AtomicNum) = mol.atoms.map (·.AtomicNum) := by
  unfold OBMol.modifyAtom
  simp only
  generalize mol.atoms = l
  induction l generalizing i with
  | nil => cases i <;> simp
  | cons a as ih =>
    cases i with
    | zero => simp [List.modify, hg]
    | succ j => simp only [List.modify_succ_cons, List.map_cons, ih j]

theorem modifyAtom_bonds (mol : OBMol) (i : Nat) (g : OBAtom → OBAtom) :
    (mol.modifyAtom i g).bonds = mol.bonds := rfl

theorem chooseCoords_same (use2d hasCell : Bool) (n : String) (s : AtomVars) :
    AtomVars.Same s (DoAtoms.chooseCoords use2d hasCell n s) := by
  unfold DoAtoms.chooseCoords
  split_ifs <;> exact ⟨rfl, rfl, rfl, rfl⟩

theorem readCoords_same (n v : String) (s : AtomVars) :
    AtomVars.Same s (DoAtoms.readCoords n v s) := by
  unfold DoAtoms.readCoords
  split_ifs
  · exact ⟨rfl, rfl, rfl, rfl⟩
  · exact ⟨rfl, rfl, rfl, rfl⟩
  · exact ⟨rfl, rfl, rfl, rfl⟩
  · split <;> exact ⟨rfl, rfl, rfl, rfl⟩
  · split <;> exact ⟨rfl, rfl, rfl, rfl⟩
  · exact ⟨rfl, rfl, rfl, rfl⟩

theorem modifyAtom_same (s : AtomVars) (i : Nat) (g : OBAtom → OBAtom)
    (hg : ∀ a, (g a).AtomicNum = a.AtomicNum) :
    AtomVars.Same s { s with mol := s.mol.modifyAtom i g } :=
  ⟨modifyAtom_nums s.mol i g hg, rfl, rfl, rfl⟩

theorem other_same (pAtom : Nat) (n v : String) (s : AtomVars) (hn : n ≠ "hydrogenCount") :
    AtomVars.Same s (DoAtoms.other pAtom n v s) := by
  unfold DoAtoms.other
  simp only [beq_iff_eq, hn, if_false]
  split_ifs
  · exact modifyAtom_same _ pAtom _ (fun _ => rfl)
  · exact modifyAtom_same _ pAtom _ (fun _ => rfl)
  · exact modifyAtom_same _ pAtom _ (fun _ => rfl)
  · exact modifyAtom_same _ pAtom _ (fun _ => rfl)
  · exact AtomVars.Same.refl s

/-- An attribute with an inert name leaves the atomic numbers, the bonds, the map
and the atom count as they are, and the loop goes on with the next attribute. -/
theorem DoAtoms.attrs_inert_cons (env : Env) (molID : String) (use2d hasCell : Bool) (pAtom : Nat)
    (nhvy : Int) (n v : String) (rest : List Attr) (s : AtomVars) (hn : InertName n) :
    ∃ t, AtomVars.Same s t ∧
      DoAtoms.attrs env molID use2d hasCell pAtom nhvy ((n, v) :: rest) s =
        DoAtoms.cont [(n, v)] (DoAtoms.attrs env molID use2d hasCell pAtom nhvy rest t) := by
  obtain ⟨h1, h2, h3, h4, h5, h6⟩ := hn
  refine ⟨_, ((chooseCoords_same use2d hasCell n s).trans
    (readCoords_same n v (DoAtoms.chooseCoords use2d hasCell n s))).trans
    (other_same pAtom n v _ h6), ?_⟩
  rw [DoAtoms.attrs.eq_def]
  simp only [beq_iff_eq, h1, h2, h3, h4, h5, Bool.or_self, Bool.false_eq_true, if_false]
  rw [if_neg]
  simp [h1, h2, h3]

end OpenBabel

namespace OpenBabel

theorem DoAtoms.attrs_inert (env : Env) (molID : String) (use2d hasCell : Bool) (pAtom : Nat)
    (nhvy : Int) (tail : List Attr) (s : AtomVars) (ht : ∀ a ∈ tail, InertName a.1) :
    ∃ t r, AtomVars.Same s t ∧
      DoAtoms.attrs env molID use2d hasCell pAtom nhvy tail s = Except.ok (t, r) := by
  induction tail generalizing s with
  | nil => exact ⟨s, [], AtomVars.Same.refl s, rfl⟩
  | cons a rest ih =>
    obtain ⟨n, v⟩ := a
    obtain ⟨t, hst, heq⟩ := DoAtoms.attrs_inert_cons env molID use2d hasCell pAtom nhvy n v rest s
      (ht (n, v) (List.mem_cons_self _ _))
    obtain ⟨u, r, htu, hu⟩ := ih t (fun a ha => ht a (List.mem_cons_of_mem _ ha))
    refine ⟨u, (n, v) :: r, hst.trans htu, ?_⟩
    rw [heq, hu]
    rfl

theorem setId_fields (molID : String) (nhvy : Int) (value : String) (s : AtomVars) :
    (DoAtoms.setId molID nhvy value s).mol = s.mol
    ∧ (DoAtoms.setId molID nhvy value s).AtomMap = mapSet s.AtomMap value nhvy
    ∧ (DoAtoms.setId molID nhvy value s).nAtoms = s.nAtoms := by
  unfold DoAtoms.setId
  simp only
  split_ifs <;> exact ⟨rfl, rfl, rfl⟩

theorem modifyAtom_last_nums (mol : OBMol) (g : OBAtom → OBAtom) (pre : List OBAtom) (a : OBAtom)
    (h : mol.atoms = pre ++ [a]) :
    (mol.modifyAtom pre.length g).atoms.map (·.AtomicNum)
      = pre.map (·.AtomicNum) ++ [(g a).AtomicNum] := by
  unfold OBMol.modifyAtom
  simp only [h]
  clear h
  induction pre with
  | nil => simp [List.modify]
  | cons b bs ih => simp only [List.cons_append, List.length_cons, List.modify_succ_cons, List.map_cons, ih]

theorem setElement_fields (env : Env) (value : String) (s : AtomVars) (pre : List OBAtom) (a : OBAtom)
    (h : s.mol.atoms = pre ++ [a]) :
    (DoAtoms.setElement env pre.length value s).mol.atoms.map (·.AtomicNum)
        = pre.map (·.AtomicNum) ++ [(env.GetAtomicNum value).1]
    ∧ (DoAtoms.setElement env pre.length value s).mol.bonds = s.mol.bonds
    ∧ (DoAtoms.setElement env pre.length value s).AtomMap = s.AtomMap
    ∧ (DoAtoms.setElement env pre.length value s).nAtoms = s.nAtoms := by
  unfold DoAtoms.setElement
  refine ⟨?_, ?_, ?_, ?_⟩
  · simp only
    split_ifs
    · refine Eq.trans (modifyAtom_nums _ _ _ ?_) (modifyAtom_last_nums s.mol _ pre a h)
      intro b
      rfl
    · exact modifyAtom_last_nums s.mol _ pre a h
  · simp only
    split_ifs <;> rfl
  · rfl
  · rfl

/-- A record that begins with an identifier and an `elementType` and goes on with
inert attributes gives one atom of that element and maps the identifier to the
index of the new atom. -/
theorem DoAtoms.record_plain (env : Env) (molID : String) (use2d : Bool) (cell : Option (List String))
    (idn id el : String) (tail : List Attr) (s : AtomVars)
    (hidn : idn = "id" ∨ idn = "atomID") (hid : IsToken id)
    (ht : ∀ a ∈ tail, InertName a.1) :
    ∃ t r dim, DoAtoms.record env molID use2d cell ((idn, id) :: ("elementType", el) :: tail) s
        = Except.ok (t, r, dim)
      ∧ t.mol.atoms.map (·.AtomicNum) = s.mol.atoms.map (·.AtomicNum) ++ [(env.GetAtomicNum el).1]
      ∧ t.mol.bonds = s.mol.bonds
      ∧ t.AtomMap = mapSet s.AtomMap id (s.nAtoms + 1)
      ∧ t.nAtoms = s.nAtoms + 1 := by
  unfold DoAtoms.record
  simp only
  have hidtrue : (idn == "id" || idn == "atomId" || idn == "atomID") = true := by
    rcases hidn with h | h <;> subst h <;> decide
  rw [DoAtoms.attrs.eq_def]
  simp only [hidtrue, if_true]
  rw [DoAtoms.attrs.eq_def]
  simp only [hid.trim]
  have hfalse : (("elementType" : String) == "id" || ("elementType" : String) == "atomId"
      || ("elementType" : String) == "atomID") = false := by decide
  simp only [hfalse, Bool.false_eq_true, if_false, beq_self_eq_true, if_true]
  obtain ⟨i1, i2, i3⟩ := setId_fields molID (s.nAtoms + 1) id
    { s with mol := s.mol.NewAtom, nAtoms := s.nAtoms + 1, x := Dbl.zero, y := Dbl.zero, z := Dbl.zero,
             using3 := false, using2 := false, usingFract := false }
  have hlen : s.mol.NewAtom.atoms.length - 1 = s.mol.atoms.length := by
    simp [OBMol.NewAtom]
  rw [hlen]
  obtain ⟨e1, e2, e3, e4⟩ := setElement_fields env el _ s.mol.atoms {} (by rw [i1]; rfl)
  obtain ⟨t, r, hsame, heq⟩ := DoAtoms.attrs_inert env molID use2d cell.isSome s.mol.atoms.length
    (s.nAtoms + 1) tail _ ht
  rw [heq]
  simp only [DoAtoms.cont]
  obtain ⟨s1, s2, s3, s4⟩ := hsame
  refine ⟨_, _, _, rfl, ?_, ?_, ?_, ?_⟩
  · refine Eq.trans (modifyAtom_nums _ _ _ ?_) (s1.trans e1)
    intro b
    rfl
  · exact (modifyAtom_bonds _ _ _).trans (s2.trans (e2.trans (by rw [i1]; rfl)))
  · exact s3.trans (e3.trans i2)
  · exact s4.trans (e4.trans i3)

end OpenBabel

namespace OpenBabel

theorem DoAtoms.records_plain (env : Env) (molID : String) (use2d : Bool) (cell : Option (List String))
    (recs : List PlainAtom) (s : AtomVars) (dim : Int) (h : ∀ r ∈ recs, r.Ok) :
    ∃ t rs dim', DoAtoms.records env molID use2d cell (recs.map PlainAtom.record) s dim
        = Except.ok (t, rs, dim')
      ∧ t.mol.atoms.map (·.AtomicNum)
          = s.mol.atoms.map (·.AtomicNum) ++ recs.map (fun r => (env.GetAtomicNum r.2.2.1).1)
      ∧ t.mol.bonds = s.mol.bonds
      ∧ t.AtomMap = mapSetAll s.AtomMap (recs.map (·.2.1)) (s.nAtoms + 1)
      ∧ t.nAtoms = s.nAtoms + recs.length := by
  induction recs generalizing s dim with
  | nil => exact ⟨s, [], dim, rfl, by simp, rfl, rfl, by simp⟩
  | cons r rest ih =>
    obtain ⟨hidn, hid, ht⟩ := h r (List.mem_cons_self _ _)
    obtain ⟨t, rr, d1, heq, h1, h2, h3, h4⟩ :=
      DoAtoms.record_plain env molID use2d cell r.1 r.2.1 r.2.2.1 r.2.2.2 s hidn hid ht
    obtain ⟨u, rs, d2, heq2, g1, g2, g3, g4⟩ := ih t d1 (fun x hx => h x (List.mem_cons_of_mem _ hx))
    refine ⟨u, rr :: rs, d2, ?_, ?_, ?_, ?_, ?_⟩
    · simp only [List.map_cons, DoAtoms.records]
      have : PlainAtom.record r = (r.1, r.2.1) :: ("elementType", r.2.2.1) :: r.2.2.2 := rfl
      rw [this, heq]
      simp only
      rw [heq2]
    · rw [g1, h1]
      simp
    · rw [g2, h2]
    · rw [g3, h3, h4]
      rfl
    · rw [g4, h4]
      simp only [List.length_cons, Nat.cast_add, Nat.cast_one]
      omega

/-- `DoAtoms` on plain atom records, from a molecule without atoms. -/
theorem DoAtoms_plain (env : Env) (f : CMLFormat) (recs : List PlainAtom)
    (harr : f.AtomArray = recs.map PlainAtom.record) (h : ∀ r ∈ recs, r.Ok)
    (hatoms : f._pmol.atoms = []) :
    ∃ M L A, DoAtoms env f = Except.ok (true,
        { f with _pmol := M, AtomMap := mapSetAll f.AtomMap (recs.map (·.2.1)) 1,
                 obErrorLog := L, AtomArray := A })
      ∧ M.atoms.map (·.AtomicNum) = recs.map (fun r => (env.GetAtomicNum r.2.2.1).1)
      ∧ M.bonds = f._pmol.bonds := by
  obtain ⟨t, rs, dim, heq, h1, h2, h3, h4⟩ := DoAtoms.records_plain env (GetMolID env f)
    f._pxmlConv.in2 (f.unitCell.map (·.vals)) recs
    { mol := f._pmol, AtomMap := f.AtomMap, log := f.obErrorLog, nAtoms := f._pmol.NumAtoms } 0 h
  unfold DoAtoms
  rw [harr, heq]
  have hn : ((f._pmol.NumAtoms : Int) + 1) = 1 := by simp [OBMol.NumAtoms, hatoms]
  rw [hn] at h3
  refine ⟨{ (if t.aclass.length > 0 then t.mol.SetData (OBGenericData.AtomClassData t.aclass)
      else t.mol) with Dimension := dim }, t.log, rs, ?_, ?_, ?_⟩
  · simp only [h3]
  · simp only
    split_ifs
    · simp only [OBMol.SetData]
      rw [h1, hatoms]
      simp
    · rw [h1, hatoms]
      simp
  · simp only
    split_ifs
    · simp only [OBMol.SetData]
      rw [h2]
    · rw [h2]

theorem lookup_mapSet_same (m : AtomMapT) (key : String) (v : Int) :
    (mapSet m key v).lookup key = some v := by
  induction m with
  | nil => simp [mapSet, List.lookup]
  | cons e es ih =>
    obtain ⟨k, w⟩ := e
    unfold mapSet
    by_cases hk : k = key
    · subst hk
      simp [List.lookup]
    · have hk' : (k == key) = false := by simpa using hk
      have hk2 : (key == k) = false := by
        rw [beq_eq_false_iff_ne]; exact fun h => hk h.symm
      simp only [hk', Bool.false_eq_true, if_false, List.lookup, hk2]
      exact ih

theorem lookup_mapSet_ne (m : AtomMapT) (key key' : String) (v : Int) (hne : key' ≠ key) :
    (mapSet m key v).lookup key' = m.lookup key' := by
  induction m with
  | nil =>
    have : (key' == key) = false := by simpa using hne
    simp [mapSet, List.lookup, this]
  | cons e es ih =>
    obtain ⟨k, w⟩ := e
    unfold mapSet
    by_cases hk : k = key
    · subst hk
      have : (key' == k) = false := by simpa using hne
      simp [List.lookup, this]
    · have hk' : (k == key) = false := by simpa using hk
      simp only [hk', Bool.false_eq_true, if_false, List.lookup]
      cases hkk : (key' == k) with
      | true => rfl
      | false => exact ih

theorem lookup_mapSetAll_notin (m : AtomMapT) (ids : List String) (k : Int) (key : String)
    (h : key ∉ ids) : (mapSetAll m ids k).lookup key = m.lookup key := by
  induction ids generalizing m k with
  | nil => rfl
  | cons i is ih =>
    simp only [List.mem_cons, not_or] at h
    rw [mapSetAll, ih _ _ h.2, lookup_mapSet_ne _ _ _ _ h.1]

theorem lookup_mapSetAll (m : AtomMapT) (ids : List String) (k : Int) (key : String) (j : Nat)
    (hnd : ids.Nodup) (hj : ids[j]? = some key) : (mapSetAll m ids k).lookup key = some (k + j) := by
  induction ids generalizing m k j with
  | nil => simp at hj
  | cons i is ih =>
    rw [List.nodup_cons] at hnd
    cases j with
    | zero =>
      simp only [List.getElem?_cons_zero, Option.some.injEq] at hj
      subst hj
      rw [mapSetAll, lookup_mapSetAll_notin _ _ _ _ hnd.1, lookup_mapSet_same]
      simp
    | succ n =>
      simp only [List.getElem?_cons_succ] at hj
      rw [mapSetAll, ih _ _ n hnd.2 hj]
      simp only [Nat.cast_add, Nat.cast_one]
      congr 1
      omega

end OpenBabel

namespace OpenBabel

theorem Steps.steps_refl (env : Env) (f : CMLFormat) (ns : List XmlNode) : Steps env f ns f ns :=
  fun fuel h => ⟨fuel, h, rfl⟩

theorem Steps.steps_trans {env : Env} {f g h : CMLFormat} {ns ms ks : List XmlNode}
    (h1 : Steps env f ns g ms) (h2 : Steps env g ms h ks) : Steps env f ns h ks := by
  intro fuel hf
  obtain ⟨fuel1, hf1, e1⟩ := h1 fuel hf
  obtain ⟨fuel2, hf2, e2⟩ := h2 fuel1 hf1
  exact ⟨fuel2, hf2, e1.trans e2⟩

theorem Steps.halts {env : Env} {f g : CMLFormat} {m : OBMol} {ns ms : List XmlNode}
    (h1 : Steps env f ns g ms) (h2 : Halts env g ms m) : Halts env f ns m := by
  intro fuel hf
  obtain ⟨fuel1, hf1, e1⟩ := h1 fuel hf
  rw [e1, h2 fuel1 hf1]

/-- `ReadXML` looks at the reader only through the nodes to come. -/
theorem ReadXML_onNodes (env : Env) (fuel : Nat) (f : CMLFormat) :
    molOf (ReadXML env fuel f) = molOf (ReadXML env fuel (f.onNodes f.reader.pending)) := by
  cases fuel with
  | zero => rfl
  | succ n =>
    rw [ReadXML, ReadXML]
    by_cases hp : f.reader.pending.isEmpty = true
    · have hp' : (f.onNodes f.reader.pending).reader.pending.isEmpty = true := hp
      rw [if_pos hp, if_pos hp']
      rfl
    · have hp' : ¬ (f.onNodes f.reader.pending).reader.pending.isEmpty = true := hp
      rw [if_neg hp, if_neg hp']
      rfl

theorem ReadXML_element (env : Env) (fuel : Nat) (f : CMLFormat) (name : String) (as : List Attr)
    (e : Bool) (rest : List XmlNode) :
    ReadXML env (fuel + 1) (f.onNodes (XmlNode.element name as e :: rest))
      = match DoElement env { f with reader := ⟨some (XmlNode.element name as e), none, rest⟩ } name with
        | Except.error e => Except.error e
        | Except.ok (ret, f) => if ret then ReadXML env fuel f else Except.ok f := rfl

theorem ReadXML_endElement (env : Env) (fuel : Nat) (f : CMLFormat) (name : String)
    (rest : List XmlNode) :
    ReadXML env (fuel + 1) (f.onNodes (XmlNode.endElement name :: rest))
      = match EndElement env { f with reader := ⟨some (XmlNode.endElement name), none, rest⟩ } name with
        | Except.error e => Except.error e
        | Except.ok (ret, f) => if ret then ReadXML env fuel f else Except.ok f := rfl

theorem ReadXML_text (env : Env) (fuel : Nat) (f : CMLFormat) (v : String) (rest : List XmlNode) :
    ReadXML env (fuel + 1) (f.onNodes (XmlNode.text v :: rest))
      = ReadXML env fuel { f with reader := ⟨some (XmlNode.text v), none, rest⟩ } := rfl

/-- One turn of `ReadXML` at a start tag whose handler returns true. -/
theorem Steps.element {env : Env} {f g g' : CMLFormat} {name : String} {as : List Attr} {e : Bool}
    {rest ms : List XmlNode}
    (h : DoElement env { f with reader := ⟨some (XmlNode.element name as e), none, rest⟩ } name
      = Except.ok (true, g))
    (hp : g.reader.pending = ms) (hg : g.onNodes ms = g'.onNodes ms) (hlen : ms.length ≤ rest.length) :
    Steps env f (XmlNode.element name as e :: rest) g' ms := by
  intro fuel hf
  cases fuel with
  | zero => simp at hf
  | succ n =>
    simp only [List.length_cons, Nat.succ_lt_succ_iff] at hf
    refine ⟨n, by omega, ?_⟩
    rw [ReadXML_element, h]
    simp only [if_true]
    rw [ReadXML_onNodes, hp, hg]

/-- One turn of `ReadXML` at an end tag whose handler returns true. -/
theorem Steps.endElement {env : Env} {f g g' : CMLFormat} {name : String} {rest : List XmlNode}
    (h : EndElement env { f with reader := ⟨some (XmlNode.endElement name), none, rest⟩ } name
      = Except.ok (true, g))
    (hp : g.reader.pending = rest) (hg : g.onNodes rest = g'.onNodes rest) :
    Steps env f (XmlNode.endElement name :: rest) g' rest := by
  intro fuel hf
  cases fuel with
  | zero => simp at hf
  | succ n =>
    simp only [List.length_cons, Nat.succ_lt_succ_iff] at hf
    refine ⟨n, by omega, ?_⟩
    rw [ReadXML_endElement, h]
    simp only [if_true]
    rw [ReadXML_onNodes, hp, hg]

/-- The turn of `ReadXML` at a text node: the node is passed over. -/
theorem Steps.text (env : Env) (f : CMLFormat) (v : String) (rest : List XmlNode) :
    Steps env f (XmlNode.text v :: rest) f rest := by
  intro fuel hf
  cases fuel with
  | zero => simp at hf
  | succ n =>
    simp only [List.length_cons, Nat.succ_lt_succ_iff] at hf
    refine ⟨n, by omega, ?_⟩
    rw [ReadXML_text, ReadXML_onNodes]
    rfl

/-- The turn of `ReadXML` at an end tag whose handler returns false is the last. -/
theorem Halts.last_endElement {env : Env} {f g : CMLFormat} {name : String} {rest : List XmlNode}
    (h : EndElement env { f with reader := ⟨some (XmlNode.endElement name), none, rest⟩ } name
      = Except.ok (false, g)) :
    Halts env f (XmlNode.endElement name :: rest) g._pmol := by
  intro fuel hf
  cases fuel with
  | zero => simp at hf
  | succ n =>
    rw [ReadXML_endElement, h]
    rfl

end OpenBabel

namespace OpenBabel

/-! ## Round trip: tokens of a stream and their distribution -/

theorem tokenizeAux_token (t rest cur : List Char) (h : ∀ c ∈ t, isDelim c = false) :
    tokenizeAux (t ++ rest) cur = tokenizeAux rest (cur ++ t) := by
  induction t generalizing cur with
  | nil => simp
  | cons c cs ih =>
    have hc : isDelim c = false := h c (List.mem_cons_self _ _)
    rw [List.cons_append, tokenizeAux]
    simp only [hc, Bool.false_eq_true, if_false]
    rw [ih _ (fun x hx => h x (List.mem_cons_of_mem _ hx))]
    simp

theorem tokenizeAux_spaced (ts : List String) (h : ∀ t ∈ ts, IsToken t) :
    tokenizeAux (ts.flatMap fun t => ' ' :: t.data) [] = ts.map (·.data)
    ∧ ∀ cur : List Char, cur ≠ [] →
        tokenizeAux (ts.flatMap fun t => ' ' :: t.data) cur = cur :: ts.map (·.data) := by
  induction ts with
  | nil =>
    refine ⟨rfl, ?_⟩
    intro cur hcur
    cases cur with
    | nil => exact absurd rfl hcur
    | cons c cs => rfl
  | cons t ts ih =>
    obtain ⟨ih1, ih2⟩ := ih (fun x hx => h x (List.mem_cons_of_mem _ hx))
    obtain ⟨ht1, ht2⟩ := h t (List.mem_cons_self _ _)
    have key : tokenizeAux (t.data ++ ts.flatMap fun t => ' ' :: t.data) [] = t.data :: ts.map (·.data) := by
      rw [tokenizeAux_token _ _ _ ht2, List.nil_append]
      exact ih2 _ ht1
    refine ⟨?_, ?_⟩
    · simp only [List.flatMap_cons, List.cons_append, List.map_cons]
      rw [tokenizeAux]
      simp only [isDelim_blank, if_true, List.isEmpty_nil]
      exact key
    · intro cur hcur
      simp only [List.flatMap_cons, List.cons_append, List.map_cons]
      rw [tokenizeAux]
      have : cur.isEmpty = false := by
        cases cur with
        | nil => exact absurd rfl hcur
        | cons c cs => rfl
      simp only [isDelim_blank, if_true, this, Bool.false_eq_true, if_false]
      rw [key]

/-- The tokens of a stream into which tokens were written, each after a blank, are
those tokens. -/
theorem tokenize_spaced (ts : List String) (h : ∀ t ∈ ts, IsToken t) : tokenize (spaced ts) = ts := by
  unfold tokenize spaced
  rw [(tokenizeAux_spaced ts h).1]
  rw [List.map_map]
  conv_rhs => rw [← List.map_id ts]
  apply List.map_congr_left
  intro a _
  rfl

theorem pushEach_zipWith (name : String) (arr : cmlArray) (items : List String)
    (h : arr.length = items.length) :
    pushEach name arr items = List.zipWith (fun r it => r ++ [(name, it)]) arr items := by
  induction arr generalizing items with
  | nil =>
    cases items with
    | nil => rfl
    | cons i is => simp at h
  | cons r rs ih =>
    cases items with
    | nil => simp at h
    | cons i is =>
      simp only [List.length_cons, Nat.succ.injEq, add_left_inj] at h
      rw [pushEach, List.zipWith_cons_cons, ih _ h]

theorem pushItems_zipWith (name : String) (arr : cmlArray) (items : List String)
    (h : arr.length = items.length) :
    pushItems arr name items = List.zipWith (fun r it => r ++ [(name, it)]) arr items := by
  unfold pushItems
  rw [if_neg (by omega), pushEach_zipWith _ _ _ h]

theorem pushItems_nil (name : String) (items : List String) :
    pushItems [] name items = items.map fun it => [(name, it)] := by
  unfold pushItems
  have : (if ([] : cmlArray).length < items.length then
      ([] : cmlArray) ++ List.replicate (items.length - ([] : cmlArray).length) [] else [])
      = List.replicate items.length [] := by
    cases items with
    | nil => rfl
    | cons i is => simp
  rw [this, pushEach_zipWith _ _ _ (by simp)]
  clear this
  induction items with
  | nil => rfl
  | cons i is ih =>
    simp only [List.length_cons, List.replicate_succ, List.zipWith_cons_cons, List.map_cons,
      List.nil_append, List.cons.injEq, true_and]
    exact ih

end OpenBabel

namespace OpenBabel

/-! ## Round trip: the atom records -/

theorem PlainRecs.nil : PlainRecs [] [] [] := ⟨[], rfl, by simp, rfl, rfl⟩

theorem PlainRecs.length {ids els : List String} {A : cmlArray} (h : PlainRecs ids els A) :
    A.length = ids.length := by
  obtain ⟨recs, hA, _, hi, _⟩ := h
  rw [hA, ← hi]
  simp

theorem PlainRecs.snoc {ids els : List String} {A : cmlArray} (h : PlainRecs ids els A)
    (idn id el : String) (tail : List Attr) (hidn : idn = "id" ∨ idn = "atomID") (hid : IsToken id)
    (ht : ∀ a ∈ tail, InertName a.1) :
    PlainRecs (ids ++ [id]) (els ++ [el]) (A ++ [(idn, id) :: ("elementType", el) :: tail]) := by
  obtain ⟨recs, hA, hok, hi, he⟩ := h
  refine ⟨recs ++ [(idn, id, el, tail)], ?_, ?_, ?_, ?_⟩
  · rw [hA]
    simp [PlainAtom.record]
  · intro r hr
    rcases List.mem_append.1 hr with hr | hr
    · exact hok r hr
    · simp only [List.mem_singleton] at hr
      subst hr
      exact ⟨hidn, hid, ht⟩
  · rw [List.map_append, hi]
    rfl
  · rw [List.map_append, he]
    rfl

theorem zipWith_plain (k : String) (recs : List PlainAtom) (items : List String)
    (hl : recs.length = items.length) (hok : ∀ r ∈ recs, r.Ok) (hk : InertName k) :
    ∃ recs' : List PlainAtom,
      List.zipWith (fun r it => r ++ [(k, it)]) (recs.map PlainAtom.record) items
        = recs'.map PlainAtom.record
      ∧ (∀ r ∈ recs', r.Ok) ∧ recs'.map (·.2.1) = recs.map (·.2.1)
      ∧ recs'.map (·.2.2.1) = recs.map (·.2.2.1) := by
  induction recs generalizing items with
  | nil =>
    cases items with
    | nil => exact ⟨[], rfl, by simp, rfl, rfl⟩
    | cons i is => simp at hl
  | cons r rs ih =>
    cases items with
    | nil => simp at hl
    | cons i is =>
      simp only [List.length_cons, add_left_inj] at hl
      obtain ⟨recs', h1, h2, h3, h4⟩ := ih is hl (fun x hx => hok x (List.mem_cons_of_mem _ hx))
      obtain ⟨r1, r2, r3⟩ := hok r (List.mem_cons_self _ _)
      refine ⟨(r.1, r.2.1, r.2.2.1, r.2.2.2 ++ [(k, i)]) :: recs', ?_, ?_, ?_, ?_⟩
      · simp only [List.map_cons, List.zipWith_cons_cons, h1]
        rfl
      · intro x hx
        rcases List.mem_cons.1 hx with hx | hx
        · subst hx
          refine ⟨r1, r2, ?_⟩
          intro a ha
          rcases List.mem_append.1 ha with ha | ha
          · exact r3 a ha
          · simp only [List.mem_singleton] at ha
            subst ha
            exact hk
        · exact h2 x hx
      · simp only [List.map_cons, h3]
      · simp only [List.map_cons, h4]

theorem PlainRecs.push {ids els : List String} {A : cmlArray} (h : PlainRecs ids els A)
    (k : String) (items : List String) (hk : InertName k) (hlen : items.length = ids.length) :
    PlainRecs ids els (pushItems A k items) := by
  obtain ⟨recs, hA, hok, hi, he⟩ := h
  have hl : recs.length = items.length := by
    rw [hlen, ← hi]
    simp
  rw [pushItems_zipWith _ _ _ (by rw [hA]; simpa using hl), hA]
  obtain ⟨recs', h1, h2, h3, h4⟩ := zipWith_plain k recs items hl hok hk
  exact ⟨recs', h1, h2, h3.trans hi, h4.trans he⟩

theorem PlainRecs.base (idn : String) (ids els : List String) (hidn : idn = "id" ∨ idn = "atomID")
    (hids : ∀ t ∈ ids, IsToken t) (hlen : ids.length = els.length) :
    PlainRecs ids els (pushItems (pushItems [] idn ids) "elementType" els) := by
  rw [pushItems_nil, pushItems_zipWith _ _ _ (by simpa using hlen)]
  induction ids generalizing els with
  | nil =>
    cases els with
    | nil => exact PlainRecs.nil
    | cons e es => simp at hlen
  | cons i is ih =>
    cases els with
    | nil => simp at hlen
    | cons e es =>
      simp only [List.length_cons, add_left_inj] at hlen
      obtain ⟨recs, h1, h2, h3, h4⟩ := ih es (fun x hx => hids x (List.mem_cons_of_mem _ hx)) hlen
      refine ⟨(idn, i, e, []) :: recs, ?_, ?_, ?_, ?_⟩
      · simp only [List.map_cons, List.zipWith_cons_cons, h1]
        rfl
      · intro x hx
        rcases List.mem_cons.1 hx with hx | hx
        · subst hx
          exact ⟨hidn, hids i (List.mem_cons_self _ _), by simp⟩
        · exact h2 x hx
      · simp only [List.map_cons, h3]
      · simp only [List.map_cons, h4]

/-- `DoAtoms` on plain atom records, from a molecule without atoms: the atoms have
the atomic numbers of the element symbols, and the identifiers are mapped to the
indices 1, 2, ... -/
theorem DoAtoms_plainRecs (env : Env) (f : CMLFormat) (ids els : List String)
    (h : PlainRecs ids els f.AtomArray) (hatoms : f._pmol.atoms = []) :
    ∃ M L A, DoAtoms env f = Except.ok (true,
        { f with _pmol := M, AtomMap := mapSetAll f.AtomMap ids 1, obErrorLog := L, AtomArray := A })
      ∧ M.atoms.map (·.AtomicNum) = els.map (fun el => (env.GetAtomicNum el).1)
      ∧ M.bonds = f._pmol.bonds := by
  obtain ⟨recs, hA, hok, hi, he⟩ := h
  obtain ⟨M, L, A, h1, h2, h3⟩ := DoAtoms_plain env f recs hA hok hatoms
  refine ⟨M, L, A, ?_, ?_, h3⟩
  · rw [h1, hi]
  · rw [h2, ← he, List.map_map]
    rfl

end OpenBabel

namespace OpenBabel

/-! ## Round trip: the text of an integer -/

theorem isDigit_not_delim (c : Char) (h : c.isDigit = true) : isDelim c = false := by
  have hs := isDigit_not_cspace c h
  unfold isCSpace at hs
  unfold isDelim
  simp only [Bool.or_eq_false_iff] at hs ⊢
  exact ⟨⟨⟨hs.1.1.1.1.1, hs.1.1.1.1.2⟩, hs.1.1.1.2⟩, hs.1.1.2⟩

theorem natToDec_token (n : Nat) : IsToken (String.mk (natToDec n)) :=
  ⟨natToDec_ne_nil n, fun c hc => isDigit_not_delim c (natToDec_digits n c hc)⟩

theorem intToDec_token (z : Int) : IsToken (intToDec z) := by
  unfold intToDec
  split_ifs
  · refine ⟨by simp, ?_⟩
    intro c hc
    rcases List.mem_cons.1 hc with hc | hc
    · subst hc
      decide
    · exact isDigit_not_delim c (natToDec_digits _ c hc)
  · exact natToDec_token _

theorem atomId_token (i : Nat) : IsToken (atomId i) := by
  refine ⟨by simp [atomId], ?_⟩
  intro c hc
  rcases List.mem_cons.1 hc with hc | hc
  · subst hc
    decide
  · exact isDigit_not_delim c (natToDec_digits _ c hc)

theorem atomId_injective (i j : Nat) (h : atomId i = atomId j) : i = j := by
  unfold atomId at h
  injection h with h
  injection h with _ h
  exact natToDec_injective i j h

theorem ordOfToken_intToDec (z : Int) (h1 : -2147483648 ≤ z) (h2 : z < 2147483648) :
    ordOfToken (intToDec z) = z := by
  unfold intToDec
  split_ifs with hz
  · have hd : List.dropWhile isCSpace ('-' :: natToDec z.natAbs) = '-' :: natToDec z.natAbs := by
      rw [List.dropWhile_cons_of_neg (by decide)]
    have hs : strtol ('-' :: natToDec z.natAbs) = clampLong (-(z.natAbs : Int)) := by
      unfold strtol
      rw [hd]
      simp only [readDigits_natToDec]
    unfold ordOfToken
    have hf : firstChar (String.mk ('-' :: natToDec z.natAbs)) = '-' := rfl
    rw [hf]
    simp only [show ('-' == 'S') = false by decide, show ('-' == 'D') = false by decide,
      show ('-' == 'A') = false by decide, Bool.false_eq_true, if_false]
    rw [hs]
    unfold clampLong toInt32
    have e1 : ¬ (-(z.natAbs : Int) > 9223372036854775807) := by omega
    have e2 : ¬ (-(z.natAbs : Int) < -9223372036854775808) := by omega
    simp only [e1, e2, if_false]
    omega
  · rw [ordOfToken_natToDec _ (by omega)]
    omega

end OpenBabel

namespace OpenBabel

/-! ## Round trip: the bond records -/

theorem BondVars.refPart_fields (s t : BondVars) (h : s.refPart = t.refPart) :
    s.indx1 = t.indx1 ∧ s.indx2 = t.indx2 ∧ s.PossibleBond = t.PossibleBond
    ∧ s.AtomMap = t.AtomMap := by
  unfold BondVars.refPart at h
  simp only [Prod.mk.injEq] at h
  exact ⟨h.1, h.2.1, h.2.2.1, h.2.2.2.2.1⟩

theorem bondScan_plain (env : Env) (f : CMLFormat) (hw : Bool) (rec : List Attr) (b : OBBond)
    (h : PlainBond f.AtomMap rec b) :
    (bondScan env f hw rec).indx1 = b.BeginAtomIdx ∧ (bondScan env f hw rec).indx2 = b.EndAtomIdx
    ∧ (bondScan env f hw rec).PossibleBond = true ∧ (bondScan env f hw rec).AtomMap = f.AtomMap
    ∧ (bondScan env f hw rec).ord = b.BondOrder := by
  obtain ⟨p, q, tok, hp, hq, hi, hj, hi0, hj0, hord, _, hrec⟩ := h
  have href : ∀ (s : BondVars), (DoBonds.attr (GetMolID env f) s ("order", tok)).refPart = s.refPart :=
    fun s => DoBonds.attr_refPart_of_not_ref _ s _ startsWithAtomRef_order
  have hordv : ∀ (a : List Attr), (∀ x ∈ a, x.1 ≠ "order") →
      (bondScan env f hw (a ++ [("order", tok)])).ord = b.BondOrder := by
    intro a ha
    rw [bondScan_ord]
    have : orderToken (a ++ [("order", tok)]) = some (Trim tok) := by
      induction a with
      | nil => simp [orderToken]
      | cons x xs ih =>
        rw [List.cons_append, orderToken_cons, ih (fun y hy => ha y (List.mem_cons_of_mem _ hy))]
    rw [this]
    exact hord
  rcases hrec with hrec | hrec | hrec
  · subst hrec
    obtain ⟨a1, a2, a3, a4⟩ := DoBonds.attr_pair (GetMolID env f)
      { HaveWarned := hw, AtomMap := f.AtomMap, log := f.obErrorLog } "atomRefs2" p q _ _
      (by decide) hp hq hi hj rfl
    obtain ⟨b1, b2, b3, b4⟩ := BondVars.refPart_fields _ _ (href (DoBonds.attr (GetMolID env f)
      { HaveWarned := hw, AtomMap := f.AtomMap, log := f.obErrorLog } ("atomRefs2", p ++ " " ++ q)))
    refine ⟨b1.trans a1, b2.trans a2, b3.trans a3, b4.trans a4, ?_⟩
    exact hordv [("atomRefs2", p ++ " " ++ q)] (by simp)
  · subst hrec
    obtain ⟨a1, a2, a3, a4⟩ := DoBonds.attr_single_first (GetMolID env f)
      { HaveWarned := hw, AtomMap := f.AtomMap, log := f.obErrorLog } "atomRef1" p _
      (by decide) hp hi rfl
    obtain ⟨c1, c2, c3, c4⟩ := DoBonds.attr_single_second (GetMolID env f)
      (DoBonds.attr (GetMolID env f) { HaveWarned := hw, AtomMap := f.AtomMap, log := f.obErrorLog }
        ("atomRef1", p)) "atomRef2" q _ (by decide) hq (by rw [a4]; exact hj)
      (by rw [a1]; omega) (by rw [a2])
    obtain ⟨b1, b2, b3, b4⟩ := BondVars.refPart_fields _ _ (href (DoBonds.attr (GetMolID env f)
      (DoBonds.attr (GetMolID env f) { HaveWarned := hw, AtomMap := f.AtomMap, log := f.obErrorLog }
        ("atomRef1", p)) ("atomRef2", q)))
    refine ⟨b1.trans (c1.trans a1), b2.trans c2, b3.trans c3, b4.trans (c4.trans a4), ?_⟩
    exact hordv [("atomRef1", p), ("atomRef2", q)] (by simp)
  · subst hrec
    obtain ⟨a1, a2, a3, a4⟩ := DoBonds.attr_single_first (GetMolID env f)
      { HaveWarned := hw, AtomMap := f.AtomMap, log := f.obErrorLog } "atomRef" p _
      (by decide) hp hi rfl
    obtain ⟨c1, c2, c3, c4⟩ := DoBonds.attr_single_second (GetMolID env f)
      (DoBonds.attr (GetMolID env f) { HaveWarned := hw, AtomMap := f.AtomMap, log := f.obErrorLog }
        ("atomRef", p)) "atomRef" q _ (by decide) hq (by rw [a4]; exact hj)
      (by rw [a1]; omega) (by rw [a2])
    obtain ⟨b1, b2, b3, b4⟩ := BondVars.refPart_fields _ _ (href (DoBonds.attr (GetMolID env f)
      (DoBonds.attr (GetMolID env f) { HaveWarned := hw, AtomMap := f.AtomMap, log := f.obErrorLog }
        ("atomRef", p)) ("atomRef", q)))
    refine ⟨b1.trans (c1.trans a1), b2.trans c2, b3.trans c3, b4.trans (c4.trans a4), ?_⟩
    exact hordv [("atomRef", p), ("atomRef", q)] (by simp)

/-- `DoBonds` on records of the written forms, all resolved by the map: one bond is
added for each record, in order. -/
theorem DoBonds.bond_records_plain (env : Env) (m : AtomMapT) (recs : cmlArray) (bs : List OBBond)
    (h : List.Forall₂ (PlainBond m) recs bs) (hw : Bool) (f : CMLFormat) (hm : f.AtomMap = m) :
    ∃ L, DoBonds.records env recs hw f
      = (true, { f with _pmol := { f._pmol with bonds := f._pmol.bonds ++ bs.map OBBond.plain },
                        obErrorLog := L }) := by
  induction h generalizing hw f with
  | nil => exact ⟨f.obErrorLog, by simp [DoBonds.records]⟩
  | @cons rec b recs bs hrb hrest ih =>
    subst hm
    obtain ⟨s1, s2, s3, s4, s5⟩ := bondScan_plain env f hw rec b hrb
    obtain ⟨_, _, _, _, _, _, _, hi0, hj0, _, ho, _⟩ := hrb
    rw [DoBonds.records_cons_bond env f hw rec recs s3 (by rw [s1]; exact hi0) (by rw [s2]; exact hj0)]
    obtain ⟨L, hL⟩ := ih (bondScan env f hw rec).HaveWarned
      (bondAdded env f hw rec (if (bondScan env f hw rec).ord = 0 then 1 else (bondScan env f hw rec).ord))
      (by unfold bondAdded; exact s4)
    refine ⟨L, ?_⟩
    rw [hL]
    unfold bondAdded
    rw [s1, s2, s4, s5, if_neg ho]
    simp [OBMol.AddBond, OBBond.plain]

end OpenBabel

namespace OpenBabel

/-! ## Round trip: the end of the molecule -/

theorem DoAtoms_plain_fields (env : Env) (f : CMLFormat) (ids els : List String)
    (h : PlainRecs ids els f.AtomArray) (hatoms : f._pmol.atoms = []) :
    ∃ g, DoAtoms env f = Except.ok (true, g)
      ∧ g._pmol.atoms.map (·.AtomicNum) = els.map (fun el => (env.GetAtomicNum el).1)
      ∧ g._pmol.bonds = f._pmol.bonds ∧ g.AtomMap = mapSetAll f.AtomMap ids 1
      ∧ g.BondArray = f.BondArray ∧ g.molWideData = f.molWideData
      ∧ g._embedlevel = f._embedlevel := by
  obtain ⟨M, L, A, h1, h2, h3⟩ := DoAtoms_plainRecs env f ids els h hatoms
  exact ⟨_, h1, h2, h3, rfl, rfl, rfl, rfl⟩

theorem DoBonds_plain_fields (env : Env) (f : CMLFormat) (bs : List OBBond)
    (h : List.Forall₂ (PlainBond f.AtomMap) f.BondArray bs) :
    ∃ g, DoBonds env f = (true, g) ∧ g._pmol.atoms = f._pmol.atoms
      ∧ g._pmol.bonds = f._pmol.bonds ++ bs.map OBBond.plain ∧ g.molWideData = f.molWideData
      ∧ g._embedlevel = f._embedlevel := by
  obtain ⟨L, h1⟩ := DoBonds.bond_records_plain env f.AtomMap f.BondArray bs h false f rfl
  exact ⟨_, h1, rfl, rfl, rfl, rfl⟩

theorem DoMolWideData_empty (f : CMLFormat) (h : f.molWideData = []) :
    DoMolWideData f = Except.ok (true, { f with AtomArray := [], BondArray := [], molWideData := [] }) := by
  unfold DoMolWideData
  rw [h]
  rfl

theorem finishMolecule_plain (env : Env) (f : CMLFormat) (hna : f._pmol.atoms ≠ [])
    (hnb : f._pmol.bonds ≠ []) (hemb : f._embedlevel = 0) :
    ∃ g, EndElement.finishMolecule env f = (false, g)
      ∧ g._pmol = env.AssignSpinMultiplicity f._pmol := by
  have h1 : ¬ (f._pmol.NumAtoms = 0 ∧ (!f.RawFormula.data.isEmpty) = true) := by
    intro h
    apply hna
    have := h.1
    unfold OBMol.NumAtoms at this
    exact List.length_eq_zero.1 (by omega)
  have h2 : ¬ (f._pmol.NumBonds = 0) := by
    intro h
    apply hnb
    unfold OBMol.NumBonds at h
    exact List.length_eq_zero.1 (by omega)
  unfold EndElement.finishMolecule
  simp only [if_neg h1, if_neg h2, hemb]
  exact ⟨_, rfl, rfl⟩

/-- The end tag of the outermost molecule, with plain atom records and written bond
records in the arrays: `EndElement` returns false, and the molecule has an atom for
each atom record and a bond for each bond record. -/
theorem EndElement_molecule_plain (env : Env) (f : CMLFormat) (ids els : List String)
    (bs : List OBBond)
    (hma : f._pmol.atoms = []) (hmb : f._pmol.bonds = []) (hmap : f.AtomMap = [])
    (hmw : f.molWideData = []) (hemb : f._embedlevel = 0)
    (hA : PlainRecs ids els f.AtomArray)
    (hB : List.Forall₂ (PlainBond (mapSetAll [] ids 1)) f.BondArray bs) (hels : els ≠ []) (hbs : bs ≠ [])
    (hspin : ∀ x, (env.AssignSpinMultiplicity x).atoms.map (·.AtomicNum) = x.atoms.map (·.AtomicNum)
      ∧ (env.AssignSpinMultiplicity x).bonds = x.bonds) :
    ∃ g, EndElement env f "molecule" = Except.ok (false, g)
      ∧ g._pmol.atoms.map (·.AtomicNum) = els.map (fun el => (env.GetAtomicNum el).1)
      ∧ g._pmol.bonds = bs.map OBBond.plain := by
  obtain ⟨f1, h1, a1, a2, a3, a4, a5, a6⟩ := DoAtoms_plain_fields env f ids els hA hma
  rw [hmap] at a3
  obtain ⟨f2, h2, b1, b2, b3, b4⟩ := DoBonds_plain_fields env f1 bs (by rw [a3, a4]; exact hB)
  have hE : EndElement env f "molecule"
      = match DoAtoms env f with
        | Except.error e => Except.error e
        | Except.ok (_, f) =>
          match DoMolWideData (DoBonds env f).2 with
          | Except.error e => Except.error e
          | Except.ok (_, f) => Except.ok (EndElement.finishMolecule env f) := rfl
  rw [hE, h1]
  simp only
  rw [h2, DoMolWideData_empty f2 (by rw [b3, a5, hmw])]
  simp only
  have hna : f2._pmol.atoms ≠ [] := by
    intro h0
    rw [b1] at h0
    rw [h0] at a1
    cases els with
    | nil => exact hels rfl
    | cons e es => simp at a1
  have hnb : f2._pmol.bonds ≠ [] := by
    rw [b2]
    cases bs with
    | nil => exact absurd rfl hbs
    | cons b bs => simp
  obtain ⟨g, g1, g2⟩ := finishMolecule_plain env
    { f2 with AtomArray := [], BondArray := [], molWideData := [] } hna hnb (by
      show f2._embedlevel = 0
      rw [b4, a6, hemb])
  refine ⟨g, by rw [g1], ?_, ?_⟩
  · rw [g2, (hspin _).1]
    show f2._pmol.atoms.map (·.AtomicNum) = _
    rw [b1, a1]
  · rw [g2, (hspin _).2]
    show f2._pmol.bonds = _
    rw [b2, a2, hmb]
    rfl

end OpenBabel

namespace OpenBabel

/-! ## Round trip: the turns of the reader inside the molecule -/

section
variable (env : Env) (conv : OBConversion) (m : OBMol) (A B : cmlArray) (inB : Bool)
  (cba : List Attr) (rest : List XmlNode)

theorem Steps.atom_closed (a : Attr) (as : List Attr) :
    Steps env (rdState conv m A B inB cba) (XmlNode.element "atom" (a :: as) true :: rest)
      (rdState conv m (A ++ [trimmed (a :: as)]) B inB (trimmed (a :: as))) rest :=
  Steps.element (g := { rdState conv m (A ++ [trimmed (a :: as)]) B inB (trimmed (a :: as)) with
    reader := ⟨some (XmlNode.element "atom" (a :: as) true), some as.length, rest⟩ }) rfl rfl rfl
    (le_refl _)

theorem Steps.bond_closed (a : Attr) (as : List Attr) :
    Steps env (rdState conv m A B inB cba) (XmlNode.element "bond" (a :: as) true :: rest)
      (rdState conv m A (B ++ [trimmed (a :: as)]) inB (trimmed (a :: as))) rest :=
  Steps.element (g := { rdState conv m A (B ++ [trimmed (a :: as)]) inB (trimmed (a :: as)) with
    reader := ⟨some (XmlNode.element "bond" (a :: as) true), some as.length, rest⟩ }) rfl rfl rfl
    (le_refl _)

theorem Steps.atomArray_closed (a : Attr) (as : List Attr) :
    Steps env (rdState conv m A B inB cba) (XmlNode.element "atomArray" (a :: as) true :: rest)
      (rdState conv m (distributed A (a :: as)) B false cba) rest :=
  Steps.element (g := { rdState conv m (distributed A (a :: as)) B false cba with
    reader := ⟨some (XmlNode.element "atomArray" (a :: as) true), some as.length, rest⟩ }) rfl rfl rfl
    (le_refl _)

theorem Steps.bondArray_closed (a : Attr) (as : List Attr) :
    Steps env (rdState conv m A B inB cba) (XmlNode.element "bondArray" (a :: as) true :: rest)
      (rdState conv m A (distributed B (a :: as)) true cba) rest :=
  Steps.element (g := { rdState conv m A (distributed B (a :: as)) true cba with
    reader := ⟨some (XmlNode.element "bondArray" (a :: as) true), some as.length, rest⟩ }) rfl rfl rfl
    (le_refl _)

theorem Steps.atomArray_open :
    Steps env (rdState conv m A B inB cba) (XmlNode.element "atomArray" [] false :: rest)
      (rdState conv m A B false cba) rest :=
  Steps.element (g := { rdState conv m A B false cba with
    reader := ⟨some (XmlNode.element "atomArray" [] false), none, rest⟩ }) rfl rfl rfl (le_refl _)

theorem Steps.bondArray_open :
    Steps env (rdState conv m A B inB cba) (XmlNode.element "bondArray" [] false :: rest)
      (rdState conv m A B true cba) rest :=
  Steps.element (g := { rdState conv m A B true cba with
    reader := ⟨some (XmlNode.element "bondArray" [] false), none, rest⟩ }) rfl rfl rfl (le_refl _)

theorem Steps.atom_open (id : String) :
    Steps env (rdState conv m A B inB cba) (XmlNode.element "atom" [("id", id)] false :: rest)
      (rdState conv m A B inB [("id", Trim id)]) rest :=
  Steps.element (g := { rdState conv m A B inB [("id", Trim id)] with
    reader := ⟨some (XmlNode.element "atom" [("id", id)] false), some 0, rest⟩ }) rfl rfl rfl (le_refl _)

theorem Steps.bond_open :
    Steps env (rdState conv m A B inB cba) (XmlNode.element "bond" [] false :: rest)
      (rdState conv m A B inB []) rest :=
  Steps.element (g := { rdState conv m A B inB [] with
    reader := ⟨some (XmlNode.element "bond" [] false), none, rest⟩ }) rfl rfl rfl (le_refl _)

theorem Steps.atom_end :
    Steps env (rdState conv m A B inB cba) (XmlNode.endElement "atom" :: rest)
      (rdState conv m (A ++ [cba]) B inB cba) rest :=
  Steps.endElement (g := { rdState conv m (A ++ [cba]) B inB cba with
    reader := ⟨some (XmlNode.endElement "atom"), none, rest⟩ }) rfl rfl rfl

theorem Steps.bond_end :
    Steps env (rdState conv m A B inB cba) (XmlNode.endElement "bond" :: rest)
      (rdState conv m A (B ++ [cba]) inB cba) rest :=
  Steps.endElement (g := { rdState conv m A (B ++ [cba]) inB cba with
    reader := ⟨some (XmlNode.endElement "bond"), none, rest⟩ }) rfl rfl rfl

/-- The end tag of an element for which `EndElement` does nothing. -/
theorem Steps.other_end (name : String)
    (hn : name = "atomArray" ∨ name = "bondArray" ∨ name = "string" ∨ name = "integer"
      ∨ name = "float" ∨ name = "floatg" ∨ name = "stringArray" ∨ name = "integerArray"
      ∨ name = "floatArray" ∨ name = "name") :
    Steps env (rdState conv m A B inB cba) (XmlNode.endElement name :: rest)
      (rdState conv m A B inB cba) rest := by
  rcases hn with h | h | h | h | h | h | h | h | h | h <;> subst h <;>
    exact Steps.endElement (g := { rdState conv m A B inB cba with
      reader := ⟨some (XmlNode.endElement _), none, rest⟩ }) rfl rfl rfl

/-- A child element of the CML1 forms of an atom or a bond: the builtin name and the
trimmed content are appended to the current record. -/
theorem Steps.builtin_child (name b c : String)
    (hn : name = "string" ∨ name = "integer" ∨ name = "float") :
    Steps env (rdState conv m A B inB cba)
      (XmlNode.element name [("builtin", b)] false :: XmlNode.text c :: XmlNode.endElement name :: rest)
      (rdState conv m A B inB (cba ++ [(b, Trim c)])) rest := by
  refine @Steps.steps_trans env _ (rdState conv m A B inB (cba ++ [(b, Trim c)])) _ _
    (XmlNode.endElement name :: rest) _ ?_
    (Steps.other_end env conv m A B inB _ rest name (by rcases hn with h | h | h <;> simp [h]))
  rcases hn with h | h | h <;> subst h <;>
    exact Steps.element (g := { rdState conv m A B inB (cba ++ [(b, Trim c)]) with
      reader := ⟨some (XmlNode.text c), none, XmlNode.endElement _ :: rest⟩ }) rfl rfl rfl
      (Nat.le_succ _)

/-- An array child element of the CML1 array form inside `atomArray`. -/
theorem Steps.atom_array_child (name b c : String)
    (hn : name = "stringArray" ∨ name = "integerArray" ∨ name = "floatArray") :
    Steps env (rdState conv m A B false cba)
      (XmlNode.element name [("builtin", b)] false :: XmlNode.text c :: XmlNode.endElement name :: rest)
      (rdState conv m (pushItems A b (tokenize c)) B false cba) rest := by
  refine @Steps.steps_trans env _ (rdState conv m (pushItems A b (tokenize c)) B false cba) _ _
    (XmlNode.endElement name :: rest) _ ?_
    (Steps.other_end env conv m _ B false cba rest name (by rcases hn with h | h | h <;> simp [h]))
  rcases hn with h | h | h <;> subst h <;>
    exact Steps.element (g := { rdState conv m (pushItems A b (tokenize c)) B false cba with
      reader := ⟨some (XmlNode.text c), none, XmlNode.endElement _ :: rest⟩ }) rfl rfl rfl
      (Nat.le_succ _)

/-- An array child element of the CML1 array form inside `bondArray`. -/
theorem Steps.bond_array_child (name b c : String)
    (hn : name = "stringArray" ∨ name = "integerArray" ∨ name = "floatArray") :
    Steps env (rdState conv m A B true cba)
      (XmlNode.element name [("builtin", b)] false :: XmlNode.text c :: XmlNode.endElement name :: rest)
      (rdState conv m A (pushItems B b (tokenize c)) true cba) rest := by
  refine @Steps.steps_trans env _ (rdState conv m A (pushItems B b (tokenize c)) true cba) _ _
    (XmlNode.endElement name :: rest) _ ?_
    (Steps.other_end env conv m A _ true cba rest name (by rcases hn with h | h | h <;> simp [h]))
  rcases hn with h | h | h <;> subst h <;>
    exact Steps.element (g := { rdState conv m A (pushItems B b (tokenize c)) true cba with
      reader := ⟨some (XmlNode.text c), none, XmlNode.endElement _ :: rest⟩ }) rfl rfl rfl
      (Nat.le_succ _)

/-- The start tag of a `floatg` element, which the reader does not know. -/
theorem Steps.floatg_open (as : List Attr) :
    Steps env (rdState conv m A B inB cba) (XmlNode.element "floatg" as false :: rest)
      (rdState conv m A B inB cba) rest :=
  Steps.element (g := { rdState conv m A B inB cba with
    reader := ⟨some (XmlNode.element "floatg" as false), none, rest⟩ }) rfl rfl rfl (le_refl _)

end

end OpenBabel

namespace OpenBabel

/-! ## Round trip: the start of the molecule -/

/-- The start tag of the molecule as `WriteMolecule` writes it: `DoElement` clears the
format object and takes the title and the spin multiplicity from the attributes. -/
theorem Steps.molecule_open (env : Env) (conv : OBConversion) (u : String) (tail : List Attr)
    (rest : List XmlNode)
    (ht : tail = [] ∨ (∃ i, tail = [("id", i)]) ∨ (∃ s, tail = [("spinMultiplicity", s)])
      ∨ ∃ i s, tail = [("id", i), ("spinMultiplicity", s)]) :
    ∃ m0 : OBMol, m0.atoms = [] ∧ m0.bonds = [] ∧
      Steps env { _pxmlConv := conv } (XmlNode.element "molecule" (("xmlns", u) :: tail) false :: rest)
        (rdState conv m0 [] [] false []) rest := by
  rcases ht with h | ⟨i, h⟩ | ⟨s, h⟩ | ⟨i, s, h⟩ <;> subst h
  · exact ⟨{}, rfl, rfl, Steps.element (g := { rdState conv {} [] [] false [] with
      reader := ⟨some (XmlNode.element "molecule" [("xmlns", u)] false), none, rest⟩ })
      rfl rfl rfl (le_refl _)⟩
  · exact ⟨{ Title := i }, rfl, rfl, Steps.element (g := { rdState conv { Title := i } [] [] false [] with
      reader := ⟨some (XmlNode.element "molecule" [("xmlns", u), ("id", i)] false), none, rest⟩ })
      rfl rfl rfl (le_refl _)⟩
  · exact ⟨{ TotalSpinMultiplicity := some (atoi s) }, rfl, rfl,
      Steps.element (g := { rdState conv { TotalSpinMultiplicity := some (atoi s) } [] [] false [] with
        reader := ⟨some (XmlNode.element "molecule" [("xmlns", u), ("spinMultiplicity", s)] false),
          none, rest⟩ })
      rfl rfl rfl (le_refl _)⟩
  · exact ⟨{ Title := i, TotalSpinMultiplicity := some (atoi s) }, rfl, rfl,
      Steps.element (g := { rdState conv { Title := i, TotalSpinMultiplicity := some (atoi s) }
          [] [] false [] with
        reader := ⟨some (XmlNode.element "molecule" [("xmlns", u), ("id", i), ("spinMultiplicity", s)] false),
          none, rest⟩ })
      rfl rfl rfl (le_refl _)⟩

/-- The `name` element of the molecule: its text becomes the title. -/
theorem Steps.name_element (env : Env) (conv : OBConversion) (m : OBMol) (A B : cmlArray) (inB : Bool)
    (cba : List Attr) (rest : List XmlNode) (c : String) :
    Steps env (rdState conv m A B inB cba)
      (XmlNode.element "name" [] false :: XmlNode.text c :: XmlNode.endElement "name" :: rest)
      (rdState conv { m with Title := Trim c } A B inB cba) rest :=
  Steps.steps_trans
    (Steps.element (g := { rdState conv { m with Title := Trim c } A B inB cba with
      reader := ⟨some (XmlNode.text c), none, XmlNode.endElement "name" :: rest⟩ }) rfl rfl rfl
      (Nat.le_succ _))
    (Steps.other_end env conv _ A B inB cba rest "name" (by simp))

end OpenBabel

namespace OpenBabel

/-! ## Round trip: from writer calls to nodes -/

theorem toNodesAux_start_open (p : Option String) (n : String) (u : Option String)
    (rest : List WriterEvent) (m : String) (as : List Attr) (stack : List String) :
    toNodesAux (WriterEvent.StartElementNS p n u :: rest) (WriterState.startTag m as) stack
      = XmlNode.element m as false
        :: toNodesAux (WriterEvent.StartElementNS p n u :: rest) WriterState.idle (m :: stack) := rfl

theorem toNodesAux_start_idle (p : Option String) (n : String) (u : Option String)
    (rest : List WriterEvent) (stack : List String) :
    toNodesAux (WriterEvent.StartElementNS p n u :: rest) WriterState.idle stack
      = toNodesAux rest (WriterState.startTag n (nsAttrs u)) stack := rfl

theorem toNodesAux_attr (k v : String) (rest : List WriterEvent) (n : String) (as : List Attr)
    (stack : List String) :
    toNodesAux (WriterEvent.WriteAttribute k v :: rest) (WriterState.startTag n as) stack
      = toNodesAux rest (WriterState.startTag n (as ++ [(k, v)])) stack := rfl

theorem toNodesAux_end_closed (rest : List WriterEvent) (m : String) (as : List Attr)
    (stack : List String) :
    toNodesAux (WriterEvent.EndElement :: rest) (WriterState.startTag m as) stack
      = XmlNode.element m as true :: toNodesAux rest WriterState.idle stack := by
  cases stack <;> rfl

theorem toNodesAux_end_idle (rest : List WriterEvent) (n : String) (stack : List String) :
    toNodesAux (WriterEvent.EndElement :: rest) WriterState.idle (n :: stack)
      = XmlNode.endElement n :: toNodesAux rest WriterState.idle stack := rfl

theorem toNodesAux_attrs (evs rest : List WriterEvent) (P : String → String → Prop)
    (h : EvsSat P evs) (n : String) (as : List Attr) (stack : List String) :
    toNodesAux (evs ++ rest) (WriterState.startTag n as) stack
      = toNodesAux rest (WriterState.startTag n (as ++ attrsOf evs)) stack := by
  induction evs generalizing as with
  | nil => simp [attrsOf]
  | cons e es ih =>
    obtain ⟨k, v, he, _⟩ := h e (List.mem_cons_self _ _)
    subst he
    rw [List.cons_append, toNodesAux_attr, ih (fun x hx => h x (List.mem_cons_of_mem _ hx))]
    simp [attrsOf]

theorem toNodesAux_builtin (p : Option String) (e b c : String) (hc : c.data ≠ [])
    (rest : List WriterEvent) (stack : List String) :
    toNodesAux (builtinElement p e b c ++ rest) WriterState.idle stack
      = XmlNode.element e [("builtin", b)] false :: XmlNode.text c :: XmlNode.endElement e
        :: toNodesAux rest WriterState.idle stack := by
  have h : c.data.isEmpty = false := by
    cases hd : c.data with
    | nil => exact absurd hd hc
    | cons x xs => rfl
  simp [builtinElement, toNodesAux, nsAttrs, flushState, h]

theorem toNodesAux_builtin_empty (p : Option String) (e b c : String) (hc : c.data = [])
    (rest : List WriterEvent) (stack : List String) :
    toNodesAux (builtinElement p e b c ++ rest) WriterState.idle stack
      = XmlNode.element e [("builtin", b)] false :: XmlNode.endElement e
        :: toNodesAux rest WriterState.idle stack := by
  simp [builtinElement, toNodesAux, nsAttrs, flushState, hc]

theorem Runs.runs_nil (env : Env) (f : CMLFormat) : Runs env [] f f :=
  fun _ _ => Steps.steps_refl env f _

theorem Runs.runs_append {env : Env} {e1 e2 : List WriterEvent} {f g h : CMLFormat}
    (h1 : Runs env e1 f g) (h2 : Runs env e2 g h) : Runs env (e1 ++ e2) f h := by
  intro rest stack
  rw [List.append_assoc]
  exact Steps.steps_trans (h1 (e2 ++ rest) stack) (h2 rest stack)

/-- An element that is written with attributes only is read as a self-closing tag. -/
theorem Runs.closed {env : Env} {f g : CMLFormat} (p : Option String) (name : String)
    (evs : List WriterEvent) (P : String → String → Prop) (h : EvsSat P evs)
    (hstep : ∀ rest, Steps env f (XmlNode.element name (attrsOf evs) true :: rest) g rest) :
    Runs env (WriterEvent.StartElementNS p name none :: evs ++ [WriterEvent.EndElement]) f g := by
  intro rest stack
  have e : toNodesAux ((WriterEvent.StartElementNS p name none :: evs ++ [WriterEvent.EndElement]) ++ rest)
      WriterState.idle stack
      = XmlNode.element name (attrsOf evs) true :: toNodesAux rest WriterState.idle stack := by
    simp only [List.cons_append, List.append_assoc, List.nil_append]
    rw [toNodesAux_start_idle, toNodesAux_attrs _ _ P h, toNodesAux_end_closed]
    rfl
  rw [e]
  exact hstep _

/-- An element that is written with attributes and child elements is read as a start
tag, the children and an end tag. -/
theorem Runs.opened {env : Env} {f f1 f2 f3 : CMLFormat} (p : Option String) (name : String)
    (evs : List WriterEvent) (P : String → String → Prop) (h : EvsSat P evs)
    (q : Option String) (n : String) (u : Option String) (body : List WriterEvent)
    (hopen : ∀ rest, Steps env f (XmlNode.element name (attrsOf evs) false :: rest) f1 rest)
    (hbody : Runs env (WriterEvent.StartElementNS q n u :: body) f1 f2)
    (hclose : ∀ rest, Steps env f2 (XmlNode.endElement name :: rest) f3 rest) :
    Runs env (WriterEvent.StartElementNS p name none
      :: evs ++ (WriterEvent.StartElementNS q n u :: body) ++ [WriterEvent.EndElement]) f f3 := by
  intro rest stack
  have e : toNodesAux ((WriterEvent.StartElementNS p name none
      :: evs ++ (WriterEvent.StartElementNS q n u :: body) ++ [WriterEvent.EndElement]) ++ rest)
      WriterState.idle stack
      = XmlNode.element name (attrsOf evs) false
        :: toNodesAux ((WriterEvent.StartElementNS q n u :: body) ++ (WriterEvent.EndElement :: rest))
            WriterState.idle (name :: stack) := by
    simp only [List.cons_append, List.append_assoc, List.nil_append]
    rw [toNodesAux_start_idle, toNodesAux_attrs _ _ P h, toNodesAux_start_open]
    rfl
  rw [e]
  refine Steps.steps_trans (hopen _) (Steps.steps_trans (hbody _ _) ?_)
  rw [toNodesAux_end_idle]
  exact hclose _

section
variable (env : Env) (conv : OBConversion) (m : OBMol) (A B : cmlArray) (inB : Bool)
  (cba : List Attr)

theorem Runs.builtin_child_run (p : Option String) (name b c : String)
    (hn : name = "string" ∨ name = "integer" ∨ name = "float") (hc : c.data ≠ []) :
    Runs env (builtinElement p name b c) (rdState conv m A B inB cba)
      (rdState conv m A B inB (cba ++ [(b, Trim c)])) := by
  intro rest stack
  rw [toNodesAux_builtin p name b c hc]
  exact Steps.builtin_child env conv m A B inB cba _ name b c hn

theorem Runs.floatg (p : Option String) (b c : String) :
    Runs env (builtinElement p "floatg" b c) (rdState conv m A B inB cba)
      (rdState conv m A B inB cba) := by
  intro rest stack
  by_cases hc : c.data = []
  · rw [toNodesAux_builtin_empty p _ b c hc]
    exact Steps.steps_trans (Steps.floatg_open env conv m A B inB cba _ _)
      (Steps.other_end env conv m A B inB cba _ "floatg" (by simp))
  · rw [toNodesAux_builtin p _ b c hc]
    exact Steps.steps_trans (Steps.floatg_open env conv m A B inB cba _ _)
      (Steps.steps_trans (Steps.text env _ c _)
        (Steps.other_end env conv m A B inB cba _ "floatg" (by simp)))

theorem Runs.atom_array_child_run (p : Option String) (name b c : String)
    (hn : name = "stringArray" ∨ name = "integerArray" ∨ name = "floatArray") (hc : c.data ≠ []) :
    Runs env (builtinElement p name b c) (rdState conv m A B false cba)
      (rdState conv m (pushItems A b (tokenize c)) B false cba) := by
  intro rest stack
  rw [toNodesAux_builtin p name b c hc]
  exact Steps.atom_array_child env conv m A B cba _ name b c hn

theorem Runs.bond_array_child_run (p : Option String) (name b c : String)
    (hn : name = "stringArray" ∨ name = "integerArray" ∨ name = "floatArray") (hc : c.data ≠ []) :
    Runs env (builtinElement p name b c) (rdState conv m A B true cba)
      (rdState conv m A (pushItems B b (tokenize c)) true cba) := by
  intro rest stack
  rw [toNodesAux_builtin p name b c hc]
  exact Steps.bond_array_child env conv m A B cba _ name b c hn

end

end OpenBabel

namespace OpenBabel

/-! ## Round trip: attribute calls -/

theorem EvsSat.evs_nil (P : String → String → Prop) : EvsSat P [] := by
  intro e he
  simp at he

theorem EvsSat.cons {P : String → String → Prop} {k v : String} {evs : List WriterEvent}
    (h : P k v) (hr : EvsSat P evs) : EvsSat P (WriterEvent.WriteAttribute k v :: evs) := by
  intro e he
  rcases List.mem_cons.1 he with he | he
  · exact ⟨k, v, he, h⟩
  · exact hr e he

theorem EvsSat.evs_append {P : String → String → Prop} {e1 e2 : List WriterEvent}
    (h1 : EvsSat P e1) (h2 : EvsSat P e2) : EvsSat P (e1 ++ e2) := by
  intro e he
  rcases List.mem_append.1 he with he | he
  · exact h1 e he
  · exact h2 e he

theorem EvsSat.evs_ite {P : String → String → Prop} {c : Prop} [Decidable c] {evs : List WriterEvent}
    (h : EvsSat P evs) : EvsSat P (if c then evs else []) := by
  split_ifs
  · exact h
  · exact EvsSat.evs_nil P

theorem attrsOf_append (e1 e2 : List WriterEvent) : attrsOf (e1 ++ e2) = attrsOf e1 ++ attrsOf e2 := by
  induction e1 with
  | nil => rfl
  | cons e es ih =>
    cases e <;> simp [attrsOf, ih]

theorem attrsOf_sat (P : String → String → Prop) (evs : List WriterEvent) (h : EvsSat P evs) :
    ∀ a ∈ attrsOf evs, P a.1 a.2 := by
  induction evs with
  | nil => intro a ha; simp [attrsOf] at ha
  | cons e es ih =>
    obtain ⟨k, v, he, hP⟩ := h e (List.mem_cons_self _ _)
    subst he
    intro a ha
    simp only [attrsOf, List.mem_cons] at ha
    rcases ha with ha | ha
    · subst ha
      exact hP
    · exact ih (fun x hx => h x (List.mem_cons_of_mem _ hx)) a ha

theorem trimmed_inert (as : List Attr) (h : ∀ a ∈ as, InertName a.1) :
    ∀ a ∈ trimmed as, InertName a.1 := by
  intro a ha
  unfold trimmed at ha
  obtain ⟨x, hx, rfl⟩ := List.mem_map.1 ha
  exact h x hx

section
variable (env : Env) (conv : OBConversion) (m : OBMol) (B : cmlArray) (inB : Bool)

/-- One atom element of the CML2 individual layout adds a plain record. -/
theorem Runs.atom_cml2 (p : Option String) (fractional : Bool) (dim : Int) (atomIDs : List String)
    (o : AtomOut) (hid : IsToken o.id) (hel : IsToken o.el) (hcfg : o.cfg = 0)
    (ids els : List String) (A : cmlArray) (cba : List Attr) (hA : PlainRecs ids els A) :
    ∃ A' cba', PlainRecs (ids ++ [o.id]) (els ++ [o.el]) A'
      ∧ Runs env (WriteMolecule.atom env p false false fractional dim atomIDs o)
          (rdState conv m A B inB cba) (rdState conv m A' B inB cba') := by
  have hev : ∃ tail, EvsSat (fun k _ => InertName k) tail ∧
      WriteMolecule.atom env p false false fractional dim atomIDs o
        = WriterEvent.StartElementNS p "atom" none
          :: (WriterEvent.WriteAttribute "id" o.id :: WriterEvent.WriteAttribute "elementType" o.el :: tail)
          ++ [WriterEvent.EndElement] := by
    refine ⟨(if o.isotope ≠ 0 then [WriterEvent.WriteAttribute "isotope" (intToDec o.isotope)] else [])
        ++ ((if o.charge ≠ 0 then [WriterEvent.WriteAttribute "formalCharge" (intToDec o.charge)] else [])
        ++ ((if o.spin ≠ 0 then [WriterEvent.WriteAttribute "spinMultiplicity" (intToDec o.spin)] else [])
        ++ ((if dim = 2 then
              [WriterEvent.WriteAttribute "x2" (env.formatDbl "%f" o.X),
               WriterEvent.WriteAttribute "y2" (env.formatDbl "%f" o.Y)] else [])
        ++ (if dim = 3 then
              [WriterEvent.WriteAttribute (coordNames3 fractional).1 (env.formatDbl "%f" o.X),
               WriterEvent.WriteAttribute (coordNames3 fractional).2.1 (env.formatDbl "%f" o.Y),
               WriterEvent.WriteAttribute (coordNames3 fractional).2.2 (env.formatDbl "%f" o.Z)] else [])))),
      ?_, ?_⟩
    · refine EvsSat.evs_append (EvsSat.evs_ite (EvsSat.cons (by decide) (EvsSat.evs_nil _)))
        (EvsSat.evs_append (EvsSat.evs_ite (EvsSat.cons (by decide) (EvsSat.evs_nil _)))
        (EvsSat.evs_append (EvsSat.evs_ite (EvsSat.cons (by decide) (EvsSat.evs_nil _)))
        (EvsSat.evs_append (EvsSat.evs_ite (EvsSat.cons (by decide) (EvsSat.cons (by decide) (EvsSat.evs_nil _))))
        (EvsSat.evs_ite ?_))))
      cases fractional <;>
        exact EvsSat.cons (by decide) (EvsSat.cons (by decide) (EvsSat.cons (by decide) (EvsSat.evs_nil _)))
    · unfold WriteMolecule.atom WriteMolecule.atomParity
      simp only [Bool.not_false, if_true, hcfg, ne_eq, not_true_eq_false, if_false, false_and,
        List.append_nil, List.cons_append, List.nil_append, List.append_assoc, Bool.false_eq_true]
  obtain ⟨tail, ht, he⟩ := hev
  rw [he]
  refine ⟨_, _, ?_, Runs.closed p "atom" _ (fun _ _ => True)
    (EvsSat.cons trivial (EvsSat.cons trivial (fun e h => by
      obtain ⟨k, v, h1, _⟩ := ht e h
      exact ⟨k, v, h1, trivial⟩)))
    (fun rest => Steps.atom_closed env conv m A B inB cba rest _ _)⟩
  have := PlainRecs.snoc hA "id" o.id o.el (trimmed (attrsOf tail)) (Or.inl rfl) hid
    (trimmed_inert _ (attrsOf_sat _ _ ht))
  simp only [attrsOf, trimmed, List.map_cons, hid.trim, hel.trim]
  exact this

theorem Runs.ite_floatg (c : Prop) [Decidable c] (evs : List WriterEvent) (A : cmlArray)
    (cba : List Attr) (h : Runs env evs (rdState conv m A B inB cba) (rdState conv m A B inB cba)) :
    Runs env (if c then evs else []) (rdState conv m A B inB cba) (rdState conv m A B inB cba) := by
  split_ifs
  · exact h
  · exact Runs.runs_nil env _

/-- One atom element of the CML1 individual layout adds a plain record. -/
theorem Runs.atom_cml1 (p : Option String) (fractional : Bool) (dim : Int) (atomIDs : List String)
    (o : AtomOut) (hid : IsToken o.id) (hel : IsToken o.el)
    (ids els : List String) (A : cmlArray) (cba : List Attr) (hA : PlainRecs ids els A) :
    ∃ A' cba', PlainRecs (ids ++ [o.id]) (els ++ [o.el]) A'
      ∧ Runs env (WriteMolecule.atom env p true false fractional dim atomIDs o)
          (rdState conv m A B inB cba) (rdState conv m A' B inB cba') := by
  have he : WriteMolecule.atom env p true false fractional dim atomIDs o
      = WriterEvent.StartElementNS p "atom" none :: [WriterEvent.WriteAttribute "id" o.id]
        ++ (WriterEvent.StartElementNS p "string" none ::
            ([WriterEvent.WriteAttribute "builtin" "elementType", WriterEvent.WriteString o.el,
              WriterEvent.EndElement]
            ++ ((if o.charge ≠ 0 then builtinElement p "integer" "formalCharge" (intToDec o.charge) else [])
            ++ ((if dim = 2 ∨ dim = 3 then
                  builtinElement p "floatg" ("x" ++ intToDec dim) (env.formatDbl "%f" o.X)
                  ++ builtinElement p "floatg" ("y" ++ intToDec dim) (env.formatDbl "%f" o.Y) else [])
            ++ (if dim = 3 then
                  builtinElement p "floatg" ("z" ++ intToDec dim) (env.formatDbl "%f" o.Z) else [])))))
        ++ [WriterEvent.EndElement] := by
    unfold WriteMolecule.atom
    simp only [Bool.not_true, Bool.false_eq_true, if_false, false_and, builtinElement,
      List.append_nil, List.cons_append, List.nil_append, List.append_assoc]
  rw [he]
  refine ⟨A ++ [[("id", Trim o.id)] ++ [("elementType", Trim o.el)]
      ++ (if o.charge ≠ 0 then [("formalCharge", Trim (intToDec o.charge))] else [])], _, ?_,
    @Runs.opened env _ _ (rdState conv m A B inB ([("id", Trim o.id)] ++ [("elementType", Trim o.el)]
        ++ (if o.charge ≠ 0 then [("formalCharge", Trim (intToDec o.charge))] else []))) _
      p "atom" [WriterEvent.WriteAttribute "id" o.id] (fun _ _ => True)
      (EvsSat.cons trivial (EvsSat.evs_nil _)) p "string" none _
      (fun rest => Steps.atom_open env conv m A B inB cba rest o.id)
      ?_ (fun rest => Steps.atom_end env conv m A B inB _ rest)⟩
  · have := PlainRecs.snoc hA "id" o.id o.el
      (if o.charge ≠ 0 then [("formalCharge", Trim (intToDec o.charge))] else []) (Or.inl rfl) hid
      (by
        intro a ha
        split_ifs at ha
        · simp only [List.mem_singleton] at ha
          subst ha
          exact (by decide : InertName "formalCharge")
        · simp at ha)
    simp only [hid.trim, hel.trim, List.singleton_append, List.cons_append, List.nil_append]
    exact this
  · have h1 := Runs.builtin_child_run env conv m A B inB [("id", Trim o.id)] p "string" "elementType" o.el
      (Or.inl rfl) hel.1
    have h2 : Runs env
        (if o.charge ≠ 0 then builtinElement p "integer" "formalCharge" (intToDec o.charge) else [])
        (rdState conv m A B inB ([("id", Trim o.id)] ++ [("elementType", Trim o.el)]))
        (rdState conv m A B inB ([("id", Trim o.id)] ++ [("elementType", Trim o.el)]
          ++ (if o.charge ≠ 0 then [("formalCharge", Trim (intToDec o.charge))] else []))) := by
      split_ifs
      · exact Runs.builtin_child_run env conv m A B inB _ p "integer" "formalCharge" _
          (Or.inr (Or.inl rfl)) (intToDec_token _).1
      · rw [List.append_nil]
        exact Runs.runs_nil env _
    have h3 := Runs.ite_floatg env conv m B inB (dim = 2 ∨ dim = 3) _ A
      ([("id", Trim o.id)] ++ [("elementType", Trim o.el)]
          ++ (if o.charge ≠ 0 then [("formalCharge", Trim (intToDec o.charge))] else []))
      (Runs.runs_append (Runs.floatg env conv m A B inB _ p ("x" ++ intToDec dim) (env.formatDbl "%f" o.X))
        (Runs.floatg env conv m A B inB _ p ("y" ++ intToDec dim) (env.formatDbl "%f" o.Y)))
    have h4 := Runs.ite_floatg env conv m B inB (dim = 3) _ A
      ([("id", Trim o.id)] ++ [("elementType", Trim o.el)]
          ++ (if o.charge ≠ 0 then [("formalCharge", Trim (intToDec o.charge))] else []))
      (Runs.floatg env conv m A B inB _ p ("z" ++ intToDec dim) (env.formatDbl "%f" o.Z))
    exact Runs.runs_append h1 (Runs.runs_append h2 (Runs.runs_append h3 h4))

/-- The atom elements of an individual layout, one after the other. -/
theorem Runs.atoms_flatMap (w : AtomOut → List WriterEvent) (good : AtomOut → Prop)
    (hone : ∀ o, good o → ∀ (ids els : List String) (A : cmlArray) (cba : List Attr),
      PlainRecs ids els A → ∃ A' cba', PlainRecs (ids ++ [o.id]) (els ++ [o.el]) A'
        ∧ Runs env (w o) (rdState conv m A B inB cba) (rdState conv m A' B inB cba'))
    (os : List AtomOut) (hgood : ∀ o ∈ os, good o) (ids els : List String) (A : cmlArray)
    (cba : List Attr) (hA : PlainRecs ids els A) :
    ∃ A' cba', PlainRecs (ids ++ os.map (·.id)) (els ++ os.map (·.el)) A'
      ∧ Runs env (os.flatMap w) (rdState conv m A B inB cba) (rdState conv m A' B inB cba') := by
  induction os generalizing ids els A cba with
  | nil => exact ⟨A, cba, by simpa using hA, Runs.runs_nil env _⟩
  | cons o os ih =>
    obtain ⟨A1, cba1, h1, r1⟩ := hone o (hgood o (List.mem_cons_self _ _)) ids els A cba hA
    obtain ⟨A2, cba2, h2, r2⟩ := ih (fun x hx => hgood x (List.mem_cons_of_mem _ hx)) _ _ A1 cba1 h1
    refine ⟨A2, cba2, ?_, ?_⟩
    · simpa using h2
    · rw [List.flatMap_cons]
      exact Runs.runs_append r1 r2

end

end OpenBabel

namespace OpenBabel

/-! ## Round trip: the atom arrays -/

theorem spaced_ne_nil (t : String) (ts : List String) : (spaced (t :: ts)).data ≠ [] := by
  simp [spaced]

theorem tokens_length {α : Type} (os : List α) (f : α → String) (hf : ∀ o ∈ os, IsToken (f o)) :
    (tokenize (spaced (os.map f))).length = os.length := by
  rw [tokenize_spaced _ (by
    intro t ht
    obtain ⟨o, ho, rfl⟩ := List.mem_map.1 ht
    exact hf o ho)]
  simp

theorem distributed_plain (ids els : List String) (as : List Attr) (A : cmlArray)
    (hA : PlainRecs ids els A)
    (h : ∀ a ∈ as, InertName a.1 ∧ (tokenize a.2).length = ids.length) :
    PlainRecs ids els (distributed A as) := by
  induction as generalizing A with
  | nil => exact hA
  | cons a as ih =>
    obtain ⟨h1, h2⟩ := h a (List.mem_cons_self _ _)
    exact ih _ (hA.push a.1 (tokenize a.2) h1 h2) (fun x hx => h x (List.mem_cons_of_mem _ hx))

theorem Runs.opened_body {env : Env} {f f1 f2 f3 : CMLFormat} (p : Option String) (name : String)
    (evs : List WriterEvent) (P : String → String → Prop) (h : EvsSat P evs)
    (body : List WriterEvent)
    (hstart : ∃ q n u b, body = WriterEvent.StartElementNS q n u :: b)
    (hopen : ∀ rest, Steps env f (XmlNode.element name (attrsOf evs) false :: rest) f1 rest)
    (hbody : Runs env body f1 f2)
    (hclose : ∀ rest, Steps env f2 (XmlNode.endElement name :: rest) f3 rest) :
    Runs env (WriterEvent.StartElementNS p name none :: evs ++ body ++ [WriterEvent.EndElement]) f f3 := by
  obtain ⟨q, n, u, b, rfl⟩ := hstart
  exact Runs.opened p name evs P h q n u b hopen hbody hclose

section
variable (env : Env) (conv : OBConversion) (m : OBMol) (B : cmlArray) (inB : Bool)

/-- The `atomArray` element of the CML2 array layout fills the atom array with plain
records. -/
theorem Runs.atomArray_cml2 (p : Option String) (fractional : Bool) (dim : Int) (os : List AtomOut)
    (hid : ∀ o ∈ os, IsToken o.id) (hel : ∀ o ∈ os, IsToken o.el)
    (hdbl : ∀ d, IsToken (env.streamDbl d)) (cba : List Attr) :
    ∃ A', PlainRecs (os.map (·.id)) (os.map (·.el)) A'
      ∧ Runs env (WriterEvent.StartElementNS p "atomArray" none
            :: WriteMolecule.atomArrays env p false false fractional dim os ++ [WriterEvent.EndElement])
          (rdState conv m [] B inB cba) (rdState conv m A' B false cba) := by
  have hlen : ∀ f : AtomOut → String, (∀ o ∈ os, IsToken (f o)) →
      (tokenize (spaced (os.map f))).length = (os.map (·.id)).length := by
    intro f hf
    rw [tokens_length os f hf]
    simp
  have hev : ∃ tail, EvsSat (fun k v => InertName k ∧ (tokenize v).length = (os.map (·.id)).length) tail ∧
      WriteMolecule.atomArrays env p false false fractional dim os
        = WriterEvent.WriteAttribute "atomID" (spaced (os.map (·.id)))
          :: WriterEvent.WriteAttribute "elementType" (spaced (os.map (·.el))) :: tail := by
    refine ⟨(if (os.any fun o => o.isotope != 0) then
          [WriterEvent.WriteAttribute "isotope" (spaced (os.map fun o => intToDec o.isotope))] else [])
        ++ ((if (os.any fun o => o.charge != 0) then
          [WriterEvent.WriteAttribute "formalCharge" (spaced (os.map fun o => intToDec o.charge))] else [])
        ++ ((if (os.any fun o => o.spin != 0) then
          [WriterEvent.WriteAttribute "spinMultiplicity" (spaced (os.map fun o => intToDec o.spin))] else [])
        ++ ((if dim = 2 then
              [WriterEvent.WriteAttribute "x2" (spaced (os.map fun o => env.streamDbl o.X)),
               WriterEvent.WriteAttribute "y2" (spaced (os.map fun o => env.streamDbl o.Y))] else [])
        ++ (if dim = 3 then
              [WriterEvent.WriteAttribute (coordNames3 fractional).1 (spaced (os.map fun o => env.streamDbl o.X)),
               WriterEvent.WriteAttribute (coordNames3 fractional).2.1 (spaced (os.map fun o => env.streamDbl o.Y)),
               WriterEvent.WriteAttribute (coordNames3 fractional).2.2 (spaced (os.map fun o => env.streamDbl o.Z))]
            else [])))), ?_, ?_⟩
    · refine EvsSat.evs_append (EvsSat.evs_ite (EvsSat.cons ⟨by decide, hlen _ fun o _ => intToDec_token _⟩ (EvsSat.evs_nil _)))
        (EvsSat.evs_append (EvsSat.evs_ite (EvsSat.cons ⟨by decide, hlen _ fun o _ => intToDec_token _⟩ (EvsSat.evs_nil _)))
        (EvsSat.evs_append (EvsSat.evs_ite (EvsSat.cons ⟨by decide, hlen _ fun o _ => intToDec_token _⟩ (EvsSat.evs_nil _)))
        (EvsSat.evs_append (EvsSat.evs_ite (EvsSat.cons ⟨by decide, hlen _ fun o _ => hdbl _⟩
          (EvsSat.cons ⟨by decide, hlen _ fun o _ => hdbl _⟩ (EvsSat.evs_nil _))))
        (EvsSat.evs_ite ?_))))
      cases fractional <;>
        exact EvsSat.cons ⟨by decide, hlen _ fun o _ => hdbl _⟩
          (EvsSat.cons ⟨by decide, hlen _ fun o _ => hdbl _⟩
          (EvsSat.cons ⟨by decide, hlen _ fun o _ => hdbl _⟩ (EvsSat.evs_nil _)))
    · unfold WriteMolecule.atomArrays
      simp only [Bool.not_false, if_true, Bool.false_eq_true, if_false,
        List.append_nil, List.cons_append, List.nil_append, List.append_assoc]
  obtain ⟨tail, ht, he⟩ := hev
  rw [he]
  refine ⟨_, ?_, Runs.closed p "atomArray" _ (fun _ _ => True)
    (EvsSat.cons trivial (EvsSat.cons trivial (fun e h => by
      obtain ⟨k, v, h1, _⟩ := ht e h
      exact ⟨k, v, h1, trivial⟩)))
    (fun rest => Steps.atomArray_closed env conv m [] B inB cba rest _ _)⟩
  have hb := PlainRecs.base "atomID" (os.map (·.id)) (os.map (·.el)) (Or.inr rfl)
    (by
      intro t ht
      obtain ⟨o, ho, rfl⟩ := List.mem_map.1 ht
      exact hid o ho) (by simp)
  have := distributed_plain _ _ (attrsOf tail) _ hb (attrsOf_sat _ _ ht)
  simp only [attrsOf, distributed, List.foldl_cons]
  rw [tokenize_spaced _ (by
      intro t ht
      obtain ⟨o, ho, rfl⟩ := List.mem_map.1 ht
      exact hid o ho), tokenize_spaced _ (by
      intro t ht
      obtain ⟨o, ho, rfl⟩ := List.mem_map.1 ht
      exact hel o ho)]
  exact this

end

end OpenBabel

namespace OpenBabel

section
variable {env : Env} {conv : OBConversion} {m : OBMol} {B : cmlArray} {cba : List Attr}
  {ids els : List String}

theorem Keeps.keeps_nil : Keeps env conv m B cba ids els [] :=
  fun A hA => ⟨A, hA, Runs.runs_nil env _⟩

theorem Keeps.keeps_append {e1 e2 : List WriterEvent} (h1 : Keeps env conv m B cba ids els e1)
    (h2 : Keeps env conv m B cba ids els e2) : Keeps env conv m B cba ids els (e1 ++ e2) := by
  intro A hA
  obtain ⟨A1, a1, r1⟩ := h1 A hA
  obtain ⟨A2, a2, r2⟩ := h2 A1 a1
  exact ⟨A2, a2, Runs.runs_append r1 r2⟩

theorem Keeps.keeps_ite (c : Prop) [Decidable c] {evs : List WriterEvent}
    (h : c → Keeps env conv m B cba ids els evs) :
    Keeps env conv m B cba ids els (if c then evs else []) := by
  split_ifs with hc
  · exact h hc
  · exact Keeps.keeps_nil

theorem Keeps.child (p : Option String) (name b c : String)
    (hn : name = "stringArray" ∨ name = "integerArray" ∨ name = "floatArray") (hc : c.data ≠ [])
    (hb : InertName b) (hlen : (tokenize c).length = ids.length) :
    Keeps env conv m B cba ids els (builtinElement p name b c) :=
  fun A hA => ⟨_, hA.push b (tokenize c) hb hlen, Runs.atom_array_child_run env conv m A B cba p name b c hn hc⟩

end

section
variable (env : Env) (conv : OBConversion) (m : OBMol) (B : cmlArray) (cba : List Attr)

/-- The `atomArray` element of the CML1 array layout fills the atom array with plain
records. -/
theorem Runs.atomArray_cml1 (p : Option String) (fractional : Bool) (dim : Int) (os : List AtomOut)
    (hos : os ≠ []) (hid : ∀ o ∈ os, IsToken o.id) (hel : ∀ o ∈ os, IsToken o.el)
    (hdbl : ∀ d, IsToken (env.streamDbl d)) (inB : Bool) :
    ∃ A', PlainRecs (os.map (·.id)) (os.map (·.el)) A'
      ∧ Runs env (WriterEvent.StartElementNS p "atomArray" none
            :: WriteMolecule.atomArrays env p true false fractional dim os ++ [WriterEvent.EndElement])
          (rdState conv m [] B inB cba) (rdState conv m A' B false cba) := by
  have hne : ∀ f : AtomOut → String, (spaced (os.map f)).data ≠ [] := by
    intro f
    cases os with
    | nil => exact absurd rfl hos
    | cons o os => exact spaced_ne_nil _ _
  have hlen : ∀ f : AtomOut → String, (∀ o ∈ os, IsToken (f o)) →
      (tokenize (spaced (os.map f))).length = (os.map (·.id)).length := by
    intro f hf
    rw [tokens_length os f hf]
    simp
  have hidt : ∀ t ∈ os.map (·.id), IsToken t := by
    intro t ht
    obtain ⟨o, ho, rfl⟩ := List.mem_map.1 ht
    exact hid o ho
  have helt : ∀ t ∈ os.map (·.el), IsToken t := by
    intro t ht
    obtain ⟨o, ho, rfl⟩ := List.mem_map.1 ht
    exact hel o ho
  have he : WriteMolecule.atomArrays env p true false fractional dim os
      = builtinElement p "stringArray" "atomID" (spaced (os.map (·.id)))
        ++ (builtinElement p "stringArray" "elementType" (spaced (os.map (·.el)))
        ++ ((if (os.any fun o => o.charge != 0) then
              builtinElement p "integerArray" "formalCharge" (spaced (os.map fun o => intToDec o.charge))
            else [])
        ++ ((if dim = 2 ∨ dim = 3 then
              builtinElement p "floatArray" ("x" ++ intToDec dim) (spaced (os.map fun o => env.streamDbl o.X))
              ++ builtinElement p "floatArray" ("y" ++ intToDec dim)
                  (spaced (os.map fun o => env.streamDbl o.Y)) else [])
        ++ (if dim = 3 then
              builtinElement p "floatArray" ("z" ++ intToDec dim) (spaced (os.map fun o => env.streamDbl o.Z))
            else [])))) := by
    unfold WriteMolecule.atomArrays
    simp only [Bool.not_true, Bool.false_eq_true, if_false,
      List.append_nil, List.nil_append, List.append_assoc]
  have hk : Keeps env conv m B cba (os.map (·.id)) (os.map (·.el))
      ((if (os.any fun o => o.charge != 0) then
              builtinElement p "integerArray" "formalCharge" (spaced (os.map fun o => intToDec o.charge))
            else [])
        ++ ((if dim = 2 ∨ dim = 3 then
              builtinElement p "floatArray" ("x" ++ intToDec dim) (spaced (os.map fun o => env.streamDbl o.X))
              ++ builtinElement p "floatArray" ("y" ++ intToDec dim)
                  (spaced (os.map fun o => env.streamDbl o.Y)) else [])
        ++ (if dim = 3 then
              builtinElement p "floatArray" ("z" ++ intToDec dim) (spaced (os.map fun o => env.streamDbl o.Z))
            else []))) := by
    refine Keeps.keeps_append (Keeps.keeps_ite _ (fun _ =>
        Keeps.child p _ _ _ (Or.inr (Or.inl rfl)) (hne _) (by decide)
          (hlen _ fun o _ => intToDec_token _)))
      (Keeps.keeps_append (Keeps.keeps_ite _ (fun hd => ?_))
        (Keeps.keeps_ite _ (fun hd => ?_)))
    · have hx : InertName ("x" ++ intToDec dim) ∧ InertName ("y" ++ intToDec dim) := by
        rcases hd with hd | hd <;> subst hd <;> exact ⟨by decide, by decide⟩
      exact Keeps.keeps_append
        (Keeps.child p _ _ _ (Or.inr (Or.inr rfl)) (hne _) hx.1 (hlen _ fun o _ => hdbl _))
        (Keeps.child p _ _ _ (Or.inr (Or.inr rfl)) (hne _) hx.2 (hlen _ fun o _ => hdbl _))
    · subst hd
      exact Keeps.child p _ _ _ (Or.inr (Or.inr rfl)) (hne _) (by decide)
        (hlen _ fun o _ => hdbl _)
  have hb := PlainRecs.base "atomID" (os.map (·.id)) (os.map (·.el)) (Or.inr rfl) hidt (by simp)
  obtain ⟨A', hA', hr⟩ := hk _ hb
  have r1 := Runs.atom_array_child_run env conv m [] B cba p "stringArray" "atomID" (spaced (os.map (·.id)))
    (Or.inl rfl) (hne _)
  have r2 := Runs.atom_array_child_run env conv m (pushItems [] "atomID" (tokenize (spaced (os.map (·.id)))))
    B cba p "stringArray" "elementType" (spaced (os.map (·.el))) (Or.inl rfl) (hne _)
  rw [tokenize_spaced _ hidt] at r1 r2
  rw [tokenize_spaced _ helt] at r2
  refine ⟨A', hA', ?_⟩
  rw [he]
  have := @Runs.opened_body env _ _ _ _ p "atomArray" [] (fun _ _ => True) (EvsSat.evs_nil _) _
    ⟨p, "stringArray", none, _, rfl⟩
    (fun rest => Steps.atomArray_open env conv m [] B inB cba rest)
    (Runs.runs_append r1 (Runs.runs_append r2 hr))
    (fun rest => Steps.other_end env conv m A' B false cba rest "atomArray" (by simp))
  simpa using this

/-- The `atomArray` element of an individual layout fills the atom array with plain
records. -/
theorem Runs.atomArray_individual (p : Option String) (c1 fractional : Bool) (dim : Int)
    (atomIDs : List String) (os : List AtomOut)
    (hos : os ≠ []) (hid : ∀ o ∈ os, IsToken o.id) (hel : ∀ o ∈ os, IsToken o.el)
    (hcfg : ∀ o ∈ os, o.cfg = 0) (inB : Bool) :
    ∃ A' cba', PlainRecs (os.map (·.id)) (os.map (·.el)) A'
      ∧ Runs env (WriterEvent.StartElementNS p "atomArray" none
            :: os.flatMap (WriteMolecule.atom env p c1 false fractional dim atomIDs)
            ++ [WriterEvent.EndElement])
          (rdState conv m [] B inB cba) (rdState conv m A' B false cba') := by
  have hall : ∀ o ∈ os, IsToken o.id ∧ IsToken o.el ∧ o.cfg = 0 :=
    fun o ho => ⟨hid o ho, hel o ho, hcfg o ho⟩
  obtain ⟨A', cba', hA', hr⟩ := Runs.atoms_flatMap env conv m B false
    (WriteMolecule.atom env p c1 false fractional dim atomIDs)
    (fun o => IsToken o.id ∧ IsToken o.el ∧ o.cfg = 0)
    (by
      intro o ho ids els A cba0 hA
      cases c1
      · exact Runs.atom_cml2 env conv m B false p fractional dim atomIDs o ho.1 ho.2.1 ho.2.2
          ids els A cba0 hA
      · exact Runs.atom_cml1 env conv m B false p fractional dim atomIDs o ho.1 ho.2.1
          ids els A cba0 hA)
    os hall [] [] [] cba PlainRecs.nil
  refine ⟨A', cba', by simpa using hA', ?_⟩
  have hstart : ∃ q n u b, os.flatMap (WriteMolecule.atom env p c1 false fractional dim atomIDs)
      = WriterEvent.StartElementNS q n u :: b := by
    cases os with
    | nil => exact absurd rfl hos
    | cons o os => exact ⟨p, "atom", none, _, rfl⟩
  have := @Runs.opened_body env _ _ _ _ p "atomArray" [] (fun _ _ => True) (EvsSat.evs_nil _) _ hstart
    (fun rest => Steps.atomArray_open env conv m [] B inB cba rest) hr
    (fun rest => Steps.other_end env conv m A' B false cba' rest "atomArray" (by simp))
  simpa using this

end

end OpenBabel

namespace OpenBabel

/-! ## Round trip: the bond elements -/

theorem orderText_read (env : Env) (mol : OBMol) (k : Nat) (b : OBBond)
    (h1 : -2147483648 ≤ b.BondOrder) (h2 : b.BondOrder < 2147483648) :
    IsToken (orderText env false mol k b)
    ∧ ordOfToken (orderText env false mol k b) = b.BondOrder := by
  unfold orderText
  by_cases h5 : b.BondOrder = 5
  · rw [if_pos (Or.inl h5), h5]
    exact ⟨⟨by decide, by decide⟩, by decide⟩
  · rw [if_neg (by simp [h5])]
    exact ⟨intToDec_token _, ordOfToken_intToDec _ h1 h2⟩

theorem bondAt_flags (mol : OBMol) (k : Nat)
    (h : ∀ b ∈ mol.bonds, b.Wedge = false ∧ b.Hash = false ∧ b.Up = false ∧ b.Down = false) :
    (mol.bondAt k).Wedge = false ∧ (mol.bondAt k).Hash = false ∧ (mol.bondAt k).Up = false
    ∧ (mol.bondAt k).Down = false := by
  unfold OBMol.bondAt
  cases hk : mol.bonds.get? k with
  | none => exact ⟨rfl, rfl, rfl, rfl⟩
  | some b => exact h b (List.get?_mem hk)

theorem WriteBondStereo_plain (p : Option String) (mol : OBMol) (k : Nat) (atomIDs : List String)
    (h : ∀ b ∈ mol.bonds, b.Wedge = false ∧ b.Hash = false ∧ b.Up = false ∧ b.Down = false) :
    WriteBondStereo p mol k atomIDs = [] := by
  have hf : ∀ idx, firstUpDown mol idx = none := by
    intro idx
    unfold firstUpDown
    rw [List.find?_eq_none]
    intro bn _
    obtain ⟨_, _, h3, h4⟩ := bondAt_flags mol bn.1 h
    simp [h3, h4]
  obtain ⟨h1, h2, _, _⟩ := bondAt_flags mol k h
  unfold WriteBondStereo
  simp only [h1, h2, Bool.false_eq_true, if_false, hf]

theorem GoodBond.pair {M : AtomMapT} {atomIDs : List String} {b : OBBond}
    (h : GoodBond M atomIDs b) (tok : String) (ht : IsToken tok)
    (ho : ordOfToken tok = b.BondOrder) :
    PlainBond M [("atomRefs2", Trim (idAt atomIDs b.BeginAtomIdx ++ " " ++ idAt atomIDs b.EndAtomIdx)),
      ("order", Trim tok)] b := by
  obtain ⟨h1, h2, h3, h4, h5, h6, h7, _, _⟩ := h
  refine ⟨_, _, tok, h1, h2, h3, h4, h5, h6, ?_, h7, Or.inl ?_⟩
  · rw [ht.trim]
    exact ho
  · rw [h1.trim_pair h2, ht.trim]

theorem GoodBond.singles {M : AtomMapT} {atomIDs : List String} {b : OBBond}
    (h : GoodBond M atomIDs b) (tok : String) (ht : IsToken tok)
    (ho : ordOfToken tok = b.BondOrder) :
    PlainBond M [("atomRef", Trim (idAt atomIDs b.BeginAtomIdx)),
      ("atomRef", Trim (idAt atomIDs b.EndAtomIdx)), ("order", Trim tok)] b
    ∧ PlainBond M [("atomRef", idAt atomIDs b.BeginAtomIdx),
      ("atomRef", idAt atomIDs b.EndAtomIdx), ("order", tok)] b
    ∧ PlainBond M [("atomRef1", idAt atomIDs b.BeginAtomIdx),
      ("atomRef2", idAt atomIDs b.EndAtomIdx), ("order", tok)] b := by
  obtain ⟨h1, h2, h3, h4, h5, h6, h7, _, _⟩ := h
  have hto : ordOfToken (Trim tok) = b.BondOrder := by
    rw [ht.trim]
    exact ho
  refine ⟨⟨_, _, tok, h1, h2, h3, h4, h5, h6, hto, h7, Or.inr (Or.inr ?_)⟩,
    ⟨_, _, tok, h1, h2, h3, h4, h5, h6, hto, h7, Or.inr (Or.inr rfl)⟩,
    ⟨_, _, tok, h1, h2, h3, h4, h5, h6, hto, h7, Or.inr (Or.inl rfl)⟩⟩
  rw [h1.trim, h2.trim, ht.trim]

section
variable (env : Env) (conv : OBConversion) (m : OBMol) (A : cmlArray) (inB : Bool)

/-- One bond element of an individual layout adds a record of a written form. -/
theorem Runs.bond_individual (M : AtomMapT) (p : Option String) (c1 : Bool) (mol : OBMol)
    (atomIDs : List String) (k : Nat) (b : OBBond) (hg : GoodBond M atomIDs b)
    (hflags : ∀ b ∈ mol.bonds, b.Wedge = false ∧ b.Hash = false ∧ b.Up = false ∧ b.Down = false)
    (B : cmlArray) (cba : List Attr) :
    ∃ rec cba', PlainBond M rec b
      ∧ Runs env (WriteMolecule.bond env p c1 false mol atomIDs k b)
          (rdState conv m A B inB cba) (rdState conv m A (B ++ [rec]) inB cba') := by
  obtain ⟨g1, g2, g3, g4, g5, g6, g7, g8, g9⟩ := hg
  cases c1
  · have he : WriteMolecule.bond env p false false mol atomIDs k b
        = WriterEvent.StartElementNS p "bond" none
          :: [WriterEvent.WriteAttribute "atomRefs2"
                (idAt atomIDs b.BeginAtomIdx ++ " " ++ idAt atomIDs b.EndAtomIdx),
              WriterEvent.WriteAttribute "order" (orderText env false mol k b)]
          ++ [WriterEvent.EndElement] := by
      unfold WriteMolecule.bond
      simp only [Bool.not_false, if_true, WriteBondStereo_plain p mol k atomIDs hflags, ite_self,
        List.append_nil, List.cons_append, List.nil_append]
    rw [he]
    obtain ⟨t1, t2⟩ := orderText_read env mol k b g8 g9
    exact ⟨_, _, GoodBond.pair ⟨g1, g2, g3, g4, g5, g6, g7, g8, g9⟩ _ t1 t2,
      Runs.closed p "bond" _ (fun _ _ => True)
        (EvsSat.cons trivial (EvsSat.cons trivial (EvsSat.evs_nil _)))
        (fun rest => Steps.bond_closed env conv m A B inB cba rest _ _)⟩
  · have he : WriteMolecule.bond env p true false mol atomIDs k b
        = WriterEvent.StartElementNS p "bond" none :: []
          ++ (builtinElement p "string" "atomRef" (idAt atomIDs b.BeginAtomIdx)
              ++ (builtinElement p "string" "atomRef" (idAt atomIDs b.EndAtomIdx)
              ++ builtinElement p "string" "order" (intToDec b.BondOrder)))
          ++ [WriterEvent.EndElement] := by
      unfold WriteMolecule.bond
      simp only [Bool.not_true, Bool.false_eq_true, if_false,
        List.append_nil, List.cons_append, List.nil_append, List.append_assoc]
    rw [he]
    have r1 := Runs.builtin_child_run env conv m A B inB [] p "string" "atomRef"
      (idAt atomIDs b.BeginAtomIdx) (Or.inl rfl) g1.1
    have r2 := Runs.builtin_child_run env conv m A B inB
      ([] ++ [("atomRef", Trim (idAt atomIDs b.BeginAtomIdx))]) p "string" "atomRef"
      (idAt atomIDs b.EndAtomIdx) (Or.inl rfl) g2.1
    have r3 := Runs.builtin_child_run env conv m A B inB
      ([] ++ [("atomRef", Trim (idAt atomIDs b.BeginAtomIdx))]
        ++ [("atomRef", Trim (idAt atomIDs b.EndAtomIdx))]) p "string" "order"
      (intToDec b.BondOrder) (Or.inl rfl) (intToDec_token _).1
    exact ⟨_, _, (GoodBond.singles ⟨g1, g2, g3, g4, g5, g6, g7, g8, g9⟩ _ (intToDec_token _)
        (ordOfToken_intToDec _ g8 g9)).1,
      Runs.opened_body p "bond" [] (fun _ _ => True) (EvsSat.evs_nil _) _
        ⟨p, "string", none, _, rfl⟩
        (fun rest => Steps.bond_open env conv m A B inB cba rest)
        (Runs.runs_append r1 (Runs.runs_append r2 r3))
        (fun rest => Steps.bond_end env conv m A B inB _ rest)⟩

/-- The bond elements of an individual layout, one after the other. -/
theorem Runs.bonds_flatMap (M : AtomMapT) (p : Option String) (c1 : Bool) (mol : OBMol)
    (atomIDs : List String)
    (hflags : ∀ b ∈ mol.bonds, b.Wedge = false ∧ b.Hash = false ∧ b.Up = false ∧ b.Down = false)
    (bs : List OBBond) (hg : ∀ b ∈ bs, GoodBond M atomIDs b) (n : Nat) (B : cmlArray)
    (cba : List Attr) :
    ∃ recs cba', List.Forall₂ (PlainBond M) recs bs
      ∧ Runs env ((bs.enumFrom n).flatMap fun kb =>
            WriteMolecule.bond env p c1 false mol atomIDs kb.1 kb.2)
          (rdState conv m A B inB cba) (rdState conv m A (B ++ recs) inB cba') := by
  induction bs generalizing n B cba with
  | nil => exact ⟨[], cba, List.Forall₂.nil, by simpa using Runs.runs_nil env _⟩
  | cons b bs ih =>
    obtain ⟨rec, cba1, h1, r1⟩ := Runs.bond_individual env conv m A inB M p c1 mol atomIDs n b
      (hg b (List.mem_cons_self _ _)) hflags B cba
    obtain ⟨recs, cba2, h2, r2⟩ := ih (fun x hx => hg x (List.mem_cons_of_mem _ hx)) (n + 1)
      (B ++ [rec]) cba1
    refine ⟨rec :: recs, cba2, List.Forall₂.cons h1 h2, ?_⟩
    rw [List.enumFrom_cons, List.flatMap_cons]
    have := Runs.runs_append r1 r2
    simpa using this

end

end OpenBabel

namespace OpenBabel

/-! ## Round trip: the bond arrays -/

theorem pushItems_map {α : Type} (bs : List α) (n : String) (g : α → List Attr) (f : α → String) :
    pushItems (bs.map g) n (bs.map f) = bs.map fun b => g b ++ [(n, f b)] := by
  rw [pushItems_zipWith _ _ _ (by simp)]
  induction bs with
  | nil => rfl
  | cons b bs ih =>
    simp only [List.map_cons, List.zipWith_cons_cons]
    rw [ih]

theorem pushItems_three {α : Type} (bs : List α) (n1 n2 n3 : String) (f1 f2 f3 : α → String) :
    pushItems (pushItems (pushItems [] n1 (bs.map f1)) n2 (bs.map f2)) n3 (bs.map f3)
      = bs.map fun b => [(n1, f1 b), (n2, f2 b), (n3, f3 b)] := by
  rw [pushItems_nil, List.map_map, pushItems_map, pushItems_map]
  rfl

theorem enum_map_snd {α β : Type} (l : List α) (g : α → β) (n : Nat) :
    (l.enumFrom n).map (fun kb => g kb.2) = l.map g := by
  induction l generalizing n with
  | nil => rfl
  | cons a l ih => simp [List.enumFrom_cons, ih]

theorem flatMap_nil_of {α β : Type} (l : List α) (w : α → List β) (h : ∀ a ∈ l, w a = []) :
    l.flatMap w = [] := by
  induction l with
  | nil => rfl
  | cons a l ih =>
    rw [List.flatMap_cons, h a (List.mem_cons_self _ _),
      ih (fun x hx => h x (List.mem_cons_of_mem _ hx))]
    rfl

theorem forall₂_map_plain (M : AtomMapT) (bs : List OBBond) (r : OBBond → List Attr)
    (h : ∀ b ∈ bs, PlainBond M (r b) b) : List.Forall₂ (PlainBond M) (bs.map r) bs := by
  induction bs with
  | nil => exact List.Forall₂.nil
  | cons b bs ih =>
    exact List.Forall₂.cons (h b (List.mem_cons_self _ _))
      (ih (fun x hx => h x (List.mem_cons_of_mem _ hx)))

section
variable (env : Env) (conv : OBConversion) (m : OBMol) (A : cmlArray)

/-- The bond block of `WriteMolecule` fills the bond array with records of a written
form, one for each bond. -/
theorem Runs.bonds_block (M : AtomMapT) (c1 ar : Bool) (mol : OBMol) (atomIDs : List String)
    (hbs : mol.bonds ≠ []) (hg : ∀ b ∈ mol.bonds, GoodBond M atomIDs b)
    (hflags : ∀ b ∈ mol.bonds, b.Wedge = false ∧ b.Hash = false ∧ b.Up = false ∧ b.Down = false)
    (inB : Bool) (cba : List Attr) :
    ∃ B' inB' cba', List.Forall₂ (PlainBond M) B' mol.bonds
      ∧ Runs env (WriteMolecule.bonds env { out1 := c1, outa := ar } mol atomIDs)
          (rdState conv m A [] inB cba) (rdState conv m A B' inB' cba') := by
  have hnb : mol.NumBonds > 0 := by
    unfold OBMol.NumBonds
    cases hb : mol.bonds with
    | nil => exact absurd hb hbs
    | cons b bs => simp
  have hord : ∀ b ∈ mol.bonds, IsToken (if b.BondOrder = 5 then "A" else intToDec b.BondOrder)
      ∧ ordOfToken (if b.BondOrder = 5 then "A" else intToDec b.BondOrder) = b.BondOrder := by
    intro b hb
    obtain ⟨_, _, _, _, _, _, _, g8, g9⟩ := hg b hb
    have := orderText_read env mol 0 b g8 g9
    unfold orderText at this
    simpa using this
  have hotx : (mol.bonds.enum.map fun kb => orderText env false mol kb.1 kb.2)
      = mol.bonds.map fun b => if b.BondOrder = 5 then "A" else intToDec b.BondOrder := by
    rw [← enum_map_snd mol.bonds (fun b => if b.BondOrder = 5 then "A" else intToDec b.BondOrder) 0]
    apply List.map_congr_left
    intro kb _
    unfold orderText
    simp
  have hne : ∀ f : OBBond → String, (spaced (mol.bonds.map f)).data ≠ [] := by
    intro f
    cases hb : mol.bonds with
    | nil => exact absurd hb hbs
    | cons o os => exact spaced_ne_nil _ _
  have ht1 : ∀ t ∈ mol.bonds.map (fun b => idAt atomIDs b.BeginAtomIdx), IsToken t := by
    intro t ht
    obtain ⟨b, hb, rfl⟩ := List.mem_map.1 ht
    exact (hg b hb).1
  have ht2 : ∀ t ∈ mol.bonds.map (fun b => idAt atomIDs b.EndAtomIdx), IsToken t := by
    intro t ht
    obtain ⟨b, hb, rfl⟩ := List.mem_map.1 ht
    exact (hg b hb).2.1
  have ht3 : ∀ t ∈ mol.bonds.map (fun b => if b.BondOrder = 5 then "A" else intToDec b.BondOrder),
      IsToken t := by
    intro t ht
    obtain ⟨b, hb, rfl⟩ := List.mem_map.1 ht
    exact (hord b hb).1
  unfold WriteMolecule.bonds
  rw [if_pos hnb]
  cases ar
  · -- individual layout
    obtain ⟨recs, cba', h1, r1⟩ := Runs.bonds_flatMap env conv m A true M none c1 mol atomIDs hflags
      mol.bonds hg 0 [] cba
    have hstart : ∃ q n u b, (mol.bonds.enumFrom 0).flatMap (fun kb =>
        WriteMolecule.bond env none c1 false mol atomIDs kb.1 kb.2)
        = WriterEvent.StartElementNS q n u :: b := by
      cases hb : mol.bonds with
      | nil => exact absurd hb hbs
      | cons o os => exact ⟨none, "bond", none, _, rfl⟩
    have := @Runs.opened_body env _ _ _ _ none "bondArray" [] (fun _ _ => True) (EvsSat.evs_nil _) _ hstart
      (fun rest => Steps.bondArray_open env conv m A [] inB cba rest) r1
      (fun rest => Steps.other_end env conv m A _ true cba' rest "bondArray" (by simp))
    refine ⟨recs, true, cba', h1, ?_⟩
    simpa [List.enum] using this
  · -- array layout
    have hst : (mol.bonds.enum.flatMap fun kb =>
        if kb.2.BondOrder = 2 ∨ kb.2.Wedge ∨ kb.2.Hash then
          WriteBondStereo (none : Option String) mol kb.1 atomIDs else []) = [] :=
      flatMap_nil_of _ _ (fun kb _ => by
        rw [WriteBondStereo_plain none mol kb.1 atomIDs hflags, ite_self])
    have hB : List.Forall₂ (PlainBond M)
        (mol.bonds.map fun b => [("atomRef1", idAt atomIDs b.BeginAtomIdx),
          ("atomRef2", idAt atomIDs b.EndAtomIdx),
          ("order", if b.BondOrder = 5 then "A" else intToDec b.BondOrder)]) mol.bonds :=
      forall₂_map_plain M _ _ (fun b hb =>
        (GoodBond.singles (hg b hb) _ (hord b hb).1 (hord b hb).2).2.2)
    have hB1 : List.Forall₂ (PlainBond M)
        (mol.bonds.map fun b => [("atomRef", idAt atomIDs b.BeginAtomIdx),
          ("atomRef", idAt atomIDs b.EndAtomIdx),
          ("order", if b.BondOrder = 5 then "A" else intToDec b.BondOrder)]) mol.bonds :=
      forall₂_map_plain M _ _ (fun b hb =>
        (GoodBond.singles (hg b hb) _ (hord b hb).1 (hord b hb).2).2.1)
    cases c1
    · refine ⟨_, true, cba, hB, ?_⟩
      have := @Runs.closed env _ _ none "bondArray"
        [WriterEvent.WriteAttribute "atomRef1" (spaced (mol.bonds.map fun b => idAt atomIDs b.BeginAtomIdx)),
         WriterEvent.WriteAttribute "atomRef2" (spaced (mol.bonds.map fun b => idAt atomIDs b.EndAtomIdx)),
         WriterEvent.WriteAttribute "order"
          (spaced (mol.bonds.map fun b => if b.BondOrder = 5 then "A" else intToDec b.BondOrder))]
        (fun _ _ => True)
        (EvsSat.cons trivial (EvsSat.cons trivial (EvsSat.cons trivial (EvsSat.evs_nil _))))
        (fun rest => Steps.bondArray_closed env conv m A [] inB cba rest _ _)
      simp only [attrsOf, distributed, List.foldl_cons, List.foldl_nil, tokenize_spaced _ ht1,
        tokenize_spaced _ ht2, tokenize_spaced _ ht3, pushItems_three] at this
      simp only [WriteMolecule.bondArrays, hotx, hst, Bool.not_false, if_true, List.append_nil]
      exact this
    · refine ⟨_, true, cba, hB1, ?_⟩
      have r1 := Runs.bond_array_child_run env conv m A [] cba none "stringArray" "atomRef"
        (spaced (mol.bonds.map fun b => idAt atomIDs b.BeginAtomIdx)) (Or.inl rfl) (hne _)
      have r2 := Runs.bond_array_child_run env conv m A
        (pushItems [] "atomRef" (tokenize (spaced (mol.bonds.map fun b => idAt atomIDs b.BeginAtomIdx))))
        cba none "stringArray" "atomRef"
        (spaced (mol.bonds.map fun b => idAt atomIDs b.EndAtomIdx)) (Or.inl rfl) (hne _)
      have r3 := Runs.bond_array_child_run env conv m A
        (pushItems (pushItems [] "atomRef"
          (tokenize (spaced (mol.bonds.map fun b => idAt atomIDs b.BeginAtomIdx)))) "atomRef"
          (tokenize (spaced (mol.bonds.map fun b => idAt atomIDs b.EndAtomIdx))))
        cba none "stringArray" "order"
        (spaced (mol.bonds.map fun b => if b.BondOrder = 5 then "A" else intToDec b.BondOrder))
        (Or.inl rfl) (hne _)
      have := @Runs.opened_body env _ _ _ _ none "bondArray" [] (fun _ _ => True) (EvsSat.evs_nil _) _
        ⟨none, "stringArray", none, _, rfl⟩
        (fun rest => Steps.bondArray_open env conv m A [] inB cba rest)
        (Runs.runs_append r1 (Runs.runs_append r2 r3))
        (fun rest => Steps.other_end env conv m A _ true cba rest "bondArray" (by simp))
      simp only [tokenize_spaced _ ht1, tokenize_spaced _ ht2, tokenize_spaced _ ht3,
        pushItems_three] at this
      simp only [WriteMolecule.bondArrays, hotx, hst, Bool.not_true, Bool.false_eq_true, if_false,
        if_true, List.append_nil]
      simpa using this

end

end OpenBabel

namespace OpenBabel

/-! ## Round trip: the identifiers of the atoms -/

theorem MakeAtomIds.loop_plain (title : String) (idxs : List Nat) (acmap : List (Int × Char)) :
    MakeAtomIds.loop title none (idxs.map fun i => ((i : Nat) : Int)) acmap
      = (idxs.map atomId, []) := by
  induction idxs with
  | nil => rfl
  | cons i is ih =>
    simp only [List.map_cons, MakeAtomIds.loop, Option.bind, ih]
    have : intToDec (i : Int) = String.mk (natToDec i) := by
      unfold intToDec
      rw [if_neg (by omega)]
      simp
    rw [this]
    rfl

theorem MakeAtomIds_plain (title : String) (mol : OBMol) (hdata : mol.data = []) :
    (MakeAtomIds title mol).1 = "Error" :: (List.range mol.atoms.length).map fun i => atomId (i + 1) := by
  unfold MakeAtomIds
  have hc : mol.atomClasses = none := by
    unfold OBMol.atomClasses
    rw [hdata]
    rfl
  rw [hc]
  have := MakeAtomIds.loop_plain title ((List.range mol.atoms.length).map fun i => i + 1) []
  rw [List.map_map] at this
  have e : ((fun i => ((i : Nat) : Int)) ∘ fun i => i + 1) = fun i : Nat => (((i + 1 : Nat)) : Int) := rfl
  rw [e] at this
  rw [this, List.map_map]
  rfl

theorem idAt_plain (n : Nat) (k : Nat) (hk : k < n) :
    idAt ("Error" :: (List.range n).map fun i => atomId (i + 1)) ((k + 1 : Nat) : Int) = atomId (k + 1) := by
  unfold idAt
  have : (((k + 1 : Nat) : Int)).toNat = k + 1 := by simp
  rw [this]
  simp [List.getD, hk]

theorem atomIds_nodup (n : Nat) : ((List.range n).map fun i => atomId (i + 1)).Nodup := by
  refine List.Nodup.map ?_ (List.nodup_range n)
  intro i j h
  have := atomId_injective _ _ h
  omega

theorem lookup_atomIds (n k : Nat) (hk : k < n) :
    (mapSetAll [] ((List.range n).map fun i => atomId (i + 1)) 1).lookup (atomId (k + 1))
      = some ((k + 1 : Nat) : Int) := by
  rw [lookup_mapSetAll [] _ 1 (atomId (k + 1)) k (atomIds_nodup n) (by simp [hk])]
  congr 1
  push_cast
  omega

end OpenBabel

namespace OpenBabel

/-! ## Round trip: the atom block -/

theorem mem_enumFrom_parts {α : Type} (l : List α) (n : Nat) (ia : Nat × α)
    (h : ia ∈ l.enumFrom n) : n ≤ ia.1 ∧ ia.1 < n + l.length ∧ ia.2 ∈ l := by
  induction l generalizing n with
  | nil => simp at h
  | cons a l ih =>
    rw [List.enumFrom_cons] at h
    rcases List.mem_cons.1 h with h | h
    · subst h
      simp
    · obtain ⟨h1, h2, h3⟩ := ih (n + 1) h
      refine ⟨by omega, ?_, List.mem_cons_of_mem _ h3⟩
      simp only [List.length_cons]
      omega

theorem enumFrom_map_fst_range {α β : Type} (l : List α) (n : Nat) (g : Nat → β) :
    (l.enumFrom n).map (fun ia => g ia.1) = (List.range' n l.length).map g := by
  induction l generalizing n with
  | nil => rfl
  | cons a l ih => simp [List.enumFrom_cons, List.range'_succ, ih]

section
variable (env : Env) (conv : OBConversion) (m : OBMol) (B : cmlArray)

/-- The atom block of `WriteMolecule` for a molecule with bonds fills the atom array
with plain records, one for each atom. -/
theorem Runs.atoms_block (c1 ar : Bool) (mol : OBMol) (hdata : mol.data = [])
    (hat : mol.atoms ≠ []) (hnb : mol.NumBonds ≠ 0)
    (hflags : ∀ a ∈ mol.atoms, a.PositiveStereo = false ∧ a.NegativeStereo = false
      ∧ a.Clockwise = false ∧ a.AntiClockwise = false)
    (hsym : ∀ a ∈ mol.atoms, IsToken (elementSymbol env a.AtomicNum))
    (hdbl : ∀ d, IsToken (env.streamDbl d)) (inB : Bool) (cba : List Attr) :
    ∃ A' cba', PlainRecs ((List.range mol.atoms.length).map fun i => atomId (i + 1))
        (mol.atoms.map fun a => elementSymbol env a.AtomicNum) A'
      ∧ Runs env (WriteMolecule.atoms env { out1 := c1, outa := ar } mol none mol.NumBonds true
            mol.Dimension (MakeAtomIds mol.Title mol).1)
          (rdState conv m [] B inB cba) (rdState conv m A' B false cba') := by
  have hna : mol.NumAtoms > 0 := by
    unfold OBMol.NumAtoms
    cases ha : mol.atoms with
    | nil => exact absurd ha hat
    | cons b bs => simp
  have hos : (mol.atoms.enum.map fun ia =>
      atomOut env mol none (MakeAtomIds mol.Title mol).1 ((ia.1 + 1 : Nat) : Int) ia.2) ≠ [] := by
    cases ha : mol.atoms with
    | nil => exact absurd ha hat
    | cons b bs => simp [List.enum]
  have hmem : ∀ o ∈ (mol.atoms.enum.map fun ia =>
      atomOut env mol none (MakeAtomIds mol.Title mol).1 ((ia.1 + 1 : Nat) : Int) ia.2),
      IsToken o.id ∧ IsToken o.el ∧ o.cfg = 0 := by
    intro o ho
    obtain ⟨ia, hia, rfl⟩ := List.mem_map.1 ho
    obtain ⟨_, h2, h3⟩ := mem_enumFrom_parts _ _ _ hia
    obtain ⟨f1, f2, f3, f4⟩ := hflags ia.2 h3
    refine ⟨?_, hsym ia.2 h3, ?_⟩
    · show IsToken (idAt (MakeAtomIds mol.Title mol).1 ((ia.1 + 1 : Nat) : Int))
      rw [MakeAtomIds_plain _ _ hdata, idAt_plain _ _ (by omega)]
      exact atomId_token _
    · simp [atomOut, f1, f2, f3, f4]
  have hids : (mol.atoms.enum.map fun ia =>
      atomOut env mol none (MakeAtomIds mol.Title mol).1 ((ia.1 + 1 : Nat) : Int) ia.2).map (·.id)
      = (List.range mol.atoms.length).map fun i => atomId (i + 1) := by
    rw [List.map_map]
    have : ((fun o : AtomOut => o.id) ∘ fun ia : Nat × OBAtom =>
        atomOut env mol none (MakeAtomIds mol.Title mol).1 ((ia.1 + 1 : Nat) : Int) ia.2)
        = fun ia => idAt (MakeAtomIds mol.Title mol).1 ((ia.1 + 1 : Nat) : Int) := rfl
    rw [this, List.enum, enumFrom_map_fst_range mol.atoms 0
      (fun i => idAt (MakeAtomIds mol.Title mol).1 ((i + 1 : Nat) : Int)), ← List.range_eq_range']
    apply List.map_congr_left
    intro i hi
    rw [MakeAtomIds_plain _ _ hdata, idAt_plain _ _ (List.mem_range.1 hi)]
  have hels : (mol.atoms.enum.map fun ia =>
      atomOut env mol none (MakeAtomIds mol.Title mol).1 ((ia.1 + 1 : Nat) : Int) ia.2).map (·.el)
      = mol.atoms.map fun a => elementSymbol env a.AtomicNum := by
    rw [List.map_map, List.enum]
    exact enum_map_snd mol.atoms (fun a => elementSymbol env a.AtomicNum) 0
  unfold WriteMolecule.atoms
  rw [if_pos hna, if_neg (fun h => hnb h.1)]
  rw [← hids, ← hels]
  cases ar
  · obtain ⟨A', cba', h1, r1⟩ := Runs.atomArray_individual env conv m B cba none c1 false mol.Dimension
      (MakeAtomIds mol.Title mol).1 _ hos (fun o ho => (hmem o ho).1) (fun o ho => (hmem o ho).2.1)
      (fun o ho => (hmem o ho).2.2) inB
    exact ⟨A', cba', h1, by simpa using r1⟩
  · cases c1
    · obtain ⟨A', h1, r1⟩ := Runs.atomArray_cml2 env conv m B inB none false mol.Dimension _
        (fun o ho => (hmem o ho).1) (fun o ho => (hmem o ho).2.1) hdbl cba
      exact ⟨A', cba, h1, by simpa using r1⟩
    · obtain ⟨A', h1, r1⟩ := Runs.atomArray_cml1 env conv m B cba none false mol.Dimension _ hos
        (fun o ho => (hmem o ho).1) (fun o ho => (hmem o ho).2.1) hdbl inB
      exact ⟨A', cba, h1, by simpa using r1⟩

end

end OpenBabel

namespace OpenBabel

/-! ## Round trip: the whole document -/

theorem toNodesAux_attr_idle (k v : String) (rest : List WriterEvent) (stack : List String) :
    toNodesAux (WriterEvent.WriteAttribute k v :: rest) WriterState.idle stack
      = toNodesAux rest WriterState.idle stack := rfl

/-- The start of the document up to the first element inside the molecule: the
reader comes to a molecule without atoms and bonds and to empty arrays. -/
theorem Steps.header (env : Env) (conv : OBConversion) (u T I s : String)
    (c0 ct cs : Prop) [Decidable c0] [Decidable ct] [Decidable cs] (hT : c0 → T.data ≠ [])
    (q : Option String) (n : String) (w : Option String) (body : List WriterEvent) :
    ∃ m0 : OBMol, m0.atoms = [] ∧ m0.bonds = [] ∧
      Steps env { _pxmlConv := conv }
        (toNodesAux (WriterEvent.StartDocument :: WriterEvent.StartElementNS none "molecule" (some u)
          :: ((if c0 then
                [WriterEvent.WriteAttribute "id" I]
                ++ (if ct then
                      [WriterEvent.StartElementNS none "name" none, WriterEvent.WriteString T,
                       WriterEvent.EndElement]
                    else [])
              else [])
            ++ ((if cs then [WriterEvent.WriteAttribute "spinMultiplicity" s] else [])
            ++ WriterEvent.StartElementNS q n w :: body))) WriterState.idle [])
        (rdState conv m0 [] [] false [])
        (toNodesAux (WriterEvent.StartElementNS q n w :: body) WriterState.idle ["molecule"]) := by
  by_cases h0 : c0
  · by_cases ht : ct
    · have hTe : T.data.isEmpty = false := by
        cases hd : T.data with
        | nil => exact absurd hd (hT h0)
        | cons x xs => rfl
      obtain ⟨m0, a1, a2, st⟩ := Steps.molecule_open env conv u [("id", I)]
        (XmlNode.element "name" [] false :: XmlNode.text T :: XmlNode.endElement "name"
          :: toNodesAux (WriterEvent.StartElementNS q n w :: body) WriterState.idle ["molecule"])
        (Or.inr (Or.inl ⟨I, rfl⟩))
      refine ⟨{ m0 with Title := Trim T }, a1, a2, ?_⟩
      have e : toNodesAux (WriterEvent.StartDocument :: WriterEvent.StartElementNS none "molecule" (some u)
          :: ((if c0 then
                [WriterEvent.WriteAttribute "id" I]
                ++ (if ct then
                      [WriterEvent.StartElementNS none "name" none, WriterEvent.WriteString T,
                       WriterEvent.EndElement]
                    else [])
              else [])
            ++ ((if cs then [WriterEvent.WriteAttribute "spinMultiplicity" s] else [])
            ++ WriterEvent.StartElementNS q n w :: body))) WriterState.idle []
          = XmlNode.element "molecule" [("xmlns", u), ("id", I)] false
            :: XmlNode.element "name" [] false :: XmlNode.text T :: XmlNode.endElement "name"
            :: toNodesAux (WriterEvent.StartElementNS q n w :: body) WriterState.idle ["molecule"] := by
        rw [if_pos h0, if_pos ht]
        by_cases hs : cs
        · rw [if_pos hs]
          simp [toNodesAux, nsAttrs, flushState, hTe]
        · rw [if_neg hs]
          simp [toNodesAux, nsAttrs, flushState, hTe]
      rw [e]
      exact Steps.steps_trans st (Steps.name_element env conv m0 [] [] false [] _ T)
    · by_cases hs : cs
      · obtain ⟨m0, a1, a2, st⟩ := Steps.molecule_open env conv u [("id", I), ("spinMultiplicity", s)]
          (toNodesAux (WriterEvent.StartElementNS q n w :: body) WriterState.idle ["molecule"])
          (Or.inr (Or.inr (Or.inr ⟨I, s, rfl⟩)))
        refine ⟨m0, a1, a2, ?_⟩
        rw [if_pos h0, if_neg ht, if_pos hs]
        exact st
      · obtain ⟨m0, a1, a2, st⟩ := Steps.molecule_open env conv u [("id", I)]
          (toNodesAux (WriterEvent.StartElementNS q n w :: body) WriterState.idle ["molecule"])
          (Or.inr (Or.inl ⟨I, rfl⟩))
        refine ⟨m0, a1, a2, ?_⟩
        rw [if_pos h0, if_neg ht, if_neg hs]
        exact st
  · by_cases hs : cs
    · obtain ⟨m0, a1, a2, st⟩ := Steps.molecule_open env conv u [("spinMultiplicity", s)]
        (toNodesAux (WriterEvent.StartElementNS q n w :: body) WriterState.idle ["molecule"])
        (Or.inr (Or.inr (Or.inl ⟨s, rfl⟩)))
      refine ⟨m0, a1, a2, ?_⟩
      rw [if_neg h0, if_pos hs]
      exact st
    · obtain ⟨m0, a1, a2, st⟩ := Steps.molecule_open env conv u []
        (toNodesAux (WriterEvent.StartElementNS q n w :: body) WriterState.idle ["molecule"])
        (Or.inl rfl)
      refine ⟨m0, a1, a2, ?_⟩
      rw [if_neg h0, if_neg hs]
      exact st

/-- The calls of `WriteMolecule` for a molecule with atoms and bonds and without
data, in one of the four dialects. -/
theorem WriteMolecule_plain (env : Env) (c1 ar : Bool) (mol : OBMol) (hdata : mol.data = [])
    (hat : mol.atoms ≠ []) (hbonds : mol.bonds ≠ []) :
    (WriteMolecule env { out1 := c1, outa := ar } mol.Title mol).1
      = WriterEvent.StartDocument :: WriterEvent.StartElementNS none "molecule"
          (some (if c1 then "http://www.xml-cml.org/dtd/cml_1_0_1.dtd" else "http://www.xml-cml.org/schema"))
        :: ((if mol.Title.data ≠ [] then
              [WriterEvent.WriteAttribute "id" (moleculeId mol.Title)]
              ++ (if !isalpha (firstChar mol.Title) then
                    [WriterEvent.StartElementNS none "name" none, WriterEvent.WriteString mol.Title,
                     WriterEvent.EndElement]
                  else [])
            else [])
          ++ ((if env.GetTotalSpinMultiplicity mol ≠ 1 ∧ mol.NumBonds ≠ 0 then
                [WriterEvent.WriteAttribute "spinMultiplicity" (intToDec (env.GetTotalSpinMultiplicity mol))]
              else [])
          ++ (WriteMolecule.atoms env { out1 := c1, outa := ar } mol none mol.NumBonds true
                mol.Dimension (MakeAtomIds mol.Title mol).1
          ++ (WriteMolecule.bonds env { out1 := c1, outa := ar } mol (MakeAtomIds mol.Title mol).1
          ++ [WriterEvent.EndElement, WriterEvent.EndDocument])))) := by
  have hna : mol.NumAtoms > 0 := by
    unfold OBMol.NumAtoms
    cases ha : mol.atoms with
    | nil => exact absurd ha hat
    | cons b bs => simp
  have hnb : mol.NumBonds ≠ 0 := by
    unfold OBMol.NumBonds
    cases hb : mol.bonds with
    | nil => exact absurd hb hbonds
    | cons b bs =>
      simp only [List.length_cons, Nat.cast_add, Nat.cast_one]
      omega
  unfold WriteMolecule
  simp only [hdata, WriteInChI, List.findSome?_nil, List.find?_nil, ite_self, hna, hnb, false_and,
    not_false_eq_true, and_self, if_true, Bool.not_false, Bool.and_self, Bool.true_and,
    Bool.false_eq_true, if_false, List.append_nil, List.nil_append, List.cons_append,
    List.append_assoc, Option.isNone_none, Option.isSome_none, id_eq, beq_self_eq_true,
    Bool.not_true, Bool.and_true]

end OpenBabel

namespace OpenBabel

theorem goodBond_of_ends (mol : OBMol) (hdata : mol.data = []) (b : OBBond)
    (hends : 1 ≤ b.BeginAtomIdx ∧ b.BeginAtomIdx ≤ mol.NumAtoms
      ∧ 1 ≤ b.EndAtomIdx ∧ b.EndAtomIdx ≤ mol.NumAtoms)
    (hord : b.BondOrder ≠ 0 ∧ -2147483648 ≤ b.BondOrder ∧ b.BondOrder < 2147483648) :
    GoodBond (mapSetAll [] ((List.range mol.atoms.length).map fun i => atomId (i + 1)) 1)
      (MakeAtomIds mol.Title mol).1 b := by
  obtain ⟨e1, e2, e3, e4⟩ := hends
  unfold OBMol.NumAtoms at e2 e4
  have hb : b.BeginAtomIdx = (((b.BeginAtomIdx.toNat - 1) + 1 : Nat) : Int) := by omega
  have he : b.EndAtomIdx = (((b.EndAtomIdx.toNat - 1) + 1 : Nat) : Int) := by omega
  have hbl : b.BeginAtomIdx.toNat - 1 < mol.atoms.length := by omega
  have hel : b.EndAtomIdx.toNat - 1 < mol.atoms.length := by omega
  have i1 : idAt (MakeAtomIds mol.Title mol).1 b.BeginAtomIdx = atomId ((b.BeginAtomIdx.toNat - 1) + 1) := by
    rw [MakeAtomIds_plain _ _ hdata]
    conv_lhs => rw [hb]
    exact idAt_plain _ _ hbl
  have i2 : idAt (MakeAtomIds mol.Title mol).1 b.EndAtomIdx = atomId ((b.EndAtomIdx.toNat - 1) + 1) := by
    rw [MakeAtomIds_plain _ _ hdata]
    conv_lhs => rw [he]
    exact idAt_plain _ _ hel
  refine ⟨?_, ?_, ?_, ?_, by omega, by omega, hord.1, hord.2.1, hord.2.2⟩
  · rw [i1]
    exact atomId_token _
  · rw [i2]
    exact atomId_token _
  · rw [i1, lookup_atomIds _ _ hbl, ← hb]
  · rw [i2, lookup_atomIds _ _ hel, ← he]

theorem readDocument_eq (env : Env) (conv : OBConversion) (nodes : List XmlNode) :
    readDocument env conv nodes
      = molOf (ReadXML env (nodes.length + 1) (CMLFormat.onNodes { _pxmlConv := conv } nodes)) := rfl

/-- C1, amended: for every graph with at least one bond, whose bonds join atoms of the
graph and have an order other than 0 in the range of `int`, with no stereo flags and
no data (no unit cell, no metadata), in each of the four dialects, reading the nodes
that `WriteMolecule` emits returns a graph with the same atom count, the same bond
count, the same atomic number for each atom in order and the same order for each
bond in order; the element table is assumed to give, for each atom, a symbol that is
one token and that it maps back to the atomic number, a double is assumed to be
streamed as one token, and spin assignment to keep the elements and the bonds. -/
theorem roundTrip_with_bonds (env : Env) (mol : OBMol) (cml1 arrays : Bool)
    (hdata : mol.data = []) (hbonds : mol.bonds ≠ [])
    (hends : ∀ b ∈ mol.bonds, 1 ≤ b.BeginAtomIdx ∧ b.BeginAtomIdx ≤ mol.NumAtoms
      ∧ 1 ≤ b.EndAtomIdx ∧ b.EndAtomIdx ≤ mol.NumAtoms)
    (hord : ∀ b ∈ mol.bonds, b.BondOrder ≠ 0 ∧ -2147483648 ≤ b.BondOrder ∧ b.BondOrder < 2147483648)
    (hbflags : ∀ b ∈ mol.bonds, b.Wedge = false ∧ b.Hash = false ∧ b.Up = false ∧ b.Down = false)
    (haflags : ∀ a ∈ mol.atoms, a.PositiveStereo = false ∧ a.NegativeStereo = false
      ∧ a.Clockwise = false ∧ a.AntiClockwise = false)
    (hsym : ∀ a ∈ mol.atoms, IsToken (elementSymbol env a.AtomicNum)
      ∧ (env.GetAtomicNum (elementSymbol env a.AtomicNum)).1 = a.AtomicNum)
    (hdbl : ∀ d, IsToken (env.streamDbl d))
    (hspin : ∀ x, (env.AssignSpinMultiplicity x).atoms.map (·.AtomicNum) = x.atoms.map (·.AtomicNum)
      ∧ (env.AssignSpinMultiplicity x).bonds = x.bonds) :
    ∃ m, roundTrip env { out1 := cml1, outa := arrays } mol = some m
      ∧ m.NumAtoms = mol.NumAtoms ∧ m.NumBonds = mol.NumBonds
      ∧ m.atoms.map (·.AtomicNum) = mol.atoms.map (·.AtomicNum)
      ∧ m.bonds.map (·.BondOrder) = mol.bonds.map (·.BondOrder) := by
  have hat : mol.atoms ≠ [] := by
    intro h0
    cases hb : mol.bonds with
    | nil => exact hbonds hb
    | cons b bs =>
      have := hends b (by rw [hb]; exact List.mem_cons_self _ _)
      unfold OBMol.NumAtoms at this
      rw [h0] at this
      simp only [List.length_nil, Nat.cast_zero] at this
      omega
  have hnb : mol.NumBonds ≠ 0 := by
    unfold OBMol.NumBonds
    cases hb : mol.bonds with
    | nil => exact absurd hb hbonds
    | cons b bs =>
      simp only [List.length_cons, Nat.cast_add, Nat.cast_one]
      omega
  have hna : mol.NumAtoms > 0 := by
    unfold OBMol.NumAtoms
    cases ha : mol.atoms with
    | nil => exact absurd ha hat
    | cons b bs => simp
  -- the three parts of the document
  obtain ⟨X, hX⟩ : ∃ X, WriteMolecule.atoms env { out1 := cml1, outa := arrays } mol none mol.NumBonds true
      mol.Dimension (MakeAtomIds mol.Title mol).1 = WriterEvent.StartElementNS none "atomArray" none :: X := by
    unfold WriteMolecule.atoms
    rw [if_pos hna, if_neg (fun h => hnb h.1)]
    exact ⟨_, rfl⟩
  obtain ⟨m0, a1, a2, s0⟩ := Steps.header env { out1 := cml1, outa := arrays }
    (if cml1 then "http://www.xml-cml.org/dtd/cml_1_0_1.dtd" else "http://www.xml-cml.org/schema")
    mol.Title (moleculeId mol.Title) (intToDec (env.GetTotalSpinMultiplicity mol))
    (mol.Title.data ≠ []) ((!isalpha (firstChar mol.Title)) = true)
    (env.GetTotalSpinMultiplicity mol ≠ 1 ∧ mol.NumBonds ≠ 0) (fun h => h)
    none "atomArray" none
    (X ++ (WriteMolecule.bonds env { out1 := cml1, outa := arrays } mol (MakeAtomIds mol.Title mol).1
      ++ [WriterEvent.EndElement, WriterEvent.EndDocument]))
  obtain ⟨A', cba1, hA', r1⟩ := Runs.atoms_block env { out1 := cml1, outa := arrays } m0 [] cml1 arrays
    mol hdata hat hnb haflags (fun a ha => (hsym a ha).1) hdbl false []
  obtain ⟨B', inB', cba2, hB', r2⟩ := Runs.bonds_block env { out1 := cml1, outa := arrays } m0 A'
    (mapSetAll [] ((List.range mol.atoms.length).map fun i => atomId (i + 1)) 1) cml1 arrays mol
    (MakeAtomIds mol.Title mol).1 hbonds
    (fun b hb => goodBond_of_ends mol hdata b (hends b hb) (hord b hb)) hbflags false cba1
  -- the end of the molecule
  obtain ⟨g, hg, g1, g2⟩ := EndElement_molecule_plain env
    { rdState { out1 := cml1, outa := arrays } m0 A' B' inB' cba2 with
      reader := ⟨some (XmlNode.endElement "molecule"), none, []⟩ }
    ((List.range mol.atoms.length).map fun i => atomId (i + 1))
    (mol.atoms.map fun a => elementSymbol env a.AtomicNum) mol.bonds a1 a2 rfl rfl rfl hA' hB'
    (by simpa using hat) hbonds hspin
  have hh : Halts env ({ _pxmlConv := { out1 := cml1, outa := arrays } } : CMLFormat)
      (toNodes (WriteMolecule env { out1 := cml1, outa := arrays } mol.Title mol).1) g._pmol := by
    unfold toNodes
    rw [WriteMolecule_plain env cml1 arrays mol hdata hat hbonds]
    rw [hX] at r1 ⊢
    exact Steps.halts s0 (Steps.halts (r1 _ ["molecule"]) (Steps.halts (r2 _ ["molecule"])
      (Halts.last_endElement hg)))
  refine ⟨g._pmol, ?_, ?_, ?_, ?_, ?_⟩
  · unfold roundTrip
    rw [readDocument_eq]
    exact hh _ (Nat.lt_succ_self _)
  · unfold OBMol.NumAtoms
    have := congrArg List.length g1
    simp only [List.length_map] at this
    rw [this]
  · unfold OBMol.NumBonds
    rw [g2, List.length_map]
  · rw [g1, List.map_map]
    apply List.map_congr_left
    intro a ha
    exact (hsym a ha).2
  · rw [g2, List.map_map]
    rfl

theorem roundTrip_with_bonds_witness :
    ∃ m, roundTrip sampleEnv { out1 := false, outa := true } sampleGraph = some m
      ∧ m.NumAtoms = sampleGraph.NumAtoms ∧ m.NumBonds = sampleGraph.NumBonds
      ∧ m.atoms.map (·.AtomicNum) = sampleGraph.atoms.map (·.AtomicNum)
      ∧ m.bonds.map (·.BondOrder) = sampleGraph.bonds.map (·.BondOrder) :=
  roundTrip_with_bonds sampleEnv sampleGraph false true rfl (by decide) (by decide) (by decide)
    (by decide) (by decide) (by unfold IsToken; decide) (fun _ => (⟨by decide, by decide⟩ : IsToken "0"))
    (fun _ => ⟨rfl, rfl⟩)

end OpenBabel

namespace OpenBabel

/-! ## Atoms: the choice between the coordinate sets -/

/-- C11 at the failing input: the record `x2="1" x3="2" y3="3" z3="4" y2="5"` is read
without the option `2`. The flag `using2`, set at `x2`, is not cleared when `x3`
sets `using3`, so the `y2` that follows the 3-D attributes overwrites `y`: the atom
gets (2, 5, 4) where the claim gives (x3, y3, z3) = (2, 3, 4). With the two 2-D
attributes before the 3-D ones the atom gets (2, 3, 4), and the record with `x2`,
`y2` and fractional attributes gets (x2, y2, 0). -/
theorem DoAtoms_y2_after_3d_overwrites :
    coordsOf (DoAtoms sampleEnv
        { AtomArray := [[("x2", "1"), ("x3", "2"), ("y3", "3"), ("z3", "4"), ("y2", "5")]] })
      = some ([⟨Dbl.strtod "2", Dbl.strtod "5", Dbl.strtod "4"⟩], 3)
    ∧ coordsOf (DoAtoms sampleEnv
        { AtomArray := [[("x2", "1"), ("y2", "5"), ("x3", "2"), ("y3", "3"), ("z3", "4")]] })
      = some ([⟨Dbl.strtod "2", Dbl.strtod "3", Dbl.strtod "4"⟩], 3)
    ∧ coordsOf (DoAtoms sampleEnv
        { AtomArray := [[("xFract", "0.1"), ("x2", "1"), ("yFract", "0.2"), ("y2", "5"), ("zFract", "0.3")]],
          pUnitCell := some 0,
          _pmol := { data := [OBGenericData.UnitCell { vals := ["1", "1", "1", "90", "90", "90"] }] } })
      = some ([⟨Dbl.strtod "1", Dbl.strtod "5", Dbl.zero⟩], 2)
    ∧ (readDocument sampleEnv {}
        [XmlNode.element "molecule" [] false,
         XmlNode.element "atom"
           [("id", "a1"), ("elementType", "C"), ("x2", "1"), ("x3", "2"), ("y3", "3"), ("z3", "4"),
            ("y2", "5")] true,
         XmlNode.endElement "molecule"]).map (fun m => m.atoms.map (·.Vector))
      = some [⟨Dbl.strtod "2", Dbl.strtod "5", Dbl.strtod "4"⟩] := by
  decide!

/-- C12 at the failing input: the record `x3="2" y3="3" z3="4"`, which has no 2-D
attribute, is read with the option `2`. The 3-D attributes are only taken without
the option, whether or not 2-D attributes are provided, so the atom gets (0, 0, 0)
and the dimension is 0, where without the option it gets (2, 3, 4) and dimension 3.
A record with both sets gets (x2, y2, 0) with the option. -/
theorem DoAtoms_option2_drops_3d_without_2d :
    coordsOf (DoAtoms sampleEnv
        { AtomArray := [[("x3", "2"), ("y3", "3"), ("z3", "4")]], _pxmlConv := { in2 := true } })
      = some ([⟨Dbl.zero, Dbl.zero, Dbl.zero⟩], 0)
    ∧ coordsOf (DoAtoms sampleEnv { AtomArray := [[("x3", "2"), ("y3", "3"), ("z3", "4")]] })
      = some ([⟨Dbl.strtod "2", Dbl.strtod "3", Dbl.strtod "4"⟩], 3)
    ∧ coordsOf (DoAtoms sampleEnv
        { AtomArray := [[("x3", "2"), ("x2", "1"), ("y3", "3"), ("y2", "5"), ("z3", "4")]],
          _pxmlConv := { in2 := true } })
      = some ([⟨Dbl.strtod "1", Dbl.strtod "5", Dbl.zero⟩], 2) := by
  decide!

end OpenBabel

namespace OpenBabel

/-! ## Atoms: the flags of the coordinate sets -/

theorem chooseCoords_flags (use2d hasCell : Bool) (n : String) (s : AtomVars) :
    (DoAtoms.chooseCoords use2d hasCell n s).flags
      = nextFlags use2d hasCell s.flags (is3D n) (is2D n) (isFract n) := by
  unfold DoAtoms.chooseCoords nextFlags AtomVars.flags is3D is2D isFract
  split_ifs <;> rfl

theorem readCoords_flags (n v : String) (s : AtomVars) : (DoAtoms.readCoords n v s).flags = s.flags := by
  unfold DoAtoms.readCoords
  split_ifs
  · rfl
  · rfl
  · rfl
  · split <;> rfl
  · split <;> rfl
  · rfl

theorem addH_flags (nhvy : Int) (n : Nat) (s : AtomVars) : (DoAtoms.addH nhvy n s).flags = s.flags := by
  induction n generalizing s with
  | zero => rfl
  | succ k ih =>
    rw [DoAtoms.addH, ih]
    rfl

theorem other_flags (pAtom : Nat) (n v : String) (s : AtomVars) :
    (DoAtoms.other pAtom n v s).flags = s.flags := by
  unfold DoAtoms.other
  split_ifs
  · exact addH_flags _ _ _
  · rfl
  · rfl
  · rfl
  · rfl
  · rfl

theorem setId_flags (molID : String) (nhvy : Int) (value : String) (s : AtomVars) :
    (DoAtoms.setId molID nhvy value s).flags = s.flags := by
  unfold DoAtoms.setId
  simp only
  split_ifs <;> rfl

theorem setElement_flags (env : Env) (pAtom : Nat) (value : String) (s : AtomVars) :
    (DoAtoms.setElement env pAtom value s).flags = s.flags := rfl

theorem step_flags (env : Env) (molID : String) (use2d hasCell : Bool) (pAtom : Nat) (nhvy : Int)
    (s : AtomVars) (a : Attr) :
    (DoAtoms.step env molID use2d hasCell pAtom nhvy s a).flags
      = nextFlags use2d hasCell s.flags (is3D a.1) (is2D a.1) (isFract a.1) := by
  unfold DoAtoms.step
  split_ifs with h1 h2
  · rw [setId_flags]
    have : is3D a.1 = false ∧ is2D a.1 = false ∧ isFract a.1 = false := by
      simp only [Bool.or_eq_true, beq_iff_eq] at h1
      rcases h1 with (h | h) | h <;> rw [h] <;> decide
    rw [this.1, this.2.1, this.2.2]
    simp [nextFlags]
  · rw [setElement_flags]
    have : is3D a.1 = false ∧ is2D a.1 = false ∧ isFract a.1 = false := by
      simp only [beq_iff_eq] at h2
      rw [h2]
      decide
    rw [this.1, this.2.1, this.2.2]
    simp [nextFlags]
  · rw [other_flags, readCoords_flags, chooseCoords_flags]

/-- The attribute loop of `DoAtoms` on a record without `atomRefs4` applies the
attributes one after the other. -/
theorem DoAtoms.attrs_steps (env : Env) (molID : String) (use2d hasCell : Bool) (pAtom : Nat)
    (nhvy : Int) (l : List Attr) (s : AtomVars) (h : ∀ a ∈ l, a.1 ≠ "atomRefs4") :
    ∃ r, DoAtoms.attrs env molID use2d hasCell pAtom nhvy l s
      = Except.ok (l.foldl (DoAtoms.step env molID use2d hasCell pAtom nhvy) s, r) := by
  induction l generalizing s with
  | nil => exact ⟨[], rfl⟩
  | cons a rest ih =>
    obtain ⟨n, v⟩ := a
    have hn : n ≠ "atomRefs4" := h (n, v) (List.mem_cons_self _ _)
    obtain ⟨r, hr⟩ := ih (DoAtoms.step env molID use2d hasCell pAtom nhvy s (n, v))
      (fun a ha => h a (List.mem_cons_of_mem _ ha))
    rw [DoAtoms.attrs.eq_def]
    simp only [List.foldl_cons]
    unfold DoAtoms.step at hr ⊢
    simp only
    split_ifs with h1 h2 h3
    · rw [if_pos h1] at hr
      rw [hr]
      exact ⟨_, rfl⟩
    · rw [if_neg h1, if_pos h2] at hr
      rw [hr]
      exact ⟨_, rfl⟩
    · exact absurd (by simpa using h3) hn
    · rw [if_neg h1, if_neg h2] at hr
      rw [hr]
      exact ⟨_, rfl⟩

theorem coordNames_exclusive (n : String) :
    (is3D n && is2D n) = false ∧ (is3D n && isFract n) = false ∧ (is2D n && isFract n) = false := by
  have h3 : is3D n = true → is2D n = false ∧ isFract n = false := by
    intro h
    simp only [is3D, Bool.or_eq_true, beq_iff_eq] at h
    rcases h with ((h | h) | h) | h <;> rw [h] <;> decide
  have h2 : is2D n = true → isFract n = false := by
    intro h
    simp only [is2D, Bool.or_eq_true, beq_iff_eq] at h
    rcases h with ((h | h) | h) | h <;> rw [h] <;> decide
  cases e3 : is3D n <;> cases e2 : is2D n <;> cases eF : isFract n <;> simp_all

set_option maxRecDepth 100000 in
theorem nextFlags_restDim :
    ∀ use2d hasCell u3 u2 uF p3 p2 pF a3 a2 aF : Bool,
      (p3 && p2) = false → (p3 && pF) = false → (p2 && pF) = false →
      ((u3 || u2) = true → uF = false) →
      (((nextFlags use2d hasCell (u3, u2, uF) p3 p2 pF).1
          || (nextFlags use2d hasCell (u3, u2, uF) p3 p2 pF).2.1) = true →
        (nextFlags use2d hasCell (u3, u2, uF) p3 p2 pF).2.2 = false)
      ∧ restDim use2d hasCell (nextFlags use2d hasCell (u3, u2, uF) p3 p2 pF) a3 a2 aF
        = restDim use2d hasCell (u3, u2, uF) (p3 || a3) (p2 || a2) (pF || aF) := by
  decide

theorem flagsDim_restDim : ∀ use2d hasCell u3 u2 uF : Bool,
    ((u3 || u2) = true → uF = false) →
    flagsDim (u3, u2, uF) = restDim use2d hasCell (u3, u2, uF) false false false := by
  decide

theorem steps_restDim (env : Env) (molID : String) (use2d hasCell : Bool) (pAtom : Nat) (nhvy : Int)
    (l : List Attr) (s : AtomVars) (hInv : (s.using3 || s.using2) = true → s.usingFract = false) :
    flagsDim (l.foldl (DoAtoms.step env molID use2d hasCell pAtom nhvy) s).flags
      = restDim use2d hasCell s.flags (l.any fun a => is3D a.1) (l.any fun a => is2D a.1)
          (l.any fun a => isFract a.1) := by
  induction l generalizing s with
  | nil =>
    exact flagsDim_restDim use2d hasCell s.using3 s.using2 s.usingFract hInv
  | cons a rest ih =>
    obtain ⟨e1, e2, e3⟩ := coordNames_exclusive a.1
    have hs := step_flags env molID use2d hasCell pAtom nhvy s a
    obtain ⟨k1, k2⟩ := nextFlags_restDim use2d hasCell s.using3 s.using2 s.usingFract
      (is3D a.1) (is2D a.1) (isFract a.1) (rest.any fun a => is3D a.1) (rest.any fun a => is2D a.1)
      (rest.any fun a => isFract a.1) e1 e2 e3 hInv
    have hs' : (DoAtoms.step env molID use2d hasCell pAtom nhvy s a).flags
        = nextFlags use2d hasCell (s.using3, s.using2, s.usingFract) (is3D a.1) (is2D a.1)
            (isFract a.1) := hs
    rw [List.foldl_cons, ih _ (by
      have h1 := congrArg Prod.fst hs'
      have h2 := congrArg (fun u => u.2.1) hs'
      have h3 := congrArg (fun u => u.2.2) hs'
      simp only [AtomVars.flags] at h1 h2 h3
      rw [h1, h2, h3]
      exact k1), hs', k2]
    simp only [List.any_cons]
    rfl

/-- One pass of the atom loop on a record without `atomRefs4` returns, and the
dimension it leaves is the one that the attribute names of the record give from the
flags all unset. -/
theorem DoAtoms.record_dim (env : Env) (molID : String) (use2d : Bool) (cell : Option (List String))
    (rec : List Attr) (s : AtomVars) (h : ∀ a ∈ rec, a.1 ≠ "atomRefs4") :
    ∃ t r, DoAtoms.record env molID use2d cell rec s
      = Except.ok (t, r, restDim use2d cell.isSome (false, false, false)
          (rec.any fun a => is3D a.1) (rec.any fun a => is2D a.1) (rec.any fun a => isFract a.1)) := by
  obtain ⟨r, hr⟩ := DoAtoms.attrs_steps env molID use2d cell.isSome (s.mol.NewAtom.atoms.length - 1)
    (s.nAtoms + 1) rec
    { s with mol := s.mol.NewAtom, nAtoms := s.nAtoms + 1, x := Dbl.zero, y := Dbl.zero, z := Dbl.zero,
             using3 := false, using2 := false, usingFract := false } h
  have hd := steps_restDim env molID use2d cell.isSome (s.mol.NewAtom.atoms.length - 1)
    (s.nAtoms + 1) rec
    { s with mol := s.mol.NewAtom, nAtoms := s.nAtoms + 1, x := Dbl.zero, y := Dbl.zero, z := Dbl.zero,
             using3 := false, using2 := false, usingFract := false } (fun _ => rfl)
  have e : ∀ t : AtomVars, DoAtoms.dimOf t = flagsDim t.flags := fun _ => rfl
  rw [← e] at hd
  apply Exists.intro
  apply Exists.intro
  unfold DoAtoms.record
  simp only
  rw [hr]
  simp only
  rw [hd]
  rfl

/-- The atom loop on records without `atomRefs4` returns, and `dim` is left as the
attribute names of the last record give it. -/
theorem DoAtoms.records_dim (env : Env) (molID : String) (use2d : Bool) (cell : Option (List String))
    (recs : List (List Attr)) (last : List Attr) (s : AtomVars) (dim : Int)
    (h : ∀ r ∈ recs ++ [last], ∀ a ∈ r, a.1 ≠ "atomRefs4") :
    ∃ t rs, DoAtoms.records env molID use2d cell (recs ++ [last]) s dim
      = Except.ok (t, rs, restDim use2d cell.isSome (false, false, false)
          (last.any fun a => is3D a.1) (last.any fun a => is2D a.1)
          (last.any fun a => isFract a.1)) := by
  induction recs generalizing s dim with
  | nil =>
    obtain ⟨t, r, hr⟩ := DoAtoms.record_dim env molID use2d cell last s (h last (by simp))
    refine ⟨t, [r], ?_⟩
    simp only [List.nil_append, DoAtoms.records, hr]
  | cons rec recs ih =>
    obtain ⟨t, r, hr⟩ := DoAtoms.record_dim env molID use2d cell rec s (h rec (by simp))
    obtain ⟨u, rs, hu⟩ := ih t (restDim use2d cell.isSome (false, false, false)
        (rec.any fun a => is3D a.1) (rec.any fun a => is2D a.1) (rec.any fun a => isFract a.1))
      (fun x hx => h x (by
        rw [List.cons_append]
        exact List.mem_cons_of_mem _ hx))
    refine ⟨u, r :: rs, ?_⟩
    have hu' : DoAtoms.records env molID use2d cell (recs.append [last]) t
        (restDim use2d cell.isSome (false, false, false)
          (rec.any fun a => is3D a.1) (rec.any fun a => is2D a.1) (rec.any fun a => isFract a.1))
        = Except.ok (u, rs, restDim use2d cell.isSome (false, false, false)
          (last.any fun a => is3D a.1) (last.any fun a => is2D a.1)
          (last.any fun a => isFract a.1)) := hu
    simp only [List.cons_append, DoAtoms.records, hr, hu']

/-- The dimension that the attribute names of a record give in `DoAtoms` is the
dimension the record implies, unless the option `2` is set and the record has a 3-D
coordinate attribute and no 2-D one. -/
theorem restDim_eq_impliedDim (use2d hasCell : Bool) (rec : List Attr)
    (h : use2d = true → (rec.any fun a => is3D a.1) = true → (rec.any fun a => is2D a.1) = true) :
    restDim use2d hasCell (false, false, false) (rec.any fun a => is3D a.1)
        (rec.any fun a => is2D a.1) (rec.any fun a => isFract a.1)
      = impliedDim use2d hasCell rec := by
  unfold restDim impliedDim
  generalize (rec.any fun a => is3D a.1) = a3 at h ⊢
  generalize (rec.any fun a => is2D a.1) = a2 at h ⊢
  generalize (rec.any fun a => isFract a.1) = aF
  cases use2d <;> cases a3 <;> cases a2 <;> cases hasCell <;> cases aF <;>
    first | rfl | exact absurd (h rfl rfl) (by decide)

/-- C13, amended: for every AtomArray that ends with the record `last`, whose
records have no `atomRefs4` attribute and whose last record, when the option `2` is
set, has no 3-D coordinate attribute without a 2-D one, `DoAtoms` returns true and
the dimension it sets on the molecule is the dimension that the last record implies
(3 if it resolves to 3-D or fractional coordinates, 2 if to 2-D, 0 if it has no
coordinate field). -/
theorem DoAtoms_dimension_of_last_record (env : Env) (f : CMLFormat) (recs : List (List Attr))
    (last : List Attr) (hA : f.AtomArray = recs ++ [last])
    (h : ∀ r ∈ recs ++ [last], ∀ a ∈ r, a.1 ≠ "atomRefs4")
    (h2 : f._pxmlConv.in2 = true → (last.any fun a => is3D a.1) = true
      → (last.any fun a => is2D a.1) = true) :
    ∃ g, DoAtoms env f = Except.ok (true, g)
      ∧ g._pmol.Dimension = impliedDim f._pxmlConv.in2 f.unitCell.isSome last := by
  obtain ⟨t, rs, hr⟩ := DoAtoms.records_dim env (GetMolID env f) f._pxmlConv.in2
    (f.unitCell.map (·.vals)) recs last
    { mol := f._pmol, AtomMap := f.AtomMap, log := f.obErrorLog, nAtoms := f._pmol.NumAtoms } 0 h
  unfold DoAtoms
  rw [hA, hr]
  refine ⟨_, rfl, ?_⟩
  simp only [Option.isSome_map']
  exact restDim_eq_impliedDim _ _ _ h2

/-- C13, witness of the amended claim: with the option `2` set, an AtomArray of a
2-D record followed by a record with 3-D and 2-D attributes has no `atomRefs4`
attribute, and `DoAtoms` sets the dimension 2, which the last record implies; the
2-D coordinates of the last record are taken. -/
theorem DoAtoms_dimension_of_last_record_witness :
    (∀ r ∈ [[("x2", "1"), ("y2", "5")]] ++ [[("x3", "2"), ("y3", "3"), ("z3", "4"), ("x2", "7"), ("y2", "8")]],
        ∀ a ∈ r, a.1 ≠ "atomRefs4")
    ∧ impliedDim true false [("x3", "2"), ("y3", "3"), ("z3", "4"), ("x2", "7"), ("y2", "8")] = 2
    ∧ ∃ g, DoAtoms sampleEnv
          { _pxmlConv := { in2 := true },
            AtomArray := [[("x2", "1"), ("y2", "5")],
                          [("x3", "2"), ("y3", "3"), ("z3", "4"), ("x2", "7"), ("y2", "8")]] }
        = Except.ok (true, g)
      ∧ g._pmol.Dimension
        = impliedDim true false [("x3", "2"), ("y3", "3"), ("z3", "4"), ("x2", "7"), ("y2", "8")] :=
  ⟨by decide, by decide,
   DoAtoms_dimension_of_last_record sampleEnv
     { _pxmlConv := { in2 := true },
       AtomArray := [[("x2", "1"), ("y2", "5")],
                     [("x3", "2"), ("y3", "3"), ("z3", "4"), ("x2", "7"), ("y2", "8")]] }
     [[("x2", "1"), ("y2", "5")]] [("x3", "2"), ("y3", "3"), ("z3", "4"), ("x2", "7"), ("y2", "8")]
     rfl (by decide) (by decide)⟩

/-- C13, counterexample: for the AtomArray of a 3-D record followed by a record
without coordinate fields, the maximum of the implied dimensions is 3, and `DoAtoms`
sets the dimension 0, which the last record implies. With the two records in the
other order it sets 3. -/
theorem DoAtoms_dimension_not_maximum :
    maxDim false false [[("x3", "2"), ("y3", "3"), ("z3", "4")], [("elementType", "C")]] = 3
    ∧ coordsOf (DoAtoms sampleEnv
        { AtomArray := [[("x3", "2"), ("y3", "3"), ("z3", "4")], [("elementType", "C")]] })
      = some ([⟨Dbl.strtod "2", Dbl.strtod "3", Dbl.strtod "4"⟩, ⟨Dbl.zero, Dbl.zero, Dbl.zero⟩], 0)
    ∧ coordsOf (DoAtoms sampleEnv
        { AtomArray := [[("elementType", "C")], [("x3", "2"), ("y3", "3"), ("z3", "4")]] })
      = some ([⟨Dbl.zero, Dbl.zero, Dbl.zero⟩, ⟨Dbl.strtod "2", Dbl.strtod "3", Dbl.strtod "4"⟩], 3) := by
  decide!

end OpenBabel
namespace OpenBabel

/-! ## Atoms: fractional coordinates without a unit cell -/

theorem VecAt.modify {mol : OBMol} {k : Nat} {v : vector3} (h : VecAt mol k v) (i : Nat)
    (g : OBAtom → OBAtom) (hg : ∀ a, (g a).Vector = a.Vector) : VecAt (mol.modifyAtom i g) k v := by
  unfold VecAt OBMol.modifyAtom at *
  simp only [List.getElem?_modify]
  cases e : mol.atoms[k]? with
  | none => rw [e] at h; cases h
  | some a =>
    rw [e] at h
    simp only [Option.map_some', Option.some.injEq] at h
    simp only [e, Option.map_eq_map, Option.map_some', Option.some.injEq]
    split_ifs
    · rw [hg]; exact h
    · exact h

theorem VecAt.modify_ne {mol : OBMol} {k : Nat} {v : vector3} (h : VecAt mol k v) (i : Nat)
    (g : OBAtom → OBAtom) (hik : i ≠ k) : VecAt (mol.modifyAtom i g) k v := by
  unfold VecAt OBMol.modifyAtom at *
  simp only [List.getElem?_modify]
  cases e : mol.atoms[k]? with
  | none => rw [e] at h; cases h
  | some a =>
    rw [e] at h
    simp only [Option.map_some', Option.some.injEq] at h
    simp only [e, Option.map_eq_map, Option.map_some', Option.some.injEq, if_neg hik]
    exact h

theorem VecAt.lt {mol : OBMol} {k : Nat} {v : vector3} (h : VecAt mol k v) : k < mol.atoms.length := by
  unfold VecAt at h
  by_contra hk
  rw [List.getElem?_eq_none (Nat.le_of_not_lt hk)] at h
  cases h

theorem VecAt.newAtom {mol : OBMol} {k : Nat} {v : vector3} (h : VecAt mol k v) :
    VecAt mol.NewAtom k v := by
  have hk := h.lt
  unfold VecAt OBMol.NewAtom at *
  simp only
  rw [List.getElem?_append_left hk]
  exact h

theorem VecAt.addH {k : Nat} {v : vector3} (nhvy : Int) (n : Nat) (s : AtomVars)
    (h : VecAt s.mol k v) : VecAt (DoAtoms.addH nhvy n s).mol k v := by
  induction n generalizing s with
  | zero => exact h
  | succ m ih =>
    rw [DoAtoms.addH]
    apply ih
    exact (h.newAtom.modify _ _ (fun _ => rfl))

theorem addH_length (nhvy : Int) (n : Nat) (s : AtomVars) :
    (DoAtoms.addH nhvy n s).mol.atoms.length = s.mol.atoms.length + n := by
  induction n generalizing s with
  | zero => rfl
  | succ m ih =>
    rw [DoAtoms.addH, ih]
    simp only [OBMol.AddBond, OBMol.modifyAtom, OBMol.NewAtom, List.length_modify, List.length_append,
      List.length_singleton]
    omega

theorem chooseCoords_mol (use2d hasCell : Bool) (n : String) (s : AtomVars) :
    (DoAtoms.chooseCoords use2d hasCell n s).mol = s.mol := by
  unfold DoAtoms.chooseCoords
  split_ifs <;> rfl

theorem readCoords_mol (n v : String) (s : AtomVars) : (DoAtoms.readCoords n v s).mol = s.mol := by
  unfold DoAtoms.readCoords
  split_ifs
  · rfl
  · rfl
  · rfl
  · split <;> rfl
  · split <;> rfl
  · rfl

theorem setId_mol (molID : String) (nhvy : Int) (value : String) (s : AtomVars) :
    (DoAtoms.setId molID nhvy value s).mol = s.mol := by
  unfold DoAtoms.setId
  simp only
  split_ifs <;> rfl

theorem VecAt.other {k : Nat} {v : vector3} (pAtom : Nat) (n w : String) (s : AtomVars)
    (h : VecAt s.mol k v) : VecAt (DoAtoms.other pAtom n w s).mol k v := by
  unfold DoAtoms.other
  split_ifs
  · exact VecAt.addH _ _ _ h
  · exact h.modify _ _ (fun _ => rfl)
  · exact h.modify _ _ (fun _ => rfl)
  · exact h.modify _ _ (fun _ => rfl)
  · exact h.modify _ _ (fun _ => rfl)
  · exact h

theorem VecAt.setElement {k : Nat} {v : vector3} (env : Env) (pAtom : Nat) (w : String) (s : AtomVars)
    (h : VecAt s.mol k v) : VecAt (DoAtoms.setElement env pAtom w s).mol k v := by
  unfold DoAtoms.setElement
  simp only
  split_ifs
  · refine VecAt.modify (VecAt.modify h _ _ ?_) _ _ ?_ <;> intro _ <;> rfl
  · exact h.modify _ _ (fun _ => rfl)

theorem VecAt.step {k : Nat} {v : vector3} (env : Env) (molID : String) (use2d hasCell : Bool)
    (pAtom : Nat) (nhvy : Int) (s : AtomVars) (a : Attr) (h : VecAt s.mol k v) :
    VecAt (DoAtoms.step env molID use2d hasCell pAtom nhvy s a).mol k v := by
  unfold DoAtoms.step
  split_ifs
  · rw [setId_mol]; exact h
  · exact VecAt.setElement _ _ _ _ h
  · apply VecAt.other
    rw [readCoords_mol, chooseCoords_mol]
    exact h

theorem VecAt.steps {k : Nat} {v : vector3} (env : Env) (molID : String) (use2d hasCell : Bool)
    (pAtom : Nat) (nhvy : Int) (l : List Attr) (s : AtomVars) (h : VecAt s.mol k v) :
    VecAt (l.foldl (DoAtoms.step env molID use2d hasCell pAtom nhvy) s).mol k v := by
  induction l generalizing s with
  | nil => exact h
  | cons a rest ih => exact ih _ (VecAt.step _ _ _ _ _ _ _ _ h)

theorem step_length (env : Env) (molID : String) (use2d hasCell : Bool) (pAtom : Nat) (nhvy : Int)
    (s : AtomVars) (a : Attr) :
    (DoAtoms.step env molID use2d hasCell pAtom nhvy s a).mol.atoms.length
      = s.mol.atoms.length + (if a.1 == "hydrogenCount" then (atoi a.2).toNat else 0) := by
  unfold DoAtoms.step
  split_ifs with h1 h2 h3 h4 h5
  · simp only [Bool.or_eq_true, beq_iff_eq] at h1 h2
    rw [h2] at h1
    exact absurd h1 (by decide)
  · rw [setId_mol]; rfl
  · simp only [beq_iff_eq] at h3 h4
    rw [h4] at h3
    exact absurd h3 (by decide)
  · unfold DoAtoms.setElement
    simp only
    split_ifs <;> simp [OBMol.modifyAtom]
  · unfold DoAtoms.other
    rw [if_pos h5, addH_length, readCoords_mol, chooseCoords_mol]
  · unfold DoAtoms.other
    rw [if_neg h5]
    split_ifs <;> simp [OBMol.modifyAtom, readCoords_mol, chooseCoords_mol]

theorem steps_length (env : Env) (molID : String) (use2d hasCell : Bool) (pAtom : Nat) (nhvy : Int)
    (l : List Attr) (s : AtomVars) :
    (l.foldl (DoAtoms.step env molID use2d hasCell pAtom nhvy) s).mol.atoms.length + 1
      = s.mol.atoms.length + atomsCreated l := by
  induction l generalizing s with
  | nil => simp [atomsCreated]
  | cons a rest ih =>
    rw [List.foldl_cons, ih, step_length]
    simp only [atomsCreated, List.map_cons, List.sum_cons]
    omega

theorem chooseCoords_unset (use2d : Bool) (n : String) (s : AtomVars) (h : s.Unset)
    (h3 : is3D n = false) (h2 : is2D n = false) : (DoAtoms.chooseCoords use2d false n s).Unset := by
  unfold DoAtoms.chooseCoords
  unfold is3D at h3
  unfold is2D at h2
  rw [h3, h2]
  exact h

theorem readCoords_unset (n v : String) (s : AtomVars) (h : s.Unset) :
    (DoAtoms.readCoords n v s).Unset := by
  obtain ⟨a, b, c, _⟩ := h
  unfold DoAtoms.readCoords
  rw [a, b, c]
  exact ⟨a, b, c, ‹_›⟩

theorem addH_unset (nhvy : Int) (n : Nat) (s : AtomVars) (h : s.Unset) :
    (DoAtoms.addH nhvy n s).Unset := by
  induction n generalizing s with
  | zero => exact h
  | succ m ih =>
    rw [DoAtoms.addH]
    exact ih _ h

theorem other_unset (pAtom : Nat) (n v : String) (s : AtomVars) (h : s.Unset) :
    (DoAtoms.other pAtom n v s).Unset := by
  unfold DoAtoms.other
  split_ifs
  · exact addH_unset _ _ _ h
  · exact h
  · exact h
  · exact h
  · exact h
  · exact h

theorem setId_unset (molID : String) (nhvy : Int) (value : String) (s : AtomVars) (h : s.Unset) :
    (DoAtoms.setId molID nhvy value s).Unset := by
  unfold DoAtoms.setId
  simp only
  split_ifs <;> exact h

theorem steps_unset (env : Env) (molID : String) (use2d : Bool) (pAtom : Nat) (nhvy : Int)
    (l : List Attr) (s : AtomVars) (h : s.Unset)
    (hl : ∀ a ∈ l, is3D a.1 = false ∧ is2D a.1 = false) :
    (l.foldl (DoAtoms.step env molID use2d false pAtom nhvy) s).Unset := by
  induction l generalizing s with
  | nil => exact h
  | cons a rest ih =>
    apply ih _ _ (fun b hb => hl b (List.mem_cons_of_mem _ hb))
    unfold DoAtoms.step
    split_ifs
    · exact setId_unset _ _ _ _ h
    · exact h
    · exact other_unset _ _ _ _ (readCoords_unset _ _ _
        (chooseCoords_unset _ _ _ h (hl a (List.mem_cons_self _ _)).1 (hl a (List.mem_cons_self _ _)).2))

theorem VecAt.modify_set (mol : OBMol) (i : Nat) (v : vector3) (g : OBAtom → OBAtom)
    (hi : i < mol.atoms.length) (hg : ∀ a, (g a).Vector = v) : VecAt (mol.modifyAtom i g) i v := by
  unfold VecAt OBMol.modifyAtom
  simp only [List.getElem?_modify, List.getElem?_eq_getElem hi, Option.map_eq_map, Option.map_some',
    if_true, hg]

theorem coords_unset (cell : List String) (s : AtomVars) (h : s.Unset) :
    DoAtoms.coords cell s = ⟨Dbl.zero, Dbl.zero, Dbl.zero⟩ := by
  obtain ⟨a, b, c, x, y, z⟩ := h
  unfold DoAtoms.coords
  simp only [a, b, c, x, y, z]
  rfl

theorem DoAtoms.attrs_spec (env : Env) (molID : String) (use2d hasCell : Bool) (p : Nat) (n : Int)
    (rec : List Attr) (s0 : AtomVars) (L : Nat) (h0 : s0.mol.atoms.length = L + 1)
    (h : ∀ a ∈ rec, a.1 ≠ "atomRefs4") :
    ∃ s1 r, DoAtoms.attrs env molID use2d hasCell p n rec s0 = Except.ok (s1, r)
      ∧ s1.mol.atoms.length = L + atomsCreated rec
      ∧ (∀ k v, VecAt s0.mol k v → VecAt s1.mol k v)
      ∧ (hasCell = false → s0.Unset → (∀ a ∈ rec, is3D a.1 = false ∧ is2D a.1 = false) →
          s1.Unset) := by
  obtain ⟨r, hr⟩ := DoAtoms.attrs_steps env molID use2d hasCell p n rec s0 h
  have hl := steps_length env molID use2d hasCell p n rec s0
  refine ⟨_, r, hr, by omega, fun k v hk => VecAt.steps _ _ _ _ _ _ _ _ hk, ?_⟩
  intro hc hu hrec
  subst hc
  exact steps_unset env molID use2d p n rec s0 hu hrec

/-- One pass of the atom loop on a record without `atomRefs4`: it returns, creates
the atoms of the record after the atoms there are, and keeps the coordinates of
these; without a unit cell, a record without 3-D and 2-D attributes gets (0, 0, 0). -/
theorem DoAtoms.record_spec (env : Env) (molID : String) (use2d : Bool) (cell : Option (List String))
    (rec : List Attr) (s : AtomVars) (h : ∀ a ∈ rec, a.1 ≠ "atomRefs4") :
    ∃ t r d, DoAtoms.record env molID use2d cell rec s = Except.ok (t, r, d)
      ∧ t.mol.atoms.length = s.mol.atoms.length + atomsCreated rec
      ∧ (∀ k v, VecAt s.mol k v → VecAt t.mol k v)
      ∧ (cell = none → (∀ a ∈ rec, is3D a.1 = false ∧ is2D a.1 = false) →
          VecAt t.mol s.mol.atoms.length ⟨Dbl.zero, Dbl.zero, Dbl.zero⟩) := by
  have hp : s.mol.NewAtom.atoms.length - 1 = s.mol.atoms.length := by
    simp [OBMol.NewAtom]
  obtain ⟨s1, r, hr, hl, hv, hu⟩ := DoAtoms.attrs_spec env molID use2d cell.isSome
    (s.mol.NewAtom.atoms.length - 1) (s.nAtoms + 1) rec
    { s with mol := s.mol.NewAtom, nAtoms := s.nAtoms + 1, x := Dbl.zero, y := Dbl.zero, z := Dbl.zero,
             using3 := false, using2 := false, usingFract := false }
    s.mol.atoms.length (by simp [OBMol.NewAtom]) h
  refine ⟨{ s1 with mol := s1.mol.modifyAtom (s.mol.NewAtom.atoms.length - 1) fun a =>
      { a with Vector := DoAtoms.coords (cell.getD []) s1 } }, r, DoAtoms.dimOf s1, ?_, ?_, ?_, ?_⟩
  · unfold DoAtoms.record
    simp only
    rw [hr]
  · simp only [OBMol.modifyAtom, List.length_modify]
    exact hl
  · intro k v hk
    apply VecAt.modify_ne _ _ _ (by rw [hp]; exact Nat.ne_of_gt hk.lt)
    exact hv k v hk.newAtom
  · intro hc hrec
    have hu' := hu (by rw [hc]; rfl) ⟨rfl, rfl, rfl, rfl, rfl, rfl⟩ hrec
    rw [hp]
    apply VecAt.modify_set
    · rw [hl]
      unfold atomsCreated
      omega
    · intro a
      exact coords_unset _ _ hu'

/-- The atom loop on records without `atomRefs4` returns, creates the atoms of the
records after the atoms there are, and keeps the coordinates of these. -/
theorem DoAtoms.records_spec (env : Env) (molID : String) (use2d : Bool) (cell : Option (List String))
    (recs : List (List Attr)) (s : AtomVars) (dim : Int)
    (h : ∀ r ∈ recs, ∀ a ∈ r, a.1 ≠ "atomRefs4") :
    ∃ t rs d, DoAtoms.records env molID use2d cell recs s dim = Except.ok (t, rs, d)
      ∧ t.mol.atoms.length = s.mol.atoms.length + (recs.map atomsCreated).sum
      ∧ (∀ k v, VecAt s.mol k v → VecAt t.mol k v) := by
  induction recs generalizing s dim with
  | nil => exact ⟨s, [], dim, rfl, by simp, fun _ _ h => h⟩
  | cons rec recs ih =>
    obtain ⟨t, r, d, hr, hl, hv, _⟩ := DoAtoms.record_spec env molID use2d cell rec s
      (h rec (List.mem_cons_self _ _))
    obtain ⟨u, rs, d2, hu, hl2, hv2⟩ := ih t d (fun x hx => h x (List.mem_cons_of_mem _ hx))
    refine ⟨u, r :: rs, d2, ?_, ?_, fun k v hk => hv2 k v (hv k v hk)⟩
    · simp only [DoAtoms.records, hr, hu]
    · rw [hl2, hl]
      simp only [List.map_cons, List.sum_cons]
      omega

/-- Without a unit cell, the atom loop gives (0, 0, 0) to the atom of a record
without 3-D and 2-D attributes, wherever the record stands in the array. -/
theorem DoAtoms.records_fract_zero (env : Env) (molID : String) (use2d : Bool)
    (pre : List (List Attr)) (rec : List Attr) (post : List (List Attr)) (s : AtomVars) (dim : Int)
    (h : ∀ r ∈ pre ++ rec :: post, ∀ a ∈ r, a.1 ≠ "atomRefs4")
    (hrec : ∀ a ∈ rec, is3D a.1 = false ∧ is2D a.1 = false) :
    ∃ t rs d, DoAtoms.records env molID use2d none (pre ++ rec :: post) s dim = Except.ok (t, rs, d)
      ∧ VecAt t.mol (s.mol.atoms.length + (pre.map atomsCreated).sum) ⟨Dbl.zero, Dbl.zero, Dbl.zero⟩ := by
  induction pre generalizing s dim with
  | nil =>
    obtain ⟨t, r, d, hr, _, _, hz⟩ := DoAtoms.record_spec env molID use2d none rec s
      (h rec (by simp))
    obtain ⟨u, rs, d2, hu, _, hv2⟩ := DoAtoms.records_spec env molID use2d none post t d
      (fun x hx => h x (by simp [hx]))
    refine ⟨u, r :: rs, d2, ?_, ?_⟩
    · simp only [List.nil_append, DoAtoms.records, hr, hu]
    · simpa using hv2 _ _ (hz rfl hrec)
  | cons p pre ih =>
    obtain ⟨t, r, d, hr, hl, _, _⟩ := DoAtoms.record_spec env molID use2d none p s
      (h p (by simp))
    obtain ⟨u, rs, d2, hu, hz⟩ := ih t d (fun x hx => h x (by
      rw [List.cons_append]
      exact List.mem_cons_of_mem _ hx))
    refine ⟨u, r :: rs, d2, ?_, ?_⟩
    · have hu' : DoAtoms.records env molID use2d none (pre.append (rec :: post)) t d
          = Except.ok (u, rs, d2) := hu
      simp only [List.cons_append, DoAtoms.records, hr, hu']
    · rw [hl] at hz
      simp only [List.map_cons, List.sum_cons]
      rw [← Nat.add_assoc]
      exact hz

/-- Without a unit cell, `DoAtoms` on records without `atomRefs4` returns true and
gives (0, 0, 0) to the atom of a record that has no 3-D and no 2-D coordinate
attribute. -/
theorem DoAtoms.fract_zero_of_no_cell (env : Env) (f : CMLFormat)
    (pre : List (List Attr)) (rec : List Attr) (post : List (List Attr))
    (hC : f.pUnitCell = none) (hA : f.AtomArray = pre ++ rec :: post)
    (h : ∀ r ∈ pre ++ rec :: post, ∀ a ∈ r, a.1 ≠ "atomRefs4")
    (hrec : ∀ a ∈ rec, is3D a.1 = false ∧ is2D a.1 = false) :
    ∃ g, DoAtoms env f = Except.ok (true, g)
      ∧ VecAt g._pmol (f._pmol.atoms.length + (pre.map atomsCreated).sum)
          ⟨Dbl.zero, Dbl.zero, Dbl.zero⟩ := by
  have hc : f.unitCell = none := by
    unfold CMLFormat.unitCell
    rw [hC]
  obtain ⟨t, rs, d, hr, hz⟩ := DoAtoms.records_fract_zero env (GetMolID env f) f._pxmlConv.in2
    pre rec post
    { mol := f._pmol, AtomMap := f.AtomMap, log := f.obErrorLog, nAtoms := f._pmol.NumAtoms } 0 h hrec
  unfold DoAtoms
  rw [hA, hc]
  simp only [Option.map_none']
  rw [hr]
  refine ⟨_, rfl, ?_⟩
  simp only
  split_ifs
  · exact hz
  · exact hz

/-- C14, counterexample: in the document the atom with fractional coordinates stands
before the `crystal` element, so before all six scalars. `DoAtoms` runs when the
molecule is closed, when the unit cell exists, and the atom gets the orthogonalised
coordinates and the dimension 3, not (0, 0, 0). With five scalars in the molecule
no unit cell is constructed and the atom gets (0, 0, 0). -/
theorem ReadXML_fractional_before_scalars_honoured :
    (readDocument sampleEnv {} (fractionalBeforeCrystal 6)).map
        (fun m => (m.atoms.map (·.Vector), m.Dimension))
      = some ([⟨Dbl.ortho 0 ["10", "10", "10", "10", "10", "10"]
                  (Dbl.strtod "0.5") (Dbl.strtod "0.5") (Dbl.strtod "0.5"),
                Dbl.ortho 1 ["10", "10", "10", "10", "10", "10"]
                  (Dbl.strtod "0.5") (Dbl.strtod "0.5") (Dbl.strtod "0.5"),
                Dbl.ortho 2 ["10", "10", "10", "10", "10", "10"]
                  (Dbl.strtod "0.5") (Dbl.strtod "0.5") (Dbl.strtod "0.5")⟩], 3)
    ∧ (readDocument sampleEnv {} (fractionalBeforeCrystal 5)).map
        (fun m => (m.atoms.map (·.Vector), m.Dimension))
      = some ([⟨Dbl.zero, Dbl.zero, Dbl.zero⟩], 0) := by
  decide!

end OpenBabel
namespace OpenBabel

/-! ## The formula fallback -/

theorem modify_last {α : Type} (f : α → α) (l : List α) (x : α) :
    (l ++ [x]).modify f ((l ++ [x]).length - 1) = l ++ [f x] := by
  induction l with
  | nil => rfl
  | cons a l ih =>
    simp only [List.cons_append, List.length_cons, List.length_append, List.length_singleton,
      Nat.add_sub_cancel] at ih ⊢
    exact congrArg (a :: ·) ih

theorem modifyAtom_last (m : OBMol) (l : List OBAtom) (x : OBAtom) (g : OBAtom → OBAtom)
    (h : m.atoms = l ++ [x]) : (m.modifyAtom (m.atoms.length - 1) g).atoms = l ++ [g x] := by
  unfold OBMol.modifyAtom
  simp only
  rw [h]
  exact modify_last _ _ _

theorem ParseFormula.addAtoms_spec (atno iso : Int) (n : Nat) (mol : OBMol) :
    (ParseFormula.addAtoms atno iso n mol).atoms.map OBAtom.sig
        = mol.atoms.map OBAtom.sig ++ List.replicate n (atno, true)
      ∧ (ParseFormula.addAtoms atno iso n mol).bonds = mol.bonds := by
  induction n generalizing mol with
  | zero => simp [ParseFormula.addAtoms]
  | succ k ih =>
    rw [ParseFormula.addAtoms]
    have e1 := modifyAtom_last mol.NewAtom mol.atoms {}
      (fun a => { a with NoH := true, AtomicNum := atno }) rfl
    have e2 := modifyAtom_last (mol.NewAtom.modifyAtom (mol.NewAtom.atoms.length - 1) fun a =>
        { a with NoH := true, AtomicNum := atno }) mol.atoms _
      (fun a => { a with Isotope := iso }) e1
    constructor
    · rw [(ih _).1]
      split_ifs
      · rw [e2]
        simp [OBAtom.sig, List.replicate_succ]
      · rw [e1]
        simp [OBAtom.sig, List.replicate_succ]
    · rw [(ih _).2]
      split_ifs <;> rfl

theorem ParseFormula.items_spec (env : Env) (pairs : List (String × String)) (mol : OBMol)
    (hV : ∀ p ∈ pairs, 0 < (env.GetAtomicNum p.1).1 ∧ 0 < atoi p.2) :
    (ParseFormula.items env (formulaTokens pairs) mol).1 = true
      ∧ (ParseFormula.items env (formulaTokens pairs) mol).2.atoms.map OBAtom.sig
          = mol.atoms.map OBAtom.sig ++ (formulaAtoms env pairs).map (fun z => (z, true))
      ∧ (ParseFormula.items env (formulaTokens pairs) mol).2.bonds = mol.bonds := by
  induction pairs generalizing mol with
  | nil => simp [formulaTokens, formulaAtoms, ParseFormula.items]
  | cons p pairs ih =>
    obtain ⟨h1, h2⟩ := hV p (List.mem_cons_self _ _)
    have e : formulaTokens (p :: pairs) = p.1 :: p.2 :: formulaTokens pairs := by
      simp [formulaTokens]
    rw [e, ParseFormula.items]
    rw [if_neg (by omega)]
    obtain ⟨i1, i2, i3⟩ := ih (ParseFormula.addAtoms (env.GetAtomicNum p.1).1 (env.GetAtomicNum p.1).2
      (atoi p.2).toNat mol) (fun q hq => hV q (List.mem_cons_of_mem _ hq))
    obtain ⟨a1, a2⟩ := ParseFormula.addAtoms_spec (env.GetAtomicNum p.1).1 (env.GetAtomicNum p.1).2
      (atoi p.2).toNat mol
    refine ⟨i1, ?_, ?_⟩
    · rw [i2, a1]
      simp [formulaAtoms, List.map_replicate]
    · rw [i3, a2]

theorem tokenize_data_ne_nil (value : String) (h : tokenize value ≠ []) : value.data ≠ [] := by
  intro hd
  apply h
  unfold tokenize
  rw [hd]
  rfl

theorem formulaTokens_ne_nil (pairs : List (String × String)) (h : pairs ≠ []) :
    formulaTokens pairs ≠ [] := by
  cases pairs with
  | nil => exact absurd rfl h
  | cons p ps => simp [formulaTokens]

/-- The end of a molecule after the three resolution passes, for a molecule without
atoms and bonds and a formula of valid pairs: the atoms of the pairs, all marked as
bearing no hydrogen, and no bond. -/
theorem EndElement.finishMolecule_formula (env : Env) (f : CMLFormat) (pairs : List (String × String))
    (hne : pairs ≠ []) (hT : tokenize f.RawFormula = formulaTokens pairs)
    (hV : ∀ p ∈ pairs, 0 < (env.GetAtomicNum p.1).1 ∧ 0 < atoi p.2)
    (ha : f._pmol.atoms = []) (hb : f._pmol.bonds = [])
    (hS : ∀ m, (env.AssignSpinMultiplicity m).atoms.map OBAtom.sig = m.atoms.map OBAtom.sig
      ∧ (env.AssignSpinMultiplicity m).bonds = m.bonds) :
    (EndElement.finishMolecule env f).2._pmol.atoms.map OBAtom.sig
        = (formulaAtoms env pairs).map (fun z => (z, true))
      ∧ (EndElement.finishMolecule env f).2._pmol.bonds = [] := by
  have hd : f.RawFormula.data ≠ [] :=
    tokenize_data_ne_nil _ (by rw [hT]; exact formulaTokens_ne_nil _ hne)
  have c : f._pmol.NumAtoms = 0 ∧ (!f.RawFormula.data.isEmpty) = true := by
    refine ⟨by simp [OBMol.NumAtoms, ha], ?_⟩
    cases e : f.RawFormula.data with
    | nil => exact absurd e hd
    | cons _ _ => rfl
  obtain ⟨i1, i2, i3⟩ := ParseFormula.items_spec env pairs f._pmol hV
  have p1 : (ParseFormula env f.RawFormula f._pmol).1 = true := by
    unfold ParseFormula
    rw [hT]
    exact i1
  have p2 : (ParseFormula env f.RawFormula f._pmol).2.atoms.map OBAtom.sig
      = (formulaAtoms env pairs).map (fun z => (z, true)) := by
    unfold ParseFormula
    rw [hT, i2, ha]
    rfl
  have p3 : (ParseFormula env f.RawFormula f._pmol).2.bonds = [] := by
    unfold ParseFormula
    rw [hT, i3, hb]
  unfold EndElement.finishMolecule
  simp only [if_pos c, p1, Bool.not_true, Bool.false_eq_true, if_false, OBMol.NumBonds, p3,
    List.length_nil, Nat.cast_zero, if_true]
  refine ⟨?_, ?_⟩
  · rw [(hS _).1]
    simp only [List.map_map]
    have : ∀ l : List OBAtom, (∀ q ∈ l.map OBAtom.sig, q.2 = true) →
        List.map (OBAtom.sig ∘ fun a => { a with NoH := true }) l = l.map OBAtom.sig := by
      intro l hl
      apply List.map_congr_left
      intro a ha
      have := hl a.sig (List.mem_map_of_mem _ ha)
      simp only [OBAtom.sig, Function.comp] at this ⊢
      rw [this]
    rw [this _ (by
      rw [p2]
      intro q hq
      obtain ⟨z, _, rfl⟩ := List.mem_map.1 hq
      rfl), p2]
  · rw [(hS _).2]

/-- C15: closing a molecule that has no atom records (and no bond records or
molecule-wide data, and no atoms or bonds yet) and whose concise formula is made
of k >= 1 (symbol, count) pairs with recognised symbols and positive counts gives a
graph whose atoms are, pair after pair in the order of the formula, as many atoms of
the pair's atomic number as its count says, each marked as bearing no implicit
hydrogen; the number of atoms is the sum of the counts and there is no bond. The
spin assignment of the library is taken to keep atomic numbers, marks and bonds. -/
theorem EndElement_molecule_formula_expands (env : Env) (f : CMLFormat)
    (pairs : List (String × String))
    (hne : pairs ≠ []) (hT : tokenize f.RawFormula = formulaTokens pairs)
    (hV : ∀ p ∈ pairs, 0 < (env.GetAtomicNum p.1).1 ∧ 0 < atoi p.2)
    (hA : f.AtomArray = []) (hB : f.BondArray = []) (hW : f.molWideData = [])
    (ha : f._pmol.atoms = []) (hb : f._pmol.bonds = [])
    (hS : ∀ m, (env.AssignSpinMultiplicity m).atoms.map OBAtom.sig = m.atoms.map OBAtom.sig
      ∧ (env.AssignSpinMultiplicity m).bonds = m.bonds) :
    ∃ b g, EndElement env f "molecule" = Except.ok (b, g)
      ∧ g._pmol.atoms.map OBAtom.sig = (formulaAtoms env pairs).map (fun z => (z, true))
      ∧ g._pmol.NumAtoms = (pairs.map fun p => atoi p.2).sum
      ∧ g._pmol.bonds = [] := by
  have h1 : DoAtoms env f = Except.ok (true,
      { f with _pmol := { f._pmol with Dimension := 0 }, AtomArray := [] }) := by
    unfold DoAtoms
    rw [hA]
    rfl
  have h2 : DoBonds env { f with _pmol := { f._pmol with Dimension := 0 }, AtomArray := [] }
      = (true, { f with _pmol := { f._pmol with Dimension := 0 }, AtomArray := [] }) := by
    unfold DoBonds
    simp only [hB]
    rfl
  have h3 : DoMolWideData { f with _pmol := { f._pmol with Dimension := 0 }, AtomArray := [] }
      = Except.ok (true, { f with _pmol := { f._pmol with Dimension := 0 }, AtomArray := [],
                                  BondArray := [], molWideData := [] }) := by
    unfold DoMolWideData
    simp only [hW]
    rfl
  obtain ⟨k1, k2⟩ := EndElement.finishMolecule_formula env
    { f with _pmol := { f._pmol with Dimension := 0 }, AtomArray := [], BondArray := [],
             molWideData := [] } pairs hne hT hV ha hb hS
  refine ⟨(EndElement.finishMolecule env
      { f with _pmol := { f._pmol with Dimension := 0 }, AtomArray := [], BondArray := [],
               molWideData := [] }).1, _, ?_, k1, ?_, k2⟩
  · unfold EndElement
    simp only [h1, h2, h3]
    rfl
  · have hlen := congrArg List.length k1
    simp only [List.length_map] at hlen
    unfold OBMol.NumAtoms
    rw [hlen]
    clear k1 k2 hlen hT hne
    induction pairs with
    | nil => rfl
    | cons p ps ih =>
      have hp := (hV p (List.mem_cons_self _ _)).2
      have := ih (fun q hq => hV q (List.mem_cons_of_mem _ hq))
      simp only [formulaAtoms, List.flatMap_cons, List.length_append, List.length_replicate,
        List.map_cons, List.sum_cons, Nat.cast_add] at this ⊢
      rw [this]
      omega

/-- C15, witness: the formula "C 2 H 6" with the sample element table gives 2
carbons then 6 hydrogens. -/
theorem EndElement_molecule_formula_expands_witness :
    formulaAtoms sampleEnv [("C", "2"), ("H", "6")] = [6, 6, 1, 1, 1, 1, 1, 1]
    ∧ ∃ b g, EndElement sampleEnv { RawFormula := "C 2 H 6" } "molecule" = Except.ok (b, g)
      ∧ g._pmol.atoms.map OBAtom.sig
          = (formulaAtoms sampleEnv [("C", "2"), ("H", "6")]).map (fun z => (z, true))
      ∧ g._pmol.NumAtoms = ([("C", "2"), ("H", "6")].map fun p => atoi p.2).sum
      ∧ g._pmol.bonds = [] :=
  ⟨by decide,
   EndElement_molecule_formula_expands sampleEnv { RawFormula := "C 2 H 6" } [("C", "2"), ("H", "6")]
    (by decide) (by decide) (by decide) rfl rfl rfl rfl rfl (fun _ => ⟨rfl, rfl⟩)⟩

end OpenBabel
namespace OpenBabel

/-! ## Failure of the formula fallback -/

theorem ParseFormula.items_append (env : Env) (pairs : List (String × String)) (rest : List String)
    (mol : OBMol) (hV : ∀ p ∈ pairs, 0 < (env.GetAtomicNum p.1).1 ∧ 0 < atoi p.2) :
    ParseFormula.items env (formulaTokens pairs ++ rest) mol
      = ParseFormula.items env rest (ParseFormula.items env (formulaTokens pairs) mol).2 := by
  induction pairs generalizing mol with
  | nil => rfl
  | cons p pairs ih =>
    obtain ⟨h1, h2⟩ := hV p (List.mem_cons_self _ _)
    have e : formulaTokens (p :: pairs) = p.1 :: p.2 :: formulaTokens pairs := by
      simp [formulaTokens]
    rw [e]
    simp only [List.cons_append]
    rw [ParseFormula.items, ParseFormula.items, if_neg (by omega), if_neg (by omega)]
    exact ih _ (fun q hq => hV q (List.mem_cons_of_mem _ hq))

theorem ParseFormula.items_bad (env : Env) (bad : List String) (mol : OBMol) (h : BadTail env bad) :
    ParseFormula.items env bad mol = (false, mol) := by
  rcases h with ⟨x, rfl⟩ | ⟨s, n, rest, rfl, h⟩
  · rfl
  · rw [ParseFormula.items, if_pos h]

/-- Every failure of the loop of `ParseFormula` is at a symbol without a count or
at an invalid pair that follows valid pairs. -/
theorem ParseFormula.items_fails (env : Env) (tokens : List String) (mol : OBMol)
    (h : (ParseFormula.items env tokens mol).1 = false) :
    ∃ pairs bad, tokens = formulaTokens pairs ++ bad
      ∧ (∀ p ∈ pairs, 0 < (env.GetAtomicNum p.1).1 ∧ 0 < atoi p.2) ∧ BadTail env bad := by
  revert mol h
  suffices H : ∀ k (tokens : List String), tokens.length ≤ k → ∀ mol,
      (ParseFormula.items env tokens mol).1 = false →
      ∃ pairs bad, tokens = formulaTokens pairs ++ bad
        ∧ (∀ p ∈ pairs, 0 < (env.GetAtomicNum p.1).1 ∧ 0 < atoi p.2) ∧ BadTail env bad from
    H tokens.length tokens (Nat.le_refl _)
  intro k
  induction k with
  | zero =>
    intro tokens hk mol h
    have : tokens = [] := List.length_eq_zero.1 (Nat.le_zero.1 hk)
    subst this
    exact absurd h (by simp [ParseFormula.items])
  | succ k ih =>
    intro tokens hk mol h
    match tokens, hk, h with
    | [], _, h => exact absurd h (by simp [ParseFormula.items])
    | [x], _, _ => exact ⟨[], [x], rfl, by simp, Or.inl ⟨x, rfl⟩⟩
    | s :: n :: rest, hk, h =>
      by_cases c : (env.GetAtomicNum s).1 ≤ 0 ∨ atoi n ≤ 0
      · exact ⟨[], s :: n :: rest, rfl, by simp, Or.inr ⟨s, n, rest, rfl, c⟩⟩
      · rw [ParseFormula.items, if_neg c] at h
        obtain ⟨pairs, bad, e, hV, hb⟩ := ih rest (by simp at hk; omega) _ h
        refine ⟨(s, n) :: pairs, bad, ?_, ?_, hb⟩
        · rw [e]
          simp [formulaTokens]
        · intro p hp
          rcases List.mem_cons.1 hp with rfl | hp
          · simp only
            omega
          · exact hV p hp

/-- C16, amended: whenever ParseFormula fails on a formula string (a symbol without
a count, an unrecognised symbol, or a count that is not a positive integer, after
leading valid pairs), it returns false and the molecule is left with the atoms of
the valid pairs that precede the failure, with no bond added: zero atoms are added
only when the first pair fails. -/
theorem ParseFormula_failure_keeps_leading_pairs (env : Env) (formula : String) (pmol : OBMol)
    (pairs : List (String × String)) (bad : List String)
    (hT : tokenize formula = formulaTokens pairs ++ bad)
    (hV : ∀ p ∈ pairs, 0 < (env.GetAtomicNum p.1).1 ∧ 0 < atoi p.2)
    (hB : BadTail env bad) :
    (ParseFormula env formula pmol).1 = false
      ∧ (ParseFormula env formula pmol).2.atoms.map OBAtom.sig
          = pmol.atoms.map OBAtom.sig ++ (formulaAtoms env pairs).map (fun z => (z, true))
      ∧ (ParseFormula env formula pmol).2.bonds = pmol.bonds := by
  obtain ⟨_, i2, i3⟩ := ParseFormula.items_spec env pairs pmol hV
  unfold ParseFormula
  rw [hT, ParseFormula.items_append env pairs bad pmol hV, ParseFormula.items_bad env bad _ hB]
  exact ⟨rfl, i2, i3⟩

/-- C16, witness of the amended claim: "C 2 H" fails at the symbol without a count
and leaves the two carbons of the leading pair. -/
theorem ParseFormula_failure_keeps_leading_pairs_witness :
    BadTail sampleEnv ["H"]
    ∧ (ParseFormula sampleEnv "C 2 H" {}).1 = false
    ∧ (ParseFormula sampleEnv "C 2 H" {}).2.atoms.map OBAtom.sig
        = ([] : List OBAtom).map OBAtom.sig
          ++ (formulaAtoms sampleEnv [("C", "2")]).map (fun z => (z, true))
    ∧ (ParseFormula sampleEnv "C 2 H" {}).2.bonds = [] :=
  ⟨Or.inl ⟨"H", rfl⟩,
   ParseFormula_failure_keeps_leading_pairs sampleEnv "C 2 H" {} [("C", "2")] ["H"]
    (by decide) (by decide) (Or.inl ⟨"H", rfl⟩)⟩

/-- C16, counterexample: on "C 2 H" (odd number of tokens), "C 2 Xx 1" (unrecognised
symbol) and "C 2 H 0" (count not positive), each with a valid leading pair,
ParseFormula returns false and the molecule is left with two carbon atoms, not
zero; closing a molecule with the first formula logs the error and keeps the two
atoms. When the first pair fails no atom is added. -/
theorem ParseFormula_failure_leaves_atoms :
    (ParseFormula sampleEnv "C 2 H" {}).1 = false
    ∧ (ParseFormula sampleEnv "C 2 H" {}).2.atoms.map OBAtom.sig = [(6, true), (6, true)]
    ∧ (ParseFormula sampleEnv "C 2 Xx 1" {}).1 = false
    ∧ (ParseFormula sampleEnv "C 2 Xx 1" {}).2.atoms.map OBAtom.sig = [(6, true), (6, true)]
    ∧ (ParseFormula sampleEnv "C 2 H 0" {}).1 = false
    ∧ (ParseFormula sampleEnv "C 2 H 0" {}).2.atoms.map OBAtom.sig = [(6, true), (6, true)]
    ∧ (stateOf (EndElement sampleEnv { RawFormula := "C 2 H" } "molecule")).map
        (fun g => (g._pmol.atoms.map OBAtom.sig, g.obErrorLog.map (·.msg)))
      = some ([(6, true), (6, true)], ["Error in formula"])
    ∧ ParseFormula sampleEnv "Xx 1 C 2" {} = (false, {}) := by
  decide!

end OpenBabel

namespace OpenBabel

/-! ## The spin multiplicity of the molecule -/

/-- C17 at the failing input: a radical with total spin multiplicity 3, one bond and
the title `2-ol`, which does not begin with a letter. `WriteMolecule` writes the
`name` child element before it writes the `spinMultiplicity` attribute, so the call
is made when the start tag of the molecule is closed and the molecule element of the
document carries no such attribute; read back, the molecule has no total spin
multiplicity. With the title `ol` the attribute is on the molecule element and is
read back as 3. -/
theorem WriteMolecule_spinMultiplicity_after_name_lost :
    WriterEvent.WriteAttribute "spinMultiplicity" "3"
        ∈ (WriteMolecule sampleEnv {} "2-ol" (sampleRadical "2-ol")).1
    ∧ (toNodes (WriteMolecule sampleEnv {} "2-ol" (sampleRadical "2-ol")).1).take 4
      = [XmlNode.element "molecule" [("xmlns", "http://www.xml-cml.org/schema"), ("id", "id2-ol")] false,
         XmlNode.element "name" [] false, XmlNode.text "2-ol", XmlNode.endElement "name"]
    ∧ (roundTrip sampleEnv {} (sampleRadical "2-ol")).map (·.TotalSpinMultiplicity) = some none
    ∧ (toNodes (WriteMolecule sampleEnv {} "ol" (sampleRadical "ol")).1).head?
      = some (XmlNode.element "molecule"
          [("xmlns", "http://www.xml-cml.org/schema"), ("id", "ol"), ("spinMultiplicity", "3")] false)
    ∧ (roundTrip sampleEnv {} (sampleRadical "ol")).map (·.TotalSpinMultiplicity) = some (some 3) := by
  decide!

end OpenBabel
namespace OpenBabel

/-! ## Bond stereo: the directions of a cis/trans descriptor -/

theorem modifyBond_bondAt (mol : OBMol) (b k : Nat) (g : OBBond → OBBond) :
    (mol.modifyBond b g).bondAt k
      = if b = k ∧ k < mol.bonds.length then g (mol.bondAt k) else mol.bondAt k := by
  unfold OBMol.bondAt OBMol.modifyBond
  simp only [List.get?_eq_getElem?, List.getElem?_modify]
  by_cases hk : k < mol.bonds.length
  · rw [List.getElem?_eq_getElem hk]
    by_cases hb : b = k
    · simp [hb, hk]
    · simp [hb]
  · rw [List.getElem?_eq_none (Nat.le_of_not_lt hk)]
    simp [hk]

theorem modifyBond_length (mol : OBMol) (b : Nat) (g : OBBond → OBBond) :
    (mol.modifyBond b g).bonds.length = mol.bonds.length := by
  simp [OBMol.modifyBond]

theorem mapGet_lookup (m : AtomMapT) (k : String) (h : mapGet m k ≠ 0) :
    m.lookup k = some (mapGet m k) := by
  unfold mapGet at *
  cases e : m.lookup k with
  | none => rw [e] at h; exact absurd rfl h
  | some v => rfl

theorem GetAtom_pos (mol : OBMol) (idx : Int) (h : (mol.GetAtom idx).isNone = false) : idx ≠ 0 := by
  intro h0
  subst h0
  simp [OBMol.GetAtom] at h

/-- A bond found by `GetBond(bgn, end)` exists, joins the two atoms, and both atoms
exist. -/
theorem GetBond2_some (mol : OBMol) (a b : Int) (p : Nat) (h : mol.GetBond2 a b = some p) :
    p < mol.bonds.length ∧ a ≠ 0 ∧ b ≠ 0 ∧ (mol.GetAtom a).isSome = true
      ∧ (((mol.bondAt p).BeginAtomIdx = a ∧ (mol.bondAt p).EndAtomIdx = b)
        ∨ ((mol.bondAt p).BeginAtomIdx = b ∧ (mol.bondAt p).EndAtomIdx = a)) := by
  unfold OBMol.GetBond2 at h
  simp only at h
  split_ifs at h with h1 h2
  · simp only [Option.some.injEq] at h
    subst h
    have ha : (mol.GetAtom a).isNone = false := by
      cases e : (mol.GetAtom a).isNone
      · rfl
      · exact absurd (Or.inl e) h1
    have hb : (mol.GetAtom b).isNone = false := by
      cases e : (mol.GetAtom b).isNone
      · rfl
      · exact absurd (Or.inr e) h1
    refine ⟨h2, GetAtom_pos _ _ ha, GetAtom_pos _ _ hb, ?_, ?_⟩
    · cases e : mol.GetAtom a with
      | none => rw [e] at ha; cases ha
      | some _ => rfl
    · have hp := List.findIdx_getElem (w := h2)
      unfold OBMol.bondAt
      rw [List.get?_eq_getElem?, List.getElem?_eq_getElem h2]
      simp only [Option.getD_some]
      simp only [Bool.or_eq_true, Bool.and_eq_true, beq_iff_eq] at hp
      exact hp

theorem markCisTrans_atoms (mol : OBMol) (value : String) (p1 p2 : Nat) :
    (markCisTrans mol value p1 p2).atoms = mol.atoms := by
  unfold markCisTrans
  simp only
  split_ifs <;> rfl

theorem lookupRefs4_resolved (m : AtomMapT) (i0 i1 i2 i3 : String)
    (h0 : mapGet m i0 ≠ 0) (h1 : mapGet m i1 ≠ 0) (h2 : mapGet m i2 ≠ 0) (h3 : mapGet m i3 ≠ 0) :
    lookupRefs4 [i0, i1, i2, i3] m
      = Except.ok ([mapGet m i0, mapGet m i1, mapGet m i2, mapGet m i3], m) := by
  unfold lookupRefs4
  simp only
  rw [mapTouch_of_lookup _ _ _ (mapGet_lookup m i0 h0), mapTouch_of_lookup _ _ _ (mapGet_lookup m i1 h1),
    mapTouch_of_lookup _ _ _ (mapGet_lookup m i2 h2), mapTouch_of_lookup _ _ _ (mapGet_lookup m i3 h3)]

set_option smartUnfolding false in
/-- One pass of the loop of `DoMolWideData` on a bond stereo descriptor whose
reference list has four tokens that resolve to two existing bonds: the two bonds are
marked, then the other bonds of the third atom, and the loop goes on. -/
theorem DoMolWideData.loop_descriptor (f : CMLFormat) (name nextname nextname2 value refs c : String)
    (rest : List Attr) (i0 i1 i2 i3 : String) (p1 p2 : Nat)
    (hn : (name == "atomParity" || name == "bondStereo") = true)
    (hp : (name == "atomParity") = false)
    (hn1 : (nextname == "atomRefs4") = true) (hn2 : (nextname2 == "centralAtomOrBond") = true)
    (hR : tokenize refs = [i0, i1, i2, i3])
    (hb1 : f._pmol.GetBond2 (mapGet f.AtomMap i0) (mapGet f.AtomMap i1) = some p1)
    (hb2 : f._pmol.GetBond2 (mapGet f.AtomMap i2) (mapGet f.AtomMap i3) = some p2) :
    DoMolWideData.loop ((name, value) :: (nextname, refs) :: (nextname2, c) :: rest) f
      = DoMolWideData.loop rest
          { f with
            _pmol := markOthers (mapGet f.AtomMap i2) p2
              ((markCisTrans f._pmol value p1 p2).bondsOf (mapGet f.AtomMap i2))
              (markCisTrans f._pmol value p1 p2) } := by
  obtain ⟨_, a0, a1, _, _⟩ := GetBond2_some _ _ _ _ hb1
  obtain ⟨_, a2, a3, g2, _⟩ := GetBond2_some _ _ _ _ hb2
  have hd : refs.data ≠ [] := tokenize_data_ne_nil _ (by rw [hR]; exact List.cons_ne_nil _ _)
  have hd' : refs.data.isEmpty = false := by
    cases e : refs.data with
    | nil => exact absurd e hd
    | cons _ _ => rfl
  have hg : ∃ q, (markCisTrans f._pmol value p1 p2).GetAtom (mapGet f.AtomMap i2) = some q := by
    have : (markCisTrans f._pmol value p1 p2).GetAtom (mapGet f.AtomMap i2)
        = f._pmol.GetAtom (mapGet f.AtomMap i2) := by
      unfold OBMol.GetAtom OBMol.NumAtoms
      rw [markCisTrans_atoms]
    rw [this]
    exact Option.isSome_iff_exists.1 g2
  obtain ⟨q, hq⟩ := hg
  show (if (name == "atomParity" || name == "bondStereo") = true then _ else _) = _
  rw [if_pos hn]
  simp only [hd', hR, hn1, hn2, hp, lookupRefs4_resolved _ _ _ _ _ a0 a1 a2 a3, refIdx, hb1, hb2, hq,
    List.get?_cons_zero, List.get?_cons_succ, Bool.not_false, Bool.and_true, Bool.not_true,
    if_true, if_false, Bool.false_eq_true]
  rfl

theorem mem_bondsOf (mol : OBMol) (idx : Int) (b : Nat) (n : Int) (h : (b, n) ∈ mol.bondsOf idx) :
    (mol.bondAt b).BeginAtomIdx = idx ∨ (mol.bondAt b).EndAtomIdx = idx := by
  unfold OBMol.bondsOf at h
  obtain ⟨⟨i, x⟩, hix, hf⟩ := List.mem_filterMap.1 h
  have hx : mol.bonds[i]? = some x := List.mk_mem_enum_iff_getElem?.1 hix
  have hb : mol.bondAt i = x := by
    unfold OBMol.bondAt
    rw [List.get?_eq_getElem?, hx]
    rfl
  simp only at hf
  split_ifs at hf with c1 c2
  · simp only [Option.some.injEq, Prod.mk.injEq] at hf
    rw [← hf.1, hb]
    exact Or.inl (by simpa using c1)
  · simp only [Option.some.injEq, Prod.mk.injEq] at hf
    rw [← hf.1, hb]
    exact Or.inr (by simpa using c2)

/-- The marking of the other bonds leaves the bond `pbond2` as it is, and every bond
that is not a bond of the list. -/
theorem markOthers_bondAt (atom2 : Int) (p2 : Nat) (l : List (Nat × Int)) (mol : OBMol) (k : Nat)
    (h : k = p2 ∨ ∀ x ∈ l, x.1 ≠ k) : (markOthers atom2 p2 l mol).bondAt k = mol.bondAt k := by
  induction l generalizing mol with
  | nil => rfl
  | cons x rest ih =>
    obtain ⟨b, nbr⟩ := x
    have h' : k = p2 ∨ ∀ x ∈ rest, x.1 ≠ k :=
      h.imp id (fun hh x hx => hh x (List.mem_cons_of_mem _ hx))
    unfold markOthers
    split_ifs with c1 c2 c3
    · exact ih _ h'
    · rw [ih _ h', modifyBond_bondAt, if_neg]
      rintro ⟨rfl, _⟩
      rcases h with rfl | hh
      · simp at c1
      · exact hh (b, nbr) (List.mem_cons_self _ _) rfl
    · rw [ih _ h', modifyBond_bondAt, if_neg]
      rintro ⟨rfl, _⟩
      rcases h with rfl | hh
      · simp at c1
      · exact hh (b, nbr) (List.mem_cons_self _ _) rfl
    · exact ih _ h'

/-- The marking of the other bonds only sets direction flags. -/
theorem markOthers_mono (atom2 : Int) (p2 : Nat) (l : List (Nat × Int)) (mol : OBMol) (k : Nat) :
    ((mol.bondAt k).Up = true → ((markOthers atom2 p2 l mol).bondAt k).Up = true)
      ∧ ((mol.bondAt k).Down = true → ((markOthers atom2 p2 l mol).bondAt k).Down = true) := by
  induction l generalizing mol with
  | nil => exact ⟨id, id⟩
  | cons x rest ih =>
    obtain ⟨b, nbr⟩ := x
    unfold markOthers
    split_ifs with c1 c2 c3
    · exact ih _
    · refine ⟨fun hu => (ih _).1 ?_, fun hd => (ih _).2 ?_⟩
      · rw [modifyBond_bondAt]
        split_ifs <;> exact hu
      · rw [modifyBond_bondAt]
        split_ifs
        · rfl
        · exact hd
    · refine ⟨fun hu => (ih _).1 ?_, fun hd => (ih _).2 ?_⟩
      · rw [modifyBond_bondAt]
        split_ifs
        · rfl
        · exact hu
      · rw [modifyBond_bondAt]
        split_ifs <;> exact hd
    · exact ih _

theorem markCisTrans_ends (mol : OBMol) (value : String) (p1 p2 k : Nat) :
    ((markCisTrans mol value p1 p2).bondAt k).BeginAtomIdx = (mol.bondAt k).BeginAtomIdx
      ∧ ((markCisTrans mol value p1 p2).bondAt k).EndAtomIdx = (mol.bondAt k).EndAtomIdx := by
  unfold markCisTrans
  simp only
  split_ifs <;> simp only [modifyBond_bondAt] <;> split_ifs <;> exact ⟨rfl, rfl⟩

/-- The directions that the marking of a cis/trans descriptor leaves on its two
bonds, the second of which carries no direction before. -/
theorem markCisTrans_dirs (mol : OBMol) (value : String) (p1 p2 : Nat) (hne : p1 ≠ p2)
    (h1 : p1 < mol.bonds.length) (h2 : p2 < mol.bonds.length)
    (hu2 : (mol.bondAt p2).dir = (false, false)) (hv : value = "C" ∨ value = "T") :
    ((mol.bondAt p1).dir = (false, false) →
        ((markCisTrans mol value p1 p2).bondAt p1).dir = (false, true)
        ∧ ((markCisTrans mol value p1 p2).bondAt p2).dir
            = if value = "C" then (false, true) else (true, false))
    ∧ ((mol.bondAt p1).dir = (true, false) →
        ((markCisTrans mol value p1 p2).bondAt p1).dir = (true, false)
        ∧ ((markCisTrans mol value p1 p2).bondAt p2).dir
            = if value = "T" then (true, false) else (false, true))
    ∧ ((mol.bondAt p1).dir = (false, true) →
        ((markCisTrans mol value p1 p2).bondAt p1).dir = (false, true)
        ∧ ((markCisTrans mol value p1 p2).bondAt p2).dir
            = if value = "C" then (true, false) else (false, true)) := by
  have hne' : p2 ≠ p1 := fun h => hne h.symm
  simp only [OBBond.dir, Prod.mk.injEq] at hu2 ⊢
  obtain ⟨u2, d2⟩ := hu2
  have hCT : ("C" == "T") = false := by decide
  have hTC : ("T" == "C") = false := by decide
  have hCT' : ¬ ("C" = "T") := by decide
  have hTC' : ¬ ("T" = "C") := by decide
  rcases hv with rfl | rfl
  · refine ⟨?_, ?_, ?_⟩ <;> rintro ⟨u1, d1⟩ <;> unfold markCisTrans <;>
      simp [u1, d1, u2, d2, modifyBond_bondAt, hne, hne', h1, h2, hCT, hCT', modifyBond_length]
  · refine ⟨?_, ?_, ?_⟩ <;> rintro ⟨u1, d1⟩ <;> unfold markCisTrans <;>
      simp [u1, d1, u2, d2, modifyBond_bondAt, hne, hne', h1, h2, hTC, hTC', modifyBond_length]

/-- C18, amended: for a bondStereo descriptor of value C or T with a 4-atom
reference list r1 r2 r3 r4 whose bonds r1-r2 and r3-r4 exist, r3 being neither r1
nor r2 and r3-r4 carrying no direction yet, the pass of `DoMolWideData` over the
descriptor goes on with a graph in which: when r1-r2 carried no direction, r1-r2 is
marked down and r3-r4 is marked down for C (both the same direction) and up for T
(one down, the other up); when r1-r2 already carried one direction, it keeps it and
r3-r4 gets the same direction for T and the other direction for C. -/
theorem DoMolWideData_cis_trans_directions (f : CMLFormat) (value refs c : String)
    (rest : List Attr) (i0 i1 i2 i3 : String) (p1 p2 : Nat)
    (hv : value = "C" ∨ value = "T") (hR : tokenize refs = [i0, i1, i2, i3])
    (hb1 : f._pmol.GetBond2 (mapGet f.AtomMap i0) (mapGet f.AtomMap i1) = some p1)
    (hb2 : f._pmol.GetBond2 (mapGet f.AtomMap i2) (mapGet f.AtomMap i3) = some p2)
    (h3 : mapGet f.AtomMap i2 ≠ mapGet f.AtomMap i0 ∧ mapGet f.AtomMap i2 ≠ mapGet f.AtomMap i1)
    (hu2 : (f._pmol.bondAt p2).dir = (false, false)) :
    ∃ g, DoMolWideData.loop
          (("bondStereo", value) :: ("atomRefs4", refs) :: ("centralAtomOrBond", c) :: rest) f
        = DoMolWideData.loop rest g
      ∧ ((f._pmol.bondAt p1).dir = (false, false) →
          (g._pmol.bondAt p1).dir = (false, true)
          ∧ (g._pmol.bondAt p2).dir = if value = "C" then (false, true) else (true, false))
      ∧ ((f._pmol.bondAt p1).dir = (true, false) →
          (g._pmol.bondAt p1).dir = (true, false)
          ∧ (g._pmol.bondAt p2).dir = if value = "T" then (true, false) else (false, true))
      ∧ ((f._pmol.bondAt p1).dir = (false, true) →
          (g._pmol.bondAt p1).dir = (false, true)
          ∧ (g._pmol.bondAt p2).dir = if value = "C" then (true, false) else (false, true)) := by
  obtain ⟨l1, _, _, _, e1⟩ := GetBond2_some _ _ _ _ hb1
  obtain ⟨l2, _, _, _, e2⟩ := GetBond2_some _ _ _ _ hb2
  have hne : p1 ≠ p2 := by
    rintro rfl
    rcases e1 with ⟨a, b⟩ | ⟨a, b⟩ <;> rcases e2 with ⟨a', b'⟩ | ⟨a', b'⟩
    · exact h3.1 (a'.symm.trans a)
    · exact h3.2 (b'.symm.trans b)
    · exact h3.2 (a'.symm.trans a)
    · exact h3.1 (b'.symm.trans b)
  have hnot : ∀ x ∈ (markCisTrans f._pmol value p1 p2).bondsOf (mapGet f.AtomMap i2), x.1 ≠ p1 := by
    rintro ⟨b, n⟩ hx rfl
    obtain ⟨m1, m2⟩ := markCisTrans_ends f._pmol value b p2 b
    rcases mem_bondsOf _ _ _ _ hx with h | h
    · rw [m1] at h
      rcases e1 with ⟨a, _⟩ | ⟨a, _⟩
      · exact h3.1 (h.symm.trans a)
      · exact h3.2 (h.symm.trans a)
    · rw [m2] at h
      rcases e1 with ⟨_, a⟩ | ⟨_, a⟩
      · exact h3.2 (h.symm.trans a)
      · exact h3.1 (h.symm.trans a)
  refine ⟨_, DoMolWideData.loop_descriptor f "bondStereo" "atomRefs4" "centralAtomOrBond" value refs c
    rest i0 i1 i2 i3 p1 p2 (by decide) (by decide) (by decide) (by decide) hR hb1 hb2, ?_⟩
  simp only
  rw [markOthers_bondAt _ _ _ _ p1 (Or.inr hnot), markOthers_bondAt _ _ _ _ p2 (Or.inl rfl)]
  exact markCisTrans_dirs f._pmol value p1 p2 hne l1 l2 hu2 hv

/-- C18, witness of the amended claim: the descriptor T with the references a1 a2 a3
a4 on the but-2-ene graph without direction flags. -/
theorem DoMolWideData_cis_trans_directions_witness :
    ∃ g, DoMolWideData.loop
          (("bondStereo", "T") :: ("atomRefs4", "a1 a2 a3 a4") :: ("centralAtomOrBond", "1") :: [])
          (sampleStereo "T")
        = DoMolWideData.loop [] g
      ∧ (((sampleStereo "T")._pmol.bondAt 0).dir = (false, false) →
          (g._pmol.bondAt 0).dir = (false, true)
          ∧ (g._pmol.bondAt 2).dir = if "T" = "C" then (false, true) else (true, false))
      ∧ (((sampleStereo "T")._pmol.bondAt 0).dir = (true, false) →
          (g._pmol.bondAt 0).dir = (true, false)
          ∧ (g._pmol.bondAt 2).dir = if "T" = "T" then (true, false) else (false, true))
      ∧ (((sampleStereo "T")._pmol.bondAt 0).dir = (false, true) →
          (g._pmol.bondAt 0).dir = (false, true)
          ∧ (g._pmol.bondAt 2).dir = if "T" = "C" then (true, false) else (false, true)) :=
  DoMolWideData_cis_trans_directions (sampleStereo "T") "T" "a1 a2 a3 a4" "1" []
    "a1" "a2" "a3" "a4" 0 2 (Or.inr rfl) (by decide) (by decide) (by decide) (by decide) (by decide)

/-- C18, counterexample: on the but-2-ene graph without direction flags, with the
references a1 a2 a3 a4, `DoMolWideData` returns true and for the value C marks both
single bonds down (not one up and the other down), and for the value T marks the
first down and the second up (not both the same direction). -/
theorem DoMolWideData_cis_marks_both_down :
    (stateOf (DoMolWideData (sampleStereo "C"))).map (fun g => g._pmol.bonds.map OBBond.dir)
        = some [(false, true), (false, false), (false, true)]
    ∧ returnOf (DoMolWideData (sampleStereo "C")) = some true
    ∧ (stateOf (DoMolWideData (sampleStereo "T"))).map (fun g => g._pmol.bonds.map OBBond.dir)
        = some [(false, true), (false, false), (true, false)]
    ∧ returnOf (DoMolWideData (sampleStereo "T")) = some true := by
  decide!

end OpenBabel
namespace OpenBabel

/-! ## Bond stereo: the two bonds of a descriptor are not left unmarked -/

theorem modifyBond_marked (mol : OBMol) (b k : Nat) (g : OBBond → OBBond)
    (hg : ∀ x, x.marked = true → (g x).marked = true) (h : (mol.bondAt k).marked = true) :
    ((mol.modifyBond b g).bondAt k).marked = true := by
  rw [modifyBond_bondAt]
  split_ifs
  · exact hg _ h
  · exact h

theorem markOthers_marked (atom2 : Int) (p2 : Nat) (l : List (Nat × Int)) (mol : OBMol) (k : Nat)
    (h : (mol.bondAt k).marked = true) : ((markOthers atom2 p2 l mol).bondAt k).marked = true := by
  obtain ⟨m1, m2⟩ := markOthers_mono atom2 p2 l mol k
  unfold OBBond.marked at *
  rw [Bool.or_eq_true] at h ⊢
  exact h.imp m1 m2

/-- The marking of a cis/trans descriptor leaves the first bond with a direction,
and the second too when the value is C or T. -/
theorem markCisTrans_marked (mol : OBMol) (value : String) (p1 p2 : Nat)
    (h1 : p1 < mol.bonds.length) (h2 : p2 < mol.bonds.length) :
    ((markCisTrans mol value p1 p2).bondAt p1).marked = true
      ∧ (value = "C" ∨ value = "T" → ((markCisTrans mol value p1 p2).bondAt p2).marked = true) := by
  have setUp : ∀ x : OBBond, x.marked = true → ({ x with Up := true } : OBBond).marked = true :=
    fun _ _ => rfl
  have setDown : ∀ x : OBBond, x.marked = true → ({ x with Down := true } : OBBond).marked = true := by
    intro x _
    simp [OBBond.marked]
  have down1 : ((mol.modifyBond p1 fun b => { b with Down := true }).bondAt p1).marked = true := by
    rw [modifyBond_bondAt, if_pos ⟨rfl, h1⟩]
    simp [OBBond.marked]
  unfold markCisTrans
  simp only
  split_ifs with c1 c2 c3 c4
  · have hm : (mol.bondAt p1).marked = true := c1
    refine ⟨modifyBond_marked _ _ _ _ setUp hm, fun _ => ?_⟩
    rw [modifyBond_bondAt, if_pos ⟨rfl, h2⟩]
    rfl
  · have hm : (mol.bondAt p1).marked = true := c1
    refine ⟨modifyBond_marked _ _ _ _ setDown hm, fun _ => ?_⟩
    rw [modifyBond_bondAt, if_pos ⟨rfl, h2⟩]
    simp [OBBond.marked]
  · refine ⟨modifyBond_marked _ _ _ _ setDown down1, fun _ => ?_⟩
    rw [modifyBond_bondAt, if_pos ⟨rfl, by rw [modifyBond_length]; exact h2⟩]
    simp [OBBond.marked]
  · refine ⟨modifyBond_marked _ _ _ _ setUp down1, fun _ => ?_⟩
    rw [modifyBond_bondAt, if_pos ⟨rfl, by rw [modifyBond_length]; exact h2⟩]
    rfl
  · refine ⟨down1, fun hv => ?_⟩
    rcases hv with rfl | rfl
    · exact absurd (by decide : ("C" == "C") = true) c3
    · exact absurd (by decide : ("T" == "T") = true) c4

/-- C19: for every bondStereo descriptor with a 4-atom reference list whose two
referenced bonds exist in the graph, the pass of `DoMolWideData` over the descriptor
goes on with a graph in which at least one of the two bonds (the first) carries an
up or down flag, and both do when the value is C or T. -/
theorem DoMolWideData_descriptor_marks_bonds (f : CMLFormat) (value refs c : String)
    (rest : List Attr) (i0 i1 i2 i3 : String) (p1 p2 : Nat)
    (hR : tokenize refs = [i0, i1, i2, i3])
    (hb1 : f._pmol.GetBond2 (mapGet f.AtomMap i0) (mapGet f.AtomMap i1) = some p1)
    (hb2 : f._pmol.GetBond2 (mapGet f.AtomMap i2) (mapGet f.AtomMap i3) = some p2) :
    ∃ g, DoMolWideData.loop
          (("bondStereo", value) :: ("atomRefs4", refs) :: ("centralAtomOrBond", c) :: rest) f
        = DoMolWideData.loop rest g
      ∧ ((g._pmol.bondAt p1).marked = true ∨ (g._pmol.bondAt p2).marked = true)
      ∧ (value = "C" ∨ value = "T" →
          (g._pmol.bondAt p1).marked = true ∧ (g._pmol.bondAt p2).marked = true) := by
  obtain ⟨l1, _⟩ := GetBond2_some _ _ _ _ hb1
  obtain ⟨l2, _⟩ := GetBond2_some _ _ _ _ hb2
  obtain ⟨k1, k2⟩ := markCisTrans_marked f._pmol value p1 p2 l1 l2
  refine ⟨_, DoMolWideData.loop_descriptor f "bondStereo" "atomRefs4" "centralAtomOrBond" value refs c
    rest i0 i1 i2 i3 p1 p2 (by decide) (by decide) (by decide) (by decide) hR hb1 hb2, ?_, ?_⟩
  · exact Or.inl (markOthers_marked _ _ _ _ _ k1)
  · intro hv
    exact ⟨markOthers_marked _ _ _ _ _ k1, markOthers_marked _ _ _ _ _ (k2 hv)⟩

/-- C19, witness: the descriptor C with the references a1 a2 a3 a4 on the but-2-ene
graph; `DoMolWideData` returns true and the two single bonds carry a direction. -/
theorem DoMolWideData_descriptor_marks_bonds_witness :
    ((stateOf (DoMolWideData (sampleStereo "C"))).map
        (fun g => g._pmol.bonds.map OBBond.marked) = some [true, false, true]
      ∧ returnOf (DoMolWideData (sampleStereo "C")) = some true)
    ∧ ∃ g, DoMolWideData.loop
          (("bondStereo", "C") :: ("atomRefs4", "a1 a2 a3 a4") :: ("centralAtomOrBond", "1") :: [])
          (sampleStereo "C")
        = DoMolWideData.loop [] g
      ∧ ((g._pmol.bondAt 0).marked = true ∨ (g._pmol.bondAt 2).marked = true)
      ∧ ("C" = "C" ∨ "C" = "T" →
          (g._pmol.bondAt 0).marked = true ∧ (g._pmol.bondAt 2).marked = true) :=
  ⟨by decide,
   DoMolWideData_descriptor_marks_bonds (sampleStereo "C") "C" "a1 a2 a3 a4" "1" []
    "a1" "a2" "a3" "a4" 0 2 (by decide) (by decide) (by decide)⟩

end OpenBabel

namespace OpenBabel

/-! ## Molecule-wide data: the buffers after the pass -/

/-- C20 at the failing input: a molecule with one bond that has the child
`<bondStereo>W</bondStereo>`. `DoMolWideData` sets the wedge flag and returns true
from inside its loop, before the statements that clear the buffers: after it has
returned, `molWideData` still holds the three entries of the descriptor, `AtomArray`
the two atom records and `BondArray` the bond record. Without the descriptor the
three buffers are empty. A cis descriptor whose bonds do not exist makes it return
false, also with the buffers as they were. -/
theorem DoMolWideData_wedge_returns_before_clear :
    (match DoMolWideData
        { molWideData := [("bondStereo", "W"), ("atomRefs4", ""), ("centralAtomOrBond", "0")],
          AtomArray := [[("id", "a1")], [("id", "a2")]], BondArray := [[("atomRefs2", "a1 a2")]],
          _pmol := { atoms := [{ AtomicNum := 6 }, { AtomicNum := 6 }],
                     bonds := [{ BeginAtomIdx := 1, EndAtomIdx := 2, BondOrder := 1 }] } } with
      | Except.ok (ret, f) =>
        some (ret, f.molWideData.length, f.AtomArray.length, f.BondArray.length,
          f._pmol.bonds.map (·.Wedge))
      | Except.error _ => none) = some (true, 3, 2, 1, [true])
    ∧ (match ReadXML sampleEnv 10
        { reader := { pending :=
          [XmlNode.element "molecule" [] false,
           XmlNode.element "atom" [("id", "a1"), ("elementType", "C")] true,
           XmlNode.element "atom" [("id", "a2"), ("elementType", "C")] true,
           XmlNode.element "bond" [("atomRefs2", "a1 a2"), ("order", "1")] false,
           XmlNode.element "bondStereo" [] false, XmlNode.text "W", XmlNode.endElement "bondStereo",
           XmlNode.endElement "bond",
           XmlNode.endElement "molecule"] } } with
      | Except.ok f => some (f.molWideData.length, f.AtomArray.length, f.BondArray.length)
      | Except.error _ => none) = some (3, 2, 1)
    ∧ (match ReadXML sampleEnv 10
        { reader := { pending :=
          [XmlNode.element "molecule" [] false,
           XmlNode.element "atom" [("id", "a1"), ("elementType", "C")] true,
           XmlNode.element "atom" [("id", "a2"), ("elementType", "C")] true,
           XmlNode.element "bond" [("atomRefs2", "a1 a2"), ("order", "1")] true,
           XmlNode.endElement "molecule"] } } with
      | Except.ok f => some (f.molWideData.length, f.AtomArray.length, f.BondArray.length)
      | Except.error _ => none) = some (0, 0, 0)
    ∧ (match DoMolWideData
        { molWideData := [("bondStereo", "C"), ("atomRefs4", "a1 a2 a3 a4"), ("centralAtomOrBond", "1")],
          AtomArray := [[("id", "a1")]] } with
      | Except.ok (ret, f) => some (ret, f.molWideData.length, f.AtomArray.length)
      | Except.error _ => none) = some (false, 3, 1) := by
  decide!

end OpenBabel

namespace OpenBabel

/-! ## The loop of `DoMolWideData`, entry by entry -/

theorem DoMolWideData.loop_nil (f : CMLFormat) : DoMolWideData.loop [] f = Except.ok (none, f) :=
  rfl

set_option smartUnfolding false in
theorem DoMolWideData.loop_one (name value : String) (f : CMLFormat) :
    DoMolWideData.loop [(name, value)] f =
    if name == "atomParity" || name == "bondStereo" then
      Except.error "DoMolWideData: the iterator is read past the end of molWideData"
    else Except.ok (none, f) :=
  rfl

set_option smartUnfolding false in
theorem DoMolWideData.loop_two (name value nextname atrefsvalue : String) (f : CMLFormat) :
    DoMolWideData.loop [(name, value), (nextname, atrefsvalue)] f =
    if name == "atomParity" || name == "bondStereo" then
      match (if nextname == "atomRefs4" && !atrefsvalue.data.isEmpty
             then lookupRefs4 (tokenize atrefsvalue) f.AtomMap
             else Except.ok ([], f.AtomMap)) with
      | Except.error e => Except.error e
      | Except.ok _ => Except.error "DoMolWideData: the iterator is read past the end of molWideData"
    else DoMolWideData.loop [(nextname, atrefsvalue)] f :=
  rfl

set_option smartUnfolding false in
/-- The loop of `DoMolWideData` on a buffer with at least three entries: the body
of the loop for the first entry, with the two entries that the iterator is advanced
to. -/
theorem DoMolWideData.loop_three (name value nextname atrefsvalue nextname2 idxvalue : String)
    (rest3 : List Attr) (f : CMLFormat) :
    DoMolWideData.loop ((name, value) :: (nextname, atrefsvalue) :: (nextname2, idxvalue) :: rest3) f =
    if name == "atomParity" || name == "bondStereo" then
        match (if nextname == "atomRefs4" && !atrefsvalue.data.isEmpty
               then lookupRefs4 (tokenize atrefsvalue) f.AtomMap
               else Except.ok ([], f.AtomMap)) with
        | Except.error e => Except.error e
        | Except.ok (AtomRefIdx, m) =>
          let f := { f with AtomMap := m }
            if !(nextname2 == "centralAtomOrBond") then Except.ok (some false, f)
            else
              let Idx := atoi idxvalue
              if name == "atomParity" then
                let parity := atoi value
                match f._pmol.GetAtom Idx with
                | none => Except.ok (some false, f)
                | some patom =>
                  let mol :=
                    if parity > 0 then f._pmol.modifyAtom patom fun a => { a with Clockwise := true }
                    else if parity < 0 then f._pmol.modifyAtom patom fun a => { a with AntiClockwise := true }
                    else f._pmol
                  let mol := mol.modifyAtom patom fun a => { a with Atom4Refs := some AtomRefIdx }
                  DoMolWideData.loop rest3 { f with _pmol := mol }
              else
                let bondsFound : Except String (Option (Option Nat × Option Nat) × CMLFormat) :=
                  if atrefsvalue.data.isEmpty then
                    match f._pmol.GetBond Idx with
                    | none =>
                      if value == "W" || value == "H" then
                        Except.error "DoMolWideData: pDBond is NULL when dereferenced"
                      else if value != "C" && value != "T" then Except.ok (none, f)
                      else Except.error "DoMolWideData: pDBond is NULL when dereferenced"
                    | some pDBond =>
                      if value == "W" then
                        Except.ok (none, { f with _pmol := f._pmol.modifyBond pDBond fun b => { b with Wedge := true } })
                      else if value == "H" then
                        Except.ok (none, { f with _pmol := f._pmol.modifyBond pDBond fun b => { b with Hash := true } })
                      else if value != "C" && value != "T" then Except.ok (none, f)
                      else
                        let at1 := (f._pmol.bondAt pDBond).BeginAtomIdx
                        let at2 := (f._pmol.bondAt pDBond).EndAtomIdx
                        Except.ok (some (scanNbors f._pmol at1 at2 (f._pmol.bondsOf at1) none,
                                         scanNbors f._pmol at2 at1 (f._pmol.bondsOf at2) none), f)
                  else
                    match refIdx AtomRefIdx 0, refIdx AtomRefIdx 1, refIdx AtomRefIdx 2, refIdx AtomRefIdx 3 with
                    | Except.ok r0, Except.ok r1, Except.ok r2, Except.ok r3 =>
                      Except.ok (some (f._pmol.GetBond2 r0 r1, f._pmol.GetBond2 r2 r3), f)
                    | _, _, _, _ => Except.error "DoMolWideData: AtomRefIdx[i] is read out of range"
                match bondsFound with
                | Except.error e => Except.error e
                | Except.ok (none, f) =>
                  Except.ok (some (value == "W" || value == "H") , f)
                | Except.ok (some (some pbond1, some pbond2), f) =>
                  let mol := markCisTrans f._pmol value pbond1 pbond2
                  match refIdx AtomRefIdx 2 with
                  | Except.error e => Except.error e
                  | Except.ok r2 =>
                    match mol.GetAtom r2 with
                    | none => Except.error "DoMolWideData: pAtom2 is NULL when dereferenced"
                    | some _ =>
                      DoMolWideData.loop rest3
                        { f with _pmol := markOthers r2 pbond2 (mol.bondsOf r2) mol }
                | Except.ok (some _, f) => Except.ok (some false, f)
    else DoMolWideData.loop ((nextname, atrefsvalue) :: (nextname2, idxvalue) :: rest3) f :=
  rfl


theorem ok_snd_eq {ε α β : Type} {a a' : α} {b b' : β}
    (h : (Except.ok (a, b) : Except ε (α × β)) = Except.ok (a', b')) : b = b' := by
  cases h
  rfl

/-- The loop of `DoMolWideData` only changes the graph and the atom map: whatever
does not depend on these two members is the same after the loop as before it. -/
theorem DoMolWideData.loop_frame {α : Type} (φ : CMLFormat → α)
    (hφ : ∀ (f : CMLFormat) (mol : OBMol) (m : AtomMapT), φ { f with _pmol := mol, AtomMap := m } = φ f)
    (n : Nat) : ∀ (l : List Attr), l.length ≤ n →
    ∀ (f g : CMLFormat) (r : Option Bool),
      DoMolWideData.loop l f = Except.ok (r, g) → φ g = φ f := by
  induction n using Nat.strong_induction_on with
  | _ n ih =>
    intro l hl f g r h
    match l, hl, h with
    | [], _, h =>
      cases h
      rfl
    | [(name, value)], _, h =>
      rw [DoMolWideData.loop_one] at h
      split_ifs at h
      cases h
      rfl
    | [(name, value), (nextname, atrefsvalue)], hl, h =>
      rw [DoMolWideData.loop_two] at h
      split_ifs at h
      · split at h <;> cases h
      · exact ih 1 (by simp at hl; omega) _ (by simp) f g r h
    | (name, value) :: (nextname, atrefsvalue) :: (nextname2, idxvalue) :: rest3, hl, h =>
      have hl3 : rest3.length < n := by simp at hl; omega
      have hl2 : ((nextname, atrefsvalue) :: (nextname2, idxvalue) :: rest3).length < n := by
        simp at hl ⊢; omega
      rw [DoMolWideData.loop_three] at h
      by_cases c : (name == "atomParity" || name == "bondStereo") = true
      · rw [if_pos c] at h
        split at h
        · cases h
        · rename_i AtomRefIdx m heq
          simp only at h
          (repeat' split at h) <;> first
            | (cases h; done)
            | (cases h; exact hφ f _ _)
            | exact (ih _ hl3 _ (Nat.le_refl _) _ g r h).trans (hφ f _ _)
            | skip
          · rename_i b f2 hbf
            have hf : φ f2 = φ f := by
              (repeat' split at hbf) <;> first
                | (rw [← ok_snd_eq hbf]; exact hφ f _ _)
                | cases hbf
            cases h
            exact hf
          · rename_i b p1 p2 f2 hbf x1 r2 hr x2 pa hg
            have hf : φ f2 = φ f := by
              (repeat' split at hbf) <;> first
                | (rw [← ok_snd_eq hbf]; exact hφ f _ _)
                | cases hbf
            exact ((ih _ hl3 _ (Nat.le_refl _) _ g r h).trans (hφ f2 _ _)).trans hf
          · rename_i b v f2 hv hbf
            have hf : φ f2 = φ f := by
              (repeat' split at hbf) <;> first
                | (rw [← ok_snd_eq hbf]; exact hφ f _ _)
                | cases hbf
            cases h
            exact hf
      · rw [if_neg c] at h
        exact ih _ hl2 _ (Nat.le_refl _) f g r h

theorem DoAtoms_embedlevel (env : Env) (f g : CMLFormat) (b : Bool)
    (h : DoAtoms env f = Except.ok (b, g)) : g._embedlevel = f._embedlevel := by
  unfold DoAtoms at h
  split at h
  · cases h
  · cases h
    rfl

theorem DoBonds.records_embedlevel (env : Env) (l : List (List Attr)) (w : Bool) (f : CMLFormat) :
    (DoBonds.records env l w f).2._embedlevel = f._embedlevel := by
  induction l generalizing w f with
  | nil => rfl
  | cons r rest ih =>
    rw [DoBonds.records]
    simp only
    split_ifs <;> first
      | rfl
      | exact ih _ _

theorem DoMolWideData_embedlevel (f g : CMLFormat) (b : Bool)
    (h : DoMolWideData f = Except.ok (b, g)) : g._embedlevel = f._embedlevel := by
  unfold DoMolWideData at h
  split at h
  · cases h
  · rename_i b' f' heq
    cases h
    exact DoMolWideData.loop_frame (fun x => x._embedlevel) (fun _ _ _ => rfl) _ _ (Nat.le_refl _)
      f g (some b) heq
  · rename_i f' heq
    cases h
    exact DoMolWideData.loop_frame (fun x => x._embedlevel) (fun _ _ _ => rfl) _ _ (Nat.le_refl _)
      f f' none heq

/-- The end tag of a molecule element, when the handler returns: the embed counter
is decremented, and the value returned is whether it is still at least 0. -/
theorem EndElement_molecule_level (env : Env) (f g : CMLFormat) (b : Bool)
    (h : EndElement env f "molecule" = Except.ok (b, g)) :
    g._embedlevel = f._embedlevel - 1 ∧ b = decide (0 ≤ f._embedlevel - 1) := by
  unfold EndElement at h
  simp only [(by decide : ("molecule" == "atom") = false), (by decide : ("molecule" == "bond") = false),
    (by decide : ("molecule" == "formula") = false), (by decide : ("molecule" == "molecule") = true),
    if_true, if_false, Bool.false_eq_true] at h
  split at h
  · cases h
  · rename_i b1 f1 h1
    split at h
    · cases h
    · rename_i b2 f2 h2
      have e1 := DoAtoms_embedlevel env f f1 b1 h1
      have e2 := DoBonds.records_embedlevel env f1.BondArray false f1
      have e3 := DoMolWideData_embedlevel _ f2 b2 h2
      have e : f2._embedlevel = f._embedlevel := by
        rw [e3]
        exact e2.trans e1
      have hfin : (EndElement.finishMolecule env f2).2._embedlevel = f2._embedlevel - 1
          ∧ (EndElement.finishMolecule env f2).1 = decide (0 ≤ f2._embedlevel - 1) := by
        unfold EndElement.finishMolecule
        simp only
        split_ifs <;> simp
      have hb := congrArg (fun x => match x with
        | Except.ok (p : Bool × CMLFormat) => (p.1, p.2._embedlevel)
        | Except.error _ => (true, 0)) h
      simp only [Prod.mk.injEq] at hb
      rw [← hb.1, ← hb.2, hfin.1, hfin.2, e]
      exact ⟨rfl, rfl⟩

end OpenBabel

namespace OpenBabel

/-! ## Nested molecule elements -/

/-- C21 at the failing input: inside an open molecule (embed counter 0) that has
read an atom record, a bond record, a descriptor, a formula and a crystal scalar,
the start tag of a nested molecule element is entered. `DoElement` returns true with
the counter at 1, which is positive, and the graph, `AtomArray`, `BondArray`,
`molWideData`, the raw formula and the unit-cell state are all reset: the statements
that clear them come before the test of the counter. In a document, the atom of the
outer molecule and its title are lost. -/
theorem DoElement_nested_molecule_resets :
    returnOf (DoElement sampleEnv sampleNested "molecule") = some true
    ∧ (stateOf (DoElement sampleEnv sampleNested "molecule")).map (fun g => (g._embedlevel, g._pmol))
      = some (1, {})
    ∧ (stateOf (DoElement sampleEnv sampleNested "molecule")).map (fun g => (g.AtomArray, g.RawFormula))
      = some ([], "")
    ∧ (stateOf (DoElement sampleEnv sampleNested "molecule")).map (fun g => (g.BondArray, g.molWideData))
      = some ([], [])
    ∧ (stateOf (DoElement sampleEnv sampleNested "molecule")).map
        (fun g => (g.CrystalVals, g.CrystalScalarsNeeded, g.pUnitCell))
      = some ([], 0, none)
    ∧ (readDocument sampleEnv {}
        [XmlNode.element "molecule" [("id", "outer")] false,
         XmlNode.element "atom" [("id", "a1"), ("elementType", "C")] true,
         XmlNode.element "molecule" [("id", "inner")] false,
         XmlNode.element "atom" [("id", "a2"), ("elementType", "O")] true,
         XmlNode.endElement "molecule",
         XmlNode.endElement "molecule"]).map (fun m => (m.Title, m.atoms.map (·.AtomicNum)))
      = some ("", [8]) := by
  refine ⟨?_, ?_, ?_, ?_, ?_, ?_⟩ <;> decide!

end OpenBabel

namespace OpenBabel

/-! ## The embed counter along the molecule events -/

/-- The loop of `DoBonds` only changes the graph, the atom map and the log. -/
theorem DoBonds.records_frame {α : Type} (φ : CMLFormat → α)
    (hφ : ∀ (f : CMLFormat) (mol : OBMol) (m : AtomMapT) (log : List LogEntry),
      φ { f with _pmol := mol, AtomMap := m, obErrorLog := log } = φ f)
    (env : Env) (l : List (List Attr)) (w : Bool) (f : CMLFormat) :
    φ (DoBonds.records env l w f).2 = φ f := by
  induction l generalizing w f with
  | nil => rfl
  | cons r rest ih =>
    rw [DoBonds.records]
    simp only
    split_ifs <;> first
      | exact hφ f _ _ _
      | exact (ih _ _).trans (hφ f _ _ _)

/-- The start tag of a molecule element that is not self-closing and has no `ref`
attribute: `DoElement` returns true, the embed counter is incremented, and the atom
records and the molecule-wide data are empty. -/
theorem DoElement_molecule_enter (env : Env) (f : CMLFormat) (attrs : List Attr)
    (hr : attrs.lookup "ref" = none) :
    ∃ g, DoElement env
          { f with reader := { node := some (XmlNode.element "molecule" attrs false) } } "molecule"
        = Except.ok (true, g)
      ∧ g._embedlevel = f._embedlevel + 1 ∧ g.AtomArray = [] ∧ g.molWideData = [] := by
  unfold DoElement
  simp only [(by decide : ("molecule" == "atom") = false), (by decide : ("molecule" == "bond") = false),
    (by decide : ("molecule" == "molecule") = true), if_true, if_false, Bool.false_eq_true,
    xmlTextReaderGetAttribute, xmlTextReader.attrs, hr, Option.isSome_none, xmlTextReaderIsEmptyElement,
    Option.isSome_none]
  by_cases c : f._embedlevel + 1 ≠ 0
  · rw [if_pos c]
    exact ⟨_, rfl, rfl, rfl, rfl⟩
  · rw [if_neg c]
    generalize List.lookup "title" attrs = t1
    generalize List.lookup "id" attrs = t2
    generalize List.lookup "molID" attrs = t3
    rcases t1 with _ | t1 <;> rcases t2 with _ | t2 <;> rcases t3 with _ | t3 <;>
      simp only [Option.isNone_none, Option.isNone_some, if_true, if_false, Bool.false_eq_true] <;>
      generalize List.lookup "spinMultiplicity" attrs = t4 <;>
      rcases t4 with _ | t4 <;> exact ⟨_, rfl, rfl, rfl, rfl⟩

/-- The end tag of a molecule element when there are no atom records and no
molecule-wide data: `EndElement` returns, the value is true when the embed counter
stays at least 0, the counter is decremented and the two buffers stay empty. -/
theorem EndElement_molecule_exit (env : Env) (f : CMLFormat) (hA : f.AtomArray = [])
    (hW : f.molWideData = []) :
    ∃ g, EndElement env f "molecule" = Except.ok (decide (0 ≤ f._embedlevel - 1), g)
      ∧ g._embedlevel = f._embedlevel - 1 ∧ g.AtomArray = [] ∧ g.molWideData = [] := by
  have h1 : DoAtoms env f = Except.ok (true,
      { f with _pmol := { f._pmol with Dimension := 0 }, AtomArray := [] }) := by
    unfold DoAtoms
    rw [hA]
    rfl
  have hW2 : (DoBonds env { f with _pmol := { f._pmol with Dimension := 0 }, AtomArray := [] }).2.molWideData
      = [] := by
    unfold DoBonds
    rw [DoBonds.records_frame (fun x => x.molWideData) (fun _ _ _ _ => rfl)]
    exact hW
  have h3 : DoMolWideData (DoBonds env { f with _pmol := { f._pmol with Dimension := 0 }, AtomArray := [] }).2
      = Except.ok (true,
          { (DoBonds env { f with _pmol := { f._pmol with Dimension := 0 }, AtomArray := [] }).2 with
            AtomArray := [], BondArray := [], molWideData := [] }) := by
    unfold DoMolWideData
    rw [hW2]
    rfl
  have hE : EndElement env f "molecule"
      = Except.ok (EndElement.finishMolecule env
          { (DoBonds env { f with _pmol := { f._pmol with Dimension := 0 }, AtomArray := [] }).2 with
            AtomArray := [], BondArray := [], molWideData := [] }) := by
    unfold EndElement
    simp only [(by decide : ("molecule" == "atom") = false), (by decide : ("molecule" == "bond") = false),
      (by decide : ("molecule" == "formula") = false), (by decide : ("molecule" == "molecule") = true),
      if_true, if_false, Bool.false_eq_true, h1, h3]
  obtain ⟨e1, e2⟩ := EndElement_molecule_level env f
    (EndElement.finishMolecule env
      { (DoBonds env { f with _pmol := { f._pmol with Dimension := 0 }, AtomArray := [] }).2 with
        AtomArray := [], BondArray := [], molWideData := [] }).2
    (EndElement.finishMolecule env
      { (DoBonds env { f with _pmol := { f._pmol with Dimension := 0 }, AtomArray := [] }).2 with
        AtomArray := [], BondArray := [], molWideData := [] }).1 hE
  refine ⟨_, ?_, e1, ?_, ?_⟩
  · rw [hE, ← e2]
  · unfold EndElement.finishMolecule
    simp only
    split_ifs <;> rfl
  · unfold EndElement.finishMolecule
    simp only
    split_ifs <;> rfl

/-- The handlers along events of molecule elements that have a start and an end tag
and no `ref`, `d` molecules being open and the counter at `d - 1`: every call
returns, an exit returns false exactly when one molecule is open, and the counter
ends at -1. -/
theorem runMolEvents_nested (env : Env) (events : List MolEvent) :
    ∀ (d : Nat) (f : CMLFormat), Nested d events → (∀ e ∈ events, e.noRef ∧ e.hasEndTag) →
      f._embedlevel = (d : Int) - 1 → (0 < d → f.AtomArray = [] ∧ f.molWideData = []) →
      ∃ g, runMolEvents env events f = Except.ok (exitStops d events, g) ∧ g._embedlevel = -1 := by
  induction events with
  | nil =>
    intro d f hn _ hl _
    have hd : d = 0 := hn
    subst hd
    exact ⟨f, rfl, by rw [hl]; rfl⟩
  | cons e rest ih =>
    intro d f hn hr hl hinv
    cases e with
    | enter attrs =>
      obtain ⟨g, h1, h2, h3, h4⟩ :=
        DoElement_molecule_enter env f attrs (hr _ (List.mem_cons_self _ _)).1
      obtain ⟨k, hk1, hk2⟩ := ih (d + 1) g hn (fun e he => hr e (List.mem_cons_of_mem _ he))
        (by rw [h2, hl]; push_cast; ring) (fun _ => ⟨h3, h4⟩)
      refine ⟨k, ?_, hk2⟩
      simp only [runMolEvents, h1, hk1, exitStops]
    | empty attrs => exact (hr _ (List.mem_cons_self _ _)).2.elim
    | exit =>
      obtain ⟨hd, hn'⟩ := hn
      obtain ⟨hA, hW⟩ := hinv hd
      obtain ⟨g, h1, h2, h3, h4⟩ := EndElement_molecule_exit env f hA hW
      obtain ⟨k, hk1, hk2⟩ := ih (d - 1) g hn' (fun e he => hr e (List.mem_cons_of_mem _ he))
        (by rw [h2, hl]; omega) (fun _ => ⟨h3, h4⟩)
      refine ⟨k, ?_, hk2⟩
      have hb : decide (0 ≤ f._embedlevel - 1) = decide (d ≠ 1) := by
        rw [hl]
        apply decide_eq_decide.mpr
        omega
      simp only [runMolEvents, h1, hk1, exitStops, hb]

/-- Inside an open molecule, a properly nested sequence of events has the value true
for each of its events, and the events after it see the same number of open
molecules. -/
theorem exitStops_inner (xs : List MolEvent) :
    ∀ (c d : Nat) (rest : List MolEvent), Nested c xs →
      exitStops (c + d + 1) (xs ++ rest) = List.replicate xs.length true ++ exitStops (d + 1) rest
      ∧ (Nested (d + 1) rest → Nested (c + d + 1) (xs ++ rest)) := by
  induction xs with
  | nil =>
    intro c d rest hn
    have hc : c = 0 := hn
    subst hc
    simp
  | cons e xs ih =>
    intro c d rest hn
    cases e with
    | enter attrs =>
      obtain ⟨h1, h2⟩ := ih (c + 1) d rest hn
      have e1 : c + 1 + d + 1 = c + d + 1 + 1 := by omega
      rw [e1] at h1 h2
      refine ⟨?_, fun h => h2 h⟩
      simp only [List.cons_append, exitStops, List.length_cons, List.replicate_succ]
      exact congrArg (List.cons true) h1
    | empty attrs =>
      obtain ⟨h1, h2⟩ := ih c d rest hn
      refine ⟨?_, fun h => h2 h⟩
      have hb : decide (c + d + 1 ≠ 0) = true := decide_eq_true (by omega)
      simp only [List.cons_append, exitStops, List.length_cons, List.replicate_succ, hb]
      exact congrArg (List.cons true) h1
    | exit =>
      obtain ⟨hc, hn'⟩ := hn
      obtain ⟨h1, h2⟩ := ih (c - 1) d rest hn'
      have e1 : c - 1 + d + 1 = c + d + 1 - 1 := by omega
      rw [e1] at h1 h2
      refine ⟨?_, fun h => ⟨by omega, h2 h⟩⟩
      have hb : decide (c + d + 1 ≠ 1) = true := decide_eq_true (by omega)
      simp only [List.cons_append, exitStops, List.length_cons, List.replicate_succ, hb]
      exact congrArg (List.cons true) h1

/-- Molecule elements that have a start and an end tag and no `ref` attribute.
Starting with no molecule open (embed counter -1), along every properly nested
sequence of their enter and exit events every handler call returns; `EndElement`
returns stop (false) exactly for an exit that closes the outermost open molecule and
continue (true) for one that closes a nested molecule, and the embed counter ends at
its initial value. When the sequence is one molecule element with properly nested
molecule elements inside, only the last exit returns stop. For any state,
`EndElement` for a molecule returns stop exactly when the counter is at most 0
before it. -/
theorem runMolEvents_stop_at_outermost_exit (env : Env) (f : CMLFormat) (events : List MolEvent)
    (hl : f._embedlevel = -1) (hn : Nested 0 events) (hr : ∀ e ∈ events, e.noRef ∧ e.hasEndTag) :
    (∃ g, runMolEvents env events f = Except.ok (exitStops 0 events, g)
        ∧ g._embedlevel = f._embedlevel
        ∧ ∀ (a : List Attr) (inner : List MolEvent),
            events = MolEvent.enter a :: (inner ++ [MolEvent.exit]) → Nested 0 inner →
            runMolEvents env events f
              = Except.ok (List.replicate (inner.length + 1) true ++ [false], g))
    ∧ ∀ (f1 g1 : CMLFormat) (b : Bool), EndElement env f1 "molecule" = Except.ok (b, g1) →
        (b = false ↔ f1._embedlevel ≤ 0) := by
  constructor
  · obtain ⟨g, h1, h2⟩ := runMolEvents_nested env events 0 f hn hr (by rw [hl]; rfl)
      (fun h => absurd h (lt_irrefl 0))
    refine ⟨g, h1, by rw [h2, hl], ?_⟩
    intro a inner he hi
    rw [h1, he]
    have h3 := (exitStops_inner inner 0 0 [MolEvent.exit] hi).1
    simp only [Nat.zero_add] at h3
    simp only [exitStops, h3, List.replicate_succ, List.cons_append]
    rfl
  · intro f1 g1 b h
    obtain ⟨_, hb⟩ := EndElement_molecule_level env f1 g1 b h
    rw [hb]
    simp only [decide_eq_false_iff_not]
    omega

/-- The events of a molecule element that holds two molecule elements, the second of
which holds another one. -/
theorem runMolEvents_stop_at_outermost_exit_witness :
    ({ sampleNested with _embedlevel := -1 } : CMLFormat)._embedlevel = -1
    ∧ Nested 0 [MolEvent.enter [("id", "m1")], MolEvent.enter [("id", "m2")], MolEvent.exit,
        MolEvent.enter [], MolEvent.enter [("title", "m4")], MolEvent.exit, MolEvent.exit,
        MolEvent.exit]
    ∧ (∀ e ∈ [MolEvent.enter [("id", "m1")], MolEvent.enter [("id", "m2")], MolEvent.exit,
        MolEvent.enter [], MolEvent.enter [("title", "m4")], MolEvent.exit, MolEvent.exit,
        MolEvent.exit], e.noRef ∧ e.hasEndTag)
    ∧ ((∃ g, runMolEvents sampleEnv [MolEvent.enter [("id", "m1")], MolEvent.enter [("id", "m2")],
          MolEvent.exit, MolEvent.enter [], MolEvent.enter [("title", "m4")], MolEvent.exit,
          MolEvent.exit, MolEvent.exit] { sampleNested with _embedlevel := -1 }
          = Except.ok (exitStops 0 [MolEvent.enter [("id", "m1")], MolEvent.enter [("id", "m2")],
              MolEvent.exit, MolEvent.enter [], MolEvent.enter [("title", "m4")], MolEvent.exit,
              MolEvent.exit, MolEvent.exit], g)
        ∧ g._embedlevel = ({ sampleNested with _embedlevel := -1 } : CMLFormat)._embedlevel
        ∧ ∀ (a : List Attr) (inner : List MolEvent),
            [MolEvent.enter [("id", "m1")], MolEvent.enter [("id", "m2")], MolEvent.exit,
              MolEvent.enter [], MolEvent.enter [("title", "m4")], MolEvent.exit, MolEvent.exit,
              MolEvent.exit] = MolEvent.enter a :: (inner ++ [MolEvent.exit]) → Nested 0 inner →
            runMolEvents sampleEnv [MolEvent.enter [("id", "m1")], MolEvent.enter [("id", "m2")],
              MolEvent.exit, MolEvent.enter [], MolEvent.enter [("title", "m4")], MolEvent.exit,
              MolEvent.exit, MolEvent.exit] { sampleNested with _embedlevel := -1 }
              = Except.ok (List.replicate (inner.length + 1) true ++ [false], g))
      ∧ ∀ (f1 g1 : CMLFormat) (b : Bool),
          EndElement sampleEnv f1 "molecule" = Except.ok (b, g1) →
          (b = false ↔ f1._embedlevel ≤ 0)) :=
  ⟨rfl, ⟨by decide, by decide, by decide, by decide, rfl⟩,
    by
      intro e he
      simp only [List.mem_cons, List.mem_singleton, List.not_mem_nil, or_false] at he
      rcases he with h | h | h | h | h | h | h | h <;> subst h <;> exact ⟨by trivial, by trivial⟩,
    runMolEvents_stop_at_outermost_exit sampleEnv { sampleNested with _embedlevel := -1 } _ rfl
      ⟨by decide, by decide, by decide, by decide, rfl⟩
      (by
        intro e he
        simp only [List.mem_cons, List.mem_singleton, List.not_mem_nil, or_false] at he
        rcases he with h | h | h | h | h | h | h | h <;> subst h <;> exact ⟨by trivial, by trivial⟩)⟩

/-- C22 at the failing inputs, both properly nested and starting with the counter
at -1. (1) A self-closing molecule element inside an open molecule: `DoElement`
increments the counter and returns at `if(++_embedlevel) return true`, before the
call of `EndElement` that stands for the end tag of a self-closing element, so the
counter is not decremented; the exit of the outer molecule then returns continue and
the counter ends at 0. (2) A molecule element with a `ref` attribute and an end tag
of its own inside an open molecule: its start tag leaves the counter alone and its
end tag decrements it, so the exit of the nested element returns stop and the
counter ends at -2. In both cases the claim gives stop for the last exit only. In a
stream, reading the first molecule of case (1) does not stop at its end tag: the
call goes on through the next molecule to the end of the stream, where a first
molecule without the nested element is returned with its own atom. Reading the
molecule of case (2) stops at the end tag of the nested element, and the atom after
it is not read. -/
theorem runMolEvents_nested_molecule_miscounted :
    Nested 0 [MolEvent.enter [("id", "m1")], MolEvent.empty [("id", "m2")], MolEvent.exit]
    ∧ exitStops 0 [MolEvent.enter [("id", "m1")], MolEvent.empty [("id", "m2")], MolEvent.exit]
      = [true, true, false]
    ∧ (match runMolEvents sampleEnv [MolEvent.enter [("id", "m1")], MolEvent.empty [("id", "m2")],
          MolEvent.exit] { sampleNested with _embedlevel := -1 } with
        | Except.ok (bs, g) => some (bs, g._embedlevel)
        | Except.error _ => none)
      = some ([true, true, true], 0)
    ∧ Nested 0 [MolEvent.enter [("id", "m1")], MolEvent.enter [("ref", "m0")], MolEvent.exit,
        MolEvent.exit]
    ∧ exitStops 0 [MolEvent.enter [("id", "m1")], MolEvent.enter [("ref", "m0")], MolEvent.exit,
        MolEvent.exit] = [true, true, true, false]
    ∧ (match runMolEvents sampleEnv [MolEvent.enter [("id", "m1")], MolEvent.enter [("ref", "m0")],
          MolEvent.exit, MolEvent.exit] { sampleNested with _embedlevel := -1 } with
        | Except.ok (bs, g) => some (bs, g._embedlevel)
        | Except.error _ => none)
      = some ([true, true, false, false], -2)
    ∧ (match ReadXML sampleEnv 20 { reader := { pending := nestedEmptyStream true } } with
        | Except.ok f => some (f._pmol.atoms.map OBAtom.AtomicNum, f._embedlevel, f.reader.pending.length)
        | Except.error _ => none)
      = some ([8], 0, 0)
    ∧ (match ReadXML sampleEnv 20 { reader := { pending := nestedEmptyStream false } } with
        | Except.ok f => some (f._pmol.atoms.map OBAtom.AtomicNum, f._embedlevel, f.reader.pending.length)
        | Except.error _ => none)
      = some ([6], -1, 3)
    ∧ (match ReadXML sampleEnv 20 { reader := { pending := refInsideMolecule } } with
        | Except.ok f => some (f._pmol.atoms.map OBAtom.AtomicNum, f._embedlevel, f.reader.pending.length)
        | Except.error _ => none)
      = some ([6], -1, 2) := by
  refine ⟨⟨by decide, rfl⟩, by decide, ?_, ⟨by decide, by decide, rfl⟩, by decide, ?_, ?_, ?_, ?_⟩ <;>
    decide!

end OpenBabel

namespace OpenBabel

/-! ## The values that the handlers return -/

theorem EndElement_stop_name (env : Env) (f g : CMLFormat) (name : String)
    (h : EndElement env f name = Except.ok (false, g)) : name = "molecule" := by
  unfold EndElement at h
  split_ifs at h with h1 h2 h3 h4 h5
  · cases h
  · cases h
  · cases h
  · simpa using h4
  · split at h <;> cases h
  · cases h

theorem DoElement_stop_cases (env : Env) (f g : CMLFormat) (name : String)
    (h : DoElement env f name = Except.ok (false, g)) :
    (isBuiltinElement name = true ∧ xmlTextReaderConstValue (xmlTextReaderRead f.reader) = none)
      ∨ (name = "molecule" ∧ xmlTextReaderIsEmptyElement f.reader = 1 ∧ f._embedlevel + 1 = 0) := by
  have key : ∀ (r : xmlTextReader) (x : CMLFormat), ¬ name = "molecule" →
      ¬ (if xmlTextReaderIsEmptyElement r = 1 then EndElement env x name
          else Except.ok (true, x)) = Except.ok (false, g) := by
    intro r x hn hx
    split_ifs at hx
    · exact hn (EndElement_stop_name env x g name hx)
    · cases hx
  unfold DoElement at h
  simp only at h
  by_cases c : (name == "atom") = true
  · rw [if_pos c] at h
    have hn : ¬ name = "molecule" := by
      intro e
      rw [e] at c
      exact absurd c (by decide)
    (repeat' split at h) <;> first
      | exact absurd h (key _ _ hn)
      | exact absurd (EndElement_stop_name _ _ _ _ h) hn
      | cases h
  rw [if_neg c] at h
  clear c
  by_cases c : (name == "bond") = true
  · rw [if_pos c] at h
    have hn : ¬ name = "molecule" := by
      intro e
      rw [e] at c
      exact absurd c (by decide)
    (repeat' split at h) <;> first
      | exact absurd h (key _ _ hn)
      | exact absurd (EndElement_stop_name _ _ _ _ h) hn
      | cases h
  rw [if_neg c] at h
  clear c
  by_cases c : (name == "molecule") = true
  · rw [if_pos c] at h
    have hm : name = "molecule" := by simpa using c
    by_cases r1 : (xmlTextReaderGetAttribute f.reader "ref").isSome = true
    · rw [if_pos r1] at h
      cases h
    rw [if_neg r1] at h
    by_cases r2 : f._embedlevel + 1 ≠ 0
    · rw [if_pos r2] at h
      cases h
    rw [if_neg r2] at h
    by_cases he : xmlTextReaderIsEmptyElement f.reader = 1
    · exact Or.inr ⟨hm, he, by simpa using r2⟩
    · exfalso
      generalize xmlTextReaderGetAttribute f.reader "title" = t1 at h
      generalize xmlTextReaderGetAttribute f.reader "id" = t2 at h
      generalize xmlTextReaderGetAttribute f.reader "molID" = t3 at h
      rcases t1 with _ | t1 <;> rcases t2 with _ | t2 <;> rcases t3 with _ | t3 <;>
        simp only [Option.isNone_none, Option.isNone_some, if_true, if_false, Bool.false_eq_true] at h <;>
        generalize xmlTextReaderGetAttribute f.reader "spinMultiplicity" = t4 at h <;>
        rcases t4 with _ | t4 <;> simp only [he, if_false] at h <;> cases h
  rw [if_neg c] at h
  have hn : ¬ name = "molecule" := by simpa using c
  clear c
  by_cases c : (name == "atomArray") = true
  · rw [if_pos c] at h
    (repeat' split at h) <;> first
      | exact absurd h (key _ _ hn)
      | exact absurd (EndElement_stop_name _ _ _ _ h) hn
      | cases h
  rw [if_neg c] at h
  clear c
  by_cases c : (name == "bondArray") = true
  · rw [if_pos c] at h
    (repeat' split at h) <;> first
      | exact absurd h (key _ _ hn)
      | exact absurd (EndElement_stop_name _ _ _ _ h) hn
      | cases h
  rw [if_neg c] at h
  clear c
  by_cases c : (name == "atomParity" || name == "bondStereo") = true
  · rw [if_pos c] at h
    (repeat' split at h) <;> first
      | exact absurd h (key _ _ hn)
      | exact absurd (EndElement_stop_name _ _ _ _ h) hn
      | cases h
  rw [if_neg c] at h
  clear c
  by_cases c : (name == "name") = true
  · rw [if_pos c] at h
    (repeat' split at h) <;> first
      | exact absurd h (key _ _ hn)
      | exact absurd (EndElement_stop_name _ _ _ _ h) hn
      | cases h
  rw [if_neg c] at h
  clear c
  by_cases c : (name == "formula") = true
  · rw [if_pos c] at h
    (repeat' split at h) <;> first
      | exact absurd h (key _ _ hn)
      | exact absurd (EndElement_stop_name _ _ _ _ h) hn
      | cases h
  rw [if_neg c] at h
  clear c
  by_cases c : (name == "crystal") = true
  · rw [if_pos c] at h
    (repeat' split at h) <;> first
      | exact absurd h (key _ _ hn)
      | exact absurd (EndElement_stop_name _ _ _ _ h) hn
      | cases h
  rw [if_neg c] at h
  clear c
  by_cases c : (name == "scalar") = true
  · rw [if_pos c] at h
    (repeat' split at h) <;> first
      | exact absurd h (key _ _ hn)
      | exact absurd (EndElement_stop_name _ _ _ _ h) hn
      | cases h
  rw [if_neg c] at h
  clear c
  by_cases c : (name == "symmetry") = true
  · rw [if_pos c] at h
    (repeat' split at h) <;> first
      | exact absurd h (key _ _ hn)
      | exact absurd (EndElement_stop_name _ _ _ _ h) hn
      | cases h
  rw [if_neg c] at h
  clear c
  by_cases c : (name == "transform3") = true
  · rw [if_pos c] at h
    (repeat' split at h) <;> first
      | exact absurd h (key _ _ hn)
      | exact absurd (EndElement_stop_name _ _ _ _ h) hn
      | cases h
  rw [if_neg c] at h
  clear c
  by_cases c : (name == "property") = true
  · rw [if_pos c] at h
    (repeat' split at h) <;> first
      | exact absurd h (key _ _ hn)
      | exact absurd (EndElement_stop_name _ _ _ _ h) hn
      | cases h
  rw [if_neg c] at h
  clear c
  by_cases c : (name == "string" || name == "float" || name == "integer"
      || name == "coordinate3" || name == "coordinate2") = true
  · rw [if_pos c] at h
    split at h
    · left
      refine ⟨?_, by assumption⟩
      unfold isBuiltinElement
      simp only [Bool.or_eq_true] at c ⊢
      tauto
    · exact absurd h (key _ _ hn)
  rw [if_neg c] at h
  clear c
  by_cases c : (name == "stringArray" || name == "floatArray" || name == "integerArray") = true
  · rw [if_pos c] at h
    split at h
    · left
      refine ⟨?_, by assumption⟩
      unfold isBuiltinElement
      simp only [Bool.or_eq_true] at c ⊢
      tauto
    · (repeat' split at h) <;> first
        | exact absurd h (key _ _ hn)
        | exact absurd (EndElement_stop_name _ _ _ _ h) hn
        | cases h
  rw [if_neg c] at h
  exact absurd h (key _ _ hn)

/-- `EndElement` for an element that is not a molecule returns continue; for a
symmetry element it needs the unit cell. -/
theorem EndElement_continue (env : Env) (x : CMLFormat) (name : String)
    (hn : ¬ name = "molecule") (hs : name = "symmetry" → x.pUnitCell ≠ none) :
    ∃ g, EndElement env x name = Except.ok (true, g) := by
  unfold EndElement
  split_ifs with h1 h2 h3 h4 h5
  · exact ⟨_, rfl⟩
  · exact ⟨_, rfl⟩
  · exact ⟨_, rfl⟩
  · exact absurd (by simpa using h4) hn
  · cases hp : x.pUnitCell with
    | none => exact absurd hp (hs (by simpa using h5))
    | some i => exact ⟨_, rfl⟩
  · exact ⟨_, rfl⟩

theorem isBuiltinElement_of_scalar (name : String)
    (c : (name == "string" || name == "float" || name == "integer"
      || name == "coordinate3" || name == "coordinate2") = true) : isBuiltinElement name = true := by
  unfold isBuiltinElement
  simp only [Bool.or_eq_true] at c ⊢
  tauto

theorem isBuiltinElement_of_array (name : String)
    (c : (name == "stringArray" || name == "floatArray" || name == "integerArray") = true) :
    isBuiltinElement name = true := by
  unfold isBuiltinElement
  simp only [Bool.or_eq_true] at c ⊢
  tauto

set_option maxHeartbeats 1600000 in
/-- `DoElement` returns continue outside the cases in which it stops and the cases in
which one of its operations is undefined. -/
theorem DoElement_continue (env : Env) (f : CMLFormat) (name : String)
    (hS1 : ¬ (name = "molecule" ∧ xmlTextReaderGetAttribute f.reader "ref" = none
      ∧ xmlTextReaderIsEmptyElement f.reader = 1 ∧ f._embedlevel + 1 = 0))
    (hS2 : isBuiltinElement name = true →
      xmlTextReaderConstValue (xmlTextReaderRead f.reader) ≠ none)
    (hU1 : name = "name" → xmlTextReaderConstValue (xmlTextReaderRead f.reader) ≠ none)
    (hU2 : name = "property" → xmlTextReaderGetAttribute f.reader "dictRef" = some "Thermo_OldNasa" →
      ∃ g, ReadNasaThermo f = Except.ok g)
    (hU3 : name = "symmetry" → xmlTextReaderIsEmptyElement f.reader = 1 → f.pUnitCell ≠ none) :
    ∃ g, DoElement env f name = Except.ok (true, g) := by
  unfold DoElement
  simp only
  by_cases c : (name == "atom") = true
  · rw [if_pos c]
    have hn : ¬ name = "molecule" := by
      intro e
      rw [e] at c
      exact absurd c (by decide)
    have hsym : ¬ name = "symmetry" := by
      intro e
      rw [e] at c
      exact absurd c (by decide)
    (repeat' split) <;> first
      | exact ⟨_, rfl⟩
      | exact EndElement_continue env _ name hn (fun e => absurd e hsym)
  rw [if_neg c]
  clear c
  by_cases c : (name == "bond") = true
  · rw [if_pos c]
    have hn : ¬ name = "molecule" := by
      intro e
      rw [e] at c
      exact absurd c (by decide)
    have hsym : ¬ name = "symmetry" := by
      intro e
      rw [e] at c
      exact absurd c (by decide)
    (repeat' split) <;> first
      | exact ⟨_, rfl⟩
      | exact EndElement_continue env _ name hn (fun e => absurd e hsym)
  rw [if_neg c]
  clear c
  by_cases c : (name == "molecule") = true
  · rw [if_pos c]
    have hm : name = "molecule" := by simpa using c
    by_cases r1 : (xmlTextReaderGetAttribute f.reader "ref").isSome = true
    · rw [if_pos r1]
      exact ⟨_, rfl⟩
    rw [if_neg r1]
    by_cases r2 : f._embedlevel + 1 ≠ 0
    · rw [if_pos r2]
      exact ⟨_, rfl⟩
    rw [if_neg r2]
    have he : ¬ xmlTextReaderIsEmptyElement f.reader = 1 := fun he =>
      hS1 ⟨hm, by simpa using r1, he, by simpa using r2⟩
    generalize xmlTextReaderGetAttribute f.reader "title" = t1
    generalize xmlTextReaderGetAttribute f.reader "id" = t2
    generalize xmlTextReaderGetAttribute f.reader "molID" = t3
    rcases t1 with _ | t1 <;> rcases t2 with _ | t2 <;> rcases t3 with _ | t3 <;>
      simp only [Option.isNone_none, Option.isNone_some, if_true, if_false, Bool.false_eq_true] <;>
      generalize xmlTextReaderGetAttribute f.reader "spinMultiplicity" = t4 <;>
      rcases t4 with _ | t4 <;> simp only [he, if_false] <;> exact ⟨_, rfl⟩
  rw [if_neg c]
  have hn : ¬ name = "molecule" := by simpa using c
  clear c
  by_cases c : (name == "atomArray") = true
  · rw [if_pos c]
    have hsym : ¬ name = "symmetry" := by
      intro e
      rw [e] at c
      exact absurd c (by decide)
    (repeat' split) <;> first
      | exact ⟨_, rfl⟩
      | exact EndElement_continue env _ name hn (fun e => absurd e hsym)
  rw [if_neg c]
  clear c
  by_cases c : (name == "bondArray") = true
  · rw [if_pos c]
    have hsym : ¬ name = "symmetry" := by
      intro e
      rw [e] at c
      exact absurd c (by decide)
    (repeat' split) <;> first
      | exact ⟨_, rfl⟩
      | exact EndElement_continue env _ name hn (fun e => absurd e hsym)
  rw [if_neg c]
  clear c
  by_cases c : (name == "atomParity" || name == "bondStereo") = true
  · rw [if_pos c]
    have hsym : ¬ name = "symmetry" := by
      intro e
      rw [e] at c
      exact absurd c (by decide)
    (repeat' split) <;> first
      | exact ⟨_, rfl⟩
      | exact EndElement_continue env _ name hn (fun e => absurd e hsym)
  rw [if_neg c]
  clear c
  by_cases c : (name == "name") = true
  · rw [if_pos c]
    have hsym : ¬ name = "symmetry" := by
      intro e
      rw [e] at c
      exact absurd c (by decide)
    have hv := hU1 (by simpa using c)
    (repeat' split) <;> first
      | exact ⟨_, rfl⟩
      | exact EndElement_continue env _ name hn (fun e => absurd e hsym)
      | exact absurd (by assumption) hv
  rw [if_neg c]
  clear c
  by_cases c : (name == "formula") = true
  · rw [if_pos c]
    have hsym : ¬ name = "symmetry" := by
      intro e
      rw [e] at c
      exact absurd c (by decide)
    (repeat' split) <;> first
      | exact ⟨_, rfl⟩
      | exact EndElement_continue env _ name hn (fun e => absurd e hsym)
  rw [if_neg c]
  clear c
  by_cases c : (name == "crystal") = true
  · rw [if_pos c]
    have hsym : ¬ name = "symmetry" := by
      intro e
      rw [e] at c
      exact absurd c (by decide)
    (repeat' split) <;> first
      | exact ⟨_, rfl⟩
      | exact EndElement_continue env _ name hn (fun e => absurd e hsym)
  rw [if_neg c]
  clear c
  by_cases c : (name == "scalar") = true
  · rw [if_pos c]
    have hsym : ¬ name = "symmetry" := by
      intro e
      rw [e] at c
      exact absurd c (by decide)
    (repeat' split) <;> first
      | exact ⟨_, rfl⟩
      | exact EndElement_continue env _ name hn (fun e => absurd e hsym)
  rw [if_neg c]
  clear c
  by_cases c : (name == "symmetry") = true
  · rw [if_pos c]
    have hsym : name = "symmetry" := by simpa using c
    (repeat' split) <;> first
      | exact ⟨_, rfl⟩
      | exact EndElement_continue env _ name hn (fun _ => hU3 hsym (by assumption))
  rw [if_neg c]
  have hsym : ¬ name = "symmetry" := by simpa using c
  clear c
  by_cases c : (name == "transform3") = true
  · rw [if_pos c]
    (repeat' split) <;> first
      | exact ⟨_, rfl⟩
      | exact EndElement_continue env _ name hn (fun e => absurd e hsym)
  rw [if_neg c]
  clear c
  by_cases c : (name == "property") = true
  · rw [if_pos c]
    by_cases d : (xmlTextReaderGetAttribute f.reader "dictRef" == some "Thermo_OldNasa") = true
    · rw [if_pos d]
      obtain ⟨g, hg⟩ := hU2 (by simpa using c) (by simpa using d)
      rw [hg]
      simp only []
      (repeat' split) <;> first
        | exact ⟨_, rfl⟩
        | exact EndElement_continue env _ name hn (fun e => absurd e hsym)
    · rw [if_neg d]
      (repeat' split) <;> first
        | exact ⟨_, rfl⟩
        | exact EndElement_continue env _ name hn (fun e => absurd e hsym)
  rw [if_neg c]
  clear c
  by_cases c : (name == "string" || name == "float" || name == "integer"
      || name == "coordinate3" || name == "coordinate2") = true
  · rw [if_pos c]
    have hv := hS2 (isBuiltinElement_of_scalar name c)
    (repeat' split) <;> first
      | exact ⟨_, rfl⟩
      | exact EndElement_continue env _ name hn (fun e => absurd e hsym)
      | exact absurd (by assumption) hv
  rw [if_neg c]
  clear c
  by_cases c : (name == "stringArray" || name == "floatArray" || name == "integerArray") = true
  · rw [if_pos c]
    have hv := hS2 (isBuiltinElement_of_array name c)
    (repeat' split) <;> first
      | exact ⟨_, rfl⟩
      | exact EndElement_continue env _ name hn (fun e => absurd e hsym)
      | exact absurd (by assumption) hv
  rw [if_neg c]
  (repeat' split) <;> first
    | exact ⟨_, rfl⟩
    | exact EndElement_continue env _ name hn (fun e => absurd e hsym)

/-- A CML1 scalar or array element that is not followed by text: `DoElement`
returns stop. -/
theorem DoElement_stops_without_text (env : Env) (f : CMLFormat) (name : String)
    (hb : isBuiltinElement name = true)
    (hv : xmlTextReaderConstValue (xmlTextReaderRead f.reader) = none) :
    DoElement env f name
      = Except.ok (false, { f with reader := xmlTextReaderRead f.reader }) := by
  unfold isBuiltinElement at hb
  simp only [Bool.or_eq_true, beq_iff_eq] at hb
  rcases hb with ((((((h | h) | h) | h) | h) | h) | h) | h <;> subst h <;>
    simp [DoElement, hv]

/-- The end of the only open molecule, with no atom record and no molecule-wide
data: `EndElement` returns stop. -/
theorem EndElement_outermost_stops (env : Env) (x : CMLFormat) (hA : x.AtomArray = [])
    (hW : x.molWideData = []) (hl : x._embedlevel = 0) :
    ∃ g, EndElement env x "molecule" = Except.ok (false, g) := by
  obtain ⟨g, hg, _⟩ := EndElement_molecule_exit env x hA hW
  rw [hl] at hg
  exact ⟨g, hg⟩

/-- The self-closing molecule element without `ref` that opens the outermost
molecule: `DoElement` resets the buffers, calls `EndElement` for the end tag that
the element does not have, and returns stop. -/
theorem DoElement_outermost_empty_stops (env : Env) (f : CMLFormat)
    (hr : xmlTextReaderGetAttribute f.reader "ref" = none)
    (he : xmlTextReaderIsEmptyElement f.reader = 1) (hl : f._embedlevel + 1 = 0) :
    ∃ g, DoElement env f "molecule" = Except.ok (false, g) := by
  unfold DoElement
  simp only [(by decide : ("molecule" == "atom") = false), (by decide : ("molecule" == "bond") = false),
    (by decide : ("molecule" == "molecule") = true), if_true, if_false, Bool.false_eq_true,
    hr, Option.isSome_none, hl, ne_eq, not_true_eq_false, he]
  generalize xmlTextReaderGetAttribute f.reader "title" = t1
  generalize xmlTextReaderGetAttribute f.reader "id" = t2
  generalize xmlTextReaderGetAttribute f.reader "molID" = t3
  rcases t1 with _ | t1 <;> rcases t2 with _ | t2 <;> rcases t3 with _ | t3 <;>
    simp only [Option.isNone_none, Option.isNone_some, if_true, if_false, Bool.false_eq_true] <;>
    generalize xmlTextReaderGetAttribute f.reader "spinMultiplicity" = t4 <;>
    rcases t4 with _ | t4 <;>
    (simp only [he, if_true]
     exact EndElement_outermost_stops env _ rfl rfl rfl)

/-- C23, amended: for every element name and every reader state in which the
operations of the handler are defined (the element is not a `name` element without
text, not a self-closing `symmetry` element met when no unit cell exists, and not an
old-NASA thermo `property` block whose reading fails), `DoElement` returns continue
(true) unless it is closing the outermost molecule through the synthesized exit of a
self-closing molecule element, or the element is a CML1 scalar or array element
(string, float, integer, coordinate2, coordinate3, stringArray, floatArray,
integerArray) that is not followed by text; in these two cases it returns stop, and
it returns stop in no other case. `EndElement` returns stop only for a molecule
element, and only when no other molecule is counted as open (the embed counter is at
most 0 before the call); for every other element it returns continue, a `symmetry`
element needing the unit cell. -/
theorem handlers_stop_cases (env : Env) (f : CMLFormat) (name : String) :
    (¬ (name = "molecule" ∧ xmlTextReaderGetAttribute f.reader "ref" = none
          ∧ xmlTextReaderIsEmptyElement f.reader = 1 ∧ f._embedlevel + 1 = 0) →
      (isBuiltinElement name = true →
        xmlTextReaderConstValue (xmlTextReaderRead f.reader) ≠ none) →
      (name = "name" → xmlTextReaderConstValue (xmlTextReaderRead f.reader) ≠ none) →
      (name = "property" → xmlTextReaderGetAttribute f.reader "dictRef" = some "Thermo_OldNasa" →
        ∃ g, ReadNasaThermo f = Except.ok g) →
      (name = "symmetry" → xmlTextReaderIsEmptyElement f.reader = 1 → f.pUnitCell ≠ none) →
      ∃ g, DoElement env f name = Except.ok (true, g))
    ∧ (name = "molecule" → xmlTextReaderGetAttribute f.reader "ref" = none →
        xmlTextReaderIsEmptyElement f.reader = 1 → f._embedlevel + 1 = 0 →
        ∃ g, DoElement env f name = Except.ok (false, g))
    ∧ (isBuiltinElement name = true →
        xmlTextReaderConstValue (xmlTextReaderRead f.reader) = none →
        ∃ g, DoElement env f name = Except.ok (false, g))
    ∧ (∀ g, DoElement env f name = Except.ok (false, g) →
        (isBuiltinElement name = true ∧ xmlTextReaderConstValue (xmlTextReaderRead f.reader) = none)
          ∨ (name = "molecule" ∧ xmlTextReaderIsEmptyElement f.reader = 1 ∧ f._embedlevel + 1 = 0))
    ∧ (∀ g, EndElement env f name = Except.ok (false, g) → name = "molecule" ∧ f._embedlevel ≤ 0)
    ∧ (¬ name = "molecule" → (name = "symmetry" → f.pUnitCell ≠ none) →
        ∃ g, EndElement env f name = Except.ok (true, g)) := by
  refine ⟨DoElement_continue env f name, ?_, ?_, fun g => DoElement_stop_cases env f g name, ?_,
    EndElement_continue env f name⟩
  · intro hm hr he hl
    subst hm
    exact DoElement_outermost_empty_stops env f hr he hl
  · intro hb hv
    exact ⟨_, DoElement_stops_without_text env f name hb hv⟩
  · intro g h
    have hn := EndElement_stop_name env f g name h
    subst hn
    obtain ⟨_, hb⟩ := EndElement_molecule_level env f g false h
    refine ⟨rfl, ?_⟩
    have := (decide_eq_false_iff_not.1 hb.symm)
    omega

/-- C23, witness of the amended claim: `DoElement` for the start tag of a nested
molecule element returns continue; for a self-closing molecule element with no
molecule open it returns stop; for a `string` element without text it returns stop;
`EndElement` for an atom element returns continue. -/
theorem handlers_stop_cases_witness :
    (∃ g, DoElement sampleEnv sampleNested "molecule" = Except.ok (true, g))
    ∧ (∃ g, DoElement sampleEnv
          { reader := { node := some (XmlNode.element "molecule" [("id", "m")] true) } } "molecule"
        = Except.ok (false, g))
    ∧ (∃ g, DoElement sampleEnv sampleEmptyString "string" = Except.ok (false, g))
    ∧ (∃ g, EndElement sampleEnv sampleNested "atom" = Except.ok (true, g)) :=
  ⟨(handlers_stop_cases sampleEnv sampleNested "molecule").1 (by decide) (by decide) (by decide)
      (fun h => absurd h (by decide)) (by decide),
    (handlers_stop_cases sampleEnv
      { reader := { node := some (XmlNode.element "molecule" [("id", "m")] true) } } "molecule").2.1
      rfl (by decide) (by decide) (by decide),
    (handlers_stop_cases sampleEnv sampleEmptyString "string").2.2.1 (by decide) (by decide),
    (handlers_stop_cases sampleEnv sampleNested "atom").2.2.2.2.2 (by decide) (by decide)⟩

/-- C23, counterexample: the document has a CML1 `string` element without text
inside an atom element. `DoElement` returns stop (false) at its start tag, which is
not the synthesized exit of a molecule element, and the dispatcher stops there: the
atom that follows is never read, where the same document with the text `C` in the
element gives a molecule with two atoms. -/
theorem DoElement_string_without_text_stops :
    returnOf (DoElement sampleEnv sampleEmptyString "string") = some false
    ∧ (readDocument sampleEnv {}
        [XmlNode.element "molecule" [("id", "m")] false,
         XmlNode.element "atom" [("id", "a1")] false,
         XmlNode.element "string" [("builtin", "elementType")] false,
         XmlNode.endElement "string",
         XmlNode.endElement "atom",
         XmlNode.element "atom" [("id", "a2"), ("elementType", "O")] true,
         XmlNode.endElement "molecule"]).map (fun m => m.atoms.map (·.AtomicNum)) = some []
    ∧ (readDocument sampleEnv {}
        [XmlNode.element "molecule" [("id", "m")] false,
         XmlNode.element "atom" [("id", "a1")] false,
         XmlNode.element "string" [("builtin", "elementType")] false,
         XmlNode.text "C",
         XmlNode.endElement "string",
         XmlNode.endElement "atom",
         XmlNode.element "atom" [("id", "a2"), ("elementType", "O")] true,
         XmlNode.endElement "molecule"]).map (fun m => m.atoms.map (·.AtomicNum)) = some [6, 8] := by
  refine ⟨?_, ?_, ?_⟩ <;> decide!

end OpenBabel

namespace OpenBabel

/-! ## What a molecule element resets -/

/-- C24 at the failing input: two streams end with the same molecule, which has a
crystal element whose symmetry element has no `spaceGroup` attribute and one
transform. In the first stream the molecule before it has the space group name
`P 1`, in the second `C 2`. The space group name is not among the members that a
molecule element resets, so the unit cell of the last molecule gets the name of the
molecule before it, and the two graphs produced for the last molecule differ. -/
theorem ReadXML_space_group_name_carried_over :
    (readSecond sampleEnv (crystalMolecule "m1" "C" [("spaceGroup", "P 1")] [])
        (crystalMolecule "m2" "O" []
          [XmlNode.element "transform3" [] false, XmlNode.text "-x,-y,-z",
           XmlNode.endElement "transform3"])).map (fun m => (m.atoms.map (·.AtomicNum), m.data))
      = some ([8],
          [OBGenericData.UnitCell { vals := ["10", "10", "10", "10", "10", "10"], SpaceGroupName := "P 1" }])
    ∧ (readSecond sampleEnv (crystalMolecule "m1" "C" [("spaceGroup", "C 2")] [])
        (crystalMolecule "m2" "O" []
          [XmlNode.element "transform3" [] false, XmlNode.text "-x,-y,-z",
           XmlNode.endElement "transform3"])).map (fun m => (m.atoms.map (·.AtomicNum), m.data))
      = some ([8],
          [OBGenericData.UnitCell { vals := ["10", "10", "10", "10", "10", "10"], SpaceGroupName := "C 2" }])
    ∧ (match ReadXML sampleEnv 40
        (({} : CMLFormat).onNodes (crystalMolecule "m1" "C" [("spaceGroup", "P 1")]
            [XmlNode.element "transform3" [] false, XmlNode.text "x,y,z",
             XmlNode.endElement "transform3"])) with
      | Except.ok f => some (f._embedlevel, f.SpaceGroupName, f._SpaceGroup.transforms)
      | Except.error _ => none) = some (-1, "P 1", ["x,y,z"]) := by
  decide!

end OpenBabel

namespace OpenBabel

/-! ## The identifiers of atoms with atom classes -/

theorem intToDec_natCast (n : Nat) : intToDec ((n : Nat) : Int) = String.mk (natToDec n) := by
  unfold intToDec
  rw [if_neg (by omega)]
  simp

theorem natToDec_head_digit (n : Nat) (c : Char) (cs : List Char) (h : natToDec n = c :: cs) :
    c.isDigit = true :=
  natToDec_digits n c (by rw [h]; exact List.mem_cons_self _ _)

theorem intToDec_injective (z w : Int) (h : intToDec z = intToDec w) : z = w := by
  unfold intToDec at h
  by_cases hz : z < 0 <;> by_cases hw : w < 0
  · rw [if_pos hz, if_pos hw] at h
    have h1 : natToDec z.natAbs = natToDec w.natAbs := by
      have := congrArg String.data h
      simpa using this
    have := natToDec_injective _ _ h1
    omega
  · rw [if_pos hz, if_neg hw] at h
    have h1 : natToDec w.natAbs = '-' :: natToDec z.natAbs := (congrArg String.data h).symm
    exact absurd (natToDec_head_digit _ _ _ h1) (by decide)
  · rw [if_neg hz, if_pos hw] at h
    have h1 : natToDec z.natAbs = '-' :: natToDec w.natAbs := congrArg String.data h
    exact absurd (natToDec_head_digit _ _ _ h1) (by decide)
  · rw [if_neg hz, if_neg hw] at h
    have h1 : natToDec z.natAbs = natToDec w.natAbs := congrArg String.data h
    have := natToDec_injective _ _ h1
    omega

theorem lowercaseLetter_toNat : ∀ k, k ≤ 26 → (lowercaseLetter k).toNat = 96 + k := by decide

theorem lowercaseLetter_le_z : ∀ k, k ≤ 26 → ¬ (lowercaseLetter k > 'z') := by decide

theorem lowercaseLetter_range : ∀ k, 1 ≤ k → k ≤ 26 → 'a' ≤ lowercaseLetter k ∧ lowercaseLetter k ≤ 'z' := by
  decide

theorem lowercaseLetter_not_digit : ∀ k, k ≤ 26 → (lowercaseLetter k).isDigit = false := by decide

theorem lowercaseLetter_injective (j k : Nat) (hj : j ≤ 26) (hk : k ≤ 26)
    (h : lowercaseLetter j = lowercaseLetter k) : j = k := by
  have := congrArg Char.toNat h
  rw [lowercaseLetter_toNat j hj, lowercaseLetter_toNat k hk] at this
  omega

theorem OBMol.classCount_succ (mol : OBMol) (ac : Int) (n : Nat) :
    mol.classCount ac (n + 1)
      = mol.classCount ac n + (if mol.classOf (n + 1) = some ac then 1 else 0) := by
  unfold OBMol.classCount
  rw [List.range_succ, List.countP_append]
  by_cases h : mol.classOf (n + 1) = some ac
  · simp [h]
  · simp [h]

theorem OBMol.classCount_mono (mol : OBMol) (ac : Int) (m n : Nat) (h : m ≤ n) :
    mol.classCount ac m ≤ mol.classCount ac n := by
  induction n with
  | zero =>
    have : m = 0 := by omega
    rw [this]
  | succ n ih =>
    by_cases hm : m = n + 1
    · rw [hm]
    · have := ih (by omega)
      rw [OBMol.classCount_succ]
      omega

theorem OBMol.classCount_le (mol : OBMol) (ac : Int) (n : Nat) : mol.classCount ac n ≤ n := by
  unfold OBMol.classCount
  exact le_trans (List.countP_le_length _) (by simp)

theorem lookup_filter_ne (l : List (Int × Char)) (ac k : Int) (h : k ≠ ac) :
    (l.filter (fun e => e.1 != ac)).lookup k = l.lookup k := by
  induction l with
  | nil => rfl
  | cons e rest ih =>
    obtain ⟨a, c⟩ := e
    by_cases ha : a = ac
    · subst ha
      have hk : (k == a) = false := by simpa using h
      simp [List.filter, List.lookup, hk, ih]
    · have hf : (a != ac) = true := by simpa using ha
      simp only [List.filter, hf, List.lookup]
      rw [ih]

/-- The loop of `MakeAtomIds` from the atom of index `m + 1` on, when the map holds
for each class the letter of the number of its atoms so far and no class has more
than 26 atoms: the identifiers are those of the claim and nothing is logged. -/
theorem MakeAtomIds.loop_classes (title : String) (mol : OBMol) (len : Nat) :
    ∀ (m : Nat) (acmap : List (Int × Char)),
      (∀ ac, acmap.lookup ac
        = if mol.classCount ac m = 0 then none else some (lowercaseLetter (mol.classCount ac m))) →
      (∀ ac, mol.classCount ac (m + len) ≤ 26) →
      MakeAtomIds.loop title mol.atomClasses
          ((List.range' m len).map fun i => ((i + 1 : Nat) : Int)) acmap
        = ((List.range' m len).map fun i => classAtomId mol (i + 1), []) := by
  induction len with
  | zero => intro m acmap _ _; rfl
  | succ len ih =>
    intro m acmap hinv hb
    have hb' : ∀ ac, mol.classCount ac (m + 1 + len) ≤ 26 := by
      intro ac
      have := hb ac
      rwa [show m + (len + 1) = m + 1 + len by omega] at this
    rw [List.range'_succ, List.map_cons, List.map_cons, MakeAtomIds.loop]
    cases hc : mol.classOf (m + 1) with
    | none =>
      have hc' : (mol.atomClasses.bind fun cls => cls.lookup ((m + 1 : Nat) : Int)) = none := hc
      have hcount : ∀ ac, mol.classCount ac (m + 1) = mol.classCount ac m := by
        intro ac
        rw [OBMol.classCount_succ, hc]
        simp
      have hinv' : ∀ ac, acmap.lookup ac
          = if mol.classCount ac (m + 1) = 0 then none
            else some (lowercaseLetter (mol.classCount ac (m + 1))) := by
        intro ac
        rw [hcount ac]
        exact hinv ac
      simp only [hc', ih (m + 1) acmap hinv' hb']
      unfold classAtomId
      rw [hc]
    | some ac =>
      have hc' : (mol.atomClasses.bind fun cls => cls.lookup ((m + 1 : Nat) : Int)) = some ac := hc
      have hcount : mol.classCount ac (m + 1) = mol.classCount ac m + 1 := by
        rw [OBMol.classCount_succ, hc]
        simp
      have hcount' : ∀ k, k ≠ ac → mol.classCount k (m + 1) = mol.classCount k m := by
        intro k hk
        rw [OBMol.classCount_succ, hc]
        have : ¬ (some ac = some k) := fun h => hk (Option.some.inj h).symm
        simp [this]
      have hle : mol.classCount ac (m + 1) ≤ 26 :=
        le_trans (OBMol.classCount_mono mol ac _ _ (by omega)) (hb' ac)
      have hinv' : ∀ k, ((ac, lowercaseLetter (mol.classCount ac (m + 1)))
            :: acmap.filter (fun e => e.1 != ac)).lookup k
          = if mol.classCount k (m + 1) = 0 then none
            else some (lowercaseLetter (mol.classCount k (m + 1))) := by
        intro k
        by_cases hk : k = ac
        · subst hk
          rw [if_neg (by omega)]
          simp [List.lookup]
        · have hk2 : (k == ac) = false := by simpa using hk
          simp only [List.lookup, hk2]
          rw [lookup_filter_ne _ _ _ hk, hcount' k hk]
          exact hinv k
      have hid : classAtomId mol (m + 1)
          = String.mk ('a' :: lowercaseLetter (mol.classCount ac (m + 1)) :: (intToDec ac).data) := by
        unfold classAtomId
        rw [hc]
      have hstep : ∀ ch : Char, ch = lowercaseLetter (mol.classCount ac (m + 1)) →
          (String.mk ('a' :: ch :: (intToDec ac).data)
              :: (MakeAtomIds.loop title mol.atomClasses
                    ((List.range' (m + 1) len).map fun i => ((i + 1 : Nat) : Int))
                    ((ac, ch) :: acmap.filter (fun e => e.1 != ac))).1,
            (if ch > 'z' then
                [(⟨title, "CML: too many atoms with same atom class.", obMessageLevel.obError⟩
                  : LogEntry)]
              else [])
              ++ (MakeAtomIds.loop title mol.atomClasses
                    ((List.range' (m + 1) len).map fun i => ((i + 1 : Nat) : Int))
                    ((ac, ch) :: acmap.filter (fun e => e.1 != ac))).2)
          = (classAtomId mol (m + 1) :: (List.range' (m + 1) len).map fun i => classAtomId mol (i + 1),
              []) := by
        intro ch hch
        subst hch
        rw [ih (m + 1) _ hinv' hb', if_neg (lowercaseLetter_le_z _ hle), hid]
        rfl
      simp only [hc']
      rw [hinv ac]
      by_cases h0 : mol.classCount ac m = 0
      · rw [if_pos h0]
        exact hstep 'a' (by rw [hcount, h0]; rfl)
      · rw [if_neg h0]
        exact hstep _ (by
          show Char.ofNat ((lowercaseLetter (mol.classCount ac m)).toNat + 1) = _
          rw [lowercaseLetter_toNat _ (by omega), hcount]
          rfl)

/-- `MakeAtomIds` when no class has more than 26 atoms. -/
theorem MakeAtomIds_classes (title : String) (mol : OBMol)
    (h26 : ∀ ac, mol.classCount ac mol.atoms.length ≤ 26) :
    MakeAtomIds title mol
      = ("Error" :: (List.range mol.atoms.length).map fun i => classAtomId mol (i + 1), []) := by
  unfold MakeAtomIds
  have := MakeAtomIds.loop_classes title mol mol.atoms.length 0 []
    (fun ac => by simp [OBMol.classCount]) (fun ac => by simpa using h26 ac)
  rw [← List.range_eq_range'] at this
  rw [this]

theorem classAtomId_injective (mol : OBMol) (n : Nat) (h26 : ∀ ac, mol.classCount ac n ≤ 26)
    (i j : Nat) (hi : i ≤ n) (hj : j ≤ n) (hi1 : 1 ≤ i) (hj1 : 1 ≤ j)
    (h : classAtomId mol i = classAtomId mol j) : i = j := by
  have key : ∀ (a b : Nat) (ac : Int), a < b → b ≤ n → 1 ≤ b → mol.classOf b = some ac →
      mol.classCount ac a < mol.classCount ac b := by
    intro a b ac hab _ hb1 hcb
    obtain ⟨b', rfl⟩ : ∃ b', b = b' + 1 := ⟨b - 1, by omega⟩
    have h1 := OBMol.classCount_mono mol ac a b' (by omega)
    rw [OBMol.classCount_succ, if_pos hcb]
    omega
  unfold classAtomId at h
  cases hci : mol.classOf i with
  | none =>
    cases hcj : mol.classOf j with
    | none =>
      rw [hci, hcj] at h
      have h := congrArg String.data h
      simp only [List.cons.injEq, true_and] at h
      have h2 : intToDec ((i : Nat) : Int) = intToDec ((j : Nat) : Int) := String.ext h
      have := intToDec_injective _ _ h2
      omega
    | some b =>
      rw [hci, hcj] at h
      have h := congrArg String.data h
      simp only [List.cons.injEq, true_and] at h
      rw [intToDec_natCast] at h
      have hd := natToDec_head_digit _ _ _ h
      rw [lowercaseLetter_not_digit _ (le_trans (OBMol.classCount_mono mol b _ _ hj) (h26 b))] at hd
      exact absurd hd (by decide)
  | some a =>
    cases hcj : mol.classOf j with
    | none =>
      rw [hci, hcj] at h
      have h := congrArg String.data h
      simp only [List.cons.injEq, true_and] at h
      rw [intToDec_natCast] at h
      have hd := natToDec_head_digit _ _ _ h.symm
      rw [lowercaseLetter_not_digit _ (le_trans (OBMol.classCount_mono mol a _ _ hi) (h26 a))] at hd
      exact absurd hd (by decide)
    | some b =>
      rw [hci, hcj] at h
      have h := congrArg String.data h
      simp only [List.cons.injEq, true_and] at h
      obtain ⟨hl, hd⟩ := h
      have hab : a = b := intToDec_injective _ _ (String.ext hd)
      subst hab
      have hk := lowercaseLetter_injective _ _
        (le_trans (OBMol.classCount_mono mol a _ _ hi) (h26 a))
        (le_trans (OBMol.classCount_mono mol a _ _ hj) (h26 a)) hl
      rcases Nat.lt_trichotomy i j with hlt | heq | hgt
      · have := key i j a hlt hj hj1 hcj
        omega
      · exact heq
      · have := key j i a hgt hi hi1 hci
        omega

/-- C25: for every molecule and every atom class data in which no class is shared
by more than 26 atoms, `MakeAtomIds` returns one entry more than the molecule has
atoms and logs nothing. The entry of an atom without a class is the letter a followed
by the atom index; the entry of the `k`-th atom of a class is the letter a, the `k`-th
lowercase letter and the class number, with `k` between 1 and 26. The entries 1 to N
are pairwise distinct. -/
theorem MakeAtomIds_class_letters (title : String) (mol : OBMol)
    (h26 : ∀ ac, mol.classCount ac mol.atoms.length ≤ 26) :
    (MakeAtomIds title mol).1.length = mol.atoms.length + 1
    ∧ (MakeAtomIds title mol).2 = []
    ∧ (∀ idx : Nat, 1 ≤ idx → idx ≤ mol.atoms.length →
        (mol.classOf idx = none →
          idAt (MakeAtomIds title mol).1 ((idx : Nat) : Int)
            = String.mk ('a' :: (intToDec ((idx : Nat) : Int)).data))
        ∧ ∀ ac, mol.classOf idx = some ac →
            idAt (MakeAtomIds title mol).1 ((idx : Nat) : Int)
              = String.mk ('a' :: lowercaseLetter (mol.classCount ac idx) :: (intToDec ac).data)
            ∧ 1 ≤ mol.classCount ac idx ∧ mol.classCount ac idx ≤ 26
            ∧ 'a' ≤ lowercaseLetter (mol.classCount ac idx)
            ∧ lowercaseLetter (mol.classCount ac idx) ≤ 'z')
    ∧ (∀ i j : Nat, 1 ≤ i → i < j → j ≤ mol.atoms.length →
        idAt (MakeAtomIds title mol).1 ((i : Nat) : Int)
          ≠ idAt (MakeAtomIds title mol).1 ((j : Nat) : Int)) := by
  have hid : ∀ idx : Nat, 1 ≤ idx → idx ≤ mol.atoms.length →
      idAt (MakeAtomIds title mol).1 ((idx : Nat) : Int) = classAtomId mol idx := by
    intro idx h1 h2
    obtain ⟨k, rfl⟩ : ∃ k, idx = k + 1 := ⟨idx - 1, by omega⟩
    rw [MakeAtomIds_classes title mol h26]
    unfold idAt
    have : (((k + 1 : Nat) : Int)).toNat = k + 1 := by simp
    rw [this]
    simp [List.getD, (by omega : k < mol.atoms.length)]
  refine ⟨?_, ?_, ?_, ?_⟩
  · rw [MakeAtomIds_classes title mol h26]
    simp
  · rw [MakeAtomIds_classes title mol h26]
  · intro idx h1 h2
    refine ⟨?_, ?_⟩
    · intro hc
      rw [hid idx h1 h2]
      unfold classAtomId
      rw [hc]
    · intro ac hc
      have hk1 : 1 ≤ mol.classCount ac idx := by
        obtain ⟨k, rfl⟩ : ∃ k, idx = k + 1 := ⟨idx - 1, by omega⟩
        rw [OBMol.classCount_succ, if_pos hc]
        omega
      have hk2 : mol.classCount ac idx ≤ 26 :=
        le_trans (OBMol.classCount_mono mol ac _ _ h2) (h26 ac)
      refine ⟨?_, hk1, hk2, lowercaseLetter_range _ hk1 hk2⟩
      rw [hid idx h1 h2]
      unfold classAtomId
      rw [hc]
  · intro i j h1 hij hj h
    rw [hid i h1 (by omega), hid j (by omega) hj] at h
    have := classAtomId_injective mol mol.atoms.length h26 i j (by omega) hj h1 (by omega) h
    omega

/-- A molecule of five atoms, three of them in the class 5 and one in the class 12:
the identifiers are aa5, a2, ab5, ac5 and aa12. -/
theorem MakeAtomIds_class_letters_witness :
    (∀ ac, sampleClasses.classCount ac sampleClasses.atoms.length ≤ 26)
    ∧ (MakeAtomIds "" sampleClasses).1 = ["Error", "aa5", "a2", "ab5", "ac5", "aa12"]
    ∧ ((MakeAtomIds "" sampleClasses).1.length = sampleClasses.atoms.length + 1
      ∧ (MakeAtomIds "" sampleClasses).2 = []
      ∧ (∀ idx : Nat, 1 ≤ idx → idx ≤ sampleClasses.atoms.length →
          (sampleClasses.classOf idx = none →
            idAt (MakeAtomIds "" sampleClasses).1 ((idx : Nat) : Int)
              = String.mk ('a' :: (intToDec ((idx : Nat) : Int)).data))
          ∧ ∀ ac, sampleClasses.classOf idx = some ac →
              idAt (MakeAtomIds "" sampleClasses).1 ((idx : Nat) : Int)
                = String.mk ('a' :: lowercaseLetter (sampleClasses.classCount ac idx)
                    :: (intToDec ac).data)
              ∧ 1 ≤ sampleClasses.classCount ac idx ∧ sampleClasses.classCount ac idx ≤ 26
              ∧ 'a' ≤ lowercaseLetter (sampleClasses.classCount ac idx)
              ∧ lowercaseLetter (sampleClasses.classCount ac idx) ≤ 'z')
      ∧ (∀ i j : Nat, 1 ≤ i → i < j → j ≤ sampleClasses.atoms.length →
          idAt (MakeAtomIds "" sampleClasses).1 ((i : Nat) : Int)
            ≠ idAt (MakeAtomIds "" sampleClasses).1 ((j : Nat) : Int))) :=
  ⟨fun ac => le_trans (OBMol.classCount_le sampleClasses ac _) (by decide),
    by decide,
    MakeAtomIds_class_letters "" sampleClasses
      (fun ac => le_trans (OBMol.classCount_le sampleClasses ac _) (by decide))⟩

end OpenBabel

namespace OpenBabel

/-! ## Bond stereo with a reference list on unmarked bonds -/

/-- The marking of a cis/trans descriptor on a first bond without direction: the
first bond gets the down flag, the second the down flag for C and the up flag for
T. -/
theorem markCisTrans_unmarked (mol : OBMol) (value : String) (p1 p2 : Nat)
    (h1 : p1 < mol.bonds.length) (h2 : p2 < mol.bonds.length)
    (hu1 : (mol.bondAt p1).dir = (false, false)) :
    ((markCisTrans mol value p1 p2).bondAt p1).Down = true
      ∧ (value = "C" → ((markCisTrans mol value p1 p2).bondAt p2).Down = true)
      ∧ (value = "T" → ((markCisTrans mol value p1 p2).bondAt p2).Up = true) := by
  simp only [OBBond.dir, Prod.mk.injEq] at hu1
  obtain ⟨u1, d1⟩ := hu1
  have hCT : ("C" == "T") = false := by decide
  have hTC : ("T" == "C") = false := by decide
  unfold markCisTrans
  simp only [u1, d1, Bool.or_self, Bool.false_eq_true, if_false]
  refine ⟨?_, ?_, ?_⟩
  · split_ifs <;> simp only [modifyBond_bondAt, modifyBond_length] <;> split_ifs <;> simp_all
  · rintro rfl
    simp [modifyBond_bondAt, modifyBond_length, h2]
  · rintro rfl
    simp [modifyBond_bondAt, modifyBond_length, h2, hTC]

/-- C26: for every bondStereo descriptor with a 4-atom reference list whose two
referenced bonds exist and carry no up/down flag beforehand, the pass of
`DoMolWideData` over the descriptor goes on with a graph in which both bonds carry
the down flag when the value is C, and the first carries the down flag and the
second the up flag when the value is T; when the third atom of the list is neither
the first nor the second, these are the only direction flags of the two bonds:
(down, down) for C and (down, up) for T. -/
theorem DoMolWideData_unmarked_cis_same_trans_opposite (f : CMLFormat) (value refs c : String)
    (rest : List Attr) (i0 i1 i2 i3 : String) (p1 p2 : Nat)
    (hR : tokenize refs = [i0, i1, i2, i3])
    (hb1 : f._pmol.GetBond2 (mapGet f.AtomMap i0) (mapGet f.AtomMap i1) = some p1)
    (hb2 : f._pmol.GetBond2 (mapGet f.AtomMap i2) (mapGet f.AtomMap i3) = some p2)
    (hu1 : (f._pmol.bondAt p1).dir = (false, false))
    (hu2 : (f._pmol.bondAt p2).dir = (false, false)) :
    ∃ g, DoMolWideData.loop
          (("bondStereo", value) :: ("atomRefs4", refs) :: ("centralAtomOrBond", c) :: rest) f
        = DoMolWideData.loop rest g
      ∧ (value = "C" → (g._pmol.bondAt p1).Down = true ∧ (g._pmol.bondAt p2).Down = true)
      ∧ (value = "T" → (g._pmol.bondAt p1).Down = true ∧ (g._pmol.bondAt p2).Up = true)
      ∧ (mapGet f.AtomMap i2 ≠ mapGet f.AtomMap i0 ∧ mapGet f.AtomMap i2 ≠ mapGet f.AtomMap i1 →
          (value = "C" →
            (g._pmol.bondAt p1).dir = (false, true) ∧ (g._pmol.bondAt p2).dir = (false, true))
          ∧ (value = "T" →
            (g._pmol.bondAt p1).dir = (false, true) ∧ (g._pmol.bondAt p2).dir = (true, false))) := by
  obtain ⟨l1, _, _, _, e1⟩ := GetBond2_some _ _ _ _ hb1
  obtain ⟨l2, _, _, _, e2⟩ := GetBond2_some _ _ _ _ hb2
  obtain ⟨k1, kC, kT⟩ := markCisTrans_unmarked f._pmol value p1 p2 l1 l2 hu1
  refine ⟨_, DoMolWideData.loop_descriptor f "bondStereo" "atomRefs4" "centralAtomOrBond" value refs c
    rest i0 i1 i2 i3 p1 p2 (by decide) (by decide) (by decide) (by decide) hR hb1 hb2, ?_, ?_, ?_⟩
  · intro hv
    simp only
    rw [markOthers_bondAt _ _ _ _ p2 (Or.inl rfl)]
    exact ⟨(markOthers_mono _ _ _ _ p1).2 k1, kC hv⟩
  · intro hv
    simp only
    rw [markOthers_bondAt _ _ _ _ p2 (Or.inl rfl)]
    exact ⟨(markOthers_mono _ _ _ _ p1).2 k1, kT hv⟩
  · intro h3
    have hne : p1 ≠ p2 := by
      rintro rfl
      rcases e1 with ⟨a, b⟩ | ⟨a, b⟩ <;> rcases e2 with ⟨a', b'⟩ | ⟨a', b'⟩
      · exact h3.1 (a'.symm.trans a)
      · exact h3.2 (b'.symm.trans b)
      · exact h3.2 (a'.symm.trans a)
      · exact h3.1 (b'.symm.trans b)
    have hnot : ∀ x ∈ (markCisTrans f._pmol value p1 p2).bondsOf (mapGet f.AtomMap i2), x.1 ≠ p1 := by
      rintro ⟨b, n⟩ hx rfl
      obtain ⟨m1, m2⟩ := markCisTrans_ends f._pmol value b p2 b
      rcases mem_bondsOf _ _ _ _ hx with h | h
      · rw [m1] at h
        rcases e1 with ⟨a, _⟩ | ⟨a, _⟩
        · exact h3.1 (h.symm.trans a)
        · exact h3.2 (h.symm.trans a)
      · rw [m2] at h
        rcases e1 with ⟨_, a⟩ | ⟨_, a⟩
        · exact h3.2 (h.symm.trans a)
        · exact h3.1 (h.symm.trans a)
    simp only
    rw [markOthers_bondAt _ _ _ _ p1 (Or.inr hnot), markOthers_bondAt _ _ _ _ p2 (Or.inl rfl)]
    refine ⟨?_, ?_⟩
    · rintro rfl
      simpa using (markCisTrans_dirs f._pmol "C" p1 p2 hne l1 l2 hu2 (Or.inl rfl)).1 hu1
    · rintro rfl
      have := (markCisTrans_dirs f._pmol "T" p1 p2 hne l1 l2 hu2 (Or.inr rfl)).1 hu1
      rw [if_neg (by decide)] at this
      exact this

/-- C26, witness: the descriptors C and T with the references a1 a2 a3 a4 on the
but-2-ene graph without direction flags; `DoMolWideData` returns true with the
directions (down, down) for C and (down, up) for T. -/
theorem DoMolWideData_unmarked_cis_same_trans_opposite_witness :
    ((stateOf (DoMolWideData (sampleStereo "C"))).map (fun g => g._pmol.bonds.map OBBond.dir)
        = some [(false, true), (false, false), (false, true)]
      ∧ (stateOf (DoMolWideData (sampleStereo "T"))).map (fun g => g._pmol.bonds.map OBBond.dir)
        = some [(false, true), (false, false), (true, false)])
    ∧ ∃ g, DoMolWideData.loop
          (("bondStereo", "T") :: ("atomRefs4", "a1 a2 a3 a4") :: ("centralAtomOrBond", "1") :: [])
          (sampleStereo "T")
        = DoMolWideData.loop [] g
      ∧ ("T" = "C" → (g._pmol.bondAt 0).Down = true ∧ (g._pmol.bondAt 2).Down = true)
      ∧ ("T" = "T" → (g._pmol.bondAt 0).Down = true ∧ (g._pmol.bondAt 2).Up = true)
      ∧ (mapGet (sampleStereo "T").AtomMap "a3" ≠ mapGet (sampleStereo "T").AtomMap "a1"
            ∧ mapGet (sampleStereo "T").AtomMap "a3" ≠ mapGet (sampleStereo "T").AtomMap "a2" →
          ("T" = "C" →
            (g._pmol.bondAt 0).dir = (false, true) ∧ (g._pmol.bondAt 2).dir = (false, true))
          ∧ ("T" = "T" →
            (g._pmol.bondAt 0).dir = (false, true) ∧ (g._pmol.bondAt 2).dir = (true, false))) :=
  ⟨by decide,
   DoMolWideData_unmarked_cis_same_trans_opposite (sampleStereo "T") "T" "a1 a2 a3 a4" "1" []
    "a1" "a2" "a3" "a4" 0 2 (by decide) (by decide) (by decide) (by decide) (by decide)⟩

end OpenBabel

namespace OpenBabel

/-! ## Bond stereo with a reference list on a marked first bond -/

/-- C27, amended: for every bondStereo descriptor with a 4-atom reference list r1 r2
r3 r4 whose two referenced bonds exist, r3 being neither r1 nor r2, in which the
first referenced bond r1-r2 already carries an up or down flag, the pass of
`DoMolWideData` over the descriptor leaves that bond exactly as it was and sets a
flag on the second bond from the table: existing up with T or existing down with C
sets up, otherwise (existing up with C, existing down with T) it sets down. -/
theorem DoMolWideData_marked_first_bond_kept (f : CMLFormat) (value refs c : String)
    (rest : List Attr) (i0 i1 i2 i3 : String) (p1 p2 : Nat)
    (hR : tokenize refs = [i0, i1, i2, i3])
    (hb1 : f._pmol.GetBond2 (mapGet f.AtomMap i0) (mapGet f.AtomMap i1) = some p1)
    (hb2 : f._pmol.GetBond2 (mapGet f.AtomMap i2) (mapGet f.AtomMap i3) = some p2)
    (h3 : mapGet f.AtomMap i2 ≠ mapGet f.AtomMap i0 ∧ mapGet f.AtomMap i2 ≠ mapGet f.AtomMap i1)
    (hm : (f._pmol.bondAt p1).marked = true) :
    ∃ g, DoMolWideData.loop
          (("bondStereo", value) :: ("atomRefs4", refs) :: ("centralAtomOrBond", c) :: rest) f
        = DoMolWideData.loop rest g
      ∧ g._pmol.bondAt p1 = f._pmol.bondAt p1
      ∧ (((f._pmol.bondAt p1).Up = true ∧ value = "T")
            ∨ ((f._pmol.bondAt p1).Down = true ∧ value = "C") →
          g._pmol.bondAt p2 = { f._pmol.bondAt p2 with Up := true })
      ∧ (¬ (((f._pmol.bondAt p1).Up = true ∧ value = "T")
            ∨ ((f._pmol.bondAt p1).Down = true ∧ value = "C")) →
          g._pmol.bondAt p2 = { f._pmol.bondAt p2 with Down := true }) := by
  obtain ⟨l1, _, _, _, e1⟩ := GetBond2_some _ _ _ _ hb1
  obtain ⟨l2, _, _, _, e2⟩ := GetBond2_some _ _ _ _ hb2
  have hne : p2 ≠ p1 := by
    rintro rfl
    rcases e1 with ⟨a, b⟩ | ⟨a, b⟩ <;> rcases e2 with ⟨a', b'⟩ | ⟨a', b'⟩
    · exact h3.1 (a'.symm.trans a)
    · exact h3.2 (b'.symm.trans b)
    · exact h3.2 (a'.symm.trans a)
    · exact h3.1 (b'.symm.trans b)
  have hnot : ∀ x ∈ (markCisTrans f._pmol value p1 p2).bondsOf (mapGet f.AtomMap i2), x.1 ≠ p1 := by
    rintro ⟨b, n⟩ hx rfl
    obtain ⟨m1, m2⟩ := markCisTrans_ends f._pmol value b p2 b
    rcases mem_bondsOf _ _ _ _ hx with h | h
    · rw [m1] at h
      rcases e1 with ⟨a, _⟩ | ⟨a, _⟩
      · exact h3.1 (h.symm.trans a)
      · exact h3.2 (h.symm.trans a)
    · rw [m2] at h
      rcases e1 with ⟨_, a⟩ | ⟨_, a⟩
      · exact h3.2 (h.symm.trans a)
      · exact h3.1 (h.symm.trans a)
  have hm' : ((f._pmol.bondAt p1).Up || (f._pmol.bondAt p1).Down) = true := hm
  refine ⟨_, DoMolWideData.loop_descriptor f "bondStereo" "atomRefs4" "centralAtomOrBond" value refs c
    rest i0 i1 i2 i3 p1 p2 (by decide) (by decide) (by decide) (by decide) hR hb1 hb2, ?_, ?_, ?_⟩
  · simp only
    rw [markOthers_bondAt _ _ _ _ p1 (Or.inr hnot)]
    unfold markCisTrans
    rw [if_pos hm']
    split_ifs <;> rw [modifyBond_bondAt, if_neg (fun h => hne h.1)]
  · intro hc
    simp only
    rw [markOthers_bondAt _ _ _ _ p2 (Or.inl rfl)]
    unfold markCisTrans
    rw [if_pos hm', if_pos (by simpa using hc), modifyBond_bondAt, if_pos ⟨rfl, l2⟩]
  · intro hc
    simp only
    rw [markOthers_bondAt _ _ _ _ p2 (Or.inl rfl)]
    unfold markCisTrans
    rw [if_pos hm', if_neg (by simpa using hc), modifyBond_bondAt, if_pos ⟨rfl, l2⟩]

/-- C27, witness of the amended claim: on the but-2-ene graph whose first single
bond carries the up flag, the descriptor T leaves it and sets up on the second. -/
theorem DoMolWideData_marked_first_bond_kept_witness :
    (stateOf (DoMolWideData (sampleStereoMarked "T" (true, false) (false, false)))).map
        (fun g => g._pmol.bonds.map OBBond.dir)
      = some [(true, false), (false, false), (true, false)]
    ∧ ∃ g, DoMolWideData.loop
          (("bondStereo", "T") :: ("atomRefs4", "a1 a2 a3 a4") :: ("centralAtomOrBond", "1") :: [])
          (sampleStereoMarked "T" (true, false) (false, false))
        = DoMolWideData.loop [] g
      ∧ g._pmol.bondAt 0 = (sampleStereoMarked "T" (true, false) (false, false))._pmol.bondAt 0
      ∧ ((((sampleStereoMarked "T" (true, false) (false, false))._pmol.bondAt 0).Up = true ∧ "T" = "T")
            ∨ (((sampleStereoMarked "T" (true, false) (false, false))._pmol.bondAt 0).Down = true
                ∧ "T" = "C") →
          g._pmol.bondAt 2
            = { (sampleStereoMarked "T" (true, false) (false, false))._pmol.bondAt 2 with Up := true })
      ∧ (¬ ((((sampleStereoMarked "T" (true, false) (false, false))._pmol.bondAt 0).Up = true
                ∧ "T" = "T")
            ∨ (((sampleStereoMarked "T" (true, false) (false, false))._pmol.bondAt 0).Down = true
                ∧ "T" = "C")) →
          g._pmol.bondAt 2
            = { (sampleStereoMarked "T" (true, false) (false, false))._pmol.bondAt 2 with
                Down := true }) :=
  ⟨by decide,
   DoMolWideData_marked_first_bond_kept (sampleStereoMarked "T" (true, false) (false, false))
    "T" "a1 a2 a3 a4" "1" [] "a1" "a2" "a3" "a4" 0 2 (by decide) (by decide) (by decide)
    (by decide) (by decide)⟩

/-- C27, counterexample: on the but-2-ene graph the second referenced bond carries
the up flag and the first no flag. The flag of the second bond is not looked at: for
the value T the first bond gets down, where the table gives up for an existing up
with T, and for the value C the first bond gets down and the second bond gets the
down flag on top of its up flag, so it is not left as it was. -/
theorem DoMolWideData_marked_second_bond_not_consulted :
    (stateOf (DoMolWideData (sampleStereoMarked "T" (false, false) (true, false)))).map
        (fun g => g._pmol.bonds.map OBBond.dir)
      = some [(false, true), (false, false), (true, false)]
    ∧ (stateOf (DoMolWideData (sampleStereoMarked "C" (false, false) (true, false)))).map
        (fun g => g._pmol.bonds.map OBBond.dir)
      = some [(false, true), (false, false), (true, true)]
    ∧ returnOf (DoMolWideData (sampleStereoMarked "C" (false, false) (true, false))) = some true := by
  refine ⟨?_, ?_, ?_⟩ <;> decide!

end OpenBabel

namespace OpenBabel

/-! ## Bond stereo without a reference list -/

/-- C28 at the failing input: the but-2-ene graph with one hydrogen on each atom of
the double bond (bond 2, between the atoms 2 and 3). At atom 2 the first neighbour
that is neither a hydrogen nor atom 3 is atom 1, through bond 1, and at atom 3 it is
atom 4, through bond 4. The scan of `DoMolWideData` leaves the loop at that
neighbour before it takes its bond, so it selects the bond to the neighbour before
it: bond 0 and bond 3, both to a hydrogen. Without the hydrogens it selects no bond
at atom 2 and the double bond itself at atom 3, and `DoMolWideData` returns false
with no bond marked. -/
theorem DoMolWideData_scan_selects_bond_before :
    (firstSubstituentBond sampleButeneH 2 3, firstSubstituentBond sampleButeneH 3 2) = (some 1, some 4)
    ∧ (scanNbors sampleButeneH 2 3 (sampleButeneH.bondsOf 2) none,
       scanNbors sampleButeneH 3 2 (sampleButeneH.bondsOf 3) none) = (some 0, some 3)
    ∧ (firstSubstituentBond sampleButene 2 3, firstSubstituentBond sampleButene 3 2) = (some 0, some 2)
    ∧ (scanNbors sampleButene 2 3 (sampleButene.bondsOf 2) none,
       scanNbors sampleButene 3 2 (sampleButene.bondsOf 3) none) = (none, some 1)
    ∧ returnOf (DoMolWideData
        { _pmol := sampleButene,
          molWideData := [("bondStereo", "C"), ("atomRefs4", ""), ("centralAtomOrBond", "1")] })
      = some false
    ∧ (stateOf (DoMolWideData
        { _pmol := sampleButene,
          molWideData := [("bondStereo", "C"), ("atomRefs4", ""), ("centralAtomOrBond", "1")] })).map
        (fun g => g._pmol.bonds.map OBBond.dir)
      = some [(false, false), (false, false), (false, false)] := by
  refine ⟨?_, ?_, ?_, ?_, ?_, ?_⟩ <;> decide!

end OpenBabel

namespace OpenBabel

/-! ## Molecule-wide data: descriptors after a wedge or hash -/

/-- C29 at the failing input: the but-2-ene molecule with a wedge descriptor on bond
0 followed by an atom parity descriptor on atom 2. `DoMolWideData` sets the wedge
flag and returns true from inside its loop, so the atom parity descriptor is not
applied: atom 2 has no clockwise flag and no references. With the two descriptors in
the other order both are applied. -/
theorem DoMolWideData_descriptor_after_wedge_skipped :
    returnOf (DoMolWideData sampleWedgeThenParity) = some true
    ∧ (stateOf (DoMolWideData sampleWedgeThenParity)).map
        (fun g => (g._pmol.bonds.map (·.Wedge), g._pmol.atoms.map fun a => (a.Clockwise, a.Atom4Refs)))
      = some ([true, false, false], [(false, none), (false, none), (false, none), (false, none)])
    ∧ returnOf (DoMolWideData sampleParityThenWedge) = some true
    ∧ (stateOf (DoMolWideData sampleParityThenWedge)).map
        (fun g => (g._pmol.bonds.map (·.Wedge), g._pmol.atoms.map fun a => (a.Clockwise, a.Atom4Refs)))
      = some ([true, false, false],
          [(false, none), (true, some [1, 2, 3, 4]), (false, none), (false, none)]) := by
  refine ⟨?_, ?_, ?_, ?_⟩ <;> decide!

end OpenBabel

namespace OpenBabel

/-! ## Atom parity: the atom that gets the flag -/

/-- C30 at the failing input: the second atom element of the molecule has the child
`<atomParity atomRefs4="a1 a3 a4 a5">1</atomParity>` and the first atom element
carries `hydrogenCount="3"`. The descriptor records the position 2 of the atom
element among the atom records; after `DoAtoms` has created the three hydrogens of
the first atom, the atom of index 2 of the graph is the first of these hydrogens, and
the atom created for the second atom element has index 5. The clockwise flag and the
references (1, 6, 7, 8) are stored on the hydrogen, and the atom of the element has
no flag. Without `hydrogenCount` the atom of the element gets them. -/
theorem DoMolWideData_atomParity_on_shifted_atom :
    (readDocument sampleEnv {} (sampleParityDocument [("hydrogenCount", "3")])).map
        (fun m => m.atoms.map fun a => (a.AtomicNum, a.Clockwise, a.Atom4Refs))
      = some [(6, false, none), (1, true, some [1, 6, 7, 8]), (1, false, none), (1, false, none),
              (6, false, none), (7, false, none), (8, false, none), (6, false, none)]
    ∧ (readDocument sampleEnv {} (sampleParityDocument [])).map
        (fun m => m.atoms.map fun a => (a.AtomicNum, a.Clockwise, a.Atom4Refs))
      = some [(6, false, none), (6, true, some [1, 3, 4, 5]), (7, false, none), (8, false, none),
              (6, false, none)] := by
  refine ⟨?_, ?_⟩ <;> decide!

end OpenBabel

namespace OpenBabel

/-! ## Atoms: an `atomRefs4` attribute without a parity after it -/

/-- C31 at the failing input: in the record `id="a1" elementType="N" atomRefs4="a1 a2
a3 a4" formalCharge="1"` the attribute after `atomRefs4` is not a parity. The
attribute loop of `DoAtoms` advances to it and passes over it, so the formal charge
is not set: the atom has charge 0, where the same record without `atomRefs4` gives
charge 1. When `atomRefs4` is the last attribute of the record, the loop reads past
the end of the record. -/
theorem DoAtoms_attribute_after_atomRefs4_skipped :
    (stateOf (DoAtoms sampleEnv
        { AtomArray := [[("id", "a1"), ("elementType", "N"), ("atomRefs4", "a1 a2 a3 a4"),
                         ("formalCharge", "1")]] })).map
        (fun f => f._pmol.atoms.map fun a => (a.AtomicNum, a.FormalCharge))
      = some [(7, 0)]
    ∧ (stateOf (DoAtoms sampleEnv
        { AtomArray := [[("id", "a1"), ("elementType", "N"), ("formalCharge", "1")]] })).map
        (fun f => f._pmol.atoms.map fun a => (a.AtomicNum, a.FormalCharge))
      = some [(7, 1)]
    ∧ (readDocument sampleEnv {}
        [XmlNode.element "molecule" [] false,
         XmlNode.element "atom" [("id", "a1"), ("elementType", "N"), ("atomRefs4", "a1 a2 a3 a4"),
           ("formalCharge", "1")] true,
         XmlNode.endElement "molecule"]).map (fun m => m.atoms.map fun a => (a.AtomicNum, a.FormalCharge))
      = some [(7, 0)]
    ∧ (match DoAtoms sampleEnv
          { AtomArray := [[("id", "a1"), ("elementType", "N"), ("atomRefs4", "a1 a2 a3 a4")]] } with
        | Except.error e => some e
        | Except.ok _ => none)
      = some "DoAtoms: the attribute after atomRefs4 is read past the end of the record"
    ∧ (stateOf (DoAtoms sampleEnv
        { AtomArray := [[("id", "a1"), ("elementType", "N")]] })).map
        (fun f => f._pmol.atoms.map fun a => (a.AtomicNum, a.FormalCharge))
      = some [(7, 0)] := by
  refine ⟨?_, ?_, ?_, ?_, ?_⟩ <;> decide!

end OpenBabel

namespace OpenBabel

/-! ## The order token written for a bond is read back as its order -/

theorem orderText_token (env : Env) (mol : OBMol) (k : Nat) (b : OBBond) :
    IsToken (orderText env false mol k b) := by
  unfold orderText
  by_cases h5 : b.BondOrder = 5
  · rw [if_pos (Or.inl h5)]
    exact ⟨by decide, by decide⟩
  · rw [if_neg (by simp [h5])]
    exact intToDec_token _

theorem enum_get? {α : Type} (l : List α) (k : Nat) (a : α) (h : l.get? k = some a) :
    l.enum.get? k = some (k, a) := by
  rw [List.get?_eq_getElem?] at h
  rw [List.get?_eq_getElem?, List.enum, List.enumFrom_eq_zip_range', List.getElem?_zip_eq_some]
  refine ⟨?_, h⟩
  have hk : k < l.length := by
    rcases Nat.lt_or_ge k l.length with hlt | hge
    · exact hlt
    · rw [List.getElem?_eq_none hge] at h
      cases h
  rw [List.getElem?_range' _ _ hk]
  simp

/-- C32: for every bond of order b with 1 ≤ b (an `int`), with option A unset. In
the individual layout of schema 2 the bond element carries the attribute `order`
with the token `orderText`; in the individual layout of schema 1 it has the child
`string` with `builtin="order"` and the decimal text of b; in the array layouts the
`order` attribute (schema 2) or `stringArray` element (schema 1) holds one token per
bond, the token of this bond being `orderText`. For every bond record whose order
token is one of these, the attribute loop of `DoBonds` resolves the order to b, and
when the two endpoints of the record resolve `DoBonds` adds the bond with order b.
For b = 5 the token `orderText`, which schema 2 and the array layouts write, is
`A`. -/
theorem WriteMolecule_order_token_read_back (env : Env) (f : CMLFormat) (hw : Bool) (mol : OBMol)
    (atomIDs : List String) (pfx : Option String) (k : Nat) (b : OBBond)
    (hk : mol.bonds.get? k = some b)
    (h1 : 1 ≤ b.BondOrder) (h2 : b.BondOrder < 2147483648) :
    (WriterEvent.WriteAttribute "order" (orderText env false mol k b)
        ∈ WriteMolecule.bond env pfx false false mol atomIDs k b
      ∧ builtinElement pfx "string" "order" (intToDec b.BondOrder)
          <:+: WriteMolecule.bond env pfx true false mol atomIDs k b
      ∧ WriterEvent.WriteAttribute "order"
            (spaced (mol.bonds.enum.map fun kb => orderText env false mol kb.1 kb.2))
          ∈ WriteMolecule.bondArrays env pfx false false mol atomIDs
      ∧ builtinElement pfx "stringArray" "order"
            (spaced (mol.bonds.enum.map fun kb => orderText env false mol kb.1 kb.2))
          <:+: WriteMolecule.bondArrays env pfx true false mol atomIDs
      ∧ (tokenize (spaced (mol.bonds.enum.map fun kb => orderText env false mol kb.1 kb.2))).get? k
          = some (orderText env false mol k b))
    ∧ (∀ record : List Attr,
        orderToken record = some (orderText env false mol k b)
          ∨ orderToken record = some (intToDec b.BondOrder) →
        (bondScan env f hw record).ord = b.BondOrder
        ∧ ((bondScan env f hw record).PossibleBond = true → 0 < (bondScan env f hw record).indx1 →
            0 < (bondScan env f hw record).indx2 →
            ∀ rest, DoBonds.records env (record :: rest) hw f
              = DoBonds.records env rest (bondScan env f hw record).HaveWarned
                  (bondAdded env f hw record b.BondOrder)))
    ∧ (b.BondOrder = 5 → orderText env false mol k b = "A") := by
  have hread : ∀ record : List Attr,
      orderToken record = some (orderText env false mol k b)
        ∨ orderToken record = some (intToDec b.BondOrder) →
      (bondScan env f hw record).ord = b.BondOrder := by
    intro record ht
    rw [bondScan_ord]
    rcases ht with ht | ht
    · rw [ht]
      exact (orderText_read env mol k b (by omega) h2).2
    · rw [ht]
      exact ordOfToken_intToDec _ (by omega) h2
  refine ⟨⟨?_, ?_, ?_, ?_, ?_⟩, ?_, ?_⟩
  · simp [WriteMolecule.bond]
  · refine ⟨[WriterEvent.StartElementNS pfx "bond" none]
        ++ builtinElement pfx "string" "atomRef" (idAt atomIDs b.BeginAtomIdx)
        ++ builtinElement pfx "string" "atomRef" (idAt atomIDs b.EndAtomIdx),
      [WriterEvent.EndElement], ?_⟩
    simp [WriteMolecule.bond]
  · simp [WriteMolecule.bondArrays]
  · refine ⟨builtinElement pfx "stringArray" "atomRef"
          (spaced (mol.bonds.map fun b => idAt atomIDs b.BeginAtomIdx))
        ++ builtinElement pfx "stringArray" "atomRef"
          (spaced (mol.bonds.map fun b => idAt atomIDs b.EndAtomIdx)), [], ?_⟩
    simp [WriteMolecule.bondArrays]
  · rw [tokenize_spaced _ (by
      intro t ht
      obtain ⟨kb, _, rfl⟩ := List.mem_map.1 ht
      exact orderText_token env mol kb.1 kb.2)]
    rw [List.get?_eq_getElem?, List.getElem?_map, ← List.get?_eq_getElem?, enum_get? _ _ _ hk]
    rfl
  · intro record ht
    refine ⟨hread record ht, ?_⟩
    intro hp hi1 hi2 rest
    rw [DoBonds.records_cons_bond env f hw record rest hp hi1 hi2, hread record ht,
      if_neg (by omega)]
  · intro h5
    unfold orderText
    rw [if_pos (Or.inl h5)]

/-- A triple bond and a bond of order 5 in a molecule of three atoms. -/
theorem WriteMolecule_order_token_read_back_witness :
    (tokenize (spaced (sampleOrders.bonds.enum.map fun kb => orderText sampleEnv false sampleOrders kb.1 kb.2))
        = ["3", "A"]
      ∧ (bondScan sampleEnv sampleFormat false [("atomRefs2", "a1 a2"), ("order", "A")]).ord = 5)
    ∧ ((WriterEvent.WriteAttribute "order" (orderText sampleEnv false sampleOrders 1 (sampleOrders.bondAt 1))
          ∈ WriteMolecule.bond sampleEnv none false false sampleOrders [] 1 (sampleOrders.bondAt 1)
        ∧ builtinElement none "string" "order" (intToDec (sampleOrders.bondAt 1).BondOrder)
            <:+: WriteMolecule.bond sampleEnv none true false sampleOrders [] 1 (sampleOrders.bondAt 1)
        ∧ WriterEvent.WriteAttribute "order"
              (spaced (sampleOrders.bonds.enum.map fun kb => orderText sampleEnv false sampleOrders kb.1 kb.2))
            ∈ WriteMolecule.bondArrays sampleEnv none false false sampleOrders []
        ∧ builtinElement none "stringArray" "order"
              (spaced (sampleOrders.bonds.enum.map fun kb => orderText sampleEnv false sampleOrders kb.1 kb.2))
            <:+: WriteMolecule.bondArrays sampleEnv none true false sampleOrders []
        ∧ (tokenize (spaced (sampleOrders.bonds.enum.map fun kb =>
              orderText sampleEnv false sampleOrders kb.1 kb.2))).get? 1
            = some (orderText sampleEnv false sampleOrders 1 (sampleOrders.bondAt 1)))
      ∧ (∀ record : List Attr,
          orderToken record = some (orderText sampleEnv false sampleOrders 1 (sampleOrders.bondAt 1))
            ∨ orderToken record = some (intToDec (sampleOrders.bondAt 1).BondOrder) →
          (bondScan sampleEnv sampleFormat false record).ord = (sampleOrders.bondAt 1).BondOrder
          ∧ ((bondScan sampleEnv sampleFormat false record).PossibleBond = true →
              0 < (bondScan sampleEnv sampleFormat false record).indx1 →
              0 < (bondScan sampleEnv sampleFormat false record).indx2 →
              ∀ rest, DoBonds.records sampleEnv (record :: rest) false sampleFormat
                = DoBonds.records sampleEnv rest (bondScan sampleEnv sampleFormat false record).HaveWarned
                    (bondAdded sampleEnv sampleFormat false record (sampleOrders.bondAt 1).BondOrder)))
      ∧ ((sampleOrders.bondAt 1).BondOrder = 5
          → orderText sampleEnv false sampleOrders 1 (sampleOrders.bondAt 1) = "A")) :=
  ⟨⟨by decide, by decide⟩,
    WriteMolecule_order_token_read_back sampleEnv sampleFormat false sampleOrders [] none 1
      (sampleOrders.bondAt 1) rfl (by decide) (by decide)⟩

end OpenBabel

namespace OpenBabel

/-! ## The identifier element of a molecule with an InChI entry -/

theorem WriteInChI_of_entry (pfx : Option String) (mol : OBMol) (v : String)
    (h : OBGenericData.PairData "InChI" v ∈ mol.data) :
    ∃ v1, OBGenericData.PairData "InChI" v1 ∈ mol.data
      ∧ WriteInChI pfx mol
        = [WriterEvent.StartElementNS pfx "identifier" none,
           WriterEvent.WriteAttribute "convention" "iupac:inchi",
           WriterEvent.WriteAttribute "value" v1,
           WriterEvent.EndElement] := by
  unfold WriteInChI
  generalize mol.data = data at h
  induction data with
  | nil => cases h
  | cons d rest ih =>
    rw [List.findSome?_cons]
    cases d with
    | PairData a w =>
      by_cases c : (a == "InChI") = true
      · have ha : a = "InChI" := by simpa using c
        subst ha
        exact ⟨w, List.mem_cons_self _ _, rfl⟩
      · have hr : OBGenericData.PairData "InChI" v ∈ rest := by
          rcases List.mem_cons.1 h with e | e
          · cases e
            exact absurd rfl c
          · exact e
        obtain ⟨v1, h1, h2⟩ := ih hr
        refine ⟨v1, List.mem_cons_of_mem _ h1, ?_⟩
        simp only [c, if_false]
        exact h2
    | UnitCell c =>
      obtain ⟨v1, h1, h2⟩ := ih (by rcases List.mem_cons.1 h with e | e; cases e; exact e)
      exact ⟨v1, List.mem_cons_of_mem _ h1, h2⟩
    | NasaThermoData a b c d e =>
      obtain ⟨v1, h1, h2⟩ := ih (by rcases List.mem_cons.1 h with e | e; cases e; exact e)
      exact ⟨v1, List.mem_cons_of_mem _ h1, h2⟩
    | AtomClassData c =>
      obtain ⟨v1, h1, h2⟩ := ih (by rcases List.mem_cons.1 h with e | e; cases e; exact e)
      exact ⟨v1, List.mem_cons_of_mem _ h1, h2⟩
    | VibrationData c =>
      obtain ⟨v1, h1, h2⟩ := ih (by rcases List.mem_cons.1 h with e | e; cases e; exact e)
      exact ⟨v1, List.mem_cons_of_mem _ h1, h2⟩
    | RotationData c d =>
      obtain ⟨v1, h1, h2⟩ := ih (by rcases List.mem_cons.1 h with e | e; cases e; exact e)
      exact ⟨v1, List.mem_cons_of_mem _ h1, h2⟩

theorem WriteProperties.loop_no_inchi (pfx : Option String) (data : List OBGenericData) (w : Bool) :
    WriterEvent.WriteAttribute "title" "InChI" ∉ (WriteProperties.loop pfx data w).1 := by
  induction data generalizing w with
  | nil => simp [WriteProperties.loop]
  | cons d rest ih =>
    cases d with
    | PairData a v =>
      rw [WriteProperties.loop]
      by_cases c : (a != "InChI" && a != "PartialCharges") = true
      · rw [if_pos c]
        have ha : a ≠ "InChI" := by
          intro e
          rw [e] at c
          exact absurd c (by decide)
        have hr := ih true
        simp only [openPropertyList, List.mem_append, List.mem_cons, List.mem_singleton, not_or]
        refine ⟨⟨?_, ?_⟩, hr⟩
        · split_ifs <;> simp
        · simp
          exact fun e => ha e.symm
      · rw [if_neg c]
        exact ih w
    | UnitCell c => exact ih w
    | NasaThermoData a b c d e => exact ih w
    | AtomClassData c => exact ih w
    | VibrationData c => exact ih w
    | RotationData c d => exact ih w

theorem WriteCrystal_no_block (env : Env) (pfx : Option String) (c : OBUnitCell) :
    (WriteCrystal env pfx c).all (fun e => !e.opensBlock) = true := by
  have ht : ∀ l : List String,
      ((l.map fun t => WriteElement "transform3" (t ++ " 0 0 0 1")).flatten).all
        (fun e => !e.opensBlock) = true := by
    intro l
    induction l with
    | nil => rfl
    | cons t rest ih =>
      rw [List.map_cons, List.flatten_cons, List.all_append, ih]
      rfl
  unfold WriteCrystal
  simp only [List.all_append, WriteCrystal.scalar, Bool.and_eq_true]
  refine ⟨⟨⟨⟨⟨⟨⟨⟨rfl, rfl⟩, rfl⟩, rfl⟩, rfl⟩, rfl⟩, rfl⟩, ?_⟩, rfl⟩
  cases c.group with
  | some group =>
    simp only [List.all_append, Bool.and_eq_true]
    exact ⟨⟨rfl, ht _⟩, rfl⟩
  | none =>
    simp only
    split_ifs <;> rfl

theorem mem_no_block (l : List WriterEvent) (h : l.all (fun e => !e.opensBlock) = true) :
    ∀ e ∈ l, e.opensBlock = false := by
  intro e he
  have := List.all_eq_true.1 h e he
  simpa using this

theorem split_blocks {α : Type} (P I a b c d e f g : List α) :
    P ++ I ++ a ++ b ++ c ++ d ++ e ++ f ++ g = P ++ I ++ (a ++ b ++ (c ++ d ++ e ++ f ++ g)) := by
  simp only [List.append_assoc]

/-- C33, amended: in the event sequence `WriteMolecule` emits for a molecule that
carries an InChI entry, the identifier element, with the value of the first InChI
entry, comes before the atom block, the bond block and the property list: none of
the events before it starts an atom array, a formula, a bond array or a property
list, and the atom block and the bond block follow it at once. The InChI entry does
not appear inside the property list: `WriteProperties` writes no property with the
title `InChI`. -/
theorem WriteMolecule_identifier_before_blocks (env : Env) (conv : OBConversion) (title : String)
    (pmol : OBMol) (v : String)
    (h : OBGenericData.PairData "InChI" v
      ∈ (if conv.outh = true then env.DeleteHydrogens pmol else pmol).data) :
    ∃ (pre post : List WriterEvent) (v1 : String),
      OBGenericData.PairData "InChI" v1
          ∈ (if conv.outh = true then env.DeleteHydrogens pmol else pmol).data
      ∧ (WriteMolecule env conv title pmol).1
          = pre ++ [WriterEvent.StartElementNS conv.outN "identifier" none,
                    WriterEvent.WriteAttribute "convention" "iupac:inchi",
                    WriterEvent.WriteAttribute "value" v1,
                    WriterEvent.EndElement] ++ post
      ∧ (∀ e ∈ pre, e.opensBlock = false)
      ∧ (∃ cell numbonds useFormula dim atomIDs rest,
          post = WriteMolecule.atoms env conv (if conv.outh = true then env.DeleteHydrogens pmol else pmol)
                    cell numbonds useFormula dim atomIDs
                  ++ WriteMolecule.bonds env conv
                      (if conv.outh = true then env.DeleteHydrogens pmol else pmol) atomIDs
                  ++ rest)
      ∧ ∀ w, WriterEvent.WriteAttribute "title" "InChI"
          ∉ (WriteProperties.loop conv.outN
              (if conv.outh = true then env.DeleteHydrogens pmol else pmol).data w).1 := by
  obtain ⟨v1, h1, h2⟩ := WriteInChI_of_entry conv.outN _ v h
  refine ⟨?pre, ?post, v1, h1, ?eq, ?nb, ?bl, fun w => WriteProperties.loop_no_inchi _ _ w⟩
  case eq =>
    unfold WriteMolecule
    simp only []
    rw [h2]
    exact split_blocks _ _ _ _ _ _ _ _ _
  case bl => exact ⟨_, _, _, _, _, _, rfl⟩
  case nb =>
    apply mem_no_block
    simp only [List.all_append, Bool.and_eq_true]
    refine ⟨⟨⟨⟨⟨⟨?_, ?_⟩, ?_⟩, ?_⟩, ?_⟩, ?_⟩, ?_⟩
    all_goals first
      | rfl
      | (split_ifs <;> rfl)
      | (split <;> first | exact WriteCrystal_no_block _ _ _ | rfl)

/-- Carbon monoxide with an InChI entry and one other property, written with the
option p. -/
theorem WriteMolecule_identifier_before_blocks_witness :
    OBGenericData.PairData "InChI" "InChI=1/CO/c1-2"
        ∈ (if ({ outp := true } : OBConversion).outh = true then sampleEnv.DeleteHydrogens sampleInChI
            else sampleInChI).data
    ∧ ∃ (pre post : List WriterEvent) (v1 : String),
      OBGenericData.PairData "InChI" v1
          ∈ (if ({ outp := true } : OBConversion).outh = true then sampleEnv.DeleteHydrogens sampleInChI
              else sampleInChI).data
      ∧ (WriteMolecule sampleEnv { outp := true } "co" sampleInChI).1
          = pre ++ [WriterEvent.StartElementNS ({ outp := true } : OBConversion).outN "identifier" none,
                    WriterEvent.WriteAttribute "convention" "iupac:inchi",
                    WriterEvent.WriteAttribute "value" v1,
                    WriterEvent.EndElement] ++ post
      ∧ (∀ e ∈ pre, e.opensBlock = false)
      ∧ (∃ cell numbonds useFormula dim atomIDs rest,
          post = WriteMolecule.atoms sampleEnv { outp := true }
                    (if ({ outp := true } : OBConversion).outh = true
                      then sampleEnv.DeleteHydrogens sampleInChI else sampleInChI)
                    cell numbonds useFormula dim atomIDs
                  ++ WriteMolecule.bonds sampleEnv { outp := true }
                      (if ({ outp := true } : OBConversion).outh = true
                        then sampleEnv.DeleteHydrogens sampleInChI else sampleInChI) atomIDs
                  ++ rest)
      ∧ ∀ w, WriterEvent.WriteAttribute "title" "InChI"
          ∉ (WriteProperties.loop ({ outp := true } : OBConversion).outN
              (if ({ outp := true } : OBConversion).outh = true
                then sampleEnv.DeleteHydrogens sampleInChI else sampleInChI).data w).1 :=
  ⟨by decide,
    WriteMolecule_identifier_before_blocks sampleEnv { outp := true } "co" sampleInChI
      "InChI=1/CO/c1-2" (by decide)⟩

/-- C33, counterexample: carbon monoxide with an InChI entry and one other property,
written with the option p. The elements are started in the order molecule,
identifier, atomArray, bondArray, propertyList: the identifier element comes before
the atom block, not after the property list. -/
theorem WriteMolecule_identifier_precedes_atoms :
    startNames (WriteMolecule sampleEnv { outp := true } "co" sampleInChI).1
      = ["molecule", "identifier", "atomArray", "atom", "atom", "bondArray", "bond",
         "propertyList", "property", "scalar"] := by
  decide!

end OpenBabel

namespace OpenBabel

/-! ## The coordinate elements of the schema-1 individual layout -/

/-- C34 at the failing input: a 2-D molecule of two atoms written in the individual
layout of schema 1. The children of each atom element are one `string` element and
two elements named `floatg`, a name that the schema-1 branch of `DoElement` does not
accept (it accepts `float`): read back, the coordinates are not appended to the atom
records, every atom has the coordinates zero and the molecule has dimension 0. The
same molecule written in schema 2 is read back with its coordinates and dimension 2,
and so is the schema-1 document once `floatg` is renamed to `float`. -/
theorem WriteMolecule_cml1_coordinates_in_floatg :
    startNames (WriteMolecule sampleEnvDbl { out1 := true } "co" sampleFlat).1
      = ["molecule", "atomArray", "atom", "string", "floatg", "floatg", "atom", "string",
         "floatg", "floatg", "bondArray", "bond", "string", "string", "string"]
    ∧ (roundTrip sampleEnvDbl { out1 := true } sampleFlat).map OBMol.geometry
      = some ([{}, {}], 0)
    ∧ (roundTrip sampleEnvDbl {} sampleFlat).map OBMol.geometry
      = some ([{ x := Dbl.strtod "1.500000", y := Dbl.strtod "0.250000" },
               { x := Dbl.strtod "2.500000", y := Dbl.strtod "0.750000" }], 2)
    ∧ (readDocument sampleEnvDbl {}
        (renameElement "floatg" "float"
          (toNodes (WriteMolecule sampleEnvDbl { out1 := true } "co" sampleFlat).1))).map
        OBMol.geometry
      = some ([{ x := Dbl.strtod "1.500000", y := Dbl.strtod "0.250000" },
               { x := Dbl.strtod "2.500000", y := Dbl.strtod "0.750000" }], 2) := by
  refine ⟨?_, ?_, ?_, ?_⟩ <;> decide!

end OpenBabel

namespace OpenBabel

/-! ## The identifier of the molecule element -/

theorem reverse_takeWhile_split (p : Char → Bool) (l : List Char) (h : l.any (fun c => !p c) = true) :
    ∃ (pre : List Char) (s : Char),
      l = pre ++ s :: (l.reverse.takeWhile p).reverse ∧ p s = false := by
  have hsplit := List.takeWhile_append_dropWhile p l.reverse
  have hne : l.reverse.dropWhile p ≠ [] := by
    intro hnil
    rw [List.dropWhile_eq_nil_iff] at hnil
    obtain ⟨c, hc, hpc⟩ := List.any_eq_true.1 h
    have := hnil c (List.mem_reverse.2 hc)
    rw [this] at hpc
    exact absurd hpc (by decide)
  cases hd : l.reverse.dropWhile p with
  | nil => exact absurd hd hne
  | cons s tl =>
    refine ⟨tl.reverse, s, ?_, ?_⟩
    · have := congrArg List.reverse hsplit
      rw [hd, List.reverse_append, List.reverse_cons, List.reverse_reverse, List.append_assoc] at this
      exact this.symm
    · have := List.head_dropWhile_not p l.reverse (by rw [hd]; exact List.cons_ne_nil _ _)
      simpa [hd] using this

theorem moleculeId_base (t : List Char) :
    ∃ base, IsBaseName t base
      ∧ (moleculeId (String.mk t)).data
          = if isalpha (base.headD (Char.ofNat 0)) = true then base else 'i' :: 'd' :: base := by
  have hfin : ∀ base : List Char,
      (if (!isalpha (base.headD (Char.ofNat 0))) = true then String.mk ("id".data ++ base)
        else String.mk base).data
      = if isalpha (base.headD (Char.ofNat 0)) = true then base else 'i' :: 'd' :: base := by
    intro base
    cases isalpha (base.headD (Char.ofNat 0)) <;> rfl
  unfold moleculeId
  simp only []
  by_cases hs : (t.any fun c => c == '/' || c == '\\' || c == ':') = true
  · rw [if_pos hs]
    have hs' : t.any (fun c => !(fun c => !(c == '/' || c == '\\' || c == ':')) c) = true := by
      simpa using hs
    obtain ⟨pre, s, hsp, hsep⟩ := reverse_takeWhile_split
      (fun c => !(c == '/' || c == '\\' || c == ':')) t hs'
    have hrest : ∀ c ∈ (t.reverse.takeWhile fun c => !(c == '/' || c == '\\' || c == ':')).reverse,
        isPathSep c = false := by
      intro c hc
      have h0 := @List.mem_takeWhile_imp _ (fun c => !(c == '/' || c == '\\' || c == ':')) _ c
        (List.mem_reverse.1 hc)
      have h1 : (!isPathSep c) = true := h0
      cases h : isPathSep c
      · rfl
      · rw [h] at h1
        cases h1
    have hsep' : isPathSep s = true := by
      have h1 : (!isPathSep s) = false := hsep
      cases h : isPathSep s
      · rw [h] at h1
        cases h1
      · rfl
    generalize (t.reverse.takeWhile fun c => !(c == '/' || c == '\\' || c == ':')).reverse = rest
      at hsp hrest
    by_cases hd : rest.contains '.' = true
    · rw [if_pos hd]
      have hd' : rest.any (fun c => !(fun c => c != '.') c) = true := by
        have hmem : '.' ∈ rest := by simpa using hd
        exact List.any_eq_true.2 ⟨'.', hmem, by decide⟩
      have hsplit := List.takeWhile_append_dropWhile (fun c => c != '.') rest.reverse
      have hne : rest.reverse.dropWhile (fun c => c != '.') ≠ [] := by
        intro hnil
        rw [List.dropWhile_eq_nil_iff] at hnil
        obtain ⟨c, hc, hpc⟩ := List.any_eq_true.1 hd'
        have := hnil c (List.mem_reverse.2 hc)
        simp only [this, Bool.not_true] at hpc
        exact absurd hpc (by decide)
      cases hdw : rest.reverse.dropWhile (fun c => c != '.') with
      | nil => exact absurd hdw hne
      | cons d tl =>
        have hdot : d = '.' := by
          have := List.head_dropWhile_not (fun c => c != '.') rest.reverse
            (by rw [hdw]; exact List.cons_ne_nil _ _)
          simpa [hdw] using this
        subst hdot
        refine ⟨tl.reverse, Or.inr ⟨pre, s, rest, hsp, hsep', hrest, Or.inr
          ⟨(rest.reverse.takeWhile fun c => c != '.').reverse, ?_, ?_⟩⟩, ?_⟩
        · have := congrArg List.reverse hsplit
          rw [hdw, List.reverse_append, List.reverse_cons, List.reverse_reverse,
            List.append_assoc] at this
          exact this.symm
        · intro c hc
          have := List.mem_takeWhile_imp (List.mem_reverse.1 hc)
          simpa using this
        · simp only [hdw, List.drop_succ_cons, List.drop_zero]
          exact hfin _
    · rw [if_neg hd]
      refine ⟨rest, Or.inr ⟨pre, s, rest, hsp, hsep', hrest, Or.inl ⟨?_, rfl⟩⟩, hfin _⟩
      intro c hc hcd
      subst hcd
      exact hd (List.elem_eq_true_of_mem hc)
  · rw [if_neg hs]
    refine ⟨t, Or.inl ⟨?_, rfl⟩, hfin _⟩
    intro c hc
    have : ¬ ((c == '/' || c == '\\' || c == ':') = true) := by
      intro hc2
      exact hs (List.any_eq_true.2 ⟨c, hc, hc2⟩)
    simpa [isPathSep] using this

theorem split_id {α : Type} (P : List α) (m a : α) (n r1 r2 r3 r4 r5 r6 r7 r8 r9 r10 r11 : List α) :
    P ++ [m] ++ ([a] ++ n) ++ r1 ++ r2 ++ r3 ++ r4 ++ r5 ++ r6 ++ r7 ++ r8 ++ r9 ++ r10 ++ r11
      = P ++ m :: a :: (n ++ r1 ++ r2 ++ r3 ++ r4 ++ r5 ++ r6 ++ r7 ++ r8 ++ r9 ++ r10 ++ r11) := by
  simp only [List.append_assoc, List.cons_append, List.nil_append]

theorem beginsWithLetter_headD (base : List Char) :
    isalpha (base.headD (Char.ofNat 0)) = beginsWithLetter base := by
  cases base with
  | nil => decide
  | cons c cs => rfl

/-- C35: for every molecule with a non-empty title, `WriteMolecule` writes the
attribute `id` right after it starts the molecule element, and its value begins with
a letter: it is the base name of the title (the title with any path prefix, up to
the last slash, backslash or colon, removed and, when a path was present, the
extension removed), with `id` put before it when the base name does not begin with a
letter, which includes the empty base name. -/
theorem WriteMolecule_id_begins_with_letter (env : Env) (conv : OBConversion) (title : String)
    (pmol : OBMol)
    (hne : (if conv.outh = true then env.DeleteHydrogens pmol else pmol).Title.data ≠ []) :
    ∃ (pre post : List WriterEvent) (uri : Option String) (id base : List Char),
      (WriteMolecule env conv title pmol).1
        = pre ++ WriterEvent.StartElementNS conv.outN "molecule" uri
            :: WriterEvent.WriteAttribute "id" (String.mk id) :: post
      ∧ IsBaseName (if conv.outh = true then env.DeleteHydrogens pmol else pmol).Title.data base
      ∧ id = (if beginsWithLetter base = true then base else 'i' :: 'd' :: base)
      ∧ beginsWithLetter id = true := by
  obtain ⟨base, hb, hid⟩ :=
    moleculeId_base (if conv.outh = true then env.DeleteHydrogens pmol else pmol).Title.data
  rw [beginsWithLetter_headD] at hid
  refine ⟨?pre, ?post, ?uri,
    (moleculeId (if conv.outh = true then env.DeleteHydrogens pmol else pmol).Title).data, base,
    ?eq, hb, hid, ?_⟩
  case eq =>
    unfold WriteMolecule
    simp only []
    rw [if_pos hne]
    exact split_id _ _ _ _ _ _ _ _ _ _ _ _ _ _ _
  · show beginsWithLetter (moleculeId (String.mk _)).data = true
    rw [hid]
    by_cases hl : beginsWithLetter base = true
    · rw [if_pos hl]
      exact hl
    · rw [if_neg hl]
      rfl

/-- A title that is a path to a file whose name begins with a digit. -/
theorem WriteMolecule_id_begins_with_letter_witness :
    (if ({} : OBConversion).outh = true then sampleEnv.DeleteHydrogens { sampleFlat with Title := "/tmp/7up.mol" }
      else { sampleFlat with Title := "/tmp/7up.mol" }).Title.data ≠ []
    ∧ (WriteMolecule sampleEnv {} "" { sampleFlat with Title := "/tmp/7up.mol" }).1.take 3
      = [WriterEvent.StartDocument, WriterEvent.StartElementNS none "molecule" (some "http://www.xml-cml.org/schema"),
         WriterEvent.WriteAttribute "id" "id7up"]
    ∧ ∃ (pre post : List WriterEvent) (uri : Option String) (id base : List Char),
      (WriteMolecule sampleEnv {} "" { sampleFlat with Title := "/tmp/7up.mol" }).1
        = pre ++ WriterEvent.StartElementNS ({} : OBConversion).outN "molecule" uri
            :: WriterEvent.WriteAttribute "id" (String.mk id) :: post
      ∧ IsBaseName (if ({} : OBConversion).outh = true
            then sampleEnv.DeleteHydrogens { sampleFlat with Title := "/tmp/7up.mol" }
            else { sampleFlat with Title := "/tmp/7up.mol" }).Title.data base
      ∧ id = (if beginsWithLetter base = true then base else 'i' :: 'd' :: base)
      ∧ beginsWithLetter id = true :=
  ⟨by decide, by decide!,
    WriteMolecule_id_begins_with_letter sampleEnv {} "" { sampleFlat with Title := "/tmp/7up.mol" }
      (by decide)⟩

end OpenBabel

namespace OpenBabel

/-! ## Attributes are written before the content of their element -/

/-- C36 at the failing input: a radical with total spin multiplicity 3, one bond and
the title `2-ol`. After the start of the molecule element `WriteMolecule` writes the
attribute `id`, then the whole `name` child element, and only then the attribute
`spinMultiplicity`: this attribute is written after the first child element of the
molecule, when no start tag is open. With the title `ol`, which begins with a
letter, no `name` element is written and every attribute is written while the start
tag of its element is open. -/
theorem WriteMolecule_attribute_after_name_child :
    ((WriteMolecule sampleEnv {} "2-ol" (sampleRadical "2-ol")).1.drop 1).take 6
      = [WriterEvent.StartElementNS none "molecule" (some "http://www.xml-cml.org/schema"),
         WriterEvent.WriteAttribute "id" "id2-ol",
         WriterEvent.StartElementNS none "name" none,
         WriterEvent.WriteString "2-ol",
         WriterEvent.EndElement,
         WriterEvent.WriteAttribute "spinMultiplicity" "3"]
    ∧ attributesInStartTag (WriteMolecule sampleEnv {} "2-ol" (sampleRadical "2-ol")).1 false = false
    ∧ attributesInStartTag (WriteMolecule sampleEnv {} "ol" (sampleRadical "ol")).1 false = true
    ∧ ((WriteMolecule sampleEnv {} "ol" (sampleRadical "ol")).1.drop 1).take 3
      = [WriterEvent.StartElementNS none "molecule" (some "http://www.xml-cml.org/schema"),
         WriterEvent.WriteAttribute "id" "ol",
         WriterEvent.WriteAttribute "spinMultiplicity" "3"] := by
  refine ⟨?_, ?_, ?_, ?_⟩ <;> decide!

end OpenBabel

namespace OpenBabel

/-! ## Reads of the reference lists in `DoMolWideData` -/

/-- C37 at the failing inputs. An atom parity descriptor whose `atomRefs4` has two
tokens: the loop `for(i=0;i<4;++i) AtomRefIdx.push_back(AtomMap[ids[i]])` reads
`ids[2]`, which does not exist. A C descriptor without `atomRefs4` on the double bond
of but-2-ene with a hydrogen on each end: both bonds are found and `AtomRefIdx[2]` is
read from the empty list. A W descriptor whose target bond index is 3 in a molecule
of three bonds: `GetBond(3)` is null and is dereferenced. The same three descriptors
in documents make the reading of the molecule run into the undefined operation. -/
theorem DoMolWideData_reads_out_of_range :
    errorOf (DoMolWideData
        { AtomMap := [("a1", 1), ("a2", 2), ("a3", 3), ("a4", 4)], _pmol := sampleButene,
          molWideData := [("atomParity", "1"), ("atomRefs4", "a1 a2"), ("centralAtomOrBond", "2")] })
      = some "DoMolWideData: ids[i] is read out of range"
    ∧ errorOf (DoMolWideData
        { _pmol := sampleButeneH,
          molWideData := [("bondStereo", "C"), ("atomRefs4", ""), ("centralAtomOrBond", "2")] })
      = some "DoMolWideData: AtomRefIdx[i] is read out of range"
    ∧ errorOf (DoMolWideData
        { _pmol := sampleButene,
          molWideData := [("bondStereo", "W"), ("atomRefs4", ""), ("centralAtomOrBond", "3")] })
      = some "DoMolWideData: pDBond is NULL when dereferenced"
    ∧ errorOf (ReadXML sampleEnv 20 (({} : CMLFormat).onNodes
        [XmlNode.element "molecule" [] false,
         XmlNode.element "atom" [("id", "a1"), ("elementType", "C")] false,
         XmlNode.element "atomParity" [("atomRefs4", "a1 a2")] false,
         XmlNode.text "1",
         XmlNode.endElement "atomParity",
         XmlNode.endElement "atom",
         XmlNode.element "atom" [("id", "a2"), ("elementType", "O")] true,
         XmlNode.endElement "molecule"]))
      = some "DoMolWideData: ids[i] is read out of range"
    ∧ errorOf (ReadXML sampleEnv 20 (({} : CMLFormat).onNodes
        [XmlNode.element "molecule" [] false,
         XmlNode.element "atom" [("id", "a1"), ("elementType", "C")] true,
         XmlNode.element "atom" [("id", "a2"), ("elementType", "O")] true,
         XmlNode.element "bondArray" [] false,
         XmlNode.element "bond" [("atomRefs2", "a1 a2"), ("order", "1")] true,
         XmlNode.endElement "bondArray",
         XmlNode.element "bondStereo" [] false,
         XmlNode.text "W",
         XmlNode.endElement "bondStereo",
         XmlNode.endElement "molecule"]))
      = some "DoMolWideData: pDBond is NULL when dereferenced" := by
  refine ⟨?_, ?_, ?_, ?_, ?_⟩ <;> decide!

end OpenBabel

namespace OpenBabel

/-! ## Cis/trans descriptors: from the reader to the writer -/

theorem modify_map_shape (g : OBBond → OBBond) (hg : ∀ b, (g b).shape = b.shape) (l : List OBBond) :
    ∀ i, (List.modify g i l).map OBBond.shape = l.map OBBond.shape := by
  induction l with
  | nil => intro i; rw [List.modify_nil]
  | cons b rest ih =>
    intro i
    cases i with
    | zero => rw [List.modify_zero_cons, List.map_cons, List.map_cons, hg]
    | succ i => rw [List.modify_succ_cons, List.map_cons, List.map_cons, ih]

theorem markCisTrans_shape (mol : OBMol) (value : String) (p1 p2 : Nat) :
    (markCisTrans mol value p1 p2).bonds.map OBBond.shape = mol.bonds.map OBBond.shape := by
  have hU : ∀ b : OBBond, ({ b with Up := true } : OBBond).shape = b.shape := fun _ => rfl
  have hD : ∀ b : OBBond, ({ b with Down := true } : OBBond).shape = b.shape := fun _ => rfl
  unfold markCisTrans
  simp only
  split_ifs <;> simp only [OBMol.modifyBond, modify_map_shape _ hU, modify_map_shape _ hD]

theorem bondAt_shape (m1 m2 : OBMol) (h : m1.bonds.map OBBond.shape = m2.bonds.map OBBond.shape)
    (k : Nat) : (m1.bondAt k).shape = (m2.bondAt k).shape := by
  have hk := congrArg (fun l => l.get? k) h
  simp only [List.get?_eq_getElem?, List.getElem?_map] at hk
  unfold OBMol.bondAt
  rw [List.get?_eq_getElem?, List.get?_eq_getElem?]
  cases h1 : m1.bonds[k]? <;> cases h2 : m2.bonds[k]? <;> simp only [h1, h2] at hk
  · rfl
  · simp only [Option.map_none', Option.map_some', reduceCtorEq] at hk
  · simp only [Option.map_none', Option.map_some', reduceCtorEq] at hk
  · simp only [Option.map_some', Option.some.injEq] at hk
    exact hk

theorem enumFrom_filterMap_shape (idx : Int) (l1 : List OBBond) :
    ∀ (l2 : List OBBond) (n : Nat), l1.map OBBond.shape = l2.map OBBond.shape →
      (List.enumFrom n l1).filterMap (fun ib =>
          if ib.2.BeginAtomIdx == idx then some (ib.1, ib.2.EndAtomIdx)
          else if ib.2.EndAtomIdx == idx then some (ib.1, ib.2.BeginAtomIdx)
          else none)
        = (List.enumFrom n l2).filterMap (fun ib =>
          if ib.2.BeginAtomIdx == idx then some (ib.1, ib.2.EndAtomIdx)
          else if ib.2.EndAtomIdx == idx then some (ib.1, ib.2.BeginAtomIdx)
          else none) := by
  induction l1 with
  | nil =>
    intro l2 n h
    cases l2 with
    | nil => rfl
    | cons b r => cases h
  | cons a r1 ih =>
    intro l2 n h
    cases l2 with
    | nil => cases h
    | cons b r2 =>
      simp only [List.map_cons, List.cons.injEq] at h
      obtain ⟨hab, hr⟩ := h
      have hB : a.BeginAtomIdx = b.BeginAtomIdx := congrArg (fun s => s.1) hab
      have hE : a.EndAtomIdx = b.EndAtomIdx := congrArg (fun s => s.2.1) hab
      simp only [List.enumFrom_cons, List.filterMap_cons, hB, hE, ih r2 (n + 1) hr]

theorem bondsOf_shape (m1 m2 : OBMol) (h : m1.bonds.map OBBond.shape = m2.bonds.map OBBond.shape)
    (idx : Int) : m1.bondsOf idx = m2.bondsOf idx := by
  unfold OBMol.bondsOf
  exact enumFrom_filterMap_shape idx _ _ 0 h

theorem HasDoubleBond_shape (m1 m2 : OBMol)
    (h : m1.bonds.map OBBond.shape = m2.bonds.map OBBond.shape) (idx : Int) :
    m1.HasDoubleBond idx = m2.HasDoubleBond idx := by
  unfold OBMol.HasDoubleBond
  rw [bondsOf_shape m1 m2 h]
  congr 1
  funext bn
  have := congrArg (fun s => s.2.2.1) (bondAt_shape m1 m2 h bn.1)
  simp only [OBBond.shape] at this
  rw [this]

/-- An entry of the bond list of an atom: the bond exists and joins the atom to the
neighbour of the entry. -/
theorem mem_bondsOf_ends (mol : OBMol) (idx : Int) (b : Nat) (n : Int) (h : (b, n) ∈ mol.bondsOf idx) :
    ((mol.bondAt b).BeginAtomIdx = idx ∧ (mol.bondAt b).EndAtomIdx = n)
      ∨ ((mol.bondAt b).EndAtomIdx = idx ∧ (mol.bondAt b).BeginAtomIdx = n) := by
  unfold OBMol.bondsOf at h
  obtain ⟨⟨i, x⟩, hix, hf⟩ := List.mem_filterMap.1 h
  have hx : mol.bonds[i]? = some x := List.mk_mem_enum_iff_getElem?.1 hix
  have hb : mol.bondAt i = x := by
    unfold OBMol.bondAt
    rw [List.get?_eq_getElem?, hx]
    rfl
  simp only at hf
  split_ifs at hf with c1 c2
  · simp only [Option.some.injEq, Prod.mk.injEq] at hf
    rw [← hf.1, hb, ← hf.2]
    exact Or.inl ⟨by simpa using c1, rfl⟩
  · simp only [Option.some.injEq, Prod.mk.injEq] at hf
    rw [← hf.1, hb, ← hf.2]
    exact Or.inr ⟨by simpa using c2, rfl⟩

theorem markOthers_skip (atom2 : Int) (p2 : Nat) (l : List (Nat × Int)) (mol : OBMol)
    (h : ∀ x ∈ l, x.1 = p2 ∨ (mol.bondAt x.1).BondOrder = 2) : markOthers atom2 p2 l mol = mol := by
  induction l with
  | nil => rfl
  | cons x rest ih =>
    obtain ⟨b, nbr⟩ := x
    unfold markOthers
    have hc : (b == p2 || (mol.bondAt b).BondOrder == 2) = true := by
      rcases h (b, nbr) (List.mem_cons_self _ _) with e | e
      · simp only at e
        simp [e]
      · simp only at e
        simp [e]
    rw [if_pos hc]
    exact ih (fun x hx => h x (List.mem_cons_of_mem _ hx))

theorem modifyBond_other (mol : OBMol) (b k : Nat) (g : OBBond → OBBond) (h : k ≠ b) :
    (mol.modifyBond b g).bondAt k = mol.bondAt k := by
  rw [modifyBond_bondAt, if_neg]
  rintro ⟨rfl, _⟩
  exact h rfl

theorem markCisTrans_other (mol : OBMol) (value : String) (p1 p2 k : Nat) (h1 : k ≠ p1) (h2 : k ≠ p2) :
    (markCisTrans mol value p1 p2).bondAt k = mol.bondAt k := by
  unfold markCisTrans
  simp only
  split_ifs <;> simp only [modifyBond_other _ _ _ _ h1, modifyBond_other _ _ _ _ h2]

/-- C38, amended: for every graph with a double bond between two atoms r2 and r3
that carries no wedge or hash flag, whose ends each have exactly one other bond, to
r1 and to r4, neither of which has a double bond, and with no up or down flag set:
after the pass of `DoMolWideData` over a bond stereo descriptor with the value C or
T and the references r1 r2 r3 r4, `WriteBondStereo` on the double bond writes the
same value with the reference list r1 r2 r3 r4, or r4 r3 r2 r1 when the double bond
begins at r3. -/
theorem DoMolWideData_cis_trans_written_back (f : CMLFormat) (value refs c : String)
    (rest : List Attr) (i0 i1 i2 i3 : String) (r1 r2 r3 r4 : Int) (p1 p2 pd : Nat)
    (pfx : Option String) (atomIDs : List String)
    (hv : value = "C" ∨ value = "T")
    (hR : tokenize refs = [i0, i1, i2, i3])
    (hr1 : mapGet f.AtomMap i0 = r1) (hr2 : mapGet f.AtomMap i1 = r2)
    (hr3 : mapGet f.AtomMap i2 = r3) (hr4 : mapGet f.AtomMap i3 = r4)
    (h23 : r2 ≠ r3) (h13 : r1 ≠ r3) (h42 : r4 ≠ r2)
    (hb1 : f._pmol.GetBond2 r1 r2 = some p1) (hb2 : f._pmol.GetBond2 r3 r4 = some p2)
    (hN2 : f._pmol.bondsOf r2 = [(pd, r3), (p1, r1)] ∨ f._pmol.bondsOf r2 = [(p1, r1), (pd, r3)])
    (hN3 : f._pmol.bondsOf r3 = [(pd, r2), (p2, r4)] ∨ f._pmol.bondsOf r3 = [(p2, r4), (pd, r2)])
    (hdb : (f._pmol.bondAt pd).BondOrder = 2)
    (hw : (f._pmol.bondAt pd).Wedge = false ∧ (f._pmol.bondAt pd).Hash = false)
    (hflags : ∀ b ∈ f._pmol.bonds, b.Up = false ∧ b.Down = false)
    (hd1 : f._pmol.HasDoubleBond r1 = false) (hd4 : f._pmol.HasDoubleBond r4 = false) :
    ∃ g, DoMolWideData.loop
          (("bondStereo", value) :: ("atomRefs4", refs) :: ("centralAtomOrBond", c) :: rest) f
        = DoMolWideData.loop rest g
      ∧ (WriteBondStereo pfx g._pmol pd atomIDs
          = [WriterEvent.StartElementNS pfx "bondStereo" none,
             WriterEvent.WriteAttribute "atomRefs4"
               (idAt atomIDs r1 ++ " " ++ idAt atomIDs r2 ++ " " ++ idAt atomIDs r3 ++ " "
                 ++ idAt atomIDs r4),
             WriterEvent.WriteString value, WriterEvent.EndElement]
        ∨ WriteBondStereo pfx g._pmol pd atomIDs
          = [WriterEvent.StartElementNS pfx "bondStereo" none,
             WriterEvent.WriteAttribute "atomRefs4"
               (idAt atomIDs r4 ++ " " ++ idAt atomIDs r3 ++ " " ++ idAt atomIDs r2 ++ " "
                 ++ idAt atomIDs r1),
             WriterEvent.WriteString value, WriterEvent.EndElement]) := by
  have hfl : ∀ k, (f._pmol.bondAt k).Up = false ∧ (f._pmol.bondAt k).Down = false := by
    intro k
    unfold OBMol.bondAt
    cases hk : f._pmol.bonds.get? k with
    | none => exact ⟨rfl, rfl⟩
    | some b => exact hflags b (List.get?_mem hk)
  obtain ⟨l1, _, _, _, e1⟩ := GetBond2_some _ _ _ _ hb1
  obtain ⟨l2, _, _, _, e2⟩ := GetBond2_some _ _ _ _ hb2
  -- the ends of the double bond
  have hpd2 : (pd, r3) ∈ f._pmol.bondsOf r2 := by
    rcases hN2 with e | e <;> rw [e] <;> simp
  have hpd := mem_bondsOf_ends _ _ _ _ hpd2
  -- the three bonds are distinct
  have hne1 : pd ≠ p1 := by
    rintro rfl
    rcases hpd with ⟨a, b⟩ | ⟨a, b⟩ <;> rcases e1 with ⟨a1, b1⟩ | ⟨a1, b1⟩ <;> omega
  have hne2 : pd ≠ p2 := by
    rintro rfl
    rcases hpd with ⟨a, b⟩ | ⟨a, b⟩ <;> rcases e2 with ⟨a1, b1⟩ | ⟨a1, b1⟩ <;> omega
  have hne : p1 ≠ p2 := by
    rintro rfl
    rcases e1 with ⟨a, b⟩ | ⟨a, b⟩ <;> rcases e2 with ⟨a1, b1⟩ | ⟨a1, b1⟩ <;> omega
  -- the marking leaves the shape of the graph
  have hsh := markCisTrans_shape f._pmol value p1 p2
  have hBO : ∀ idx, (markCisTrans f._pmol value p1 p2).bondsOf idx = f._pmol.bondsOf idx :=
    bondsOf_shape _ _ hsh
  have hMpd : (markCisTrans f._pmol value p1 p2).bondAt pd = f._pmol.bondAt pd :=
    markCisTrans_other _ _ _ _ _ hne1 hne2
  have hdirs := (markCisTrans_dirs f._pmol value p1 p2 hne l1 l2
    (by simp [OBBond.dir, hfl p2]) hv).1 (by simp [OBBond.dir, hfl p1])
  obtain ⟨hM1, hM2⟩ := hdirs
  simp only [OBBond.dir, Prod.mk.injEq] at hM1
  have hskip : markOthers r3 p2 ((markCisTrans f._pmol value p1 p2).bondsOf r3)
      (markCisTrans f._pmol value p1 p2) = markCisTrans f._pmol value p1 p2 := by
    apply markOthers_skip
    intro x hx
    rw [hBO] at hx
    have hx' : x = (pd, r2) ∨ x = (p2, r4) := by
      rcases hN3 with e | e <;> rw [e] at hx <;>
        simp only [List.mem_cons, List.mem_singleton, List.not_mem_nil, or_false] at hx
      · exact hx
      · exact hx.symm
    rcases hx' with rfl | rfl
    · right
      rw [hMpd]
      exact hdb
    · left
      rfl
  have hloop := DoMolWideData.loop_descriptor f "bondStereo" "atomRefs4" "centralAtomOrBond" value
    refs c rest i0 i1 i2 i3 p1 p2 (by decide) (by decide) (by decide) (by decide) hR
    (by rw [hr1, hr2]; exact hb1) (by rw [hr3, hr4]; exact hb2)
  rw [hr3, hskip] at hloop
  refine ⟨_, hloop, ?_⟩
  simp only
  -- what the writer finds at the two ends
  have hf2 : firstUpDown (markCisTrans f._pmol value p1 p2) r2 = some (p1, r1) := by
    unfold firstUpDown
    rw [hBO]
    rcases hN2 with e | e <;> rw [e] <;>
      simp [List.find?, hMpd, hfl pd, hM1.1, hM1.2]
  have hf3 : firstUpDown (markCisTrans f._pmol value p1 p2) r3 = some (p2, r4) := by
    unfold firstUpDown
    rw [hBO]
    have hp2 : (((markCisTrans f._pmol value p1 p2).bondAt p2).Up
        || ((markCisTrans f._pmol value p1 p2).bondAt p2).Down) = true := by
      simp only [OBBond.dir] at hM2
      split_ifs at hM2 <;> simp only [Prod.mk.injEq] at hM2 <;> simp [hM2.1, hM2.2]
    rcases hN3 with e | e <;> rw [e] <;>
      simp [List.find?, hMpd, hfl pd, hp2]
  have hdbl1 : (markCisTrans f._pmol value p1 p2).HasDoubleBond r1 = false := by
    rw [HasDoubleBond_shape _ _ hsh]
    exact hd1
  have hdbl4 : (markCisTrans f._pmol value p1 p2).HasDoubleBond r4 = false := by
    rw [HasDoubleBond_shape _ _ hsh]
    exact hd4
  have hD2 : ((markCisTrans f._pmol value p1 p2).bondAt p2).Down = decide (value = "C") := by
    simp only [OBBond.dir] at hM2
    rcases hv with rfl | rfl
    · rw [if_pos rfl] at hM2
      simp only [Prod.mk.injEq] at hM2
      rw [hM2.2]
      rfl
    · rw [if_neg (by decide)] at hM2
      simp only [Prod.mk.injEq] at hM2
      rw [hM2.2]
      rfl
  unfold WriteBondStereo
  simp only [hMpd, hw.1, hw.2, Bool.false_eq_true, if_false]
  rcases hpd with ⟨a, b⟩ | ⟨a, b⟩
  · left
    rw [a, b, hf2, hf3]
    simp only [hM1.2, hdbl1, hD2, if_true, Bool.false_eq_true, if_false]
    rcases hv with rfl | rfl <;> simp
  · right
    rw [a, b, hf2, hf3]
    simp only [hM1.2, hdbl4, hD2, if_true, Bool.false_eq_true, if_false]
    rcases hv with rfl | rfl <;> simp

/-- The descriptor T with the references a1 a2 a3 a4 on but-2-ene. -/
theorem DoMolWideData_cis_trans_written_back_witness :
    (("T" = "C" ∨ "T" = "T")
      ∧ tokenize "a1 a2 a3 a4" = ["a1", "a2", "a3", "a4"]
      ∧ mapGet (sampleStereo "T").AtomMap "a1" = 1 ∧ mapGet (sampleStereo "T").AtomMap "a2" = 2
      ∧ mapGet (sampleStereo "T").AtomMap "a3" = 3 ∧ mapGet (sampleStereo "T").AtomMap "a4" = 4
      ∧ (2 : Int) ≠ 3 ∧ (1 : Int) ≠ 3 ∧ (4 : Int) ≠ 2
      ∧ (sampleStereo "T")._pmol.GetBond2 1 2 = some 0 ∧ (sampleStereo "T")._pmol.GetBond2 3 4 = some 2
      ∧ ((sampleStereo "T")._pmol.bondsOf 2 = [(1, 3), (0, 1)]
          ∨ (sampleStereo "T")._pmol.bondsOf 2 = [(0, 1), (1, 3)])
      ∧ ((sampleStereo "T")._pmol.bondsOf 3 = [(1, 2), (2, 4)]
          ∨ (sampleStereo "T")._pmol.bondsOf 3 = [(2, 4), (1, 2)])
      ∧ ((sampleStereo "T")._pmol.bondAt 1).BondOrder = 2
      ∧ (((sampleStereo "T")._pmol.bondAt 1).Wedge = false ∧ ((sampleStereo "T")._pmol.bondAt 1).Hash = false)
      ∧ (∀ b ∈ (sampleStereo "T")._pmol.bonds, b.Up = false ∧ b.Down = false)
      ∧ (sampleStereo "T")._pmol.HasDoubleBond 1 = false
      ∧ (sampleStereo "T")._pmol.HasDoubleBond 4 = false)
    ∧ ∃ g, DoMolWideData.loop
          (("bondStereo", "T") :: ("atomRefs4", "a1 a2 a3 a4") :: ("centralAtomOrBond", "1") :: [])
          (sampleStereo "T")
        = DoMolWideData.loop [] g
      ∧ (WriteBondStereo none g._pmol 1 ["Error", "a1", "a2", "a3", "a4"]
          = [WriterEvent.StartElementNS none "bondStereo" none,
             WriterEvent.WriteAttribute "atomRefs4"
               (idAt ["Error", "a1", "a2", "a3", "a4"] 1 ++ " " ++ idAt ["Error", "a1", "a2", "a3", "a4"] 2
                 ++ " " ++ idAt ["Error", "a1", "a2", "a3", "a4"] 3 ++ " "
                 ++ idAt ["Error", "a1", "a2", "a3", "a4"] 4),
             WriterEvent.WriteString "T", WriterEvent.EndElement]
        ∨ WriteBondStereo none g._pmol 1 ["Error", "a1", "a2", "a3", "a4"]
          = [WriterEvent.StartElementNS none "bondStereo" none,
             WriterEvent.WriteAttribute "atomRefs4"
               (idAt ["Error", "a1", "a2", "a3", "a4"] 4 ++ " " ++ idAt ["Error", "a1", "a2", "a3", "a4"] 3
                 ++ " " ++ idAt ["Error", "a1", "a2", "a3", "a4"] 2 ++ " "
                 ++ idAt ["Error", "a1", "a2", "a3", "a4"] 1),
             WriterEvent.WriteString "T", WriterEvent.EndElement]) :=
  ⟨⟨Or.inr rfl, by decide, by decide, by decide, by decide, by decide,
      by omega, by omega, by omega,
      by decide, by decide, Or.inr (by decide), Or.inl (by decide), by decide,
      ⟨by decide, by decide⟩, by decide, by decide, by decide⟩,
    DoMolWideData_cis_trans_written_back (sampleStereo "T") "T" "a1 a2 a3 a4" "1" [] "a1" "a2"
      "a3" "a4" 1 2 3 4 0 2 1 none ["Error", "a1", "a2", "a3", "a4"]
      (Or.inr rfl) (by decide) (by decide) (by decide) (by decide) (by decide)
      (by omega) (by omega) (by omega)
      (by decide) (by decide) (Or.inr (by decide)) (Or.inl (by decide)) (by decide)
      ⟨by decide, by decide⟩ (by decide) (by decide) (by decide)⟩

/-- C38, counterexample: but-2-ene without up or down flags whose double bond
carries the wedge flag. After the pass of `DoMolWideData` over the descriptor C with
the references a1 a2 a3 a4, `WriteBondStereo` on the double bond writes the value W
without a reference list; without the wedge flag it writes C with the four
references. -/
theorem WriteBondStereo_wedged_double_bond :
    (stateOf (DoMolWideData
        { sampleStereo "C" with
          _pmol := sampleButene.modifyBond 1 fun b => { b with Wedge := true } })).map
        (fun g => WriteBondStereo none g._pmol 1 ["Error", "a1", "a2", "a3", "a4"])
      = some [WriterEvent.StartElementNS none "bondStereo" none, WriterEvent.WriteString "W",
              WriterEvent.EndElement]
    ∧ (sampleButene.modifyBond 1 fun b => { b with Wedge := true }).bonds.map OBBond.dir
      = [(false, false), (false, false), (false, false)]
    ∧ (stateOf (DoMolWideData (sampleStereo "C"))).map
        (fun g => WriteBondStereo none g._pmol 1 ["Error", "a1", "a2", "a3", "a4"])
      = some [WriterEvent.StartElementNS none "bondStereo" none,
              WriterEvent.WriteAttribute "atomRefs4" "a1 a2 a3 a4",
              WriterEvent.WriteString "C", WriterEvent.EndElement] := by
  refine ⟨?_, ?_, ?_⟩ <;> decide!

end OpenBabel

namespace OpenBabel

/-! ## Atom classes: from the identifiers back to the classes -/

theorem isDigit_not_ge_a (c : Char) (h : c.isDigit = true) : decide (c ≥ 'a') = false := by
  rw [decide_eq_false_iff_not]
  intro hge
  have h1 : c.val ≤ 57 := by
    unfold Char.isDigit at h
    simp only [Bool.and_eq_true, decide_eq_true_eq] at h
    exact h.2
  have h2 : (97 : UInt32) ≤ c.val := hge
  have h3 := UInt32.le_def.1 h1
  have h4 := UInt32.le_def.1 h2
  have h5 : (57 : Fin UInt32.size) < 97 := by decide
  exact absurd (lt_of_lt_of_le h5 h4) (not_lt.2 h3)

theorem atoi_intToDec (c : Int) (h0 : 0 ≤ c) (h1 : c < 2147483648) : atoi (intToDec c) = c := by
  have hi : intToDec c = String.mk (natToDec c.natAbs) := by
    unfold intToDec
    rw [if_neg (by omega)]
  rw [hi]
  unfold atoi
  rw [strtol_natToDec]
  unfold clampLong toInt32
  have ha : ((c.natAbs : Nat) : Int) = c := by omega
  rw [ha]
  rw [if_neg (by omega), if_neg (by omega)]
  omega

theorem lowercaseLetter_not_delim : ∀ k, k ≤ 26 → isDelim (lowercaseLetter k) = false := by decide

theorem classAtomId_token (mol : OBMol) (idx : Nat) (h26 : ∀ ac, mol.classCount ac idx ≤ 26) :
    IsToken (classAtomId mol idx) := by
  unfold classAtomId
  cases hc : mol.classOf idx with
  | none =>
    refine ⟨by simp, ?_⟩
    intro c hcm
    rcases List.mem_cons.1 hcm with e | e
    · subst e
      decide
    · exact (intToDec_token _).2 c e
  | some ac =>
    refine ⟨by simp, ?_⟩
    intro c hcm
    rcases List.mem_cons.1 hcm with e | e
    · subst e
      decide
    · rcases List.mem_cons.1 e with e | e
      · subst e
        exact lowercaseLetter_not_delim _ (h26 ac)
      · exact (intToDec_token _).2 c e

/-- The identifier branch of `DoAtoms` on an identifier of `MakeAtomIds`: the class
of the atom is added for the atom count, and nothing is added for an atom without a
class. -/
theorem setId_classAtomId (molID : String) (nhvy : Int) (mol : OBMol) (idx : Nat) (s : AtomVars)
    (h26 : ∀ ac, mol.classCount ac idx ≤ 26) (h1 : 1 ≤ idx)
    (hc : ∀ c, mol.classOf idx = some c → 0 ≤ c ∧ c < 2147483648) :
    (DoAtoms.setId molID nhvy (classAtomId mol idx) s).aclass
        = (match mol.classOf idx with
           | none => s.aclass
           | some c => classAdd s.aclass s.nAtoms c)
      ∧ (DoAtoms.setId molID nhvy (classAtomId mol idx) s).nAtoms = s.nAtoms
      ∧ (DoAtoms.setId molID nhvy (classAtomId mol idx) s).mol = s.mol := by
  unfold DoAtoms.setId
  simp only
  cases hcl : mol.classOf idx with
  | none =>
    have hid : classAtomId mol idx = String.mk ('a' :: natToDec idx) := by
      unfold classAtomId
      rw [hcl, intToDec_natCast]
    have hch : decide (charAt (classAtomId mol idx) 1 ≥ 'a') = false := by
      rw [hid]
      cases hn : natToDec idx with
      | nil => exact absurd hn (natToDec_ne_nil idx)
      | cons d ds =>
        exact isDigit_not_ge_a d (natToDec_head_digit idx d ds hn)
    simp only [hch, Bool.and_false, Bool.false_and, Bool.false_eq_true, if_false]
    split_ifs <;> exact ⟨rfl, rfl, rfl⟩
  | some c =>
    obtain ⟨hc0, hc1⟩ := hc c hcl
    have hk1 : 1 ≤ mol.classCount c idx := by
      obtain ⟨k, rfl⟩ : ∃ k, idx = k + 1 := ⟨idx - 1, by omega⟩
      rw [OBMol.classCount_succ, if_pos hcl]
      omega
    have hid : classAtomId mol idx
        = String.mk ('a' :: lowercaseLetter (mol.classCount c idx) :: (intToDec c).data) := by
      unfold classAtomId
      rw [hcl]
    obtain ⟨ha, hz⟩ := lowercaseLetter_range _ hk1 (h26 c)
    have hcond : (charAt (classAtomId mol idx) 0 == 'a' && decide (charAt (classAtomId mol idx) 1 ≥ 'a')
        && decide (charAt (classAtomId mol idx) 1 ≤ 'z')) = true := by
      rw [hid]
      have e0 : charAt (String.mk ('a' :: lowercaseLetter (mol.classCount c idx) :: (intToDec c).data)) 0
          = 'a' := rfl
      have e1 : charAt (String.mk ('a' :: lowercaseLetter (mol.classCount c idx) :: (intToDec c).data)) 1
          = lowercaseLetter (mol.classCount c idx) := rfl
      rw [e0, e1]
      simp only [beq_self_eq_true, Bool.true_and, Bool.and_eq_true, decide_eq_true_eq]
      exact ⟨ha, hz⟩
    rw [if_pos hcond]
    have hdrop : String.mk ((classAtomId mol idx).data.drop 2) = intToDec c := by
      rw [hid]
      rfl
    rw [hdrop, atoi_intToDec c hc0 hc1]
    split_ifs <;> exact ⟨rfl, rfl, rfl⟩

theorem modifyAtom_length_data (mol : OBMol) (i : Nat) (g : OBAtom → OBAtom) :
    (mol.modifyAtom i g).atoms.length = mol.atoms.length ∧ (mol.modifyAtom i g).data = mol.data := by
  unfold OBMol.modifyAtom
  exact ⟨by simp, rfl⟩

theorem setElement_length_data (env : Env) (pAtom : Nat) (value : String) (s : AtomVars) :
    (DoAtoms.setElement env pAtom value s).mol.atoms.length = s.mol.atoms.length
      ∧ (DoAtoms.setElement env pAtom value s).mol.data = s.mol.data
      ∧ (DoAtoms.setElement env pAtom value s).aclass = s.aclass
      ∧ (DoAtoms.setElement env pAtom value s).nAtoms = s.nAtoms := by
  refine ⟨?_, ?_, rfl, rfl⟩
  · unfold DoAtoms.setElement
    simp only
    split_ifs <;> simp only [(modifyAtom_length_data _ _ _).1]
  · unfold DoAtoms.setElement
    simp only
    split_ifs <;> simp only [(modifyAtom_length_data _ _ _).2]

/-- One pass of the atom loop of `DoAtoms` on a record that holds an identifier of
`MakeAtomIds` and an element type. -/
theorem DoAtoms.record_class (env : Env) (molID : String) (use2d : Bool) (cell : Option (List String))
    (mol : OBMol) (idx : Nat) (el : String) (s : AtomVars)
    (h26 : ∀ ac, mol.classCount ac idx ≤ 26) (h1 : 1 ≤ idx)
    (hc : ∀ c, mol.classOf idx = some c → 0 ≤ c ∧ c < 2147483648) :
    ∃ t r dim, DoAtoms.record env molID use2d cell [("id", classAtomId mol idx), ("elementType", el)] s
        = Except.ok (t, r, dim)
      ∧ t.aclass = (match mol.classOf idx with
                    | none => s.aclass
                    | some c => classAdd s.aclass (s.nAtoms + 1) c)
      ∧ t.nAtoms = s.nAtoms + 1
      ∧ t.mol.atoms.length = s.mol.atoms.length + 1
      ∧ t.mol.data = s.mol.data := by
  unfold DoAtoms.record
  simp only
  have hidtrue : (("id" : String) == "id" || ("id" : String) == "atomId" || ("id" : String) == "atomID")
      = true := by decide
  rw [DoAtoms.attrs.eq_def]
  simp only [hidtrue, if_true]
  rw [DoAtoms.attrs.eq_def]
  simp only [(classAtomId_token mol idx h26).trim]
  have hfalse : (("elementType" : String) == "id" || ("elementType" : String) == "atomId"
      || ("elementType" : String) == "atomID") = false := by decide
  simp only [hfalse, Bool.false_eq_true, if_false, beq_self_eq_true, if_true]
  rw [DoAtoms.attrs.eq_def]
  simp only [DoAtoms.cont]
  obtain ⟨i1, i2, i3⟩ := setId_classAtomId molID (s.nAtoms + 1) mol idx
    { s with mol := s.mol.NewAtom, nAtoms := s.nAtoms + 1, x := Dbl.zero, y := Dbl.zero, z := Dbl.zero,
             using3 := false, using2 := false, usingFract := false } h26 h1 hc
  obtain ⟨e1, e2, e3, e4⟩ := setElement_length_data env (s.mol.NewAtom.atoms.length - 1) el
    (DoAtoms.setId molID (s.nAtoms + 1) (classAtomId mol idx)
      { s with mol := s.mol.NewAtom, nAtoms := s.nAtoms + 1, x := Dbl.zero, y := Dbl.zero, z := Dbl.zero,
               using3 := false, using2 := false, usingFract := false })
  refine ⟨_, _, _, rfl, ?_, ?_, ?_, ?_⟩
  · exact e3.trans i1
  · exact e4.trans i2
  · show (OBMol.modifyAtom _ _ _).atoms.length = _
    rw [(modifyAtom_length_data _ _ _).1, e1, i3]
    simp [OBMol.NewAtom]
  · show (OBMol.modifyAtom _ _ _).data = _
    rw [(modifyAtom_length_data _ _ _).2, e2, i3]
    rfl

theorem lookup_classAdd (m : List (Int × Int)) (k v q : Int) :
    (classAdd m k v).lookup q = if q = k then some v else m.lookup q := by
  induction m with
  | nil =>
    unfold classAdd
    by_cases h : q = k
    · simp [List.lookup, h]
    · have hqk : (q == k) = false := by simpa using h
      simp [List.lookup, h, hqk]
  | cons e rest ih =>
    obtain ⟨a, w⟩ := e
    unfold classAdd
    by_cases ha : a = k
    · subst ha
      by_cases h : q = a
      · simp [List.lookup, h]
      · have hqa : (q == a) = false := by simpa using h
        simp [List.lookup, h, hqa]
    · have hak : (a == k) = false := by simpa using ha
      simp only [hak, Bool.false_eq_true, if_false, List.lookup]
      by_cases hq : q = a
      · subst hq
        simp [ha]
      · have hqa : (q == a) = false := by simpa using hq
        simp only [hqa]
        exact ih

/-- The atom loop of `DoAtoms` on the records of the atoms `m + 1` to `m + len`, when
the classes read so far are those of the atoms 1 to `m`. -/
theorem DoAtoms.records_class (env : Env) (molID : String) (use2d : Bool) (cell : Option (List String))
    (mol : OBMol) (els : Nat → String) (N : Nat)
    (h26 : ∀ ac, mol.classCount ac N ≤ 26)
    (hc : ∀ (idx : Nat) (c : Int), 1 ≤ idx → idx ≤ N → mol.classOf idx = some c →
      0 ≤ c ∧ c < 2147483648) (len : Nat) :
    ∀ (m : Nat) (s : AtomVars) (d : Int), m + len ≤ N → s.nAtoms = ((m : Nat) : Int) →
      (∀ idx : Nat, s.aclass.lookup ((idx : Nat) : Int)
        = if 1 ≤ idx ∧ idx ≤ m then mol.classOf idx else none) →
      ∃ t arr dim, DoAtoms.records env molID use2d cell
          ((List.range' m len).map fun i => [("id", classAtomId mol (i + 1)), ("elementType", els i)])
          s d = Except.ok (t, arr, dim)
        ∧ (∀ idx : Nat, t.aclass.lookup ((idx : Nat) : Int)
            = if 1 ≤ idx ∧ idx ≤ m + len then mol.classOf idx else none)
        ∧ t.mol.atoms.length = s.mol.atoms.length + len
        ∧ t.mol.data = s.mol.data := by
  induction len with
  | zero =>
    intro m s d _ _ hinv
    exact ⟨s, [], d, rfl, hinv, rfl, rfl⟩
  | succ len ih =>
    intro m s d hm hn hinv
    have h26m : ∀ ac, mol.classCount ac (m + 1) ≤ 26 := fun ac =>
      le_trans (OBMol.classCount_mono mol ac _ _ (by omega)) (h26 ac)
    obtain ⟨t, r, dim, hrec, ha, hna, hlen, hdata⟩ := DoAtoms.record_class env molID use2d cell mol
      (m + 1) (els m) s h26m (by omega) (fun c hcl => hc (m + 1) c (by omega) (by omega) hcl)
    have hinv' : ∀ idx : Nat, t.aclass.lookup ((idx : Nat) : Int)
        = if 1 ≤ idx ∧ idx ≤ m + 1 then mol.classOf idx else none := by
      intro idx
      rw [ha]
      cases hcl : mol.classOf (m + 1) with
      | none =>
        simp only
        rw [hinv idx]
        by_cases h1 : idx = m + 1
        · subst h1
          rw [if_neg (by omega), if_pos (by omega), hcl]
        · by_cases h2 : 1 ≤ idx ∧ idx ≤ m
          · rw [if_pos h2, if_pos (by omega)]
          · rw [if_neg h2, if_neg (by omega)]
      | some c =>
        simp only
        rw [lookup_classAdd, hn]
        by_cases h1 : idx = m + 1
        · subst h1
          rw [if_pos (by push_cast; ring), if_pos (by omega), hcl]
        · rw [if_neg (by omega), hinv idx]
          by_cases h2 : 1 ≤ idx ∧ idx ≤ m
          · rw [if_pos h2, if_pos (by omega)]
          · rw [if_neg h2, if_neg (by omega)]
    obtain ⟨u, arr, dim2, hrecs, hu, hulen, hudata⟩ := ih (m + 1) t dim (by omega)
      (by rw [hna, hn]; push_cast; ring) hinv'
    refine ⟨u, r :: arr, dim2, ?_, ?_, ?_, ?_⟩
    · rw [List.range'_succ, List.map_cons, DoAtoms.records, hrec]
      simp only
      rw [hrecs]
    · intro idx
      rw [hu idx]
      have : m + 1 + len = m + (len + 1) := by omega
      rw [this]
    · rw [hulen, hlen]
      omega
    · rw [hudata, hdata]

theorem sampleClasses_range : ∀ (idx : Nat) (c : Int), 1 ≤ idx → idx ≤ sampleClasses.atoms.length →
    sampleClasses.classOf idx = some c → 0 ≤ c ∧ c < 2147483648 := by
  intro idx c h1 h2 h
  have h2' : idx ≤ 5 := h2
  have hall : ∀ i : Fin 6, sampleClasses.classOf i.val = none
      ∨ sampleClasses.classOf i.val = some 5 ∨ sampleClasses.classOf i.val = some 12 := by decide
  rcases hall ⟨idx, by omega⟩ with e | e | e
  · rw [h] at e
    cases e
  · rw [h] at e
    have := Option.some.inj e
    omega
  · rw [h] at e
    have := Option.some.inj e
    omega

/-- C39: for every molecule and every atom class data with classes from 0 up (an
`int`) in which no class is shared by more than 26 atoms: when `DoAtoms` reads, into
a new molecule, the atom records that carry the identifiers `MakeAtomIds` gives to
the atoms, in order, each with an element type and no `hydrogenCount`, it returns
true, creates one atom per record, and the atom classes of the molecule it leaves
are the same assignment: an atom with the class c has the class c and an atom
without a class has none. -/
theorem DoAtoms_recovers_atom_classes (env : Env) (f : CMLFormat) (title : String) (mol : OBMol)
    (els : Nat → String)
    (h26 : ∀ ac, mol.classCount ac mol.atoms.length ≤ 26)
    (hc : ∀ (idx : Nat) (c : Int), 1 ≤ idx → idx ≤ mol.atoms.length → mol.classOf idx = some c →
      0 ≤ c ∧ c < 2147483648)
    (hf : f._pmol = {})
    (hA : f.AtomArray = idRecords (MakeAtomIds title mol).1 els mol.atoms.length) :
    ∃ g, DoAtoms env f = Except.ok (true, g)
      ∧ g._pmol.atoms.length = mol.atoms.length
      ∧ ∀ idx : Nat, 1 ≤ idx → idx ≤ mol.atoms.length → g._pmol.classOf idx = mol.classOf idx := by
  have hrecs : idRecords (MakeAtomIds title mol).1 els mol.atoms.length
      = (List.range' 0 mol.atoms.length).map fun i =>
          [("id", classAtomId mol (i + 1)), ("elementType", els i)] := by
    unfold idRecords
    rw [← List.range_eq_range']
    apply List.map_congr_left
    intro i hi
    have hi' : i < mol.atoms.length := List.mem_range.1 hi
    rw [MakeAtomIds_classes title mol h26]
    unfold idAt
    have : (((i + 1 : Nat) : Int)).toNat = i + 1 := by simp
    rw [this]
    simp [List.getD, hi']
  obtain ⟨t, arr, dim, hrun, hinv, hlen, hdata⟩ := DoAtoms.records_class env (GetMolID env f)
    f._pxmlConv.in2 (f.unitCell.map (·.vals)) mol els mol.atoms.length h26 hc mol.atoms.length 0
    { mol := f._pmol, AtomMap := f.AtomMap, log := f.obErrorLog, nAtoms := f._pmol.NumAtoms } 0
    (by omega) (by rw [hf]; rfl) (by
      intro idx
      rw [if_neg (by omega)]
      rfl)
  unfold DoAtoms
  rw [hA, hrecs, hrun]
  refine ⟨_, rfl, ?_, ?_⟩
  · simp only
    split_ifs
    · simp only [OBMol.SetData]
      rw [hlen, hf]
      simp
    · rw [hlen, hf]
      simp
  · intro idx h1 h2
    have hd : t.mol.data = [] := by
      rw [hdata, hf]
    have hi := hinv idx
    rw [if_pos ⟨h1, by omega⟩] at hi
    simp only
    by_cases hl : t.aclass.length > 0
    · rw [if_pos hl]
      unfold OBMol.classOf OBMol.atomClasses
      simp only [OBMol.SetData, hd, List.nil_append, List.findSome?_cons, List.findSome?_nil]
      exact hi
    · rw [if_neg hl]
      have hnil : t.aclass = [] := by
        cases e : t.aclass with
        | nil => rfl
        | cons a b => rw [e] at hl; simp at hl
      rw [hnil] at hi
      unfold OBMol.classOf OBMol.atomClasses
      simp only [hd, List.findSome?_nil]
      exact hi

/-- The molecule of five atoms with the classes 5, 5, 5 and 12: the identifiers aa5,
a2, ab5, ac5 and aa12 are read back as the same classes. -/
theorem DoAtoms_recovers_atom_classes_witness :
    ((∀ ac, sampleClasses.classCount ac sampleClasses.atoms.length ≤ 26)
      ∧ (∀ (idx : Nat) (c : Int), 1 ≤ idx → idx ≤ sampleClasses.atoms.length →
          sampleClasses.classOf idx = some c → 0 ≤ c ∧ c < 2147483648)
      ∧ ({ AtomArray := idRecords (MakeAtomIds "" sampleClasses).1 (fun _ => "C")
            sampleClasses.atoms.length } : CMLFormat)._pmol = {}
      ∧ ({ AtomArray := idRecords (MakeAtomIds "" sampleClasses).1 (fun _ => "C")
            sampleClasses.atoms.length } : CMLFormat).AtomArray
          = idRecords (MakeAtomIds "" sampleClasses).1 (fun _ => "C") sampleClasses.atoms.length)
    ∧ ∃ g, DoAtoms sampleEnv
          { AtomArray := idRecords (MakeAtomIds "" sampleClasses).1 (fun _ => "C")
              sampleClasses.atoms.length } = Except.ok (true, g)
      ∧ g._pmol.atoms.length = sampleClasses.atoms.length
      ∧ ∀ idx : Nat, 1 ≤ idx → idx ≤ sampleClasses.atoms.length →
          g._pmol.classOf idx = sampleClasses.classOf idx :=
  ⟨⟨fun ac => le_trans (OBMol.classCount_le sampleClasses ac _) (by decide),
      sampleClasses_range, rfl, rfl⟩,
    DoAtoms_recovers_atom_classes sampleEnv
      { AtomArray := idRecords (MakeAtomIds "" sampleClasses).1 (fun _ => "C")
          sampleClasses.atoms.length } "" sampleClasses (fun _ => "C")
      (fun ac => le_trans (OBMol.classCount_le sampleClasses ac _) (by decide))
      sampleClasses_range rfl rfl⟩

end OpenBabel

namespace OpenBabel

/-! ## NWChem output: the atoms of the last block -/

theorem strstr_iff (s needle : List Char) : strstr s needle = true ↔ needle <:+: s := by
  unfold strstr
  rw [List.any_eq_true]
  constructor
  · rintro ⟨t, ht, hp⟩
    exact List.infix_iff_prefix_suffix.2 ⟨t, List.isPrefixOf_iff_prefix.1 hp, (List.mem_tails _ _).1 ht⟩
  · intro h
    obtain ⟨t, hp, hs⟩ := List.infix_iff_prefix_suffix.1 h
    exact ⟨t, (List.mem_tails _ _).2 hs, List.isPrefixOf_iff_prefix.2 hp⟩

theorem cString_of_no_nul (l : List Char) (h : ∀ c ∈ l, c ≠ Char.ofNat 0) : cString l = l := by
  unfold cString
  rw [List.takeWhile_eq_self_iff]
  intro c hc
  simpa using h c hc

theorem textLines_cons (c : Char) (cs : List Char) :
    textLines (c :: cs)
      = (c :: cs).takeWhile (· != '\n') :: textLines (((c :: cs).dropWhile (· != '\n')).drop 1) := by
  induction cs generalizing c with
  | nil =>
    unfold textLines
    by_cases h : c = '\n'
    · subst h
      rfl
    · rw [if_neg h]
      have hb : (c != '\n') = true := by simpa using h
      simp [textLines, List.takeWhile, List.dropWhile, hb]
  | cons d ds ih =>
    rw [textLines]
    by_cases h : c = '\n'
    · subst h
      rw [if_pos rfl]
      rfl
    · rw [if_neg h]
      have hb : (c != '\n') = true := by simpa using h
      rw [ih d]
      simp only [List.takeWhile_cons, List.dropWhile_cons, hb, if_true]

theorem textLines_length (text : List Char) : (textLines text).length ≤ text.length := by
  induction text with
  | nil => exact Nat.le_refl _
  | cons c cs ih =>
    unfold textLines
    split_ifs
    · simp only [List.length_cons]
      omega
    · cases h : textLines cs with
      | nil => simp
      | cons l ls =>
        rw [h] at ih
        simp only [List.length_cons] at ih ⊢
        omega

theorem textLines_eq_nil (text : List Char) (h : textLines text = []) : text = [] := by
  cases text with
  | nil => rfl
  | cons c cs =>
    rw [textLines_cons] at h
    exact absurd h (List.cons_ne_nil _ _)

theorem getline_none (s : istream) (n : Nat) (h : s.HasLines []) :
    (s.getline n).1 = [] ∧ (s.getline n).2.fail = true ∧ (s.getline n).2.HasLines [] := by
  have hc : (s.fail || s.chars.isEmpty) = true := by
    rcases h with ⟨hf, _⟩ | ⟨_, ht⟩
    · rw [hf]
      rfl
    · rw [textLines_eq_nil _ ht]
      simp
  unfold istream.getline
  rw [if_pos hc]
  exact ⟨rfl, rfl, Or.inl ⟨rfl, rfl⟩⟩

theorem getline_some (s : istream) (n : Nat) (l : List Char) (ls : List (List Char))
    (h : s.HasLines (l :: ls)) (hl : l.length < n) :
    (s.getline n).1 = l ∧ (s.getline n).2.fail = false ∧ (s.getline n).2.HasLines ls := by
  rcases h with ⟨_, hn⟩ | ⟨hf, ht⟩
  · exact absurd hn (List.cons_ne_nil _ _)
  · cases hcs : s.chars with
    | nil =>
      rw [hcs] at ht
      exact absurd ht.symm (List.cons_ne_nil _ _)
    | cons c cs =>
      rw [hcs, textLines_cons] at ht
      have h1 := (List.cons.inj ht).1
      have h2 := (List.cons.inj ht).2
      have hc : ¬ (s.fail || s.chars.isEmpty) = true := by
        rw [hf, hcs]
        simp
      unfold istream.getline
      rw [if_neg hc]
      simp only []
      rw [hcs, h1, if_pos (by omega : l.length + 1 ≤ n)]
      exact ⟨rfl, rfl, Or.inr ⟨rfl, h2⟩⟩

theorem getline_lines (s : istream) (n : Nat) (x : List (List Char)) (h : s.HasLines x)
    (hs : ∀ l ∈ x, l.length < n) :
    (s.getline n).1 = x.headD [] ∧ ((s.getline n).2.fail = true ↔ x = [])
      ∧ (s.getline n).2.HasLines (x.drop 1) := by
  cases x with
  | nil =>
    obtain ⟨h1, h2, h3⟩ := getline_none s n h
    exact ⟨h1, ⟨fun _ => rfl, fun _ => h2⟩, h3⟩
  | cons l ls =>
    obtain ⟨h1, h2, h3⟩ := getline_some s n l ls h (hs l (List.mem_cons_self _ _))
    refine ⟨h1, ⟨fun hf => ?_, fun hn => absurd hn (List.cons_ne_nil _ _)⟩, h3⟩
    rw [h2] at hf
    exact absurd hf (by decide)

theorem newAtom_atoms (env : Env) (l : List Char) (mol : OBMol) :
    (NWChemOutputFormat.newAtom env (tokenize (String.mk l)) mol).atoms
      = mol.atoms ++ [lineAtom env l] := by
  unfold NWChemOutputFormat.newAtom
  simp only []
  have e1 := modifyAtom_last mol.NewAtom mol.atoms {}
    (fun a => { a with Vector := { x := Dbl.strtod ((tokenize (String.mk l)).getD 3 ""),
                                   y := Dbl.strtod ((tokenize (String.mk l)).getD 4 ""),
                                   z := Dbl.strtod ((tokenize (String.mk l)).getD 5 "") } }) rfl
  have hl : mol.NewAtom.atoms.length - 1
      = (mol.NewAtom.modifyAtom (mol.NewAtom.atoms.length - 1) fun a =>
          { a with Vector := { x := Dbl.strtod ((tokenize (String.mk l)).getD 3 ""),
                               y := Dbl.strtod ((tokenize (String.mk l)).getD 4 ""),
                               z := Dbl.strtod ((tokenize (String.mk l)).getD 5 "") } }).atoms.length
          - 1 := by
    rw [e1]
    show (mol.atoms ++ [({} : OBAtom)]).length - 1 = _
    simp
  have e2 := modifyAtom_last _ mol.atoms _
    (fun a => { a with AtomicNum := (env.GetAtomicNum ((tokenize (String.mk l)).getD 1 "")).1 }) e1
  rw [← hl] at e2
  rw [e2]
  rfl

theorem takeWhile_six_pos (cur : List Char) (ls : List (List Char)) (h : SixTokens cur) :
    ((cur :: ls).takeWhile fun l => decide (SixTokens l))
      = cur :: ls.takeWhile fun l => decide (SixTokens l) := by
  simp [List.takeWhile_cons, h]

theorem takeWhile_six_neg (cur : List Char) (ls : List (List Char)) (h : ¬ SixTokens cur) :
    ((cur :: ls).takeWhile fun l => decide (SixTokens l)) = [] := by
  simp [List.takeWhile_cons, h]

theorem NWChemOutputFormat.readAtoms_run (env : Env) (n : Nat) :
    ∀ (ls : List (List Char)) (cur : List Char) (s : istream) (mol : OBMol) (fuel : Nat),
      s.HasLines ls → (∀ l ∈ ls, l.length < n) → (∀ l ∈ ls, ∀ c ∈ l, c ≠ Char.ofNat 0) →
      ls.length + 1 ≤ fuel →
      ∃ mol' s', NWChemOutputFormat.readAtoms env n fuel (tokenize (String.mk cur)) s mol
            = some (mol', s')
        ∧ mol'.atoms = mol.atoms
            ++ ((cur :: ls).takeWhile fun l => decide (SixTokens l)).map (lineAtom env)
        ∧ s'.HasLines ((cur :: ls).drop
            (((cur :: ls).takeWhile fun l => decide (SixTokens l)).length + 1)) := by
  intro ls
  induction ls with
  | nil =>
    intro cur s mol fuel hs _ _ hfuel
    obtain ⟨k, rfl⟩ : ∃ k, fuel = k + 1 := ⟨fuel - 1, by simp at hfuel; omega⟩
    rw [NWChemOutputFormat.readAtoms]
    by_cases h6 : (tokenize (String.mk cur)).length = 6
    · rw [if_pos h6]
      simp only []
      rw [if_pos (getline_none s n hs).2.1]
      refine ⟨_, _, rfl, ?_, ?_⟩
      · rw [newAtom_atoms]
        simp [SixTokens, h6]
      · simp only [List.takeWhile_cons, SixTokens, h6, decide_True, if_true, List.takeWhile_nil,
          List.length_cons, List.length_nil, List.drop_succ_cons, List.drop_nil]
        exact (getline_none s n hs).2.2
    · rw [if_neg h6]
      refine ⟨_, _, rfl, ?_, ?_⟩
      · simp [SixTokens, h6]
      · simpa [SixTokens, h6] using hs
  | cons c2 ls2 ih =>
    intro cur s mol fuel hs hshort hnul hfuel
    obtain ⟨k, rfl⟩ : ∃ k, fuel = k + 1 := ⟨fuel - 1, by simp at hfuel; omega⟩
    rw [NWChemOutputFormat.readAtoms]
    by_cases h6 : (tokenize (String.mk cur)).length = 6
    · rw [if_pos h6]
      simp only []
      obtain ⟨g1, g2, g3⟩ := getline_some s n c2 ls2 hs (hshort c2 (List.mem_cons_self _ _))
      rw [if_neg (by rw [g2]; decide), g1,
        cString_of_no_nul c2 (hnul c2 (List.mem_cons_self _ _))]
      obtain ⟨mol', s', e1, e2, e3⟩ := ih c2 (s.getline n).2
        (NWChemOutputFormat.newAtom env (tokenize (String.mk cur)) mol) k g3
        (fun l hl => hshort l (List.mem_cons_of_mem _ hl))
        (fun l hl => hnul l (List.mem_cons_of_mem _ hl))
        (by simp only [List.length_cons] at hfuel; omega)
      refine ⟨mol', s', e1, ?_, ?_⟩
      · rw [e2, newAtom_atoms]
        rw [takeWhile_six_pos cur _ h6]
        simp
      · rw [takeWhile_six_pos cur _ h6]
        simpa using e3
    · rw [if_neg h6]
      refine ⟨_, _, rfl, ?_, ?_⟩
      · rw [takeWhile_six_neg cur _ h6]
        simp
      · rw [takeWhile_six_neg cur _ h6]
        simpa using hs

theorem tokenize_nil : tokenize (String.mk []) = [] := rfl

theorem NWChemOutputFormat.readAtoms_lines (env : Env) (n : Nat) (L : List (List Char))
    (s : istream) (mol : OBMol) (fuel : Nat) (hs : s.HasLines (L.drop 1))
    (hshort : ∀ l ∈ L, l.length < n) (hnul : ∀ l ∈ L, ∀ c ∈ l, c ≠ Char.ofNat 0)
    (hfuel : L.length + 1 ≤ fuel) :
    ∃ mol' s', NWChemOutputFormat.readAtoms env n fuel (tokenize (String.mk (L.headD []))) s mol
          = some (mol', s')
      ∧ mol'.atoms = mol.atoms ++ (L.takeWhile fun l => decide (SixTokens l)).map (lineAtom env)
      ∧ s'.HasLines (L.drop ((L.takeWhile fun l => decide (SixTokens l)).length + 1)) := by
  cases L with
  | nil =>
    obtain ⟨k, rfl⟩ : ∃ k, fuel = k + 1 := ⟨fuel - 1, by simp at hfuel; omega⟩
    refine ⟨mol, s, ?_, ?_, ?_⟩
    · rw [List.headD_nil, tokenize_nil, NWChemOutputFormat.readAtoms]
      rfl
    · simp
    · simpa using hs
  | cons cur ls =>
    exact NWChemOutputFormat.readAtoms_run env n ls cur s mol fuel hs
      (fun l hl => hshort l (List.mem_cons_of_mem _ hl))
      (fun l hl => hnul l (List.mem_cons_of_mem _ hl))
      (by simp only [List.length_cons] at hfuel; omega)

theorem NWChemOutputFormat.readBlocks_succ (env : Env) (n fuel : Nat) (s : istream) (mol : OBMol) :
    NWChemOutputFormat.readBlocks env n (fuel + 1) s mol
      = if (s.getline n).2.fail = true then some mol
        else if strstr (cString (s.getline n).1) "Output coordinates".data = true then
          (NWChemOutputFormat.readAtoms env n (fuel + 1)
            (tokenize (String.mk (cString
              (((((s.getline n).2.getline n).2.getline n).2.getline n).2.getline n).1)))
            (((((s.getline n).2.getline n).2.getline n).2.getline n).2.getline n).2
            mol.Clear).bind fun r => NWChemOutputFormat.readBlocks env n fuel r.2 r.1
        else NWChemOutputFormat.readBlocks env n fuel (s.getline n).2 mol := by
  rw [NWChemOutputFormat.readBlocks]
  simp only []
  split_ifs
  · rfl
  · cases NWChemOutputFormat.readAtoms env n (fuel + 1)
      (tokenize (String.mk (cString
        (((((s.getline n).2.getline n).2.getline n).2.getline n).2.getline n).1)))
      (((((s.getline n).2.getline n).2.getline n).2.getline n).2.getline n).2 mol.Clear <;> rfl
  · rfl

theorem afterLastHeader_cons_of_not (l : List Char) (rest : List (List Char)) (h : ¬ IsHeader l) :
    afterLastHeader (l :: rest) = afterLastHeader rest := by
  rw [afterLastHeader]
  cases afterLastHeader rest with
  | none => simp [h]
  | some a => rfl

theorem afterLastHeader_drop (k : Nat) :
    ∀ rest : List (List Char), (∀ x ∈ rest.take k, ¬ IsHeader x) →
      afterLastHeader rest = afterLastHeader (rest.drop k) := by
  induction k with
  | zero =>
    intro rest _
    rfl
  | succ k ih =>
    intro rest h
    cases rest with
    | nil => rfl
    | cons l ls =>
      rw [afterLastHeader_cons_of_not l ls (h l (by simp)), List.drop_succ_cons]
      exact ih ls fun x hx => h x (by simp [hx])

theorem afterLastHeader_cons_of_header (l : List Char) (rest : List (List Char)) (k : Nat)
    (h : IsHeader l) (hno : ∀ x ∈ rest.take k, ¬ IsHeader x) :
    afterLastHeader (l :: rest) = some ((afterLastHeader (rest.drop k)).getD rest) := by
  rw [afterLastHeader, afterLastHeader_drop k rest hno]
  cases afterLastHeader (rest.drop k) with
  | none => simp [h]
  | some a => rfl

theorem HeadersApart_drop (k : Nat) :
    ∀ ls : List (List Char), HeadersApart ls → HeadersApart (ls.drop k) := by
  induction k with
  | zero =>
    intro ls h
    exact h
  | succ k ih =>
    intro ls h
    cases ls with
    | nil => exact h
    | cons l ls => exact ih ls h.2

theorem NWChemOutputFormat.readBlocks_lines (env : Env) (n : Nat) :
    ∀ (fuel : Nat) (ls : List (List Char)) (s : istream) (mol : OBMol),
      s.HasLines ls → (∀ l ∈ ls, l.length < n) → (∀ l ∈ ls, ∀ c ∈ l, c ≠ Char.ofNat 0) →
      HeadersApart ls → ls.length < fuel →
      ∃ mol', NWChemOutputFormat.readBlocks env n fuel s mol = some mol'
        ∧ mol'.atoms = (afterLastHeader ls).elim mol.atoms
            fun after => (blockRun after).map (lineAtom env) := by
  intro fuel
  induction fuel with
  | zero =>
    intro ls s mol _ _ _ _ hfuel
    exact absurd hfuel (Nat.not_lt_zero _)
  | succ fuel ih =>
    intro ls s mol hs hshort hnul hapart hfuel
    rw [NWChemOutputFormat.readBlocks_succ]
    cases ls with
    | nil =>
      rw [if_pos (getline_none s n hs).2.1]
      exact ⟨mol, rfl, rfl⟩
    | cons l rest =>
      obtain ⟨g1, g2, g3⟩ := getline_some s n l rest hs (hshort l (List.mem_cons_self _ _))
      have hshort' : ∀ k, ∀ x ∈ rest.drop k, x.length < n := fun k x hx =>
        hshort x (List.mem_cons_of_mem _ (List.mem_of_mem_drop hx))
      have hnul' : ∀ k, ∀ x ∈ rest.drop k, ∀ c ∈ x, c ≠ Char.ofNat 0 := fun k x hx =>
        hnul x (List.mem_cons_of_mem _ (List.mem_of_mem_drop hx))
      have hlen : rest.length < fuel := by
        simp only [List.length_cons] at hfuel
        omega
      rw [if_neg (by rw [g2]; decide), g1, cString_of_no_nul l (hnul l (List.mem_cons_self _ _))]
      by_cases hh : IsHeader l
      · rw [if_pos ((strstr_iff _ _).2 hh)]
        obtain ⟨_, _, a3⟩ := getline_lines (s.getline n).2 n rest g3 (hshort' 0)
        obtain ⟨_, _, b3⟩ := getline_lines _ n _ a3 (by simpa using hshort' 1)
        obtain ⟨_, _, c3⟩ := getline_lines _ n _ b3 (by simpa using hshort' 2)
        obtain ⟨d1, _, d3⟩ := getline_lines _ n _ c3 (by simpa using hshort' 3)
        have e3 : ((rest.drop 1).drop 1).drop 1 = rest.drop 3 := by simp
        rw [e3] at d1 d3
        have hnulh : ∀ c ∈ (rest.drop 3).headD [], c ≠ Char.ofNat 0 := by
          cases hd : rest.drop 3 with
          | nil =>
            intro c hc
            simp at hc
          | cons x xs =>
            intro c hc
            exact hnul' 3 x (by rw [hd]; exact List.mem_cons_self _ _) c (by simpa using hc)
        rw [d1, cString_of_no_nul _ hnulh]
        obtain ⟨mol1, s1, r1, r2, r3⟩ := NWChemOutputFormat.readAtoms_lines env n (rest.drop 3)
          _ mol.Clear (fuel + 1) d3 (hshort' 3) (hnul' 3)
          (by rw [List.length_drop]; omega)
        rw [r1]
        have hk : (rest.drop 3).drop ((blockRun rest).length + 1)
            = rest.drop (3 + (blockRun rest).length + 1) := by
          rw [List.drop_drop]
          congr 1
        rw [show ((rest.drop 3).takeWhile fun l => decide (SixTokens l)) = blockRun rest from rfl]
          at r2 r3
        rw [hk] at r3
        obtain ⟨mol', q1, q2⟩ := ih _ s1 mol1 r3 (hshort' _) (hnul' _)
          (HeadersApart_drop _ _ hapart.2) (by rw [List.length_drop]; omega)
        refine ⟨mol', q1, ?_⟩
        rw [q2, afterLastHeader_cons_of_header l rest _ hh (hapart.1 hh), r2]
        cases afterLastHeader (rest.drop (3 + (blockRun rest).length + 1)) with
        | none => simp [OBMol.Clear]
        | some a => rfl
      · rw [if_neg (fun h => hh ((strstr_iff _ _).1 h))]
        obtain ⟨mol', q1, q2⟩ := ih rest (s.getline n).2 mol g3 (hshort' 0) (hnul' 0)
          hapart.2 hlen
        exact ⟨mol', q1, by rw [q2, afterLastHeader_cons_of_not l rest hh]⟩

theorem afterLastHeader_cons_of_isSome (l : List Char) (rest : List (List Char))
    (h : (afterLastHeader rest).isSome = true) :
    afterLastHeader (l :: rest) = afterLastHeader rest := by
  rw [afterLastHeader]
  cases h' : afterLastHeader rest with
  | none =>
    rw [h'] at h
    exact absurd h (by decide)
  | some a => rfl

theorem takeWhile_replicate_newline (k : Nat) (rest : List Char) :
    (List.replicate k ' ' ++ '\n' :: rest).takeWhile (· != '\n') = List.replicate k ' ' := by
  induction k with
  | zero => rfl
  | succ k ih =>
    rw [List.replicate_succ, List.cons_append, List.takeWhile_cons, if_pos (by decide), ih]

theorem dropWhile_replicate_newline (k : Nat) (rest : List Char) :
    (List.replicate k ' ' ++ '\n' :: rest).dropWhile (· != '\n') = '\n' :: rest := by
  induction k with
  | zero => rfl
  | succ k ih =>
    rw [List.replicate_succ, List.cons_append, List.dropWhile_cons, if_pos (by decide), ih]

theorem textLines_replicate_newline (k : Nat) (rest : List Char) :
    textLines (List.replicate k ' ' ++ '\n' :: rest) = List.replicate k ' ' :: textLines rest := by
  cases k with
  | zero => rfl
  | succ k =>
    have h := textLines_cons ' ' (List.replicate k ' ' ++ '\n' :: rest)
    rw [← List.cons_append, ← List.replicate_succ, takeWhile_replicate_newline,
      dropWhile_replicate_newline] at h
    exact h

theorem NWChemOutputFormat.ReadMolecule_long_line (env : Env) (n : Nat)
    (ConnectTheDots PerceiveBondOrders : OBMol → OBMol) (title : String) (k : Nat)
    (rest : List Char) (pmol : OBMol) (h : n ≤ k) :
    NWChemOutputFormat.ReadMolecule env n ConnectTheDots PerceiveBondOrders title
        (List.replicate k ' ' ++ '\n' :: rest) pmol
      = some (true, { PerceiveBondOrders (ConnectTheDots pmol) with Title := title }) := by
  have hfail : (({ chars := List.replicate k ' ' ++ '\n' :: rest } : istream).getline n).2.fail
      = true := by
    unfold istream.getline
    simp only []
    rw [takeWhile_replicate_newline, List.length_replicate]
    split_ifs
    · rfl
    · omega
    · rfl
  unfold NWChemOutputFormat.ReadMolecule
  rw [NWChemOutputFormat.readBlocks_succ, if_pos hfail]

/-- C40, amended: when the reading starts on a molecule without atoms, every line of
the text is shorter than the buffer and has no NUL character, and no line containing
`Output coordinates` lies among the three lines after a header, in the run of that
header or on the line that ends the run, `NWChemOutputFormat::ReadMolecule` returns
true with a molecule that holds the atoms of the last block only: one atom per line
of the maximal run of lines of six tokens that starts on the fourth line after the
header, in order, with the atomic number of the second token and the coordinates of
the fourth to sixth tokens; a text without a header gives no atom. The library
routines that perceive the bonds are taken to leave the atoms as they are. -/
theorem ReadMolecule_atoms_of_last_block (env : Env) (n : Nat)
    (ConnectTheDots PerceiveBondOrders : OBMol → OBMol) (title : String) (text : List Char)
    (pmol : OBMol)
    (hlib : ∀ m, (PerceiveBondOrders (ConnectTheDots m)).atoms = m.atoms)
    (hp : pmol.atoms = [])
    (hshort : ∀ l ∈ textLines text, l.length < n)
    (hnul : ∀ l ∈ textLines text, ∀ c ∈ l, c ≠ Char.ofNat 0)
    (hapart : HeadersApart (textLines text)) :
    ∃ mol, NWChemOutputFormat.ReadMolecule env n ConnectTheDots PerceiveBondOrders title text pmol
          = some (true, mol)
      ∧ mol.atoms = lastBlockAtoms env (textLines text)
      ∧ mol.Title = title := by
  obtain ⟨mol', q1, q2⟩ := NWChemOutputFormat.readBlocks_lines env n (text.length + 1)
    (textLines text) { chars := text } pmol (Or.inr ⟨rfl, rfl⟩) hshort hnul hapart
    (Nat.lt_succ_of_le (textLines_length text))
  unfold NWChemOutputFormat.ReadMolecule
  rw [q1]
  refine ⟨_, rfl, ?_, rfl⟩
  show (PerceiveBondOrders (ConnectTheDots mol')).atoms = _
  rw [hlib, q2, hp]
  unfold lastBlockAtoms
  cases afterLastHeader (textLines text) <;> rfl

/-- On the sample output the hypotheses hold and the molecule has the oxygen and the
hydrogen of the block. -/
theorem ReadMolecule_atoms_of_last_block_witness :
    (∀ l ∈ textLines sampleOutput, l.length < 32768)
      ∧ HeadersApart (textLines sampleOutput)
      ∧ (lastBlockAtoms sampleEnv (textLines sampleOutput)).map (·.AtomicNum) = [8, 1]
      ∧ ∃ mol, NWChemOutputFormat.ReadMolecule sampleEnv 32768 id id "w" sampleOutput {}
            = some (true, mol)
          ∧ mol.atoms = lastBlockAtoms sampleEnv (textLines sampleOutput)
          ∧ mol.Title = "w" :=
  ⟨by decide!, by decide!, by decide!,
    ReadMolecule_atoms_of_last_block sampleEnv 32768 id id "w" sampleOutput {}
      (fun _ => rfl) rfl (by decide!) (by decide!) (by decide!)⟩

theorem lastBlockAtoms_congr (env : Env) (a b : List (List Char))
    (h : afterLastHeader a = afterLastHeader b) : lastBlockAtoms env a = lastBlockAtoms env b := by
  unfold lastBlockAtoms
  rw [h]

theorem sampleLongLine_read :
    NWChemOutputFormat.ReadMolecule sampleEnv 32768 id id "t" sampleLongLine {}
      = some (true, { ({} : OBMol) with Title := "t" }) :=
  NWChemOutputFormat.ReadMolecule_long_line sampleEnv 32768 id id "t" 32768 sampleBlock {}
    (Nat.le_refl _)

theorem sampleLongLine_header :
    afterLastHeader (textLines sampleLongLine) = afterLastHeader (textLines sampleBlock) := by
  unfold sampleLongLine
  rw [textLines_replicate_newline]
  exact afterLastHeader_cons_of_isSome _ _ (by decide!)

theorem sampleBlock_atoms :
    (lastBlockAtoms sampleEnv (textLines sampleBlock)).map (·.AtomicNum) = [8] := by
  decide!

/-- C40, counterexample: (1) a header that is the line ending the run of the block
before it is not seen, so the molecule keeps the oxygen of the first block although
the last block has a carbon and a hydrogen; (2) a text without a header leaves the
atoms that the molecule had before the call; (3) a first line of 32768 characters
makes `getline` fail with a buffer of 32768 characters, so the block after it is not
read; (4) a header line that begins with a NUL character is not recognised. -/
theorem ReadMolecule_misses_blocks :
    ((NWChemOutputFormat.ReadMolecule sampleEnv 32768 id id "t" sampleHiddenHeader {}).map
          fun r => (r.1, r.2.atoms.map (·.AtomicNum))) = some (true, [8])
      ∧ (lastBlockAtoms sampleEnv (textLines sampleHiddenHeader)).map (·.AtomicNum) = [6, 1]
      ∧ ((NWChemOutputFormat.ReadMolecule sampleEnv 32768 id id "t" "no block\n".data
            (({} : OBMol).NewAtom)).map fun r => (r.1, r.2.atoms.length)) = some (true, 1)
      ∧ lastBlockAtoms sampleEnv (textLines "no block\n".data) = []
      ∧ ((NWChemOutputFormat.ReadMolecule sampleEnv 32768 id id "t" sampleLongLine {}).map
            fun r => (r.1, r.2.atoms.map (·.AtomicNum))) = some (true, [])
      ∧ (lastBlockAtoms sampleEnv (textLines sampleLongLine)).map (·.AtomicNum) = [8]
      ∧ ((NWChemOutputFormat.ReadMolecule sampleEnv 32768 id id "t" sampleNulHeader {}).map
            fun r => (r.1, r.2.atoms.map (·.AtomicNum))) = some (true, [])
      ∧ (lastBlockAtoms sampleEnv (textLines sampleNulHeader)).map (·.AtomicNum) = [8] := by
  refine ⟨by decide!, by decide!, by decide!, by decide!, ?_, ?_, by decide!, by decide!⟩
  · rw [sampleLongLine_read]
    rfl
  · rw [lastBlockAtoms_congr _ _ _ sampleLongLine_header]
    exact sampleBlock_atoms

end OpenBabel

namespace OpenBabel

/-! ## The crystal scalars and the unit cell -/

theorem CrystalStep.inv {f g : CMLFormat} (h : CrystalStep f g) (hI : CrystalInv f) :
    CrystalInv g := by
  unfold CrystalInv at hI ⊢
  unfold CrystalStep crystalPart at h
  obtain ⟨h1, h2⟩ := hI
  rcases h with h | h | h | ⟨hn, hd, ⟨v, hv⟩, hp⟩
  · simp only [Prod.mk.injEq] at h
    rw [h.1, h.2.1, h.2.2]
    exact ⟨h1, h2⟩
  · simp only [Prod.mk.injEq] at h
    rw [h.1, h.2.1, h.2.2]
    exact ⟨fun c => absurd rfl c, Or.inl rfl⟩
  · simp only [Prod.mk.injEq] at h
    rw [h.1, h.2.1, h.2.2]
    exact ⟨h1, Or.inr (by omega)⟩
  · have h6 : 6 ≤ f.CrystalScalarsNeeded + f.CrystalVals.length := by
      rcases h2 with h2 | h2
      · exact absurd h2 hn
      · exact h2
    rw [hd, hv]
    simp only [List.length_append, List.length_singleton, Nat.cast_add, Nat.cast_one]
    refine ⟨fun c => ?_, Or.inr (by omega)⟩
    rcases hp with hp | hp
    · have := h1 (by rw [← hp]; exact c)
      omega
    · rw [hd] at hp
      have : (f.CrystalVals.length : Int) ≥ 5 := by omega
      omega

theorem DoAtoms_crystalPart (env : Env) (f g : CMLFormat) (b : Bool)
    (h : DoAtoms env f = Except.ok (b, g)) : crystalPart g = crystalPart f := by
  unfold DoAtoms at h
  split at h
  · cases h
  · cases h
    rfl

theorem DoMolWideData_crystalPart (f g : CMLFormat) (b : Bool)
    (h : DoMolWideData f = Except.ok (b, g)) : crystalPart g = crystalPart f := by
  unfold DoMolWideData at h
  split at h
  · cases h
  · rename_i b' f' heq
    cases h
    exact DoMolWideData.loop_frame crystalPart (fun _ _ _ => rfl) _ _ (Nat.le_refl _)
      f g (some b) heq
  · rename_i f' heq
    cases h
    exact DoMolWideData.loop_frame crystalPart (fun _ _ _ => rfl) _ _ (Nat.le_refl _)
      f f' none heq

theorem finishMolecule_crystalPart (env : Env) (f : CMLFormat) :
    crystalPart (EndElement.finishMolecule env f).2 = crystalPart f := by
  unfold EndElement.finishMolecule
  simp only
  split_ifs <;> rfl

/-- `EndElement` leaves the crystal data as they are. -/
theorem EndElement_crystalPart (env : Env) (f g : CMLFormat) (name : String) (b : Bool)
    (h : EndElement env f name = Except.ok (b, g)) : crystalPart g = crystalPart f := by
  unfold EndElement at h
  split_ifs at h with h1 h2 h3 h4 h5
  · cases h
    rfl
  · cases h
    rfl
  · cases h
    rfl
  · split at h
    · cases h
    · rename_i b1 f1 e1
      split at h
      · cases h
      · rename_i b2 f2 e2
        have a1 := DoAtoms_crystalPart env f f1 b1 e1
        have a2 := DoBonds.records_frame crystalPart (fun _ _ _ _ => rfl) env f1.BondArray false f1
        have a3 := DoMolWideData_crystalPart _ f2 b2 e2
        have a4 := finishMolecule_crystalPart env f2
        have hg : g = (EndElement.finishMolecule env f2).2 := by
          cases h
          rfl
        rw [hg, a4, a3]
        exact a2.trans a1
  · split at h
    · cases h
    · cases h
      rfl
  · cases h
    rfl

theorem ReadNasaThermo.loop_crystalPart (pTD : Nat) :
    ∀ (fuel : Nat) (f g : CMLFormat), ReadNasaThermo.loop pTD fuel f = Except.ok g →
      crystalPart g = crystalPart f := by
  intro fuel
  induction fuel with
  | zero =>
    intro f g h
    cases h
  | succ fuel ih =>
    intro f g h
    rw [ReadNasaThermo.loop] at h
    simp only at h
    (repeat' split at h) <;> first
      | (cases h; rfl)
      | exact (ih _ _ h).trans rfl
      | cases h

theorem ReadNasaThermo_crystalPart (f g : CMLFormat) (h : ReadNasaThermo f = Except.ok g) :
    crystalPart g = crystalPart f := by
  unfold ReadNasaThermo at h
  exact (ReadNasaThermo.loop_crystalPart _ _ _ g h).trans rfl

/-- The end of `DoElement`, where `EndElement` is called for a self-closing element:
the crystal data stay as they are. -/
theorem finish_crystalPart (env : Env) (c : Prop) [Decidable c] (x g : CMLFormat) (name : String)
    (b : Bool)
    (h : (if c then EndElement env x name else Except.ok (true, x)) = Except.ok (b, g)) :
    crystalPart g = crystalPart x := by
  split_ifs at h
  · exact EndElement_crystalPart env x g name b h
  · cases h
    rfl

theorem TransferElement_crystalPart (f : CMLFormat) :
    crystalPart (TransferElement f) = crystalPart f := by
  unfold TransferElement
  split_ifs <;> rfl

theorem TransferArray_crystalPart (f : CMLFormat) (arr : cmlArray) :
    crystalPart (TransferArray f arr).2 = crystalPart f := by
  unfold TransferArray
  split_ifs <;> rfl

set_option maxHeartbeats 1600000 in
/-- What `DoElement` does to the crystal data, when it returns. -/
theorem DoElement_crystalStep (env : Env) (f g : CMLFormat) (name : String) (b : Bool)
    (h : DoElement env f name = Except.ok (b, g)) : CrystalStep f g := by
  unfold DoElement at h
  unfold CrystalStep
  simp only at h
  by_cases c : (name == "atom") = true
  · rw [if_pos c] at h
    (repeat' split at h) <;> first
      | exact Or.inl ((finish_crystalPart env _ _ g name b h).trans (TransferElement_crystalPart _))
      | exact Or.inl ((EndElement_crystalPart env _ g name b h).trans (TransferElement_crystalPart _))
      | (cases h; exact Or.inl (TransferElement_crystalPart _))
  rw [if_neg c] at h
  clear c
  by_cases c : (name == "bond") = true
  · rw [if_pos c] at h
    (repeat' split at h) <;> first
      | exact Or.inl ((finish_crystalPart env _ _ g name b h).trans (TransferElement_crystalPart _))
      | exact Or.inl ((EndElement_crystalPart env _ g name b h).trans (TransferElement_crystalPart _))
      | (cases h; exact Or.inl (TransferElement_crystalPart _))
  rw [if_neg c] at h
  clear c
  by_cases c : (name == "molecule") = true
  · rw [if_pos c] at h
    (repeat' split at h) <;> first
      | exact Or.inr (Or.inl ((finish_crystalPart env _ _ g name b h).trans rfl))
      | exact Or.inr (Or.inl ((EndElement_crystalPart env _ g name b h).trans rfl))
      | (cases h; exact Or.inl rfl)
      | (cases h; exact Or.inr (Or.inl rfl))
  rw [if_neg c] at h
  clear c
  by_cases c : (name == "atomArray") = true
  · rw [if_pos c] at h
    (repeat' split at h) <;> first
      | exact Or.inl ((finish_crystalPart env _ _ g name b h).trans rfl)
      | exact Or.inl ((finish_crystalPart env _ _ g name b h).trans (TransferArray_crystalPart _ _))
      | exact Or.inl ((EndElement_crystalPart env _ g name b h).trans rfl)
      | exact Or.inl ((EndElement_crystalPart env _ g name b h).trans (TransferArray_crystalPart _ _))
      | (cases h; exact Or.inl rfl)
      | (cases h; exact Or.inl (TransferArray_crystalPart _ _))
  rw [if_neg c] at h
  clear c
  by_cases c : (name == "bondArray") = true
  · rw [if_pos c] at h
    (repeat' split at h) <;> first
      | exact Or.inl ((finish_crystalPart env _ _ g name b h).trans rfl)
      | exact Or.inl ((finish_crystalPart env _ _ g name b h).trans (TransferArray_crystalPart _ _))
      | exact Or.inl ((EndElement_crystalPart env _ g name b h).trans rfl)
      | exact Or.inl ((EndElement_crystalPart env _ g name b h).trans (TransferArray_crystalPart _ _))
      | (cases h; exact Or.inl (TransferArray_crystalPart _ _))
  rw [if_neg c] at h
  clear c
  by_cases c : (name == "atomParity" || name == "bondStereo") = true
  · rw [if_pos c] at h
    (repeat' split at h) <;> first
      | exact Or.inl ((finish_crystalPart env _ _ g name b h).trans rfl)
      | exact Or.inl ((EndElement_crystalPart env _ g name b h).trans rfl)
      | (cases h; exact Or.inl rfl)
  rw [if_neg c] at h
  clear c
  by_cases c : (name == "name") = true
  · rw [if_pos c] at h
    (repeat' split at h) <;> first
      | exact Or.inl ((finish_crystalPart env _ _ g name b h).trans rfl)
      | exact Or.inl ((EndElement_crystalPart env _ g name b h).trans rfl)
      | (cases h; exact Or.inl rfl)
      | cases h
  rw [if_neg c] at h
  clear c
  by_cases c : (name == "formula") = true
  · rw [if_pos c] at h
    (repeat' split at h) <;> first
      | exact Or.inl ((finish_crystalPart env _ _ g name b h).trans rfl)
      | exact Or.inl ((EndElement_crystalPart env _ g name b h).trans rfl)
      | (cases h; exact Or.inl rfl)
  rw [if_neg c] at h
  clear c
  by_cases c : (name == "crystal") = true
  · rw [if_pos c] at h
    (repeat' split at h) <;> first
      | exact Or.inr (Or.inr (Or.inl ((finish_crystalPart env _ _ g name b h).trans rfl)))
      | exact Or.inr (Or.inr (Or.inl ((EndElement_crystalPart env _ g name b h).trans rfl)))
      | (cases h; exact Or.inr (Or.inr (Or.inl rfl)))
  rw [if_neg c] at h
  clear c
  by_cases c : (name == "scalar") = true
  · rw [if_pos c] at h
    by_cases n0 : f.CrystalScalarsNeeded ≠ 0
    · rw [if_pos n0] at h
      have key : ∀ (x : CMLFormat), crystalPart g = crystalPart x →
          x.CrystalScalarsNeeded = f.CrystalScalarsNeeded - 1 →
          (∃ v, x.CrystalVals = f.CrystalVals ++ [v]) →
          (x.pUnitCell = f.pUnitCell ∨ x.CrystalScalarsNeeded = 0) →
          crystalPart g = crystalPart f ∨ crystalPart g = (none, [], 0)
            ∨ crystalPart g = (f.pUnitCell, f.CrystalVals, 6)
            ∨ (f.CrystalScalarsNeeded ≠ 0 ∧ g.CrystalScalarsNeeded = f.CrystalScalarsNeeded - 1
                ∧ (∃ v, g.CrystalVals = f.CrystalVals ++ [v])
                ∧ (g.pUnitCell = f.pUnitCell ∨ g.CrystalScalarsNeeded = 0)) := by
        intro x hx h1 h2 h3
        unfold crystalPart at hx
        simp only [Prod.mk.injEq] at hx
        refine Or.inr (Or.inr (Or.inr ⟨n0, ?_, ?_, ?_⟩))
        · rw [hx.2.2, h1]
        · rw [hx.2.1]
          exact h2
        · rw [hx.1, hx.2.2]
          exact h3
      (repeat' split at h) <;> first
        | exact Or.inl ((finish_crystalPart env _ _ g name b h).trans rfl)
        | exact key _ ((finish_crystalPart env _ _ g name b h).trans rfl) rfl ⟨_, rfl⟩ (Or.inl rfl)
        | exact Or.inl ((EndElement_crystalPart env _ g name b h).trans rfl)
        | exact key _ ((EndElement_crystalPart env _ g name b h).trans rfl) rfl ⟨_, rfl⟩ (Or.inl rfl)
        | exact key _ ((EndElement_crystalPart env _ g name b h).trans rfl) rfl ⟨_, rfl⟩ (Or.inr (by assumption))
        | (cases h; exact Or.inl rfl)
        | (cases h; exact key _ rfl rfl ⟨_, rfl⟩ (Or.inl rfl))
        | (cases h; exact key _ rfl rfl ⟨_, rfl⟩ (Or.inr (by assumption)))
    · rw [if_neg n0] at h
      (repeat' split at h) <;> first
        | exact Or.inl ((finish_crystalPart env _ _ g name b h).trans rfl)
        | exact Or.inl ((EndElement_crystalPart env _ g name b h).trans rfl)
        | (cases h; exact Or.inl rfl)
  rw [if_neg c] at h
  clear c
  by_cases c : (name == "symmetry") = true
  · rw [if_pos c] at h
    (repeat' split at h) <;> first
      | exact Or.inl ((finish_crystalPart env _ _ g name b h).trans rfl)
      | exact Or.inl ((EndElement_crystalPart env _ g name b h).trans rfl)
      | (cases h; exact Or.inl rfl)
  rw [if_neg c] at h
  clear c
  by_cases c : (name == "transform3") = true
  · rw [if_pos c] at h
    (repeat' split at h) <;> first
      | exact Or.inl ((finish_crystalPart env _ _ g name b h).trans rfl)
      | exact Or.inl ((EndElement_crystalPart env _ g name b h).trans rfl)
      | (cases h; exact Or.inl rfl)
  rw [if_neg c] at h
  clear c
  by_cases c : (name == "property") = true
  · rw [if_pos c] at h
    (repeat' split at h) <;> first
      | exact Or.inl ((finish_crystalPart env _ _ g name b h).trans rfl)
      | exact Or.inl ((EndElement_crystalPart env _ g name b h).trans rfl)
      | exact Or.inl ((EndElement_crystalPart env _ g name b h).trans
          (ReadNasaThermo_crystalPart _ _ (by assumption)))
      | (cases h; exact Or.inl rfl)
      | (cases h; exact Or.inl (ReadNasaThermo_crystalPart _ _ (by assumption)))
      | cases h
  rw [if_neg c] at h
  clear c
  by_cases c : (name == "string" || name == "float" || name == "integer"
      || name == "coordinate3" || name == "coordinate2") = true
  · rw [if_pos c] at h
    (repeat' split at h) <;> first
      | exact Or.inl ((finish_crystalPart env _ _ g name b h).trans rfl)
      | exact Or.inl ((EndElement_crystalPart env _ g name b h).trans rfl)
      | (cases h; exact Or.inl rfl)
  rw [if_neg c] at h
  clear c
  by_cases c : (name == "stringArray" || name == "floatArray" || name == "integerArray") = true
  · rw [if_pos c] at h
    (repeat' split at h) <;> first
      | exact Or.inl ((finish_crystalPart env _ _ g name b h).trans rfl)
      | exact Or.inl ((EndElement_crystalPart env _ g name b h).trans rfl)
      | (cases h; exact Or.inl rfl)
  rw [if_neg c] at h
  (repeat' split at h) <;> first
    | exact Or.inl ((finish_crystalPart env _ _ g name b h).trans rfl)
    | exact Or.inl ((EndElement_crystalPart env _ g name b h).trans rfl)
    | (cases h; exact Or.inl rfl)

/-- `DoElement` keeps the crystal scalars accounting for the unit cell. -/
theorem DoElement_crystalInv (env : Env) (f g : CMLFormat) (name : String) (b : Bool)
    (hI : CrystalInv f) (h : DoElement env f name = Except.ok (b, g)) : CrystalInv g :=
  (DoElement_crystalStep env f g name b h).inv hI

/-- `EndElement` keeps the crystal scalars accounting for the unit cell. -/
theorem EndElement_crystalInv (env : Env) (f g : CMLFormat) (name : String) (b : Bool)
    (hI : CrystalInv f) (h : EndElement env f name = Except.ok (b, g)) : CrystalInv g :=
  CrystalStep.inv (Or.inl (EndElement_crystalPart env f g name b h)) hI

/-- Reading a stream keeps the crystal scalars accounting for the unit cell. -/
theorem ReadXML_crystalInv (env : Env) :
    ∀ (fuel : Nat) (f g : CMLFormat), CrystalInv f → ReadXML env fuel f = Except.ok g →
      CrystalInv g := by
  intro fuel
  induction fuel with
  | zero =>
    intro f g hI h
    cases h
    exact hI
  | succ fuel ih =>
    intro f g hI h
    rw [ReadXML] at h
    simp only at h
    split at h
    · cases h
      exact hI
    · have hI' : CrystalInv { f with reader := xmlTextReaderRead f.reader } := hI
      split at h
      · split at h
        · cases h
        · rename_i ret f1 e1
          have h1 := DoElement_crystalInv env _ f1 _ ret hI' e1
          split at h
          · exact ih _ _ h1 h
          · cases h
            exact h1
      · split at h
        · cases h
        · rename_i ret f1 e1
          have h1 := EndElement_crystalInv env _ f1 _ ret hI' e1
          split at h
          · exact ih _ _ h1 h
          · cases h
            exact h1
      · exact ih _ _ hI' h

/-- C14, amended: for every molecule whose atom records have no `atomRefs4`
attribute and for which no unit cell has been constructed by the time the molecule is
closed, the atom of every record that has no 3-D and no 2-D coordinate attribute, so
declares at most fractional coordinates, resolves to the Cartesian coordinates
(0, 0, 0), wherever the record stands. No unit cell has been constructed whenever
fewer than six crystal scalars have been read in the molecule: the crystal scalars
account for the unit cell in the initial state, every call of `DoElement` and of
`EndElement` and every run of the dispatcher keep it so, and a state in which they do
and fewer than six crystal scalars have been read has no unit cell. -/
theorem DoAtoms_fractional_without_cell_zero (env : Env) (f : CMLFormat)
    (pre : List (List Attr)) (rec : List Attr) (post : List (List Attr))
    (hC : f.pUnitCell = none) (hA : f.AtomArray = pre ++ rec :: post)
    (h : ∀ r ∈ pre ++ rec :: post, ∀ a ∈ r, a.1 ≠ "atomRefs4")
    (hrec : ∀ a ∈ rec, is3D a.1 = false ∧ is2D a.1 = false) :
    (∃ g, DoAtoms env f = Except.ok (true, g)
      ∧ VecAt g._pmol (f._pmol.atoms.length + (pre.map atomsCreated).sum)
          ⟨Dbl.zero, Dbl.zero, Dbl.zero⟩)
    ∧ CrystalInv {}
    ∧ (∀ (name : String) (f0 g0 : CMLFormat) (b : Bool), CrystalInv f0 →
        DoElement env f0 name = Except.ok (b, g0) → CrystalInv g0)
    ∧ (∀ (name : String) (f0 g0 : CMLFormat) (b : Bool), CrystalInv f0 →
        EndElement env f0 name = Except.ok (b, g0) → CrystalInv g0)
    ∧ (∀ (fuel : Nat) (f0 g0 : CMLFormat), CrystalInv f0 →
        ReadXML env fuel f0 = Except.ok g0 → CrystalInv g0)
    ∧ (∀ f0 : CMLFormat, CrystalInv f0 → f0.CrystalVals.length < 6 → f0.pUnitCell = none) := by
  refine ⟨DoAtoms.fract_zero_of_no_cell env f pre rec post hC hA h hrec,
    ⟨fun c => absurd rfl c, Or.inl rfl⟩,
    fun name f0 g0 b hI hd => DoElement_crystalInv env f0 g0 name b hI hd,
    fun name f0 g0 b hI hd => EndElement_crystalInv env f0 g0 name b hI hd,
    ReadXML_crystalInv env, ?_⟩
  intro f0 hI hlt
  by_contra hc
  have := hI.1 hc
  omega

/-- C14, witness of the amended claim: without a unit cell, the second record of
the array, which declares fractional coordinates only, gives the fourth atom of the
molecule (the first record creates a carbon and two hydrogens), and this atom gets
(0, 0, 0). -/
theorem DoAtoms_fractional_without_cell_zero_witness :
    (∀ r ∈ [[("id", "a1"), ("elementType", "C"), ("hydrogenCount", "2")]]
          ++ [("id", "a2"), ("xFract", "0.5"), ("yFract", "0.5"), ("zFract", "0.5")]
            :: [[("id", "a3"), ("x3", "1"), ("y3", "2"), ("z3", "3")]],
        ∀ a ∈ r, a.1 ≠ "atomRefs4")
    ∧ ∃ g, DoAtoms sampleEnv
        { AtomArray := [[("id", "a1"), ("elementType", "C"), ("hydrogenCount", "2")],
                        [("id", "a2"), ("xFract", "0.5"), ("yFract", "0.5"), ("zFract", "0.5")],
                        [("id", "a3"), ("x3", "1"), ("y3", "2"), ("z3", "3")]] }
        = Except.ok (true, g)
      ∧ VecAt g._pmol (0 + ([[("id", "a1"), ("elementType", "C"), ("hydrogenCount", "2")]].map
          atomsCreated).sum) ⟨Dbl.zero, Dbl.zero, Dbl.zero⟩ :=
  ⟨by decide,
   (DoAtoms_fractional_without_cell_zero sampleEnv
    { AtomArray := [[("id", "a1"), ("elementType", "C"), ("hydrogenCount", "2")],
                    [("id", "a2"), ("xFract", "0.5"), ("yFract", "0.5"), ("zFract", "0.5")],
                    [("id", "a3"), ("x3", "1"), ("y3", "2"), ("z3", "3")]] }
    [[("id", "a1"), ("elementType", "C"), ("hydrogenCount", "2")]]
    [("id", "a2"), ("xFract", "0.5"), ("yFract", "0.5"), ("zFract", "0.5")]
    [[("id", "a3"), ("x3", "1"), ("y3", "2"), ("z3", "3")]]
    rfl rfl (by decide) (by decide)).1⟩

end OpenBabel
